import Mathlib

/-!
The polarphp lexer: a shallow embedding of `src/src/parser/Lexer.cpp`.

Pointers into the source buffer are byte offsets (`Nat`) from the first byte of
the buffer, so `m_bufferStart` is offset `0` in a freshly constructed lexer and
`m_bufferEnd` is the length of the buffer.  Bytes are natural numbers below 256.
The buffer is NUL-terminated: reading the byte at `m_bufferEnd` yields `0`.
Functions that contain a loop whose exit depends on the input take their
iteration bound from the distance to the end of the buffer and return `none`
when the bound is exhausted.
-/

namespace PolarLexer

/-! ## Data model -/

/-- The byte at offset `i` of the buffer.  The buffer is NUL-terminated, so the
byte at offset `buf.length` is `0`; the C++ code never legitimately reads beyond
that position and the model returns `0` there as well. -/
def byteAt (buf : List Nat) (i : Nat) : Nat := buf.getD i 0

/-- The bytes `[p, p + n)` of the buffer, the model of `StringRef(p, n)`. -/
def slice (buf : List Nat) (p n : Nat) : List Nat := (buf.drop p).take n

/-- The bytes of a message text, one per character. -/
def strBytes (t : String) : List Nat := t.toList.map Char.toNat

/-- Token kinds the lexer source refers to by name (`TokenKindType`); the
remaining kinds of the enumeration are `other n`. -/
inductive TokenKindType where
  | T_UNKNOWN_MARK
  | END
  | T_ERROR
  | T_LNUMBER
  | T_DNUMBER
  | T_MINUS_SIGN
  | T_ENCAPSED_AND_WHITESPACE
  | T_CONSTANT_ENCAPSED_STRING
  | T_START_HEREDOC
  | T_END_HEREDOC
  | T_VARIABLE
  | T_IDENTIFIER_STRING
  | T_STRING_VARNAME
  | T_DOLLAR_OPEN_CURLY_BRACES
  | T_CURLY_OPEN
  | other (n : Nat)
  deriving DecidableEq, Repr

/-- Start conditions of the scanner (`YYLexerCondType`). -/
inductive YYLexerCondType where
  | ST_IN_SCRIPTING
  | ST_LOOKING_FOR_PROPERTY
  | ST_BACKQUOTE
  | ST_DOUBLE_QUOTES
  | ST_HEREDOC
  | ST_NOWDOC
  | ST_END_HEREDOC
  | ST_LOOKING_FOR_VARNAME
  | ST_VAR_OFFSET
  deriving DecidableEq, Repr

/-- The kinds of trivia of `Trivia.h`. -/
inductive TriviaKind where
  | Space
  | Tab
  | VerticalTab
  | Formfeed
  | Newline
  | CarriageReturn
  | CarriageReturnLineFeed
  | Backtick
  | LineComment
  | BlockComment
  | DocLineComment
  | DocBlockComment
  | GarbageText
  deriving DecidableEq, Repr

/-- A parsed trivia piece: its kind and its length in bytes. -/
structure ParsedTriviaPiece where
  kind : TriviaKind
  length : Nat
  deriving DecidableEq, Repr

/-- `CommentRetentionMode` of the lexer. -/
inductive CommentRetentionMode where
  | None
  | AttachToNextToken
  | ReturnAsTokens
  deriving DecidableEq, Repr

/-- `TriviaRetentionMode` of the lexer. -/
inductive TriviaRetentionMode where
  | WithoutTrivia
  | WithTrivia
  deriving DecidableEq, Repr

/-- The flag word of the lexer (`LexerFlags`), one boolean per flag the source
reads or writes. -/
structure LexerFlags where
  lexExceptionOccurred : Bool := false
  lexingBinaryString : Bool := false
  checkHeredocIndentation : Bool := false
  heredocScanAhead : Bool := false
  heredocIndentationUsesSpaces : Bool := false
  incrementLineNumber : Bool := false
  reserveHeredocSpaces : Bool := false
  deriving DecidableEq, Repr

/-- A heredoc label record (`HereDocLabel`). -/
structure HereDocLabel where
  name : List Nat
  indentation : Nat := 0
  intentationUseSpaces : Bool := false
  deriving DecidableEq, Repr

/-- The semantic value slot of a token.  A double value is kept as the digit
text it was converted from together with the base of the conversion. -/
inductive TokenValue where
  | none
  | int (v : Int)
  | double (base : Nat) (digits : List Nat)
  | str (bytes : List Nat)
  deriving DecidableEq, Repr

/-- The token under construction (`m_nextToken`): the fields the lexer source
sets through `setToken`, `setValue` and the flag setters. -/
structure Token where
  kind : TokenKindType := TokenKindType.T_UNKNOWN_MARK
  textStart : Nat := 0
  textLength : Nat := 0
  commentLength : Nat := 0
  atStartOfLine : Bool := false
  value : TokenValue := TokenValue.none
  invalidLexValue : Bool := false
  needCorrectLNumberOverflow : Bool := false
  deriving DecidableEq, Repr

/-- A snapshot pushed by `saveYYState` (`LexerState`): one field per setter the
function calls. -/
structure LexerState where
  yyLength : Nat
  bufferStart : Nat
  bufferEnd : Nat
  contentStart : Nat
  yyText : Nat
  yyCursor : Nat
  yyMarker : Nat
  yyLimit : Nat
  condition : YYLexerCondType
  lineNumber : Nat
  lexerFlags : LexerFlags
  lexicalEventHandler : Option Nat
  lexicalExceptionHandler : Option Nat
  heredocLabelStack : List Nat
  conditionStack : List YYLexerCondType
  deriving DecidableEq, Repr

/-- The lexer object.  Stacks are lists with the top at the head.  Heredoc
labels are shared objects (`std::shared_ptr<HereDocLabel>`): `labelHeap` holds
the allocated label records and `heredocLabelStack` holds indices into it.
Handlers are identified by a number; `valueContainer` tells whether
`m_valueContainer` is non-null (parse mode) and `diags` whether `m_diags` is
non-null. -/
structure Lexer where
  buffer : List Nat
  flags : LexerFlags := {}
  bufferStart : Nat := 0
  bufferEnd : Nat
  artificialEof : Nat
  codeCompletionPtr : Option Nat := Option.none
  diags : Bool := false
  contentStart : Nat := 0
  yyText : Nat := 0
  yyCursor : Nat := 0
  yyMarker : Nat := 0
  valueContainer : Bool := false
  yyCondition : YYLexerCondType := YYLexerCondType.ST_IN_SCRIPTING
  heredocIndentation : Nat := 0
  yyLength : Nat := 0
  lineNumber : Nat := 0
  eventHandler : Option Nat := Option.none
  lexicalExceptionHandler : Option Nat := Option.none
  nextToken : Token := {}
  commentRetention : CommentRetentionMode := CommentRetentionMode.None
  triviaRetention : TriviaRetentionMode := TriviaRetentionMode.WithoutTrivia
  leadingTrivia : List ParsedTriviaPiece := []
  trailingTrivia : List ParsedTriviaPiece := []
  currentExceptionMsg : String := ""
  yyConditionStack : List YYLexerCondType := []
  heredocLabelStack : List Nat := []
  labelHeap : List HereDocLabel := []
  yyStateStack : List LexerState := []
  deriving DecidableEq, Repr

/-! ## Save and restore of the scanner state -/

/-- `Lexer::saveYYState`: builds a snapshot of the scanner registers, copies the
heredoc-label stack into it, moves the live condition stack into it (the live
stack is swapped with a fresh empty one) and pushes it on the snapshot stack. -/
def saveYYState (s : Lexer) : Lexer :=
  let state : LexerState :=
    { yyLength := s.yyLength
      bufferStart := s.bufferStart
      bufferEnd := s.bufferEnd
      contentStart := s.contentStart
      yyText := s.yyText
      yyCursor := s.yyCursor
      yyMarker := s.yyMarker
      yyLimit := s.artificialEof
      condition := s.yyCondition
      lineNumber := s.lineNumber
      lexerFlags := s.flags
      lexicalEventHandler := s.eventHandler
      lexicalExceptionHandler := s.lexicalExceptionHandler
      heredocLabelStack := s.heredocLabelStack
      conditionStack := s.yyConditionStack }
  { s with yyConditionStack := [], yyStateStack := state :: s.yyStateStack }

/-- `Lexer::restoreYYState`: reads the top snapshot back into the scanner
registers, swaps both stacks with the saved ones and pops the snapshot.  Calling
it with an empty snapshot stack is undefined in C++ and yields `none`. -/
def restoreYYState (s : Lexer) : Option Lexer :=
  match s.yyStateStack with
  | [] => none
  | state :: rest =>
    some { s with
      yyLength := state.yyLength
      bufferStart := state.bufferStart
      bufferEnd := state.bufferEnd
      contentStart := state.contentStart
      yyText := state.yyText
      yyCursor := state.yyCursor
      yyMarker := state.yyMarker
      artificialEof := state.yyLimit
      yyCondition := state.condition
      lineNumber := state.lineNumber
      flags := state.lexerFlags
      eventHandler := state.lexicalEventHandler
      lexicalExceptionHandler := state.lexicalExceptionHandler
      heredocLabelStack := state.heredocLabelStack
      yyConditionStack := state.conditionStack
      yyStateStack := rest }

/-- `Lexer::pushYYCondition`. -/
def pushYYCondition (cond : YYLexerCondType) (s : Lexer) : Lexer :=
  { s with yyConditionStack := s.yyCondition :: s.yyConditionStack, yyCondition := cond }

/-- `Lexer::popYYCondtion`; `top()` of an empty `std::stack` is undefined and
yields `none`. -/
def popYYCondtion (s : Lexer) : Option Lexer :=
  match s.yyConditionStack with
  | [] => none
  | cond :: rest => some { s with yyCondition := cond, yyConditionStack := rest }

/-- `Lexer::pushHeredocLabel` applied to a freshly allocated label record, as in
`std::make_shared<HereDocLabel>()` followed by the push. -/
def pushHeredocLabel (label : HereDocLabel) (s : Lexer) : Lexer :=
  { s with
    labelHeap := s.labelHeap ++ [label]
    heredocLabelStack := s.labelHeap.length :: s.heredocLabelStack }

/-- `Lexer::popHeredocLabel`; the assertion on a non-empty stack yields `none`
when it fails. -/
def popHeredocLabel (s : Lexer) : Option Lexer :=
  match s.heredocLabelStack with
  | [] => none
  | _ :: rest => some { s with heredocLabelStack := rest }

/-- `Lexer::incLineNumber`. -/
def incLineNumber (count : Nat) (s : Lexer) : Lexer :=
  { s with lineNumber := s.lineNumber + count }

/-- The mutations of the scanner state that the public setters of `Lexer.h`
offer between a save and a restore. -/
inductive LexerMutation where
  | setYYCursor (cursor : Nat)
  | setYYText (text : Nat)
  | setYYMarker (marker : Nat)
  | setYYLimit (limit : Nat)
  | setYYLength (length : Nat)
  | setYYCondition (cond : YYLexerCondType)
  | pushYYCondition (cond : YYLexerCondType)
  | popYYCondtion
  | pushHeredocLabel (label : HereDocLabel)
  | popHeredocLabel
  | incLineNumber (count : Nat)
  | setFlags (flags : LexerFlags)
  deriving DecidableEq, Repr

/-- One mutation applied to the lexer. -/
def applyMutation (m : LexerMutation) (s : Lexer) : Option Lexer :=
  match m with
  | .setYYCursor cursor => some { s with yyCursor := cursor }
  | .setYYText text => some { s with yyText := text }
  | .setYYMarker marker => some { s with yyMarker := marker }
  | .setYYLimit limit => some { s with artificialEof := limit }
  | .setYYLength length => some { s with yyLength := length }
  | .setYYCondition cond => some { s with yyCondition := cond }
  | .pushYYCondition cond => some (pushYYCondition cond s)
  | .popYYCondtion => popYYCondtion s
  | .pushHeredocLabel label => some (pushHeredocLabel label s)
  | .popHeredocLabel => popHeredocLabel s
  | .incLineNumber count => some (incLineNumber count s)
  | .setFlags flags => some { s with flags := flags }

/-- A sequence of mutations applied in order; `none` as soon as one of them is
undefined. -/
def applyMutations : List LexerMutation → Lexer → Option Lexer
  | [], s => some s
  | m :: ms, s => (applyMutation m s).bind (applyMutations ms)

/-! ## Trivia, helper routines of `YYLexerExtras.h`, and token formation -/

/-- Modelled from the spec: `ParsedTrivia::appendOrSquash(kind, length)` of
`ParsedTrivia.h`, which is not among the source files.  "Contiguous pieces of the
same count-style kind coalesce: appending `Space(1)` to `Space(k)` yields
`Space(k+1)`"; otherwise the piece is appended. -/
def appendOrSquash (trivia : List ParsedTriviaPiece) (kind : TriviaKind) (length : Nat) :
    List ParsedTriviaPiece :=
  match trivia.getLast? with
  | some last =>
    if last.kind = kind then trivia.dropLast ++ [{ last with length := last.length + length }]
    else trivia ++ [{ kind := kind, length := length }]
  | none => trivia ++ [{ kind := kind, length := length }]

/-- `ParsedTrivia::push_back(kind, length)`. -/
def pushBack (trivia : List ParsedTriviaPiece) (kind : TriviaKind) (length : Nat) :
    List ParsedTriviaPiece :=
  trivia ++ [{ kind := kind, length := length }]

/-- `is_comment_trivia_kind` as annotated in `Trivia.h` (`is_comment: true`). -/
def is_comment_trivia_kind (kind : TriviaKind) : Bool :=
  match kind with
  | .LineComment | .BlockComment | .DocLineComment | .DocBlockComment => true
  | _ => false

/-- The helper routines declared in `YYLexerExtras.h` and `Lexer.h` whose bodies
are not among the source files.  Each takes the buffer, the pointer it is called
with and the end pointer.  The skipping routines return the advanced pointer and
their boolean result.  The `advance_if_...` guards return the advanced pointer
when they succeed and `none` when they fail ("probe-and-advance guards that do
not move the cursor on failure").  `validate_utf8_character_and_advance`
returns the code point (`0xFFFFFFFF` for `~0U`) and the advanced pointer.
`convert_single_quote_str_escape_sequences` takes the body of a single-quoted
string and returns the filtered text and the number of lines it advances the
line number by ("Count newlines within the body and advance the line number").
The last three routines receive the lexer by reference and the string they
work on; they return their boolean result, the string they leave, and the lexer
they leave.  `handle_newlines` receives the pointer and the length it is called
with. -/
structure Externs where
  advance_to_end_of_line : List Nat → Nat → Nat → Option Nat → Bool → Nat × Bool
  skip_to_end_of_slash_star_comment : List Nat → Nat → Nat → Option Nat → Bool → Nat × Bool
  advance_if_valid_start_of_identifier : List Nat → Nat → Nat → Option Nat
  advance_if_valid_continuation_of_identifier : List Nat → Nat → Nat → Option Nat
  advance_if_valid_start_of_operator : List Nat → Nat → Nat → Option Nat
  validate_utf8_character_and_advance : List Nat → Nat → Nat → Nat × Nat
  convert_single_quote_str_escape_sequences : List Nat → List Nat × Nat
  convert_double_quote_str_escape_sequences : Lexer → List Nat → Nat → Bool × List Nat × Lexer
  strip_multiline_string_indentation :
    Lexer → List Nat → Nat → Bool → Bool → Bool → Bool × List Nat × Lexer
  handle_newlines : Lexer → Nat → Nat → Lexer

/-- What the scanning loops need from the helper routines to terminate and to
stay inside the buffer: a helper called inside the buffer returns a pointer that
is not before the one it was given and not after the end pointer, the
line skipper moves past a byte that is not a line terminator, and the guards
and the UTF-8 reader that consume a character consume at least one byte. -/
structure Externs.Progress (E : Externs) : Prop where
  eol_bounds : ∀ buf p e cc d, p ≤ e →
    p ≤ (E.advance_to_end_of_line buf p e cc d).1 ∧ (E.advance_to_end_of_line buf p e cc d).1 ≤ e
  eol_moves : ∀ buf p e cc d, p < e → byteAt buf p ≠ 10 → byteAt buf p ≠ 13 →
    p < (E.advance_to_end_of_line buf p e cc d).1
  comment_bounds : ∀ buf p e cc d, p ≤ e →
    p ≤ (E.skip_to_end_of_slash_star_comment buf p e cc d).1 ∧
      (E.skip_to_end_of_slash_star_comment buf p e cc d).1 ≤ e
  continuation_bounds : ∀ buf p e q, p < e →
    E.advance_if_valid_continuation_of_identifier buf p e = some q → p < q ∧ q ≤ e
  continuation_end : ∀ buf p e, e ≤ p →
    E.advance_if_valid_continuation_of_identifier buf p e = none
  validate_bounds : ∀ buf p e, p < e →
    p < (E.validate_utf8_character_and_advance buf p e).2 ∧
      (E.validate_utf8_character_and_advance buf p e).2 ≤ e

/-- What a helper routine that receives the lexer may change of it: the line
number and the record of a lexical exception. -/
def HelperFrame (s t : Lexer) : Prop :=
  ∃ (line : Nat) (occurred : Bool) (msg : String),
    t = { s with lineNumber := line,
                 flags := { s.flags with lexExceptionOccurred := occurred },
                 currentExceptionMsg := msg }

/-- What the string scanners assume of the helper routines that receive the
lexer: `handle_newlines` changes nothing but the line number, and the escape
conversion and the indentation stripper change nothing but the line number and
the record of a lexical exception. -/
structure Externs.StringFrame (E : Externs) : Prop where
  handle_newlines_frame : ∀ s p n, ∃ line, E.handle_newlines s p n = { s with lineNumber := line }
  convert_frame : ∀ s str q,
    HelperFrame s (E.convert_double_quote_str_escape_sequences s str q).2.2
  strip_frame : ∀ s str i u a b,
    HelperFrame s (E.strip_multiline_string_indentation s str i u a b).2.2

/-- `Lexer::setYYCursor(cursor)`, also the model of every assignment to
`m_yyCursor`. -/
def setYYCursor (cursor : Nat) (s : Lexer) : Lexer := { s with yyCursor := cursor }

/-- The result type of `Lexer::getNullCharacterKind`. -/
inductive NullCharacterKind where
  | BufferEnd
  | Embedded
  | CodeCompletion
  deriving DecidableEq, Repr

/-- `Lexer::getNullCharacterKind(ptr)`. -/
def getNullCharacterKind (s : Lexer) (ptr : Nat) : NullCharacterKind :=
  if some ptr = s.codeCompletionPtr then NullCharacterKind.CodeCompletion
  else if ptr = s.bufferEnd then NullCharacterKind.BufferEnd
  else NullCharacterKind.Embedded

/-- `m_nextToken.setAtStartOfLine(value)`. -/
def setAtStartOfLine (value : Bool) (s : Lexer) : Lexer :=
  { s with nextToken := { s.nextToken with atStartOfLine := value } }

/-- `Lexer::skipToEndOfLine(eatNewline)`. -/
def skipToEndOfLine (E : Externs) (eatNewline : Bool) (s : Lexer) : Lexer :=
  let r := E.advance_to_end_of_line s.buffer s.yyCursor s.bufferEnd s.codeCompletionPtr s.diags
  let s1 := setYYCursor r.1 s
  if eatNewline && r.2 then setAtStartOfLine true (setYYCursor (s1.yyCursor + 1) s1)
  else s1

/-- `Lexer::skipSlashSlashComment(eatNewline)`. -/
def skipSlashSlashComment (E : Externs) (eatNewline : Bool) (s : Lexer) : Lexer :=
  skipToEndOfLine E eatNewline s

/-- `Lexer::skipSlashStarComment()`. -/
def skipSlashStarComment (E : Externs) (s : Lexer) : Lexer :=
  let r := E.skip_to_end_of_slash_star_comment s.buffer s.yyCursor s.bufferEnd
    s.codeCompletionPtr s.diags
  let s1 := setYYCursor r.1 s
  if r.2 then setAtStartOfLine true s1 else s1

/-- `Lexer::skipHashbang(eatNewline)`. -/
def skipHashbang (E : Externs) (eatNewline : Bool) (s : Lexer) : Lexer :=
  skipToEndOfLine E eatNewline s

/-- The loop `while (advance_if_valid_continuation_of_identifier(temp, m_bufferEnd));`
of `lexUnknown`, returning the final value of `temp`. -/
def advanceWhileContinuation (E : Externs) (buf : List Nat) (bufferEnd : Nat) :
    Nat → Nat → Option Nat
  | 0, _ => none
  | fuel + 1, temp =>
    match E.advance_if_valid_continuation_of_identifier buf temp bufferEnd with
    | some q => advanceWhileContinuation E buf bufferEnd fuel q
    | none => some temp

/-- The number of bytes the loop `while (temp[0] == '\xC2' && temp[1] == '\xA0') temp += 2;`
of `lexUnknown` advances over the given bytes. -/
def skipNonBreakingSpaces : List Nat → Nat
  | 0xC2 :: 0xA0 :: rest => 2 + skipNonBreakingSpaces rest
  | _ => 0

/-- `Lexer::lexUnknown(emitDiagnosticsIfToken)`: returns the lexer with the
cursor moved and whether the character should be tokenized.  Diagnostics are
commented out in the source and have no effect. -/
def lexUnknown (E : Externs) (_emitDiagnosticsIfToken : Bool) (s : Lexer) :
    Option (Lexer × Bool) :=
  let temp := s.yyCursor - 1
  match E.advance_if_valid_continuation_of_identifier s.buffer temp s.bufferEnd with
  | some q =>
    (advanceWhileContinuation E s.buffer s.bufferEnd (s.bufferEnd + 1 - q) q).map
      fun t => (setYYCursor t s, true)
  | none =>
    let r := E.validate_utf8_character_and_advance s.buffer temp s.bufferEnd
    let codepoint := r.1
    let temp := r.2
    if codepoint = 0xFFFFFFFF then some (setYYCursor temp s, false)
    else if codepoint = 0xA0 then
      some (setYYCursor (temp + skipNonBreakingSpaces (s.buffer.drop temp)) s, false)
    else if codepoint = 0x201D then some (setYYCursor temp s, true)
    else some (setYYCursor temp s, false)

/-- The bytes listed in `lexTrivia` under "Start character of tokens", "Start of
identifiers" and "Start of operators". -/
def isTokenStartByte (c : Nat) : Bool :=
  c = 64 || c = 123 || c = 91 || c = 40 || c = 125 || c = 93 || c = 41 ||
  c = 44 || c = 59 || c = 58 || c = 92 || c = 36 ||
  (48 ≤ c && c ≤ 57) ||
  c = 34 || c = 39 || c = 96 ||
  (65 ≤ c && c ≤ 90) || (97 ≤ c && c ≤ 122) || c = 95 ||
  c = 37 || c = 33 || c = 63 || c = 61 ||
  c = 45 || c = 43 || c = 42 ||
  c = 38 || c = 124 || c = 94 || c = 126 || c = 46 ||
  c = 60 || c = 62

/-- One pass through the `switch` of `Lexer::lexTrivia(trivia, isForTrailingTrivia)`
from the label `restart:`.  The boolean of the result tells whether the pass
ends in `goto restart` (`true`) or leaves the function (`false`); a pass that
leaves through `break` resets the cursor (`--m_yyCursor`). -/
def lexTriviaRound (E : Externs) (isForTrailingTrivia : Bool) (s0 : Lexer)
    (trivia : List ParsedTriviaPiece) : Option ((Lexer × List ParsedTriviaPiece) × Bool) :=
  let triviaStart := s0.yyCursor
  let c := byteAt s0.buffer s0.yyCursor
  let s := setYYCursor (s0.yyCursor + 1) s0
  let stop : Option ((Lexer × List ParsedTriviaPiece) × Bool) :=
    some ((setYYCursor (s.yyCursor - 1) s, trivia), false)
  if c = 10 then
    if isForTrailingTrivia then stop
    else some ((setAtStartOfLine true s, appendOrSquash trivia TriviaKind.Newline 1), true)
  else if c = 13 then
    if isForTrailingTrivia then stop
    else
      let s1 := setAtStartOfLine true s
      if byteAt s1.buffer s1.yyCursor = 10 then
        some ((setYYCursor (s1.yyCursor + 1) s1,
          appendOrSquash trivia TriviaKind.CarriageReturnLineFeed 2), true)
      else some ((s1, appendOrSquash trivia TriviaKind.CarriageReturn 1), true)
  else if c = 32 then some ((s, appendOrSquash trivia TriviaKind.Space 1), true)
  else if c = 9 then some ((s, appendOrSquash trivia TriviaKind.Tab 1), true)
  else if c = 11 then some ((s, appendOrSquash trivia TriviaKind.VerticalTab 1), true)
  else if c = 12 then some ((s, appendOrSquash trivia TriviaKind.Formfeed 1), true)
  else if c = 47 then
    if isForTrailingTrivia || s.commentRetention = CommentRetentionMode.ReturnAsTokens then stop
    else if byteAt s.buffer s.yyCursor = 47 then
      let isDocComment := byteAt s.buffer (s.yyCursor + 1) = 47
      let s1 := skipSlashSlashComment E false s
      let length := s1.yyCursor - triviaStart
      some ((s1, pushBack trivia (if isDocComment then TriviaKind.DocLineComment
        else TriviaKind.LineComment) length), true)
    else if byteAt s.buffer s.yyCursor = 42 then
      let isDocComment := byteAt s.buffer (s.yyCursor + 1) = 42
      let s1 := skipSlashStarComment E s
      let length := s1.yyCursor - triviaStart
      some ((s1, pushBack trivia (if isDocComment then TriviaKind.DocBlockComment
        else TriviaKind.BlockComment) length), true)
    else stop
  else if c = 35 then
    if triviaStart = s.contentStart ∧ byteAt s.buffer s.yyCursor = 33 then
      let s1 := skipHashbang E false (setYYCursor (s.yyCursor - 1) s)
      let length := s1.yyCursor - triviaStart
      some ((s1, pushBack trivia TriviaKind.GarbageText length), true)
    else stop
  else if c = 0 then
    match getNullCharacterKind s (s.yyCursor - 1) with
    | NullCharacterKind.Embedded =>
      let length := s.yyCursor - triviaStart
      some ((s, pushBack trivia TriviaKind.GarbageText length), true)
    | NullCharacterKind.CodeCompletion => stop
    | NullCharacterKind.BufferEnd => stop
  else if isTokenStartByte c then stop
  else
    let temp := s.yyCursor - 1
    if (E.advance_if_valid_start_of_identifier s.buffer temp s.bufferEnd).isSome then stop
    else if (E.advance_if_valid_start_of_operator s.buffer temp s.bufferEnd).isSome then stop
    else
      match lexUnknown E false s with
      | none => none
      | some (s1, shouldTokenize) =>
        if shouldTokenize then some ((setYYCursor temp s1, trivia), false)
        else
          let length := s1.yyCursor - triviaStart
          some ((s1, pushBack trivia TriviaKind.GarbageText length), true)

/-- The loop of `Lexer::lexTrivia` formed by `restart:` and `goto restart`, one
pass per unit of the first argument. -/
def lexTriviaLoop (E : Externs) (isForTrailingTrivia : Bool) :
    Nat → Lexer → List ParsedTriviaPiece → Option (Lexer × List ParsedTriviaPiece)
  | 0, _, _ => none
  | fuel + 1, s, trivia =>
    match lexTriviaRound E isForTrailingTrivia s trivia with
    | none => none
    | some (r, true) => lexTriviaLoop E isForTrailingTrivia fuel r.1 r.2
    | some (r, false) => some r

/-- `Lexer::lexTrivia(trivia, isForTrailingTrivia)`.  Every pass but the last
consumes at least one byte, so the distance to the end of the buffer plus one
bounds the number of passes. -/
def lexTrivia (E : Externs) (trivia : List ParsedTriviaPiece) (isForTrailingTrivia : Bool)
    (s : Lexer) : Option (Lexer × List ParsedTriviaPiece) :=
  lexTriviaLoop E isForTrailingTrivia (s.bufferEnd + 1 - s.yyCursor) s trivia

/-- The comment length `formToken` computes: the summed lengths of the leading
trivia pieces from the first comment piece up to, and excluding, the first
backtick piece after it. -/
def commentLengthOf (leadingTrivia : List ParsedTriviaPiece) : Nat :=
  (((leadingTrivia.dropWhile fun piece => !is_comment_trivia_kind piece.kind).takeWhile
    fun piece => piece.kind ≠ TriviaKind.Backtick).map fun piece => piece.length).sum

/-- `m_nextToken.setToken(kind, tokenText, commentLength)`. -/
def setToken (kind : TokenKindType) (textStart textLength commentLength : Nat) (s : Lexer) :
    Lexer :=
  { s with nextToken := { s.nextToken with
      kind := kind, textStart := textStart, textLength := textLength,
      commentLength := commentLength } }

/-- `m_nextToken.setValue(value)`. -/
def setValue (value : TokenValue) (s : Lexer) : Lexer :=
  { s with nextToken := { s.nextToken with value := value } }

/-- `m_nextToken.setInvalidLexValue(value)`. -/
def setInvalidLexValue (value : Bool) (s : Lexer) : Lexer :=
  { s with nextToken := { s.nextToken with invalidLexValue := value } }

/-- `m_nextToken.setNeedCorrectLNumberOverflow(value)`. -/
def setNeedCorrectLNumberOverflow (value : Bool) (s : Lexer) : Lexer :=
  { s with nextToken := { s.nextToken with needCorrectLNumberOverflow := value } }

/-- `Lexer::formToken(kind, tokenStart)`.  The token text is measured from
`tokenStart` to the cursor on entry; with trivia retention on, the trailing
trivia is then scanned, which may move the cursor. -/
def formToken (E : Externs) (kind : TokenKindType) (tokenStart : Nat) (s : Lexer) :
    Option Lexer :=
  let kind :=
    if kind ≠ TokenKindType.END ∧ tokenStart ≥ s.artificialEof then TokenKindType.END else kind
  let commentLength :=
    if s.commentRetention = CommentRetentionMode.AttachToNextToken then
      commentLengthOf s.leadingTrivia
    else 0
  let textLength := s.yyCursor - tokenStart
  if s.triviaRetention = TriviaRetentionMode.WithTrivia then
    (lexTrivia E s.trailingTrivia true s).map fun r =>
      setToken kind tokenStart textLength commentLength { r.1 with trailingTrivia := r.2 }
  else
    some (setToken kind tokenStart textLength commentLength s)

/-- `Lexer::notifyLexicalException(msg, code)`.  The registered handler is a
callback that receives the message and the code only. -/
def notifyLexicalException (msg : String) (_code : Int) (s : Lexer) : Lexer :=
  { s with
    flags := { s.flags with lexExceptionOccurred := true }
    currentExceptionMsg := msg }

/-- `Lexer::clearExceptionFlag`. -/
def clearExceptionFlag (s : Lexer) : Lexer :=
  { s with flags := { s.flags with lexExceptionOccurred := false } }

/-- `Lexer::isInParseMode`. -/
def isInParseMode (s : Lexer) : Bool := s.valueContainer

/-- `Lexer::formErrorToken(tokenStart)`. -/
def formErrorToken (E : Externs) (tokenStart : Nat) (s : Lexer) : Option Lexer :=
  (formToken E TokenKindType.T_ERROR tokenStart s).map fun s1 =>
    if s1.currentExceptionMsg ≠ "" then
      setValue (TokenValue.str (strBytes s1.currentExceptionMsg)) s1
    else s1

/-! ## C library conversions used by the numeric scanners -/

/-- The number of consecutive bytes from offset `p` on that satisfy `f`: the
distance a loop `while (f(*ptr)) ++ptr;` started at `p` advances. -/
def countWhile (f : Nat → Bool) (buf : List Nat) (p : Nat) : Nat :=
  ((buf.drop p).takeWhile f).length

/-- C `isspace` in the "C" locale. -/
def isspace (c : Nat) : Bool := c = 32 || (9 ≤ c && c ≤ 13)

/-- The value of a byte as a digit for `strtoll`: `0`-`9`, then letters of
either case from ten upwards. -/
def digitValue (c : Nat) : Option Nat :=
  if 48 ≤ c ∧ c ≤ 57 then some (c - 48)
  else if 97 ≤ c ∧ c ≤ 122 then some (c - 97 + 10)
  else if 65 ≤ c ∧ c ≤ 90 then some (c - 65 + 10)
  else none

/-- Whether the byte is a digit of the given base. -/
def isDigitInBase (base : Nat) (c : Nat) : Bool :=
  match digitValue c with
  | some d => decide (d < base)
  | none => false

/-- The number denoted by a digit string in the given base. -/
def digitsToNat (base : Nat) (ds : List Nat) : Nat :=
  ds.foldl (fun acc c => acc * base + (digitValue c).getD 0) 0

/-- `LLONG_MAX`, the largest `std::int64_t`. -/
def INT64_MAX : Nat := 9223372036854775807

/-- What a call of `strtoll` yields: the returned value, the end pointer and
whether `errno` was set to `ERANGE`. -/
structure StrtollResult where
  value : Int
  endPtr : Nat
  erange : Bool
  deriving DecidableEq, Repr

/-- The C library function `strtoll(nptr, &end, base)` for a base from 2 to 36
(ISO C 7.22.1.4): white space is skipped, a sign is accepted, for base 16 a
`0x`/`0X` before a hexadecimal digit is skipped, and the longest run of digits
of the base is converted.  Without any digit the value is `0` and the end
pointer is `nptr`.  A value outside the range of `long long` yields
`LLONG_MAX` or `LLONG_MIN` and `ERANGE`, with the end pointer still after the
last digit. -/
def strtoll (buf : List Nat) (nptr : Nat) (base : Nat) : StrtollResult :=
  let p1 := nptr + countWhile isspace buf nptr
  let negative := byteAt buf p1 = 45
  let p2 := if byteAt buf p1 = 45 ∨ byteAt buf p1 = 43 then p1 + 1 else p1
  let p3 :=
    if base = 16 ∧ byteAt buf p2 = 48 ∧ (byteAt buf (p2 + 1) = 120 ∨ byteAt buf (p2 + 1) = 88) ∧
        isDigitInBase 16 (byteAt buf (p2 + 2)) then p2 + 2
    else p2
  let ds := (buf.drop p3).takeWhile (isDigitInBase base)
  if ds = [] then { value := 0, endPtr := nptr, erange := false }
  else
    let n := digitsToNat base ds
    if negative then
      if n > INT64_MAX + 1 then
        { value := -((INT64_MAX : Int) + 1), endPtr := p3 + ds.length, erange := true }
      else { value := -(n : Int), endPtr := p3 + ds.length, erange := false }
    else
      if n > INT64_MAX then { value := INT64_MAX, endPtr := p3 + ds.length, erange := true }
      else { value := n, endPtr := p3 + ds.length, erange := false }

/-- Whether the byte is a decimal digit. -/
def isDecimalDigit (c : Nat) : Bool := 48 ≤ c && c ≤ 57

/-- The end pointer of the C library function `strtod(nptr, &end)` on text in
decimal floating form, the form that applies when the first byte is a digit
other than a `0` followed by `x`: digits, an optional `.` with more digits, and
an exponent `e`/`E` with optional sign when at least one digit follows it. -/
def strtodEnd (buf : List Nat) (nptr : Nat) : Nat :=
  let intDigits := countWhile isDecimalDigit buf nptr
  let p1 := nptr + intDigits
  let fracDigits := if byteAt buf p1 = 46 then countWhile isDecimalDigit buf (p1 + 1) else 0
  let p2 := if byteAt buf p1 = 46 then p1 + 1 + fracDigits else p1
  if intDigits + fracDigits = 0 then nptr
  else if byteAt buf p2 = 101 ∨ byteAt buf p2 = 69 then
    let p3 := if byteAt buf (p2 + 1) = 43 ∨ byteAt buf (p2 + 1) = 45 then p2 + 2 else p2 + 1
    let expDigits := countWhile isDecimalDigit buf p3
    if expDigits = 0 then p2 else p3 + expDigits
  else p2

/-! ## Numeric literal scanners -/

/-- `MAX_LENGTH_OF_INT64`. -/
def MAX_LENGTH_OF_INT64 : Nat := 19

/-- `Lexer::lexBinaryNumber`.  `numLength` is a `size_t`, hence the reduction
modulo `2^64`; the double value is kept as the digit text `bstr_to_double` is
called on. -/
def lexBinaryNumber (E : Externs) (s : Lexer) : Option Lexer :=
  let yytext := s.yyText
  let zeros := countWhile (fun c => c = 48) s.buffer (yytext + 2)
  let bnumStr := yytext + 2 + zeros
  let numLength : Int := ((s.yyLength : Int) - 2 - (zeros : Int)) % 2 ^ 64
  if numLength < 64 then
    let numValue : Int := if numLength > 0 then (strtoll s.buffer bnumStr 2).value else 0
    (formToken E TokenKindType.T_LNUMBER s.yyText s).map
      (setValue (TokenValue.int numValue))
  else
    (formToken E TokenKindType.T_DNUMBER s.yyText s).map
      (setValue (TokenValue.double 2 ((s.buffer.drop bnumStr).takeWhile (isDigitInBase 2))))

/-- The conversion of a `std::size_t` value to `int`: the value modulo `2^32`
read as a 32-bit two's complement number.  The argument is taken modulo
`2^32` too, so that `m_yyLength - 2` can be passed before its reduction
modulo `2^64`. -/
def sizeToInt (x : Int) : Int := (x + 2 ^ 31) % 2 ^ 32 - 2 ^ 31

/-- The least value of an `int`. -/
def INT_MIN : Int := -(2 ^ 31)

/-- The bytes `sprintf(buff, "%llx\n ", INT64_MIN)` writes: the sixteen digits
`8000000000000000`, the line feed, the blank and the terminating zero. -/
def hexMinPrinted : List Nat := 56 :: List.replicate 15 48 ++ [10, 32, 0]

/-- `Lexer::lexHexNumber`.  `length` is an `int`: it starts as `m_yyLength - 2`
converted to `int`, and a decrement that leaves the range of `int` is undefined
(`none`).  In the overflow branch after a minus sign `buff` has `maxWidth`
bytes; a `sprintf` that writes more than that is undefined (`none`). -/
def lexHexNumber (E : Externs) (s : Lexer) : Option Lexer :=
  let yytext := s.yyText
  let zeros := countWhile (fun c => c = 48) s.buffer (yytext + 2)
  let hexStr := yytext + 2 + zeros
  let length : Int := sizeToInt ((s.yyLength : Int) - 2) - (zeros : Int)
  let maxWidth : Int := 16
  if length < INT_MIN then none
  else if length < maxWidth ∨ (length = maxWidth ∧ byteAt s.buffer hexStr ≤ 55) then
    let lvalue : Int := if length > 0 then (strtoll s.buffer yytext 16).value else 0
    (formToken E TokenKindType.T_LNUMBER s.yyText s).map
      (setValue (TokenValue.int lvalue))
  else
    let needCorrectOverflow : Option Bool :=
      if s.nextToken.kind = TokenKindType.T_MINUS_SIGN then
        if (hexMinPrinted.length : Int) ≤ maxWidth then
          some (decide (hexMinPrinted.take maxWidth.toNat = slice s.buffer hexStr length.toNat))
        else none
      else some false
    match needCorrectOverflow with
    | none => none
    | some needCorrectOverflow =>
      (formToken E TokenKindType.T_DNUMBER s.yyText s).map fun s1 =>
        setValue (TokenValue.double 16 ((s.buffer.drop hexStr).takeWhile (isDigitInBase 16)))
          (setNeedCorrectLNumberOverflow needCorrectOverflow s1)

/-- The bytes `sprintf(buff, "-0%llo", INT64_MIN)` writes: `-0`, the twenty-two
octal digits `1000000000000000000000` and the terminating zero. -/
def octMinPrinted : List Nat := 45 :: 48 :: 49 :: List.replicate 21 48 ++ [0]

/-- The text of `std::to_string(INT64_MIN)` after its sign:
`9223372036854775808`. -/
def decMinText : List Nat :=
  [57, 50, 50, 51, 51, 55, 50, 48, 51, 54, 56, 53, 52, 55, 55, 53, 56, 48, 56]

/-- `Lexer::lexLongNumber`.  `numLength` and `numWide` are `int`, converted
from `m_yyLength`; `numWide--` on the least `int` is undefined (`none`).  In
the overflow branch after a minus sign the octal `buff` has 24 bytes; a
`sprintf` that writes more than that is undefined (`none`). -/
def lexLongNumber (E : Externs) (s : Lexer) : Option Lexer :=
  let yytext := s.yyText
  if s.yyLength < MAX_LENGTH_OF_INT64 then
    let r := strtoll s.buffer yytext (if byteAt s.buffer yytext = 48 then 8 else 10)
    if r.endPtr ≠ yytext + s.yyLength then
      let s1 := notifyLexicalException "Invalid numeric literal" 0 s
      if isInParseMode s1 then formToken E TokenKindType.T_ERROR s1.yyText s1
      else (formToken E TokenKindType.T_LNUMBER s1.yyText s1).map (setInvalidLexValue true)
    else
      (formToken E TokenKindType.T_LNUMBER s.yyText s).map (setValue (TokenValue.int r.value))
  else
    let isOctal : Bool := byteAt s.buffer yytext = 48
    let numWide : Int := sizeToInt s.yyLength
    if isOctal ∧ numWide = INT_MIN then none
    else
      let skipped : Nat :=
        if isOctal then min numWide.toNat (countWhile (fun c => c = 48) s.buffer (yytext + 1))
        else 0
      let numStr := yytext + skipped
      let numLength : Int := sizeToInt s.yyLength - (skipped : Int)
      let base := if isOctal then 8 else 10
      let r := strtoll s.buffer numStr base
      if r.erange then
        let needCorrectOverflow : Option Bool :=
          if s.nextToken.kind = TokenKindType.T_MINUS_SIGN then
            if byteAt s.buffer numStr = 48 then
              if octMinPrinted.length ≤ 24 then
                some (decide ((octMinPrinted.take 24).tail = slice s.buffer numStr numLength.toNat))
              else none
            else some (decide (decMinText = slice s.buffer numStr numLength.toNat))
          else some false
        match needCorrectOverflow with
        | none => none
        | some needCorrectOverflow =>
          let endPtr := if isOctal then r.endPtr else strtodEnd s.buffer numStr
          let dvalue :=
            if isOctal then
              TokenValue.double 8 ((s.buffer.drop numStr).takeWhile (isDigitInBase 8))
            else TokenValue.double 10 (slice s.buffer numStr (endPtr - numStr))
          let invalid : Bool := endPtr ≠ yytext + s.yyLength
          let s1 := if invalid then notifyLexicalException "Invalid numeric literal" 0 s else s
          if invalid ∧ isInParseMode s1 then formToken E TokenKindType.T_ERROR s1.yyText s1
          else
            (formToken E TokenKindType.T_DNUMBER s1.yyText s1).map fun s2 =>
              setNeedCorrectLNumberOverflow needCorrectOverflow (setValue dvalue s2)
      else if r.endPtr ≠ yytext + s.yyLength then
        let s1 := notifyLexicalException "Invalid numeric literal" 0 s
        if isInParseMode s1 then formToken E TokenKindType.T_ERROR s1.yyText s1
        else (formToken E TokenKindType.T_LNUMBER s1.yyText s1).map (setInvalidLexValue true)
      else
        (formToken E TokenKindType.T_LNUMBER s.yyText s).map (setValue (TokenValue.int r.value))

/-! ## Single-quoted strings -/

/-- `Lexer::setLexingBinaryStrFlag(value)`. -/
def setLexingBinaryStrFlag (value : Bool) (s : Lexer) : Lexer :=
  { s with flags := { s.flags with lexingBinaryString := value } }

/-- `Lexer::setYYLength(length)`, also the model of every assignment to
`m_yyLength`. -/
def setYYLength (length : Nat) (s : Lexer) : Lexer := { s with yyLength := length }

/-- The loop `while (true)` of `lexSingleQuoteString` up to the `break` or the
`return`: the final cursor and whether the closing quote was found.  One
iteration per unit of the first argument. -/
def scanSingleQuote (buf : List Nat) (yylimit : Nat) : Nat → Nat → Option (Nat × Bool)
  | 0, _ => none
  | fuel + 1, yycursor =>
    if yycursor < yylimit then
      if byteAt buf yycursor = 39 then some (yycursor + 1, true)
      else if byteAt buf yycursor = 92 ∧ yycursor + 1 < yylimit then
        scanSingleQuote buf yylimit fuel (yycursor + 1 + 1)
      else scanSingleQuote buf yylimit fuel (yycursor + 1)
    else some (yycursor, false)

/-- `Lexer::lexSingleQuoteString`.  Every iteration of the scan consumes a byte
below the limit, so the distance to the limit plus one bounds the iterations.
`m_yyLength - bprefix - 2` is unsigned, hence the reduction modulo `2^64`. -/
def lexSingleQuoteString (E : Externs) (s : Lexer) : Option Lexer :=
  let yytext := s.yyText
  let yylimit := s.artificialEof
  let bpfx : Nat := if byteAt s.buffer yytext ≠ 39 then 1 else 0
  match scanSingleQuote s.buffer yylimit (yylimit - s.yyCursor + 1) s.yyCursor with
  | none => none
  | some (yycursor, false) =>
    let s1 := setYYLength (yylimit - yytext) (setYYCursor yycursor s)
    formToken E TokenKindType.T_ENCAPSED_AND_WHITESPACE s1.yyText s1
  | some (yycursor, true) =>
    let s1 := setLexingBinaryStrFlag false
      (setYYLength (yycursor - yytext) (setYYCursor yycursor s))
    let bodyLength : Int := ((s1.yyLength : Int) - (bpfx : Int) - 2) % 2 ^ 64
    let r : List Nat × Lexer :=
      if bodyLength ≤ 1 then
        if bodyLength = 1 then
          let c := byteAt s1.buffer (yytext + bpfx + 1)
          ([c], if c = 10 ∨ c = 13 then incLineNumber 1 s1 else s1)
        else ([], s1)
      else
        let converted := E.convert_single_quote_str_escape_sequences
          (slice s1.buffer (yytext + bpfx + 1) bodyLength.toNat)
        (converted.1, incLineNumber converted.2 s1)
    (formToken E TokenKindType.T_CONSTANT_ENCAPSED_STRING r.2.yyText r.2).map
      (setValue (TokenValue.str r.1))

/-- The closing quote of a single-quoted string, after the words of the
specification: scanning the bytes that follow the opening quote, "a backslash
escapes exactly the one byte that follows it", and the string ends at "the
first `'` that is not escaped".  The result is the offset of that quote in the
given bytes; `escaped` tells whether the first byte is escaped. -/
def closingQuoteOffset : List Nat → Bool → Option Nat
  | [], _ => none
  | _ :: rest, true => (closingQuoteOffset rest false).map (· + 1)
  | c :: rest, false =>
    if c = 39 then some 0
    else if c = 92 then (closingQuoteOffset rest true).map (· + 1)
    else (closingQuoteOffset rest false).map (· + 1)

/-- The bytes of the buffer from offset `first` up to, and excluding, offset
`last`. -/
def bytesBetween (buf : List Nat) (first last : Nat) : List Nat := (buf.take last).drop first

/-! ## Heredoc header and end marker, and the lex driver -/

/-- `Lexer::isLabelStart(c)`. -/
def isLabelStart (c : Nat) : Bool :=
  (97 ≤ c && c ≤ 122) || (65 ≤ c && c ≤ 90) || c = 95 || c ≥ 128

/-- The label record a pointer of the label stack refers to. -/
def labelAt (s : Lexer) (p : Nat) : HereDocLabel := s.labelHeap.getD p { name := [] }

/-- `Lexer::isFoundHeredocEndMarker(label)`, for the label record a pointer
refers to.  `labelLength` is a `long int` and the right-hand side of the
comparison a pointer difference. -/
def isFoundHeredocEndMarker (s : Lexer) (label : HereDocLabel) : Bool :=
  isLabelStart (byteAt s.buffer s.yyCursor) &&
    decide ((label.name.length : Int) < (s.artificialEof : Int) - (s.yyCursor : Int)) &&
    decide (slice s.buffer s.yyCursor label.name.length = label.name)

/-- `Lexer::lexHereAndNowDocEnd`.  `top()` of an empty label stack is undefined
and yields `none`; so does `getYYText() - 1` when `m_yyText` is at offset 0,
the first byte of the buffer: the token would start before the buffer. -/
def lexHereAndNowDocEnd (E : Externs) (s : Lexer) : Option Lexer :=
  if s.nextToken.kind = TokenKindType.T_START_HEREDOC then
    let s1 := setYYLength 0 s
    if s1.yyText = 0 then none
    else
      (formToken E TokenKindType.T_ENCAPSED_AND_WHITESPACE (s1.yyText - 1) s1).map fun s2 =>
        let s3 := setValue (TokenValue.str []) s2
        setYYCursor s3.yyText s3
  else
    match s.heredocLabelStack with
    | [] => none
    | p :: rest =>
      let label := labelAt s p
      let s1 := { s with heredocLabelStack := rest }
      let s2 := setYYLength (label.indentation + label.name.length) s1
      let s3 := setYYCursor (s2.yyCursor + s2.yyLength - 1) s2
      let s4 := { s3 with yyCondition := YYLexerCondType.ST_IN_SCRIPTING }
      formToken E TokenKindType.T_END_HEREDOC s4.yyText s4

/-- `HEREDOC_USING_SPACES`. -/
def HEREDOC_USING_SPACES : Nat := 1

/-- `HEREDOC_USING_TABS`. -/
def HEREDOC_USING_TABS : Nat := 2

/-- The value of `spacing` after one of the loops that measure the leading
white space of a line: the bitwise or of the space and tab marks of the bytes. -/
def spacingOf (bytes : List Nat) : Nat :=
  (if 32 ∈ bytes then HEREDOC_USING_SPACES else 0) + (if 9 ∈ bytes then HEREDOC_USING_TABS else 0)

/-- The number of bytes the loop
`while (yycursor < yylimit && (*yycursor == ' ' || *yycursor == '\t'))` advances
from `yycursor`. -/
def countIndentation (buf : List Nat) (yycursor yylimit : Nat) : Nat :=
  ((bytesBetween buf yycursor yylimit).takeWhile fun c => c = 32 || c = 9).length

/-- The scan-ahead loop `while (heredocNestingLevel > 0)` of `lexHeredocHeader`,
one iteration per unit of the first argument; `lexFn` is `Lexer::lex`.  The
result is the lexer and the value of `firstToken` at the end of the loop. -/
def scanAheadLoop (lexFn : Lexer → Option Lexer) :
    Nat → Nat → TokenKindType → Lexer → Option (Lexer × TokenKindType)
  | 0, _, _, _ => none
  | fuel + 1, heredocNestingLevel, firstToken, s =>
    if heredocNestingLevel > 0 then
      match lexFn s with
      | none => none
      | some s1 =>
        let tokenKind := s1.nextToken.kind
        if s1.flags.lexExceptionOccurred then some (clearExceptionFlag s1, firstToken)
        else
          let firstToken :=
            if firstToken = TokenKindType.T_UNKNOWN_MARK then tokenKind else firstToken
          match tokenKind with
          | TokenKindType.T_START_HEREDOC =>
            scanAheadLoop lexFn fuel (heredocNestingLevel + 1) firstToken s1
          | TokenKindType.T_END_HEREDOC =>
            scanAheadLoop lexFn fuel (heredocNestingLevel - 1) firstToken s1
          | TokenKindType.END => scanAheadLoop lexFn fuel 0 firstToken s1
          | _ => scanAheadLoop lexFn fuel heredocNestingLevel firstToken s1
    else some (s, firstToken)

/-- The assignment `label->field = value` through the shared pointer `p`. -/
def updateLabel (p : Nat) (f : HereDocLabel → HereDocLabel) (s : Lexer) : Lexer :=
  { s with labelHeap := s.labelHeap.set p (f (labelAt s p)) }

/-- `Lexer::lexHeredocHeader`; `lexFn` is `Lexer::lex`, which the scan-ahead
pass calls.  `hereDocLabelLength` is an `int`.  The scan-ahead loop is
given two iterations per byte of the buffer and yields `none` beyond them. -/
def lexHeredocHeader (E : Externs) (lexFn : Lexer → Option Lexer) (s : Lexer) : Option Lexer :=
  let yytext := s.yyText
  let yylimit := s.artificialEof
  let binary : Bool := byteAt s.buffer yytext ≠ 60
  let s := if binary then setLexingBinaryStrFlag true s else s
  let bpfx : Nat := if binary then 1 else 0
  let s := incLineNumber 1 s
  let newlineLength : Int := if byteAt s.buffer (yytext + s.yyLength - 2) = 114 then 2 else 1
  let length0 : Int := (s.yyLength : Int) - (bpfx : Int) - 3 - newlineLength
  let iter0 := yytext + bpfx + 3
  let blank : Bool := byteAt s.buffer iter0 = 32 || byteAt s.buffer iter0 = 9
  let iter1 := if blank then iter0 + 1 else iter0
  let length1 : Int := if blank then length0 - 1 else length0
  let nowdoc : Bool := byteAt s.buffer iter1 = 39
  let quoted : Bool := nowdoc || byteAt s.buffer iter1 = 34
  let iter := if quoted then iter1 + 1 else iter1
  let hereDocLabelLength : Int := if quoted then length1 - 2 else length1
  let isHeredoc : Bool := !nowdoc
  let s := { s with yyCondition :=
    if nowdoc then YYLexerCondType.ST_NOWDOC else YYLexerCondType.ST_HEREDOC }
  let heredocLabel := slice s.buffer iter hereDocLabelLength.toNat
  let label := s.labelHeap.length
  let s := pushHeredocLabel { name := heredocLabel, indentation := 0 } s
  let savedCursor := s.yyCursor
  let indentation := countIndentation s.buffer s.yyCursor yylimit
  let spacing := spacingOf (slice s.buffer s.yyCursor indentation)
  let s := setYYCursor (s.yyCursor + indentation) s
  if s.yyCursor = yylimit then
    let s := setYYCursor savedCursor s
    formToken E TokenKindType.T_START_HEREDOC yytext s
  else if isFoundHeredocEndMarker s (labelAt s label) &&
      !isLabelStart (byteAt s.buffer (s.yyCursor + hereDocLabelLength.toNat)) then
    let s :=
      if spacing = HEREDOC_USING_SPACES + HEREDOC_USING_TABS then
        notifyLexicalException "Invalid indentation - tabs and spaces cannot be mixed" 0 s
      else s
    let s := setYYCursor savedCursor s
    let s := updateLabel label (fun l => { l with indentation := indentation }) s
    let s := { s with yyCondition := YYLexerCondType.ST_END_HEREDOC }
    let s := { s with flags := { s.flags with reserveHeredocSpaces := true } }
    formToken E TokenKindType.T_START_HEREDOC yytext s
  else
    let s := setYYCursor savedCursor s
    let scanned : Option Lexer :=
      if isHeredoc && !s.flags.heredocScanAhead then
        let s := saveYYState s
        let s := { s with flags := { s.flags with heredocScanAhead := true,
                                                   heredocIndentationUsesSpaces := false },
                          heredocIndentation := 0, eventHandler := Option.none }
        match scanAheadLoop lexFn (2 * (s.bufferEnd + 1)) 1 TokenKindType.T_UNKNOWN_MARK s with
        | none => none
        | some (s, firstToken) =>
          let s :=
            if (firstToken = TokenKindType.T_VARIABLE ∨
                firstToken = TokenKindType.T_DOLLAR_OPEN_CURLY_BRACES ∨
                firstToken = TokenKindType.T_CURLY_OPEN) ∧ s.heredocIndentation ≠ 0 then
              notifyLexicalException
                ("Invalid body indentation level (expecting an indentation level of at least "
                  ++ toString s.heredocIndentation ++ ")") 0 s
            else s
          let s := updateLabel label (fun l => { l with
            indentation := s.heredocIndentation,
            intentationUseSpaces := s.flags.heredocIndentationUsesSpaces }) s
          (restoreYYState s).map fun s =>
            { s with flags := { s.flags with heredocScanAhead := false,
                                             incrementLineNumber := false } }
      else some s
    match scanned with
    | none => none
    | some s =>
      (formToken E TokenKindType.T_START_HEREDOC yytext s).map fun s =>
        { s with flags := { s.flags with reserveHeredocSpaces := true } }

/-- `m_nextToken.resetValueType()`. -/
def resetValueType (s : Lexer) : Lexer :=
  { s with nextToken := { s.nextToken with value := TokenValue.none } }

/-- `Lexer::lexImpl`; `yy_token_lex` is the generated scanner the driver ends
with, which is not among the source files. -/
def lexImpl (E : Externs) (yy_token_lex : Lexer → Option Lexer) (s : Lexer) : Option Lexer :=
  let s := { s with leadingTrivia := [], trailingTrivia := [] }
  let s :=
    if s.yyCursor = s.bufferStart then
      let s :=
        if s.bufferStart < s.contentStart then
          let BOMLen := s.contentStart - s.bufferStart
          setYYCursor (s.yyCursor + BOMLen)
            { s with leadingTrivia := pushBack s.leadingTrivia TriviaKind.GarbageText BOMLen }
        else s
      setAtStartOfLine true s
    else setAtStartOfLine false s
  let s := resetValueType s
  let led : Option Lexer :=
    if !s.flags.reserveHeredocSpaces then
      (lexTrivia E s.leadingTrivia false s).map fun r => { r.1 with leadingTrivia := r.2 }
    else some { s with flags := { s.flags with reserveHeredocSpaces := false } }
  match led with
  | none => none
  | some s =>
    let s := { s with yyText := s.yyCursor }
    let s := if s.flags.incrementLineNumber then incLineNumber 1 s else s
    yy_token_lex s

/-- The label bytes `LABEL` of the scanner: a label start and then label starts
or digits.  The result is the number of label bytes at the head of the list. -/
def labelLength (bytes : List Nat) : Nat :=
  match bytes with
  | [] => 0
  | c :: rest =>
    if isLabelStart c then 1 + (rest.takeWhile fun d => isLabelStart d || isDecimalDigit d).length
    else 0

/-- Modelled from the spec: the heredoc header rule of the generated scanner,
which is not among the source files.  "Recognition: `<<<` optionally preceded
by a `b` prefix, followed by optional whitespace, optionally a quote character
(`'` for nowdoc, `"` for heredoc, none for heredoc), then a label, then a
newline."  The result is the length of the header at the head of the bytes. -/
def matchHeredocHeader (bytes : List Nat) : Option Nat :=
  let b : Nat := if bytes.head? = some 98 then 1 else 0
  if slice bytes b 3 ≠ [60, 60, 60] then none
  else
    let blanks := countWhile (fun c => c = 32 || c = 9) bytes (b + 3)
    let q := b + 3 + blanks
    let quote := byteAt bytes q
    let quoted : Bool := quote = 39 || quote = 34
    let l := if quoted then q + 1 else q
    let n := labelLength (bytes.drop l)
    let e := if quoted then l + n + 1 else l + n
    if n = 0 ∨ (quoted ∧ byteAt bytes (l + n) ≠ quote) then none
    else if byteAt bytes e = 10 then some (e + 1)
    else if byteAt bytes e = 13 ∧ byteAt bytes (e + 1) = 10 then some (e + 2)
    else none

/-- `Lexer::initialize(offset, endOffset)` on a freshly constructed lexer over
`buf`; the code-completion pointer comes from the source manager. -/
def lexerInitialize (buf : List Nat) (codeCompletionPtr : Option Nat)
    (commentRetention : CommentRetentionMode) (triviaRetention : TriviaRetentionMode)
    (offset endOffset : Nat) : Lexer :=
  let BOMLength := if slice buf 0 3 = [0xEF, 0xBB, 0xBF] then 3 else 0
  { buffer := buf
    bufferStart := 0
    bufferEnd := buf.length
    contentStart := 0 + BOMLength
    codeCompletionPtr := codeCompletionPtr
    artificialEof := 0 + endOffset
    yyCursor := 0 + offset
    commentRetention := commentRetention
    triviaRetention := triviaRetention }

/-- What one call of `lex` attributes to the token it returns: the summed
length of the leading trivia, the start and the length of the token text, and
the summed length of the trailing trivia. -/
def tokenExtent (s : Lexer) : Nat × Nat × Nat × Nat :=
  ((s.leadingTrivia.map fun piece => piece.length).sum, s.nextToken.textStart,
    s.nextToken.textLength, (s.trailingTrivia.map fun piece => piece.length).sum)

/-! ## Double-quoted strings and the bodies of heredoc and nowdoc -/

/-- The loop `while (yycursor < yylimit)` of `lexDoubleQuoteString`: the value
of the cursor when the loop is left.  One iteration per unit of the first
argument. -/
def scanDoubleQuote (buf : List Nat) (yylimit : Nat) : Nat → Nat → Option Nat
  | 0, _ => none
  | fuel + 1, yycursor =>
    if yycursor < yylimit then
      let c := byteAt buf yycursor
      let yycursor := yycursor + 1
      if c = 34 then some (yycursor - 1)
      else if c = 36 then
        if isLabelStart (byteAt buf yycursor) || byteAt buf yycursor = 123 then
          some (yycursor - 1)
        else scanDoubleQuote buf yylimit fuel yycursor
      else if c = 123 then
        if byteAt buf yycursor = 36 then some (yycursor - 1)
        else scanDoubleQuote buf yylimit fuel yycursor
      else if c = 92 then
        scanDoubleQuote buf yylimit fuel (if yycursor < yylimit then yycursor + 1 else yycursor)
      else scanDoubleQuote buf yylimit fuel yycursor
    else some yycursor

/-- `Lexer::lexDoubleQuoteString`. -/
def lexDoubleQuoteString (E : Externs) (s : Lexer) : Option Lexer :=
  let yytext := s.yyText
  let yylimit := s.artificialEof
  if s.yyCursor ≥ yylimit then
    formToken E TokenKindType.T_ERROR yytext (setYYCursor yylimit s)
  else
    let start :=
      if byteAt s.buffer yytext = 92 ∧ s.yyCursor < yylimit then s.yyCursor + 1 else s.yyCursor
    match scanDoubleQuote s.buffer yylimit (yylimit - start + 1) start with
    | none => none
    | some yycursor =>
      let s := setYYLength (yycursor - yytext) (setYYCursor yycursor s)
      let filteredStr := slice s.buffer yytext s.yyLength
      let r := E.convert_double_quote_str_escape_sequences s filteredStr 34
      if r.1 || !isInParseMode r.2.2 then
        (formToken E TokenKindType.T_CONSTANT_ENCAPSED_STRING yytext r.2.2).map
          (setValue (TokenValue.str r.2.1))
      else formToken E TokenKindType.T_ERROR yytext r.2.2

/-- How the scanning loop of `lexHeredocBody` or `lexNowdocBody` is left.
`endMarker`: through the `break` after the end marker is found, with the cursor
on the marker, after the indentation, and the values of `indentation`,
`spacing` and `newlineLength`.  `unterminated`: through the `return` taken when
the cursor meets the limit right after a line terminator and its indentation.
`stopped`: through the `break` at an interpolation (the cursor already moved
back onto it) or through the loop condition, with the values `indentation` and
`spacing` have then. -/
inductive BodyScan where
  | endMarker (yycursor indentation spacing newlineLength : Nat)
  | unterminated (yycursor : Nat)
  | stopped (yycursor indentation spacing : Nat)
  deriving DecidableEq, Repr

/-- The value of `newlineLength` at the end marker: 2 when the two bytes before
the indentation are `\r\n`, otherwise 1. -/
def newlineLengthBefore (buf : List Nat) (yycursor indentation : Nat) : Nat :=
  if byteAt buf (yycursor - indentation - 2) = 13 ∧ byteAt buf (yycursor - indentation - 1) = 10
  then 2 else 1

/-- The loop `while (yycursor < yylimit)` of `lexHeredocBody`, one iteration per
unit of the first argument; `label` is the record on top of the label stack. -/
def heredocBodyLoop (s : Lexer) (label : HereDocLabel) : Nat → Nat → Option BodyScan
  | 0, _ => none
  | fuel + 1, yycursor =>
    if yycursor < s.artificialEof then
      let c := byteAt s.buffer yycursor
      let yycursor := yycursor + 1
      if c = 13 ∨ c = 10 then
        let yycursor := if c = 13 ∧ byteAt s.buffer yycursor = 10 then yycursor + 1 else yycursor
        let indentation := countIndentation s.buffer yycursor s.artificialEof
        let spacing := spacingOf (slice s.buffer yycursor indentation)
        let yycursor := yycursor + indentation
        if yycursor = s.artificialEof then some (BodyScan.unterminated yycursor)
        else if isFoundHeredocEndMarker (setYYCursor yycursor s) label then
          if isLabelStart (byteAt s.buffer (yycursor + label.name.length)) then
            heredocBodyLoop s label fuel yycursor
          else
            some (BodyScan.endMarker yycursor indentation spacing
              (newlineLengthBefore s.buffer yycursor indentation))
        else heredocBodyLoop s label fuel yycursor
      else if c = 36 then
        if isLabelStart (byteAt s.buffer yycursor) || byteAt s.buffer yycursor = 123 then
          some (BodyScan.stopped (yycursor - 1) 0 0)
        else heredocBodyLoop s label fuel yycursor
      else if c = 123 then
        if byteAt s.buffer yycursor = 36 then some (BodyScan.stopped (yycursor - 1) 0 0)
        else heredocBodyLoop s label fuel yycursor
      else if c = 92 then
        heredocBodyLoop s label fuel
          (if yycursor < s.artificialEof ∧ byteAt s.buffer yycursor ≠ 10 ∧
              byteAt s.buffer yycursor ≠ 13 then yycursor + 1 else yycursor)
      else heredocBodyLoop s label fuel yycursor
    else some (BodyScan.stopped yycursor 0 0)

/-- The part of `lexHeredocBody` after the loop, from `yylength = yycursor - yytext`
on; `label` is the pointer to the record on top of the label stack. -/
def finishHeredocBody (E : Externs) (label : Nat) (newlineLength : Nat) (s : Lexer) :
    Option Lexer :=
  let yytext := s.yyText
  let s := setYYLength (s.yyCursor - yytext) s
  let filteredStr := slice s.buffer yytext (s.yyLength - newlineLength)
  if !s.flags.heredocScanAhead && !s.flags.lexExceptionOccurred &&
      (isInParseMode s || s.flags.checkHeredocIndentation) then
    let newlineAtStart : Bool :=
      byteAt s.buffer (yytext - 1) = 10 || byteAt s.buffer (yytext - 1) = 13
    let r := E.strip_multiline_string_indentation s filteredStr (labelAt s label).indentation
      (labelAt s label).intentationUseSpaces newlineAtStart (newlineLength ≠ 0)
    if !r.1 then formErrorToken E yytext r.2.2
    else
      let r2 := E.convert_double_quote_str_escape_sequences r.2.2 r.2.1 0
      if !r2.1 then formToken E TokenKindType.T_ERROR yytext r2.2.2
      else
        (formToken E TokenKindType.T_ENCAPSED_AND_WHITESPACE yytext r2.2.2).map
          (setValue (TokenValue.str r2.2.1))
  else
    let s := E.handle_newlines s yytext (s.yyLength - newlineLength)
    (formToken E TokenKindType.T_ENCAPSED_AND_WHITESPACE yytext s).map
      (setValue (TokenValue.str filteredStr))

/-- The `return` of the body scanners taken when the cursor meets the limit
right after a line terminator and its indentation ("save unclosed string into
token"). -/
def formUnterminatedBody (E : Externs) (yycursor : Nat) (s : Lexer) : Option Lexer :=
  let yytext := s.yyText
  let s := setYYLength (yycursor - yytext) (setYYCursor yycursor s)
  let s := E.handle_newlines s yytext s.yyLength
  (formToken E TokenKindType.T_ENCAPSED_AND_WHITESPACE yytext s).map fun t =>
    setValue (TokenValue.str (slice t.buffer yytext t.yyLength)) t

/-- The statements of `lexHeredocBody` between the test of the byte after the
end marker and the `break`, with the cursor `yycursor` on the marker after
`indentation` blanks of spacing `spacing`. -/
def heredocMarkerState (s : Lexer) (yycursor indentation spacing : Nat) : Lexer :=
  let s := setYYCursor yycursor s
  let s :=
    if spacing = HEREDOC_USING_SPACES + HEREDOC_USING_TABS then
      notifyLexicalException "Invalid indentation - tabs and spaces cannot be mixed" 0 s
    else s
  let s := { s with flags := { s.flags with incrementLineNumber := true } }
  let s :=
    if s.flags.heredocScanAhead then
      { s with heredocIndentation := indentation,
               flags := { s.flags with
                 heredocIndentationUsesSpaces := spacing = HEREDOC_USING_SPACES } }
    else setYYCursor (s.yyCursor - indentation) s
  let s := { s with flags := { s.flags with reserveHeredocSpaces := true } }
  { s with yyCondition := YYLexerCondType.ST_END_HEREDOC }

/-- `Lexer::lexHeredocBody`.  `top()` of an empty label stack is undefined and
yields `none`. -/
def lexHeredocBody (E : Externs) (s : Lexer) : Option Lexer :=
  let yytext := s.yyText
  let yylimit := s.artificialEof
  match s.heredocLabelStack with
  | [] => none
  | label :: _ =>
    if s.yyCursor > yylimit then formToken E TokenKindType.END yytext (setYYCursor yylimit s)
    else
      match heredocBodyLoop s (labelAt s label) (yylimit - (s.yyCursor - 1) + 1)
          (s.yyCursor - 1) with
      | none => none
      | some (BodyScan.unterminated yycursor) => formUnterminatedBody E yycursor s
      | some (BodyScan.endMarker yycursor indentation spacing newlineLength) =>
        finishHeredocBody E label newlineLength
          (heredocMarkerState s yycursor indentation spacing)
      | some (BodyScan.stopped yycursor _ _) =>
        finishHeredocBody E label 0 (setYYCursor yycursor s)

/-- The loop `while (yycursor < yylimit)` of `lexNowdocBody`, one iteration per
unit of the first argument; `indentation` and `spacing` are the values the two
variables have when the iteration starts. -/
def nowdocBodyLoop (s : Lexer) (label : HereDocLabel) : Nat → Nat → Nat → Nat → Option BodyScan
  | 0, _, _, _ => none
  | fuel + 1, yycursor, indentation, spacing =>
    if yycursor < s.artificialEof then
      let c := byteAt s.buffer yycursor
      let yycursor := yycursor + 1
      if c = 13 ∨ c = 10 then
        let yycursor := if c = 13 ∧ byteAt s.buffer yycursor = 10 then yycursor + 1 else yycursor
        let indentation := countIndentation s.buffer yycursor s.artificialEof
        let spacing := spacingOf (slice s.buffer yycursor indentation)
        let yycursor := yycursor + indentation
        if yycursor = s.artificialEof then some (BodyScan.unterminated yycursor)
        else if isFoundHeredocEndMarker (setYYCursor yycursor s) label then
          if isLabelStart (byteAt s.buffer (yycursor + label.name.length)) then
            nowdocBodyLoop s label fuel yycursor indentation spacing
          else
            some (BodyScan.endMarker yycursor indentation spacing
              (newlineLengthBefore s.buffer yycursor indentation))
        else nowdocBodyLoop s label fuel yycursor indentation spacing
      else nowdocBodyLoop s label fuel yycursor indentation spacing
    else some (BodyScan.stopped yycursor indentation spacing)

/-- The part of `lexNowdocBody` after the loop, from `yylength = yycursor - yytext`
on, with the values of `newlineLength`, `indentation` and `spacing`. -/
def finishNowdocBody (E : Externs) (newlineLength indentation spacing : Nat) (s : Lexer) :
    Option Lexer :=
  let yytext := s.yyText
  let s := setYYLength (s.yyCursor - yytext) s
  let filteredStr := slice s.buffer yytext (s.yyLength - newlineLength)
  if !s.flags.lexExceptionOccurred && decide (spacing ≠ 0) &&
      (isInParseMode s || s.flags.checkHeredocIndentation) then
    let newlineAtStart : Bool :=
      byteAt s.buffer (yytext - 1) = 10 || byteAt s.buffer (yytext - 1) = 13
    let r := E.strip_multiline_string_indentation s filteredStr indentation
      (spacing = HEREDOC_USING_SPACES) newlineAtStart (newlineLength ≠ 0)
    if !r.1 then formErrorToken E yytext r.2.2
    else
      let s := E.handle_newlines r.2.2 yytext (r.2.2.yyLength - newlineLength)
      (formToken E TokenKindType.T_ENCAPSED_AND_WHITESPACE yytext s).map
        (setValue (TokenValue.str r.2.1))
  else
    let s := E.handle_newlines s yytext (s.yyLength - newlineLength)
    (formToken E TokenKindType.T_ENCAPSED_AND_WHITESPACE yytext s).map
      (setValue (TokenValue.str filteredStr))

/-- The statements of `lexNowdocBody` between the test of the byte after the
end marker and the `break`, with the cursor `yycursor` on the marker after
`indentation` blanks of spacing `spacing`; `label` is the pointer to the record
on top of the label stack. -/
def nowdocMarkerState (s : Lexer) (label yycursor indentation spacing : Nat) : Lexer :=
  let s := setYYCursor yycursor s
  let s :=
    if spacing = HEREDOC_USING_SPACES + HEREDOC_USING_TABS then
      notifyLexicalException "Invalid indentation - tabs and spaces cannot be mixed" 0 s
    else s
  let s := { s with flags := { s.flags with incrementLineNumber := true,
                                             reserveHeredocSpaces := true } }
  let s := setYYCursor (s.yyCursor - indentation) s
  let s := updateLabel label (fun l => { l with indentation := indentation }) s
  { s with yyCondition := YYLexerCondType.ST_END_HEREDOC }

/-- `Lexer::lexNowdocBody`.  `top()` of an empty label stack is undefined and
yields `none`. -/
def lexNowdocBody (E : Externs) (s : Lexer) : Option Lexer :=
  let yytext := s.yyText
  let yylimit := s.artificialEof
  match s.heredocLabelStack with
  | [] => none
  | label :: _ =>
    if s.yyCursor > yylimit then formToken E TokenKindType.END yytext (setYYCursor yylimit s)
    else
      match nowdocBodyLoop s (labelAt s label) (yylimit - (s.yyCursor - 1) + 1)
          (s.yyCursor - 1) 0 0 with
      | none => none
      | some (BodyScan.unterminated yycursor) => formUnterminatedBody E yycursor s
      | some (BodyScan.endMarker yycursor indentation spacing newlineLength) =>
        finishNowdocBody E newlineLength indentation spacing
          (nowdocMarkerState s label yycursor indentation spacing)
      | some (BodyScan.stopped yycursor indentation spacing) =>
        finishNowdocBody E 0 indentation spacing (setYYCursor yycursor s)

/-- `Lexer::peekNextToken`: the token under construction, `m_nextToken`. -/
def peekNextToken (s : Lexer) : Token := s.nextToken

/-- `Lexer::lex(result, leadingTriviaResult, trailingTrivialResult)` with the
scanner `yy_token_lex` as a parameter: `lexImpl()`, then `result = m_nextToken`,
and with trivia retention on the two trivia lists are copied out.  The result
is the lexer after the call and the three values handed to the caller; without
trivia retention the caller's lists stay as they were passed, empty. -/
def lexCall (E : Externs) (yy_token_lex : Lexer → Option Lexer) (s : Lexer) :
    Option (Lexer × Token × List ParsedTriviaPiece × List ParsedTriviaPiece) :=
  (lexImpl E yy_token_lex s).map fun t =>
    if t.triviaRetention = TriviaRetentionMode.WithTrivia then
      (t, t.nextToken, t.leadingTrivia, t.trailingTrivia)
    else (t, t.nextToken, [], [])

/-- `find_start_of_line(bufStart, current)` for `bufStart` the first byte of
`buf` and `current` the byte at the given offset. -/
def find_start_of_line (buf : List Nat) : Nat → Nat
  | 0 => 0
  | current + 1 =>
    if byteAt buf (current + 1) = 10 ∨ byteAt buf (current + 1) = 13 then current + 1 + 1
    else find_start_of_line buf current

/-- `Lexer::getLocForStartOfLine` on the buffer that contains the location, as
offsets into that buffer. -/
def getLocForStartOfLine (buf : List Nat) (offset : Nat) : Nat :=
  find_start_of_line buf offset

/-- `Lexer::getIndentationForLine` on the buffer that contains the location:
the start and the bytes of the string it returns.  `is_horizontal_whitespace`
of `CharInfo.h` is not among the source files and is a parameter. -/
def getIndentationForLine (is_horizontal_whitespace : Nat → Bool) (buf : List Nat)
    (offset : Nat) : Nat × List Nat :=
  let startOfLine := find_start_of_line buf offset
  let endOfIndentation := startOfLine +
    countWhile (fun c => c ≠ 0 && is_horizontal_whitespace c) buf startOfLine
  (startOfLine, slice buf startOfLine (endOfIndentation - startOfLine))

/-- `Lexer::restoreState(state, enableDiagnostics)` of `Lexer.h`, for a state
that holds the location `loc`, as a pointer into the buffer, and the optional
leading trivia `leadingTrivia`; `yy_token_lex` is the scanner `lexImpl` ends
with.  The diagnostics engine is taken away during `lexImpl` unless
`enableDiagnostics` holds, and is put back after it. -/
def restoreState (E : Externs) (yy_token_lex : Lexer → Option Lexer) (loc : Nat)
    (leadingTrivia : Option (List ParsedTriviaPiece)) (enableDiagnostics : Bool) (s : Lexer) :
    Option Lexer :=
  let diags := s.diags
  let s := setYYCursor loc s
  let s := { s with diags := if enableDiagnostics then s.diags else false }
  (lexImpl E yy_token_lex s).map fun formed =>
    let restored := { formed with diags := diags }
    if restored.triviaRetention = TriviaRetentionMode.WithTrivia then
      match leadingTrivia with
      | some trivia => { restored with leadingTrivia := trivia }
      | none => restored
    else restored

/-- `Lexer::formVariableToken(tokenStart)`; `m_yyLength` is a `std::size_t`, so
`m_yyLength - 1` is taken modulo `2^64`. -/
def formVariableToken (E : Externs) (tokenStart : Nat) (s : Lexer) : Option Lexer :=
  (formToken E TokenKindType.T_VARIABLE tokenStart s).map fun formed =>
    setValue (TokenValue.str
      (slice formed.buffer (tokenStart + 1) (((formed.yyLength : Int) - 1) % 2 ^ 64).toNat))
      formed

/-- `Lexer::formIdentifierToken(tokenStart)`. -/
def formIdentifierToken (E : Externs) (tokenStart : Nat) (s : Lexer) : Option Lexer :=
  (formToken E TokenKindType.T_IDENTIFIER_STRING tokenStart s).map fun formed =>
    setValue (TokenValue.str (slice formed.buffer tokenStart formed.yyLength)) formed

/-- `Lexer::formStringVariableToken(tokenStart)`. -/
def formStringVariableToken (E : Externs) (tokenStart : Nat) (s : Lexer) : Option Lexer :=
  (formToken E TokenKindType.T_STRING_VARNAME tokenStart s).map fun formed =>
    setValue (TokenValue.str (slice formed.buffer tokenStart formed.yyLength)) formed

/-! ## The scanner rules and `Lexer::lex` -/

/-- Modelled from the spec: the rules of the generated scanner `yy_token_lex`,
which is not among the source files, that the heredoc routines are reached
through.  In the condition `EndHeredoc` the scanner consumes one byte and calls
`lexHereAndNowDocEnd` ("`EndHeredoc` consumes `indentation + label.length`
bytes", of which that routine adds all but one).  In the condition `InHeredoc`
the scanner consumes one byte and calls `lexHeredocBody` ("Phase 2 (body
scan): consume bytes until the matching end marker is found"; the routine
steps back over that byte first: "re2c already increment yycursor").  In the
condition `InScripting` a heredoc header at the cursor is matched and passed
to `lexHeredocHeader`, and at the artificial end the end-of-file token is
formed ("A synthesized `EndOfFile` token is emitted when the artificial end
is reached").  The rules for every other input are not modelled and yield
`none`; `lexFn` is `Lexer::lex`. -/
def yy_token_lex (E : Externs) (lexFn : Lexer → Option Lexer) (s : Lexer) : Option Lexer :=
  match s.yyCondition with
  | YYLexerCondType.ST_END_HEREDOC => lexHereAndNowDocEnd E (setYYCursor (s.yyCursor + 1) s)
  | YYLexerCondType.ST_HEREDOC => lexHeredocBody E (setYYCursor (s.yyCursor + 1) s)
  | YYLexerCondType.ST_IN_SCRIPTING =>
    if s.yyCursor ≥ s.artificialEof then formToken E TokenKindType.END s.yyText s
    else
      match matchHeredocHeader (bytesBetween s.buffer s.yyCursor s.artificialEof) with
      | some n => lexHeredocHeader E lexFn (setYYLength n (setYYCursor (s.yyCursor + n) s))
      | none => none
  | _ => none

/-- `Lexer::lex`: the lex driver with the scanner rules above, nested calls of
`lex` from the scan-ahead pass taking one unit of the first argument each. -/
def lex (E : Externs) : Nat → Lexer → Option Lexer
  | 0, _ => none
  | fuel + 1, s => lexImpl E (yy_token_lex E (lex E fuel)) s

/-- The lexer states after each of the first `n` calls of `lex`. -/
def lexMany (E : Externs) (fuel : Nat) : Nat → Lexer → Option (List Lexer)
  | 0, _ => some []
  | n + 1, s =>
    match lex E fuel s with
    | none => none
    | some s1 => (lexMany E fuel n s1).map fun rest => s1 :: rest

/-! ## The conversions of `ConvertUtf.cpp` -/

/-- `ConversionResult`. -/
inductive ConversionResult where
  | ConversionOK
  | SourceExhausted
  | TargetExhausted
  | SourceIllegal
  deriving DecidableEq

/-- `ConversionFlags`. -/
inductive ConversionFlags where
  | StrictConversion
  | LenientConversion
  deriving DecidableEq

/-- The constants of `ConvertUtf.h`, which is not among the source files. -/
structure UtfConstants where
  UNI_REPLACEMENT_CHAR : Nat
  UNI_MAX_BMP : Nat
  UNI_MAX_LEGAL_UTF32 : Nat

/-- `sg_halfShift`. -/
def sg_halfShift : Nat := 10

/-- `sg_halfBase`. -/
def sg_halfBase : Nat := 0x0010000

/-- `sg_halfMask`. -/
def sg_halfMask : Nat := 0x3FF

/-- `UNI_SUR_HIGH_START`. -/
def UNI_SUR_HIGH_START : Nat := 0xD800

/-- `UNI_SUR_LOW_START`. -/
def UNI_SUR_LOW_START : Nat := 0xDC00

/-- `UNI_SUR_LOW_END`. -/
def UNI_SUR_LOW_END : Nat := 0xDFFF

/-- `sg_trailingBytesForUTF8`. -/
def sg_trailingBytesForUTF8 : List Nat :=
  [0,0,0,0,0,0,0,0,0,0,0,0,0,0,0,0, 0,0,0,0,0,0,0,0,0,0,0,0,0,0,0,0,
   0,0,0,0,0,0,0,0,0,0,0,0,0,0,0,0, 0,0,0,0,0,0,0,0,0,0,0,0,0,0,0,0,
   0,0,0,0,0,0,0,0,0,0,0,0,0,0,0,0, 0,0,0,0,0,0,0,0,0,0,0,0,0,0,0,0,
   0,0,0,0,0,0,0,0,0,0,0,0,0,0,0,0, 0,0,0,0,0,0,0,0,0,0,0,0,0,0,0,0,
   0,0,0,0,0,0,0,0,0,0,0,0,0,0,0,0, 0,0,0,0,0,0,0,0,0,0,0,0,0,0,0,0,
   0,0,0,0,0,0,0,0,0,0,0,0,0,0,0,0, 0,0,0,0,0,0,0,0,0,0,0,0,0,0,0,0,
   1,1,1,1,1,1,1,1,1,1,1,1,1,1,1,1, 1,1,1,1,1,1,1,1,1,1,1,1,1,1,1,1,
   2,2,2,2,2,2,2,2,2,2,2,2,2,2,2,2, 3,3,3,3,3,3,3,3,4,4,4,4,5,5,5,5]

/-- `sg_offsetsFromUTF8`. -/
def sg_offsetsFromUTF8 : List Nat :=
  [0x00000000, 0x00003080, 0x000E2080, 0x03C82080, 0xFA082080, 0x82082080]

/-- `sg_firstByteMark`. -/
def sg_firstByteMark : List Nat := [0x00, 0x00, 0xC0, 0xE0, 0xF0, 0xF8, 0xFC]

/-- The loop of `convert_utf32_to_utf16` over the code points from `source` to
`sourceEnd`, given as a list; `source` is the offset of the first of them from
`*sourceStart` and `target` the units written so far, so that the target pointer
stands `target.length` units after `*targetStart` and `capacity` is
`targetEnd - *targetStart`.  `Utf32` is an unsigned 32-bit and `Utf16` an
unsigned 16-bit type.  The result is the returned value, the offset left in
`*sourceStart` and the units written. -/
def utf32ToUtf16Loop (K : UtfConstants) (capacity : Nat) (flags : ConversionFlags) :
    List Nat → ConversionResult → Nat → List Nat → ConversionResult × Nat × List Nat
  | [], result, source, target => (result, source, target)
  | ch :: rest, result, source, target =>
    if target.length ≥ capacity then (ConversionResult.TargetExhausted, source, target)
    else if ch ≤ K.UNI_MAX_BMP then
      if ch ≥ UNI_SUR_HIGH_START ∧ ch ≤ UNI_SUR_LOW_END then
        if flags = ConversionFlags.StrictConversion then
          (ConversionResult.SourceIllegal, source, target)
        else
          utf32ToUtf16Loop K capacity flags rest result (source + 1)
            (target ++ [K.UNI_REPLACEMENT_CHAR % 2 ^ 16])
      else utf32ToUtf16Loop K capacity flags rest result (source + 1) (target ++ [ch % 2 ^ 16])
    else if ch > K.UNI_MAX_LEGAL_UTF32 then
      if flags = ConversionFlags.StrictConversion then
        utf32ToUtf16Loop K capacity flags rest ConversionResult.SourceIllegal (source + 1) target
      else
        utf32ToUtf16Loop K capacity flags rest result (source + 1)
          (target ++ [K.UNI_REPLACEMENT_CHAR % 2 ^ 16])
    else if target.length + 1 ≥ capacity then
      (ConversionResult.TargetExhausted, source, target)
    else
      let ch := (ch + 2 ^ 32 - sg_halfBase) % 2 ^ 32
      utf32ToUtf16Loop K capacity flags rest result (source + 1)
        (target ++ [((ch >>> sg_halfShift) + UNI_SUR_HIGH_START) % 2 ^ 16,
          ((ch &&& sg_halfMask) + UNI_SUR_LOW_START) % 2 ^ 16])

/-- `convert_utf32_to_utf16(sourceStart, sourceEnd, targetStart, targetEnd, flags)`
for the code points `source` between `*sourceStart` and `sourceEnd` and a target
of `capacity` units. -/
def convert_utf32_to_utf16 (K : UtfConstants) (source : List Nat) (capacity : Nat)
    (flags : ConversionFlags) : ConversionResult × Nat × List Nat :=
  utf32ToUtf16Loop K capacity flags source ConversionResult.ConversionOK 0 []

/-- The fall-through `switch (bytesToWrite)` of `convert_utf32_to_utf8`, which
writes the bytes from the last to the first: the bytes in the order in which
they lie in the target.  `Utf8` is an unsigned 8-bit type. -/
def writeUtf8 (bytesToWrite ch : Nat) : List Nat :=
  let byteMask := 0xBF
  let byteMark := 0x80
  match bytesToWrite with
  | 4 =>
    let b4 := ((ch ||| byteMark) &&& byteMask) % 2 ^ 8
    let ch := ch >>> 6
    let b3 := ((ch ||| byteMark) &&& byteMask) % 2 ^ 8
    let ch := ch >>> 6
    let b2 := ((ch ||| byteMark) &&& byteMask) % 2 ^ 8
    let ch := ch >>> 6
    [(ch ||| sg_firstByteMark.getD bytesToWrite 0) % 2 ^ 8, b2, b3, b4]
  | 3 =>
    let b3 := ((ch ||| byteMark) &&& byteMask) % 2 ^ 8
    let ch := ch >>> 6
    let b2 := ((ch ||| byteMark) &&& byteMask) % 2 ^ 8
    let ch := ch >>> 6
    [(ch ||| sg_firstByteMark.getD bytesToWrite 0) % 2 ^ 8, b2, b3]
  | 2 =>
    let b2 := ((ch ||| byteMark) &&& byteMask) % 2 ^ 8
    let ch := ch >>> 6
    [(ch ||| sg_firstByteMark.getD bytesToWrite 0) % 2 ^ 8, b2]
  | 1 => [(ch ||| sg_firstByteMark.getD bytesToWrite 0) % 2 ^ 8]
  | _ => []

/-- The loop of `convert_utf32_to_utf8`, with the arguments of
`utf32ToUtf16Loop`; the target holds bytes. -/
def utf32ToUtf8Loop (K : UtfConstants) (capacity : Nat) (flags : ConversionFlags) :
    List Nat → ConversionResult → Nat → List Nat → ConversionResult × Nat × List Nat
  | [], result, source, target => (result, source, target)
  | ch :: rest, result, source, target =>
    if flags = ConversionFlags.StrictConversion ∧
        ch ≥ UNI_SUR_HIGH_START ∧ ch ≤ UNI_SUR_LOW_END then
      (ConversionResult.SourceIllegal, source, target)
    else
      let sized : Nat × Nat × ConversionResult :=
        if ch < 0x80 then (1, ch, result)
        else if ch < 0x800 then (2, ch, result)
        else if ch < 0x10000 then (3, ch, result)
        else if ch ≤ K.UNI_MAX_LEGAL_UTF32 then (4, ch, result)
        else (3, K.UNI_REPLACEMENT_CHAR, ConversionResult.SourceIllegal)
      let bytesToWrite := sized.1
      if target.length + bytesToWrite > capacity then
        (ConversionResult.TargetExhausted, source, target)
      else
        utf32ToUtf8Loop K capacity flags rest sized.2.2 (source + 1)
          (target ++ writeUtf8 bytesToWrite sized.2.1)

/-- `convert_utf32_to_utf8(sourceStart, sourceEnd, targetStart, targetEnd, flags)`
for the code points `source` between `*sourceStart` and `sourceEnd` and a target
of `capacity` bytes. -/
def convert_utf32_to_utf8 (K : UtfConstants) (source : List Nat) (capacity : Nat)
    (flags : ConversionFlags) : ConversionResult × Nat × List Nat :=
  utf32ToUtf8Loop K capacity flags source ConversionResult.ConversionOK 0 []

/-- `is_legal_utf8(source, length)` for the bytes of `buf` from the offset
`source`; the cases of the outer `switch` fall through from 4 to 1. -/
def is_legal_utf8 (buf : List Nat) (source : Nat) (length : Nat) : Bool :=
  let first := byteAt buf source
  let tail : Bool := !(first > 0xF4)
  let case1 : Bool := if first ≥ 0x80 ∧ first < 0xC2 then false else tail
  let case2 : Bool :=
    let a := byteAt buf (source + 1)
    if a < 0x80 ∨ a > 0xBF then false
    else if first = 0xE0 then (if a < 0xA0 then false else case1)
    else if first = 0xED then (if a > 0x9F then false else case1)
    else if first = 0xF0 then (if a < 0x90 then false else case1)
    else if first = 0xF4 then (if a > 0x8F then false else case1)
    else if a < 0x80 then false
    else case1
  let case3 : Bool :=
    let a := byteAt buf (source + 2)
    if a < 0x80 ∨ a > 0xBF then false else case2
  let case4 : Bool :=
    let a := byteAt buf (source + 3)
    if a < 0x80 ∨ a > 0xBF then false else case3
  match length with
  | 4 => case4
  | 3 => case3
  | 2 => case2
  | 1 => case1
  | _ => false

/-- `is_legal_utf8_sequence(source, sourceEnd)` for offsets into `buf`. -/
def is_legal_utf8_sequence (buf : List Nat) (source sourceEnd : Nat) : Bool :=
  let length := sg_trailingBytesForUTF8.getD (byteAt buf source) 0 + 1
  if (length : Int) > (sourceEnd : Int) - (source : Int) then false
  else is_legal_utf8 buf source length

/-- `find_maximal_subpart_of_illformed_utf8_sequence(source, sourceEnd)` for
offsets into `buf`. -/
def find_maximal_subpart_of_illformed_utf8_sequence (buf : List Nat) (source sourceEnd : Nat) :
    Nat :=
  if source = sourceEnd then 0
  else
    let b1 := byteAt buf source
    let source := source + 1
    if b1 ≥ 0xC2 ∧ b1 ≤ 0xDF then 1
    else if source = sourceEnd then 1
    else
      let b2 := byteAt buf source
      let source := source + 1
      if b1 = 0xE0 then (if b2 ≥ 0xA0 ∧ b2 ≤ 0xBF then 2 else 1)
      else if b1 ≥ 0xE1 ∧ b1 ≤ 0xEC then (if b2 ≥ 0x80 ∧ b2 ≤ 0xBF then 2 else 1)
      else if b1 = 0xED then (if b2 ≥ 0x80 ∧ b2 ≤ 0x9F then 2 else 1)
      else if b1 ≥ 0xEE ∧ b1 ≤ 0xEF then (if b2 ≥ 0x80 ∧ b2 ≤ 0xBF then 2 else 1)
      else if b1 = 0xF0 then
        if b2 ≥ 0x90 ∧ b2 ≤ 0xBF then
          if source = sourceEnd then 2
          else if byteAt buf source ≥ 0x80 ∧ byteAt buf source ≤ 0xBF then 3 else 2
        else 1
      else if b1 ≥ 0xF1 ∧ b1 ≤ 0xF3 then
        if b2 ≥ 0x80 ∧ b2 ≤ 0xBF then
          if source = sourceEnd then 2
          else if byteAt buf source ≥ 0x80 ∧ byteAt buf source ≤ 0xBF then 3 else 2
        else 1
      else if b1 = 0xF4 then
        if b2 ≥ 0x80 ∧ b2 ≤ 0x8F then
          if source = sourceEnd then 2
          else if byteAt buf source ≥ 0x80 ∧ byteAt buf source ≤ 0xBF then 3 else 2
        else 1
      else 1

/-- The fall-through `switch (extraBytesToRead)` of `convert_utf8_to_utf32_impl`:
the value of `ch` after it, for the value `ch` before it and the bytes of `buf`
from the offset `source`. -/
def readUtf8 (buf : List Nat) : Nat → Nat → Nat → Nat
  | 0, source, ch => (ch + byteAt buf source) % 2 ^ 32
  | extraBytesToRead + 1, source, ch =>
    readUtf8 buf extraBytesToRead (source + 1)
      ((((ch + byteAt buf source) % 2 ^ 32) <<< 6) % 2 ^ 32)

/-- How one iteration of the loop of `convert_utf8_to_utf32_impl` ends: with a
`break`, or at the end of the body or a `continue`; in both cases with a result,
a source offset and the code points written so far. -/
inductive Utf8Step where
  | stop (result : ConversionResult) (source : Nat) (target : List Nat)
  | next (result : ConversionResult) (source : Nat) (target : List Nat)
  deriving DecidableEq

/-- One iteration of the loop of `convert_utf8_to_utf32_impl`, entered with
`source < sourceEnd`, for offsets into `buf`; `target` is the list of code
points written so far and `capacity` is `targetEnd - *targetStart`.  Every
`*target++ = ...` appends to the list, also when the list already holds
`capacity` code points, so that a write at or after `targetEnd` shows as a
list longer than `capacity`. -/
def utf8ToUtf32Step (K : UtfConstants) (buf : List Nat) (sourceEnd capacity : Nat)
    (flags : ConversionFlags) (inputIsPartial : Bool) (result : ConversionResult)
    (source : Nat) (target : List Nat) : Utf8Step :=
  let extraBytesToRead := sg_trailingBytesForUTF8.getD (byteAt buf source) 0
  if (extraBytesToRead : Int) ≥ (sourceEnd : Int) - (source : Int) then
    if flags = ConversionFlags.StrictConversion ∨ inputIsPartial = true then
      Utf8Step.stop ConversionResult.SourceExhausted source target
    else
      Utf8Step.next ConversionResult.SourceIllegal
        (source + find_maximal_subpart_of_illformed_utf8_sequence buf source sourceEnd)
        (target ++ [K.UNI_REPLACEMENT_CHAR])
  else if target.length ≥ capacity then
    Utf8Step.stop ConversionResult.TargetExhausted source target
  else if !is_legal_utf8 buf source (extraBytesToRead + 1) then
    if flags = ConversionFlags.StrictConversion then
      Utf8Step.stop ConversionResult.SourceIllegal source target
    else
      Utf8Step.next ConversionResult.SourceIllegal
        (source + find_maximal_subpart_of_illformed_utf8_sequence buf source sourceEnd)
        (target ++ [K.UNI_REPLACEMENT_CHAR])
  else
    let ch := readUtf8 buf extraBytesToRead source 0
    let read := source + (extraBytesToRead + 1)
    let ch := (ch + 2 ^ 32 - sg_offsetsFromUTF8.getD extraBytesToRead 0) % 2 ^ 32
    if ch ≤ K.UNI_MAX_LEGAL_UTF32 then
      if ch ≥ UNI_SUR_HIGH_START ∧ ch ≤ UNI_SUR_LOW_END then
        if flags = ConversionFlags.StrictConversion then
          Utf8Step.stop ConversionResult.SourceIllegal (read - (extraBytesToRead + 1)) target
        else Utf8Step.next result read (target ++ [K.UNI_REPLACEMENT_CHAR])
      else Utf8Step.next result read (target ++ [ch])
    else Utf8Step.next ConversionResult.SourceIllegal read (target ++ [K.UNI_REPLACEMENT_CHAR])

/-- The loop `while (source < sourceEnd)` of `convert_utf8_to_utf32_impl`, one
iteration per unit of the first argument. -/
def utf8ToUtf32Loop (K : UtfConstants) (buf : List Nat) (sourceEnd capacity : Nat)
    (flags : ConversionFlags) (inputIsPartial : Bool) :
    Nat → ConversionResult → Nat → List Nat → Option (ConversionResult × Nat × List Nat)
  | 0, _, _, _ => none
  | fuel + 1, result, source, target =>
    if source < sourceEnd then
      match utf8ToUtf32Step K buf sourceEnd capacity flags inputIsPartial result source target with
      | Utf8Step.stop r s t => some (r, s, t)
      | Utf8Step.next r s t =>
        utf8ToUtf32Loop K buf sourceEnd capacity flags inputIsPartial fuel r s t
    else some (result, source, target)

/-- `convert_utf8_to_utf32_impl(sourceStart, sourceEnd, targetStart, targetEnd,
flags, InputIsPartial)` for offsets into `buf` and a target of `capacity` code
points.  Every iteration that goes on consumes a byte, so the distance to
`sourceEnd` plus one bounds the number of iterations. -/
def convert_utf8_to_utf32_impl (K : UtfConstants) (buf : List Nat) (sourceStart sourceEnd : Nat)
    (capacity : Nat) (flags : ConversionFlags) (inputIsPartial : Bool) :
    Option (ConversionResult × Nat × List Nat) :=
  utf8ToUtf32Loop K buf sourceEnd capacity flags inputIsPartial (sourceEnd - sourceStart + 1)
    ConversionResult.ConversionOK sourceStart []

/-- `convert_utf8_to_utf32_partial`. -/
def convert_utf8_to_utf32_partial (K : UtfConstants) (buf : List Nat)
    (sourceStart sourceEnd : Nat) (capacity : Nat) (flags : ConversionFlags) :
    Option (ConversionResult × Nat × List Nat) :=
  convert_utf8_to_utf32_impl K buf sourceStart sourceEnd capacity flags true

/-- `convert_utf8_to_utf32`. -/
def convert_utf8_to_utf32 (K : UtfConstants) (buf : List Nat) (sourceStart sourceEnd : Nat)
    (capacity : Nat) (flags : ConversionFlags) :
    Option (ConversionResult × Nat × List Nat) :=
  convert_utf8_to_utf32_impl K buf sourceStart sourceEnd capacity flags false

/-- The values of the constants of `ConvertUtf.h` the comments of
`ConvertUtf.cpp` give (`0xFFFF` for `UNI_MAX_BMP`, `0x10FFFF` for
`UNI_MAX_LEGAL_UTF32`), with the Unicode replacement character `U+FFFD`; used
to run the conversions on concrete inputs. -/
def unicodeConstants : UtfConstants :=
  { UNI_REPLACEMENT_CHAR := 0xFFFD, UNI_MAX_BMP := 0xFFFF, UNI_MAX_LEGAL_UTF32 := 0x10FFFF }

/-! ## An instance of the helper routines for concrete inputs -/

/-- Modelled from the spec: the escape conversion of a single-quoted string,
whose code is not among the source files.  "Recognized escapes inside single
quotes: `\\` and `\'` only." -/
def unescapeSingleQuoted : List Nat → List Nat
  | 92 :: c :: rest =>
    if c = 92 ∨ c = 39 then c :: unescapeSingleQuoted rest
    else 92 :: c :: unescapeSingleQuoted rest
  | c :: rest => c :: unescapeSingleQuoted rest
  | [] => []

/-- An instance of the helper routines, used to run the scanners on concrete
buffers: the line skipper stops at the first `\n` or `\r` before the end pointer
and else at the end pointer, the block-comment skipper runs to the end pointer,
no byte outside the ASCII table of `lexTrivia` starts an identifier or an
operator or continues an identifier, and the UTF-8 reader consumes one byte and
reports it invalid unless it is an ASCII byte; the single-quote conversion
replaces `\\` and `\'` by the escaped byte and counts the `\n` bytes; the
double-quote conversion and the indentation stripper succeed and leave the
string and the lexer as they are, and `handle_newlines` adds the number of `\n`
bytes to the line number. -/
def plainExterns : Externs where
  advance_to_end_of_line := fun buf p e _ _ =>
    let k := countWhile (fun c => c ≠ 10 && c ≠ 13) buf p
    if p + k < e ∧ (byteAt buf (p + k) = 10 ∨ byteAt buf (p + k) = 13) then (p + k, true)
    else (max p e, false)
  skip_to_end_of_slash_star_comment := fun _ p e _ _ => (max p e, false)
  advance_if_valid_start_of_identifier := fun _ _ _ => none
  advance_if_valid_continuation_of_identifier := fun _ _ _ => none
  advance_if_valid_start_of_operator := fun _ _ _ => none
  validate_utf8_character_and_advance := fun buf p e =>
    (if byteAt buf p < 128 then byteAt buf p else 0xFFFFFFFF, min (p + 1) (max p e))
  convert_single_quote_str_escape_sequences := fun body =>
    (unescapeSingleQuoted body, (body.filter fun c => c = 10).length)
  convert_double_quote_str_escape_sequences := fun s str _ => (true, str, s)
  strip_multiline_string_indentation := fun s str _ _ _ _ => (true, str, s)
  handle_newlines := fun s p n =>
    incLineNumber ((slice s.buffer p n).filter fun c => c = 10).length s

/-- A lexer over the whole of `buf` at the moment the scanner has matched the
token text `[yyText, yyText + yyLength)` and calls a literal routine: `prev` is
the kind of the previously formed token, `parseMode` tells whether a semantic
value container is attached. -/
def scanState (buf : List Nat) (yyText yyLength : Nat) (prev : TokenKindType)
    (parseMode : Bool) (triviaRetention : TriviaRetentionMode) : Lexer :=
  { buffer := buf
    bufferEnd := buf.length
    artificialEof := buf.length
    yyText := yyText
    yyLength := yyLength
    yyCursor := yyText + yyLength
    valueContainer := parseMode
    triviaRetention := triviaRetention
    nextToken := { kind := prev } }

/-! ## Specification vocabulary for the theorems -/

/-- The trivia scanner changes nothing of the lexer but the cursor and the
at-start-of-line flag of the token under construction. -/
def TriviaFrame (s t : Lexer) : Prop :=
  ∃ c a, t = { s with yyCursor := c, nextToken := { s.nextToken with atStartOfLine := a } }

/-- The kind `formToken` gives the token: the requested kind unless the token
starts at or after the artificial end. -/
def formedKind (kind : TokenKindType) (tokenStart : Nat) (s : Lexer) : TokenKindType :=
  if kind ≠ TokenKindType.END ∧ tokenStart ≥ s.artificialEof then TokenKindType.END else kind

/-- The lexer `formToken` returns, given the cursor, the at-start-of-line flag
and the trailing trivia the trailing-trivia scan ends with. -/
def formedLexer (kind : TokenKindType) (tokenStart : Nat) (s : Lexer) (c : Nat) (a : Bool)
    (tr : List ParsedTriviaPiece) : Lexer :=
  setToken (formedKind kind tokenStart s) tokenStart (s.yyCursor - tokenStart)
    (if s.commentRetention = CommentRetentionMode.AttachToNextToken then
      commentLengthOf s.leadingTrivia else 0)
    { s with yyCursor := c, nextToken := { s.nextToken with atStartOfLine := a },
             trailingTrivia := tr }

/-- The state in which the scanner calls a numeric literal routine: the token
text `text` lies at `m_yyText` with `rest` after it, `m_yyLength` is its length,
the cursor is at its end, the token starts before the artificial end, and the
buffer ends at `m_bufferEnd`. -/
structure NumberToken (s : Lexer) (text rest : List Nat) : Prop where
  atBufferEnd : s.bufferEnd = s.buffer.length
  textAt : s.buffer.drop s.yyText = text ++ rest
  lengthEq : s.yyLength = text.length
  lengthBound : s.yyLength < 2 ^ 64
  cursorEq : s.yyCursor = s.yyText + s.yyLength
  inRange : s.yyText < s.artificialEof

/-- The base `lexLongNumber` reads an integer literal in: 8 when the text
starts with `0`, otherwise 10. -/
def literalBase (ds : List Nat) : Nat := if ds.headD 0 = 48 then 8 else 10

/-- Whether the bytes after an integer literal continue it to a literal with an
exponent: `e` or `E`, an optional sign, and a digit. -/
def exponentFollows (rest : List Nat) : Bool :=
  (rest.getD 0 0 = 101 || rest.getD 0 0 = 69) &&
    (if rest.getD 1 0 = 43 ∨ rest.getD 1 0 = 45 then isDecimalDigit (rest.getD 2 0)
     else isDecimalDigit (rest.getD 1 0))

/-- The state in which the scanner calls `lexSingleQuoteString`: the buffer ends
at `m_bufferEnd`, the artificial end is inside the buffer, and the cursor is
past the token start (after the opening quote) and not past the artificial
end. -/
structure QuoteOpened (s : Lexer) : Prop where
  atBufferEnd : s.bufferEnd = s.buffer.length
  limitInBuffer : s.artificialEof ≤ s.bufferEnd
  afterStart : s.yyText < s.yyCursor
  beforeLimit : s.yyCursor ≤ s.artificialEof

/-- The trivia kinds of a line terminator: `Newline`, `CarriageReturn` and
`CarriageReturnLineFeed`. -/
def isNewlineTriviaKind (kind : TriviaKind) : Bool :=
  match kind with
  | .Newline | .CarriageReturn | .CarriageReturnLineFeed => true
  | _ => false

/-- The trivia kinds the trailing-trivia scan leaves to the next token: the line
terminators and the comments. -/
def isLineBreakOrComment (kind : TriviaKind) : Bool :=
  isNewlineTriviaKind kind || is_comment_trivia_kind kind

/-- The trivia kinds of a block comment: `BlockComment` and `DocBlockComment`. -/
def isBlockCommentKind (kind : TriviaKind) : Bool :=
  match kind with
  | .BlockComment | .DocBlockComment => true
  | _ => false

/-- Whether a trivia list holds a piece of a line-terminator kind. -/
def hasNewlinePiece (trivia : List ParsedTriviaPiece) : Bool :=
  trivia.any fun p => isNewlineTriviaKind p.kind

/-- Whether a trivia list holds a piece of a line-terminator kind or of a
block-comment kind. -/
def hasNewlineOrBlockComment (trivia : List ParsedTriviaPiece) : Bool :=
  trivia.any fun p => isNewlineTriviaKind p.kind || isBlockCommentKind p.kind

/-- What one pass or a whole run of the leading-trivia scan keeps true between
the at-start-of-line flag and the pieces of the trivia list. -/
def LeadingFlagStep (s : Lexer) (trivia : List ParsedTriviaPiece) (t : Lexer)
    (tr : List ParsedTriviaPiece) : Prop :=
  (s.nextToken.atStartOfLine = true → t.nextToken.atStartOfLine = true) ∧
  (hasNewlinePiece tr = true → hasNewlinePiece trivia = true ∨
    t.nextToken.atStartOfLine = true) ∧
  (t.nextToken.atStartOfLine = true → s.nextToken.atStartOfLine = true ∨
    hasNewlineOrBlockComment tr = true) ∧
  (hasNewlineOrBlockComment trivia = true → hasNewlineOrBlockComment tr = true)

/-- The part of `lexImpl` before the leading-trivia scan: the trivia lists are
cleared, a byte order mark at the start of the buffer is skipped and recorded,
the at-start-of-line flag is set from the position, and the value is reset. -/
def lexImplStart (s : Lexer) : Lexer :=
  let s := { s with leadingTrivia := [], trailingTrivia := [] }
  let s :=
    if s.yyCursor = s.bufferStart then
      let s :=
        if s.bufferStart < s.contentStart then
          let BOMLen := s.contentStart - s.bufferStart
          setYYCursor (s.yyCursor + BOMLen)
            { s with leadingTrivia := pushBack s.leadingTrivia TriviaKind.GarbageText BOMLen }
        else s
      setAtStartOfLine true s
    else setAtStartOfLine false s
  resetValueType s

/-- The leading-trivia step of `lexImpl`: the scan, or the clearing of the
reserve-heredoc-spaces flag in its place. -/
def lexImplLeading (E : Externs) (s : Lexer) : Option Lexer :=
  if !s.flags.reserveHeredocSpaces then
    (lexTrivia E s.leadingTrivia false s).map fun r => { r.1 with leadingTrivia := r.2 }
  else some { s with flags := { s.flags with reserveHeredocSpaces := false } }

/-- The last step of `lexImpl` before the scanner is called: the token text
starts at the cursor, and the line number is incremented when that is due. -/
def lexImplText (s : Lexer) : Lexer :=
  let s := { s with yyText := s.yyCursor }
  if s.flags.incrementLineNumber then incLineNumber 1 s else s

/-- The name of the label record on top of the heredoc-label stack. -/
def topLabelName (s : Lexer) : Option (List Nat) :=
  s.heredocLabelStack.head?.map fun p => (labelAt s p).name

/-- The lexer `lexHeredocHeader` passes to `formToken` on its empty-body path,
given the label name, the indentation and the spacing it has measured on the
line after the header. -/
def emptyHeredocState (s : Lexer) (name : List Nat) (indentation spacing : Nat) : Lexer :=
  let s := incLineNumber 1 s
  let s := { s with yyCondition := YYLexerCondType.ST_HEREDOC }
  let label := s.labelHeap.length
  let s := pushHeredocLabel { name := name, indentation := 0 } s
  let savedCursor := s.yyCursor
  let s := setYYCursor (s.yyCursor + indentation) s
  let s :=
    if spacing = HEREDOC_USING_SPACES + HEREDOC_USING_TABS then
      notifyLexicalException "Invalid indentation - tabs and spaces cannot be mixed" 0 s
    else s
  let s := setYYCursor savedCursor s
  let s := updateLabel label (fun l => { l with indentation := indentation }) s
  let s := { s with yyCondition := YYLexerCondType.ST_END_HEREDOC }
  { s with flags := { s.flags with reserveHeredocSpaces := true } }

/-- The state in which the scanner calls `lexHeredocHeader` for a plain header
`<<<`, label, newline that is followed at once by the closing line: leading
spaces and tabs `ws`, the label again, and a byte `c` that starts no label.
The label starts with a label-start byte and does not end in `r`. -/
structure EmptyHeredoc (s : Lexer) (name ws : List Nat) (c : Nat) (rest : List Nat) : Prop where
  atBufferEnd : s.bufferEnd = s.buffer.length
  limitInBuffer : s.artificialEof ≤ s.bufferEnd
  textAt : s.buffer.drop s.yyText = [60, 60, 60] ++ name ++ 10 :: (ws ++ name ++ c :: rest)
  labelStart : isLabelStart (name.headD 0) = true
  labelEnd : name.getLast? ≠ some 114
  blanks : ∀ b ∈ ws, b = 32 ∨ b = 9
  successor : isLabelStart c = false
  lengthEq : s.yyLength = name.length + 4
  cursorEq : s.yyCursor = s.yyText + s.yyLength
  markerInRange : s.yyCursor + ws.length + name.length < s.artificialEof

/-- The positions at which the body of a double-quoted string ends: a `"`, a
`$` followed by a label-start byte or by `{`, or a `{` followed by `$`. -/
def isDoubleQuoteAnchor (buf : List Nat) (p : Nat) : Bool :=
  byteAt buf p = 34 ||
    (byteAt buf p = 36 && (isLabelStart (byteAt buf (p + 1)) || byteAt buf (p + 1) = 123)) ||
    (byteAt buf p = 123 && byteAt buf (p + 1) = 36)

/-- The first position at or after `p` and before `limit` that holds an anchor,
skipping each backslash together with the byte it escapes (`escaped` tells
whether the byte at `p` is escaped); `limit` when there is none.  The first
argument is the distance from `p` to `limit`. -/
def firstAnchor (buf : List Nat) (limit : Nat) : Nat → Nat → Bool → Nat
  | 0, _, _ => limit
  | n + 1, p, escaped =>
    if limit ≤ p then limit
    else if escaped then firstAnchor buf limit n (p + 1) false
    else if byteAt buf p = 92 then firstAnchor buf limit n (p + 1) true
    else if isDoubleQuoteAnchor buf p then p
    else firstAnchor buf limit n (p + 1) false

/-- The state in which the scanner calls `lexDoubleQuoteString`: it has matched
one byte of the string body, so the cursor is one byte after the token start and
not after the artificial end, which lies in the buffer. -/
structure DoubleQuoteEntered (s : Lexer) : Prop where
  atBufferEnd : s.bufferEnd = s.buffer.length
  limitInBuffer : s.artificialEof ≤ s.bufferEnd
  afterChar : s.yyCursor = s.yyText + 1
  lengthEq : s.yyLength = 1
  beforeLimit : s.yyCursor ≤ s.artificialEof

/-- The bytes at which a trailing-trivia scan stops at once: a line terminator
or a byte listed in `lexTrivia` as the start of a token. -/
def stopsTrailingTrivia (c : Nat) : Bool := c = 10 || c = 13 || isTokenStartByte c

/-- The outcome of the check both body scanners make after a line terminator:
the end marker is found, the limit is met, or the scan goes on from the cursor
after the indentation. -/
inductive LineCheck where
  | endMarker (yycursor indentation spacing newlineLength : Nat)
  | unterminated (yycursor : Nat)
  | resume (yycursor indentation spacing : Nat)
  deriving DecidableEq, Repr

/-- The statements of `case '\r'` and `case '\n'` of the body scanners up to the
`break`, the `return` or the `continue`: `c` is the line terminator just read
and `y` the cursor after it. -/
def checkLine (s : Lexer) (label : HereDocLabel) (c y : Nat) : LineCheck :=
  let yycursor := if c = 13 ∧ byteAt s.buffer y = 10 then y + 1 else y
  let indentation := countIndentation s.buffer yycursor s.artificialEof
  let spacing := spacingOf (slice s.buffer yycursor indentation)
  let yycursor := yycursor + indentation
  if yycursor = s.artificialEof then LineCheck.unterminated yycursor
  else if isFoundHeredocEndMarker (setYYCursor yycursor s) label then
    if isLabelStart (byteAt s.buffer (yycursor + label.name.length)) then
      LineCheck.resume yycursor indentation spacing
    else
      LineCheck.endMarker yycursor indentation spacing
        (newlineLengthBefore s.buffer yycursor indentation)
  else LineCheck.resume yycursor indentation spacing

/-- The end marker as the body scanners recognise it with the cursor at `q`:
`isFoundHeredocEndMarker` holds there and the byte after the label starts no
label. -/
def markerAt (s : Lexer) (label : HereDocLabel) (q : Nat) : Bool :=
  isFoundHeredocEndMarker (setYYCursor q s) label &&
    !isLabelStart (byteAt s.buffer (q + label.name.length))

/-- The positions at which the scan of a heredoc body stops for an
interpolation: a `$` followed by a label-start byte or by `{`, or a `{` followed
by `$`. -/
def isInterpolationAt (buf : List Nat) (p : Nat) : Bool :=
  (byteAt buf p = 36 && (isLabelStart (byteAt buf (p + 1)) || byteAt buf (p + 1) = 123)) ||
    (byteAt buf p = 123 && byteAt buf (p + 1) = 36)

/-- Whether the line that starts at `y` is a closing line for `label`: a line
terminator precedes it and its run of blanks is followed by the marker. -/
def closingLineAt (s : Lexer) (label : HereDocLabel) (y : Nat) : Bool :=
  (byteAt s.buffer (y - 1) = 10 || byteAt s.buffer (y - 1) = 13) &&
    markerAt s label (y + countIndentation s.buffer y s.artificialEof)

/-- What holds of the way a body scan that started at `x` is left; `interpolates`
tells the scan of a heredoc body from that of a nowdoc body.  At an end marker
the cursor `q` is on a marker after the measured indentation of a line that
starts after `x`; an unterminated body ends at the limit; a scan that stops
before the limit stops at an interpolation; and a scan stops after the limit
only by one byte, the `\n` of a `\r\n` pair of which the `\r` is the last byte
before the limit. -/
def BodyScan.Ok (s : Lexer) (label : HereDocLabel) (interpolates : Bool) (x : Nat) :
    BodyScan → Prop
  | BodyScan.endMarker q i sp nl =>
    x < q - i ∧ i ≤ q ∧ q < s.artificialEof ∧ closingLineAt s label (q - i) = true ∧
      i = countIndentation s.buffer (q - i) s.artificialEof ∧
      sp = spacingOf (slice s.buffer (q - i) i) ∧ nl = newlineLengthBefore s.buffer q i
  | BodyScan.unterminated q => q = s.artificialEof ∧ x < q
  | BodyScan.stopped c _ _ =>
    x ≤ c ∧ c ≤ s.bufferEnd ∧
      (c ≤ s.artificialEof ∨ (c = s.artificialEof + 1 ∧
        byteAt s.buffer (s.artificialEof - 1) = 13 ∧ byteAt s.buffer s.artificialEof = 10)) ∧
      (c < s.artificialEof → interpolates = true ∧ isInterpolationAt s.buffer c = true)

/-- The state in which a body scanner is entered: the scanner matched one byte
of the body before the artificial end, the label stack has the pointer `p` on
top, and the body is not closed yet. -/
structure BodyEntered (s : Lexer) (p : Nat) : Prop where
  atBufferEnd : s.bufferEnd = s.buffer.length
  limitInBuffer : s.artificialEof ≤ s.bufferEnd
  afterChar : s.yyCursor = s.yyText + 1
  beforeLimit : s.yyCursor ≤ s.artificialEof
  topLabel : ∃ rest, s.heredocLabelStack = p :: rest
  bodyOpen : s.yyCondition ≠ YYLexerCondType.ST_END_HEREDOC

/-- What every way out of a body scanner gives of the state `u` in which the
scan left the cursor and the length: the condition and the length are kept, the
token text runs from the start of the text to the cursor, and the cursor stays
unless trailing trivia is scanned. -/
structure BodyTokenFormed (u t : Lexer) : Prop where
  condition : t.yyCondition = u.yyCondition
  length : t.yyLength = u.yyLength
  textStart : t.nextToken.textStart = u.yyText
  textLength : t.nextToken.textLength = u.yyCursor - u.yyText
  cursorLe : u.yyCursor ≤ t.yyCursor
  cursorIn : t.yyCursor ≤ u.bufferEnd
  cursorEq : u.triviaRetention = TriviaRetentionMode.WithoutTrivia ∨
    u.yyCursor = u.bufferEnd ∨ stopsTrailingTrivia (byteAt u.buffer u.yyCursor) = true →
    t.yyCursor = u.yyCursor

/-- What the ways out of a body scanner that only count the newlines give in
addition: the kind, the value (the text less `nl` bytes at its end) and the
record of a lexical exception, which is kept. -/
structure PlainBodyToken (u t : Lexer) (nl : Nat) : Prop where
  kind : t.nextToken.kind =
    formedKind TokenKindType.T_ENCAPSED_AND_WHITESPACE u.yyText u
  value : t.nextToken.value = TokenValue.str (slice u.buffer u.yyText (u.yyLength - nl))
  flags : t.flags = u.flags
  message : t.currentExceptionMsg = u.currentExceptionMsg

/-- The position after the line terminator (`\n`, `\r` or `\r\n`) that starts
at `x`. -/
def lineStartAfter (buf : List Nat) (x : Nat) : Nat :=
  if byteAt buf x = 13 ∧ byteAt buf (x + 1) = 10 then x + 1 + 1 else x + 1

/-- The position after the run of blanks (up to the artificial end) of the line
that follows the line terminator at `x`. -/
def markerPosition (s : Lexer) (x : Nat) : Nat :=
  lineStartAfter s.buffer x +
    countIndentation s.buffer (lineStartAfter s.buffer x) s.artificialEof

/-- The way the loop of `lexHeredocBody` is left when the scanner is entered in
`s` with the pointer `p` on top of the label stack. -/
def heredocBodyScan (s : Lexer) (p : Nat) : Option BodyScan :=
  heredocBodyLoop s (labelAt s p) (s.artificialEof - (s.yyCursor - 1) + 1) (s.yyCursor - 1)

/-- The way the loop of `lexNowdocBody` is left when the scanner is entered in
`s` with the pointer `p` on top of the label stack. -/
def nowdocBodyScan (s : Lexer) (p : Nat) : Option BodyScan :=
  nowdocBodyLoop s (labelAt s p) (s.artificialEof - (s.yyCursor - 1) + 1) (s.yyCursor - 1) 0 0

/-- What the token `t` of a body that was not closed is, for the lexer `s` on
entry: a `T_ENCAPSED_AND_WHITESPACE` whose value is its text, which starts at
the start of the text and ends at the artificial end (or one byte after it, when
the `\r` of a `\r\n` pair is the last byte before the artificial end); the
cursor is at the end of the text or after it, and at the end of the text when
trivia is not retained.  When the artificial end is the end of the buffer the
text ends there and the cursor is there. -/
structure RecoveredBody (s t : Lexer) : Prop where
  kind : t.nextToken.kind = TokenKindType.T_ENCAPSED_AND_WHITESPACE
  value : t.nextToken.value = TokenValue.str (slice s.buffer s.yyText t.yyLength)
  textStart : t.nextToken.textStart = s.yyText
  textLength : t.nextToken.textLength = t.yyLength
  textEnd : s.yyText + t.yyLength = s.artificialEof ∨
    (s.yyText + t.yyLength = s.artificialEof + 1 ∧
      byteAt s.buffer (s.artificialEof - 1) = 13 ∧ byteAt s.buffer s.artificialEof = 10)
  cursorGe : s.yyText + t.yyLength ≤ t.yyCursor
  cursorIn : t.yyCursor ≤ s.bufferEnd
  cursorEq : s.triviaRetention = TriviaRetentionMode.WithoutTrivia →
    t.yyCursor = s.yyText + t.yyLength
  wholeBuffer : s.artificialEof = s.bufferEnd →
    s.yyText + t.yyLength = s.artificialEof ∧ t.yyCursor = s.artificialEof

/-- A position at which a line starts: the start of the buffer, or the position
after a `\n` or a `\r`. -/
def isLineStart (buf : List Nat) (p : Nat) : Bool :=
  p = 0 || byteAt buf (p - 1) = 10 || byteAt buf (p - 1) = 13

/-- The trivia kinds of the whitespace bytes: `Space`, `Tab`, `VerticalTab`,
`Formfeed`, `Newline`, `CarriageReturn` and `CarriageReturnLineFeed`. -/
def isWhitespaceTriviaKind (kind : TriviaKind) : Bool :=
  match kind with
  | .Space | .Tab | .VerticalTab | .Formfeed | .Newline | .CarriageReturn
  | .CarriageReturnLineFeed => true
  | _ => false

/-- How the trivia scanner may extend a trivia list: by squashing in a piece of
a whitespace kind, by pushing a garbage-text piece, and, when `attach` holds, by
pushing a comment piece. -/
inductive TriviaGrowth (attach : Bool) :
    List ParsedTriviaPiece → List ParsedTriviaPiece → Prop where
  | same (l : List ParsedTriviaPiece) : TriviaGrowth attach l l
  | blank {l m : List ParsedTriviaPiece} (k : TriviaKind) (n : Nat) :
      TriviaGrowth attach l m → isWhitespaceTriviaKind k = true →
      TriviaGrowth attach l (appendOrSquash m k n)
  | garbage {l m : List ParsedTriviaPiece} (n : Nat) :
      TriviaGrowth attach l m → TriviaGrowth attach l (pushBack m TriviaKind.GarbageText n)
  | comment {l m : List ParsedTriviaPiece} (k : TriviaKind) (n : Nat) :
      TriviaGrowth attach l m → attach = true → is_comment_trivia_kind k = true →
      TriviaGrowth attach l (pushBack m k n)

/-- Whether the trivia scanner turns comments into trivia pieces: only in a
leading-trivia scan of a lexer that does not return comments as tokens. -/
def attachesComments (isForTrailingTrivia : Bool) (s : Lexer) : Bool :=
  !isForTrailingTrivia && decide (s.commentRetention ≠ CommentRetentionMode.ReturnAsTokens)

/-- The trivia kind of a whitespace byte that is not part of a `\r\n` pair. -/
def whitespaceKind (c : Nat) : TriviaKind :=
  if c = 10 then TriviaKind.Newline
  else if c = 13 then TriviaKind.CarriageReturn
  else if c = 32 then TriviaKind.Space
  else if c = 9 then TriviaKind.Tab
  else if c = 11 then TriviaKind.VerticalTab
  else TriviaKind.Formfeed

/-- The units of a run of whitespace bytes, each with its kind and its number
of bytes: a `\r` followed by `\n` is one `CarriageReturnLineFeed` unit of 2
bytes, every other byte is a unit of 1 byte. -/
def whitespaceUnits : List Nat → List (TriviaKind × Nat)
  | [] => []
  | [c] => [(whitespaceKind c, 1)]
  | c :: d :: rest =>
    if c = 13 ∧ d = 10 then (TriviaKind.CarriageReturnLineFeed, 2) :: whitespaceUnits rest
    else (whitespaceKind c, 1) :: whitespaceUnits (d :: rest)

/-- A unit put in front of a run-length encoding: it joins the first piece when
that has the same kind and is a piece of its own otherwise. -/
def prependUnit (kind : TriviaKind) (length : Nat) :
    List ParsedTriviaPiece → List ParsedTriviaPiece
  | [] => [{ kind := kind, length := length }]
  | p :: ps =>
    if p.kind = kind then { p with length := length + p.length } :: ps
    else { kind := kind, length := length } :: p :: ps

/-- The run-length encoding of a sequence of units: each maximal stretch of
units of one kind is one piece, whose length is the number of bytes of the
stretch. -/
def runLengthEncoding : List (TriviaKind × Nat) → List ParsedTriviaPiece
  | [] => []
  | u :: rest => prependUnit u.1 u.2 (runLengthEncoding rest)

/-- The bounds on the pointers of the lexer that every step keeps: the buffer
ends at `m_bufferEnd`, and the content start, the cursor and the artificial end
lie between the buffer start and the buffer end. -/
structure PointerBounds (s : Lexer) : Prop where
  atBufferEnd : s.bufferEnd = s.buffer.length
  contentGe : s.bufferStart ≤ s.contentStart
  contentLe : s.contentStart ≤ s.bufferEnd
  cursorGe : s.bufferStart ≤ s.yyCursor
  cursorLe : s.yyCursor ≤ s.bufferEnd
  limitGe : s.bufferStart ≤ s.artificialEof
  limitLe : s.artificialEof ≤ s.bufferEnd

/-- The byte order mark piece `lexImpl` records: garbage text of length 3. -/
def bomPiece : ParsedTriviaPiece := { kind := TriviaKind.GarbageText, length := 3 }

/-- What `restoreState` does to the lexer `lexImpl` returns: the diagnostics
engine is put back and, with trivia retention on, the leading trivia of the
state is installed. -/
def restoreStateFinish (diags : Bool) (leadingTrivia : Option (List ParsedTriviaPiece))
    (s : Lexer) : Lexer :=
  if s.triviaRetention = TriviaRetentionMode.WithTrivia then
    match leadingTrivia with
    | some trivia => { s with diags := diags, leadingTrivia := trivia }
    | none => { s with diags := diags }
  else { s with diags := diags }

/-- A routine, entered with the lexer `s` and leaving the lexer in `result`,
keeps a lexical-exception flag that is set. -/
def KeepsException (s : Lexer) (result : Option Lexer) : Prop :=
  ∀ t, result = some t → s.flags.lexExceptionOccurred = true →
    t.flags.lexExceptionOccurred = true

/-- The summed byte lengths of the pieces of a trivia list. -/
def triviaLength (trivia : List ParsedTriviaPiece) : Nat :=
  (trivia.map fun piece => piece.length).sum

/-- Every lexer a routine returns satisfies `P`. -/
def ResultHas (P : Lexer → Prop) (result : Option Lexer) : Prop :=
  ∀ t, result = some t → P t

/-- What `lexHeredocHeader`, entered with the lexer `s`, leaves in the lexer
`t` it returns: the label record it allocated pushed on the label stack, the
condition stack, the scan-ahead flag and the snapshot stack as on entry, with
trivia retention off the cursor as on entry, and the reserve-space flag set
unless only spaces and tabs lie between the cursor and the artificial end. -/
structure HeaderFrame (s t : Lexer) : Prop where
  labels : t.heredocLabelStack = s.labelHeap.length :: s.heredocLabelStack
  conditions : t.yyConditionStack = s.yyConditionStack
  scanAhead : t.flags.heredocScanAhead = s.flags.heredocScanAhead
  snapshots : t.yyStateStack = s.yyStateStack
  cursor : s.triviaRetention = TriviaRetentionMode.WithoutTrivia → t.yyCursor = s.yyCursor
  reserve : s.yyCursor + countIndentation s.buffer s.yyCursor s.artificialEof ≠ s.artificialEof →
    t.flags.reserveHeredocSpaces = true
  noReserve : s.yyCursor + countIndentation s.buffer s.yyCursor s.artificialEof = s.artificialEof →
    t.flags.reserveHeredocSpaces = s.flags.reserveHeredocSpaces

/-- What the scan-ahead pass of `lexHeredocHeader` assumes of `Lexer::lex`, whose
scanner is not part of the sources: a call returns, leaves the buffer, the
snapshot stack and the trivia-retention mode as they are, and either notifies a
lexical error, or forms the end-of-file token, or lowers the measure `remaining`,
which is at most two per byte of the buffer. -/
structure ScanAheadLex (lexFn : Lexer → Option Lexer) (remaining : Lexer → Nat) : Prop where
  keeps : ∀ a b, lexFn a = some b →
    b.yyStateStack = a.yyStateStack ∧ b.triviaRetention = a.triviaRetention
  buffer : ∀ a b, lexFn a = some b → b.buffer = a.buffer
  returns : ∀ a, ∃ b, lexFn a = some b ∧
    (b.flags.lexExceptionOccurred = true ∨ b.nextToken.kind = TokenKindType.END ∨
      remaining b < remaining a)
  bound : ∀ a, remaining a ≤ 2 * a.bufferEnd

/-- Whether the bytes of `buf` from the offset `source` up to `sourceEnd` start
with a well-formed UTF-8 byte sequence of Unicode Table 3-7: the first byte
selects the row of the table, the number of bytes of the row has to be
available before `sourceEnd`, and the other bytes have to lie in the ranges of
the row. -/
def startsWellFormedUtf8 (buf : List Nat) (source sourceEnd : Nat) : Bool :=
  let n := sourceEnd - source
  let b1 := byteAt buf source
  let b2 := byteAt buf (source + 1)
  let b3 := byteAt buf (source + 2)
  let b4 := byteAt buf (source + 3)
  let trail (b : Nat) : Bool := 0x80 ≤ b && b ≤ 0xBF
  if b1 ≤ 0x7F then 1 ≤ n
  else if 0xC2 ≤ b1 ∧ b1 ≤ 0xDF then 2 ≤ n && trail b2
  else if b1 = 0xE0 then 3 ≤ n && (0xA0 ≤ b2 && b2 ≤ 0xBF) && trail b3
  else if 0xE1 ≤ b1 ∧ b1 ≤ 0xEC then 3 ≤ n && trail b2 && trail b3
  else if b1 = 0xED then 3 ≤ n && (0x80 ≤ b2 && b2 ≤ 0x9F) && trail b3
  else if 0xEE ≤ b1 ∧ b1 ≤ 0xEF then 3 ≤ n && trail b2 && trail b3
  else if b1 = 0xF0 then 4 ≤ n && (0x90 ≤ b2 && b2 ≤ 0xBF) && trail b3 && trail b4
  else if 0xF1 ≤ b1 ∧ b1 ≤ 0xF3 then 4 ≤ n && trail b2 && trail b3 && trail b4
  else if b1 = 0xF4 then 4 ≤ n && (0x80 ≤ b2 && b2 ≤ 0x8F) && trail b3 && trail b4
  else false

/-- The label text `lexHeredocHeader` measures in the header that starts at
`m_yyText`: the offset at which it starts (after `<<<`, with a `b` before it,
a blank and an opening quote when there are any) and its length, an `int`: the
length of the header less the prefix, the blank, the quotes and the newline. -/
def headerLabelSpan (s : Lexer) : Nat × Int :=
  let yytext := s.yyText
  let binary : Bool := byteAt s.buffer yytext ≠ 60
  let bpfx : Nat := if binary then 1 else 0
  let newlineLength : Int := if byteAt s.buffer (yytext + s.yyLength - 2) = 114 then 2 else 1
  let length0 : Int := (s.yyLength : Int) - (bpfx : Int) - 3 - newlineLength
  let iter0 := yytext + bpfx + 3
  let blank : Bool := byteAt s.buffer iter0 = 32 || byteAt s.buffer iter0 = 9
  let iter1 := if blank then iter0 + 1 else iter0
  let length1 : Int := if blank then length0 - 1 else length0
  let nowdoc : Bool := byteAt s.buffer iter1 = 39
  let quoted : Bool := nowdoc || byteAt s.buffer iter1 = 34
  let iter := if quoted then iter1 + 1 else iter1
  let hereDocLabelLength : Int := if quoted then length1 - 2 else length1
  (iter, hereDocLabelLength)

/-- Whether `lexHeredocHeader` recognises the closing line right after the
header: the run of spaces and tabs at the cursor ends before the artificial
end, `isFoundHeredocEndMarker` holds there for the label of the header, and
the byte after the measured length of the label is no label-start byte. -/
def headerClosingLine (s : Lexer) : Bool :=
  let name := slice s.buffer (headerLabelSpan s).1 (headerLabelSpan s).2.toNat
  let q := s.yyCursor + countIndentation s.buffer s.yyCursor s.artificialEof
  decide (q ≠ s.artificialEof) &&
    (isFoundHeredocEndMarker (setYYCursor q s) { name := name, indentation := 0 } &&
      !isLabelStart (byteAt s.buffer (q + (headerLabelSpan s).2.toNat)))

/-! ## Theorems -/

/-! ### Buffer access lemmas -/

theorem byteAt_drop (buf : List Nat) (p i : Nat) :
    byteAt buf (p + i) = (buf.drop p).getD i 0 := by
  simp [byteAt, List.getD_eq_getElem?_getD, List.getElem?_drop]

theorem byteAt_lt_of_ne_zero (buf : List Nat) (i : Nat) (h : byteAt buf i ≠ 0) :
    i < buf.length := by
  by_contra hlt
  apply h
  simp only [byteAt, List.getD_eq_getElem?_getD]
  rw [List.getElem?_eq_none (by omega)]
  rfl

theorem takeWhile_append_stop (f : Nat → Bool) (ds rest : List Nat)
    (hds : ∀ c ∈ ds, f c = true) (hrest : ∀ c, rest.head? = some c → f c = false) :
    (ds ++ rest).takeWhile f = ds := by
  induction ds with
  | nil =>
    cases rest with
    | nil => rfl
    | cons c cs => simp [List.takeWhile, hrest c (by simp)]
  | cons d ds ih =>
    have hd : f d = true := hds d (by simp)
    simp [List.takeWhile, hd]
    exact ih (fun c hc => hds c (by simp [hc]))

/-! ### Termination and frame of the trivia scanner -/

theorem TriviaFrame.refl (s : Lexer) : TriviaFrame s s := ⟨s.yyCursor, s.nextToken.atStartOfLine, rfl⟩

theorem TriviaFrame.trans {s t u : Lexer} (h1 : TriviaFrame s t) (h2 : TriviaFrame t u) :
    TriviaFrame s u := by
  obtain ⟨c1, a1, rfl⟩ := h1
  obtain ⟨c2, a2, rfl⟩ := h2
  exact ⟨c2, a2, rfl⟩

theorem TriviaFrame.cursor (s : Lexer) (c : Nat) : TriviaFrame s (setYYCursor c s) :=
  ⟨c, s.nextToken.atStartOfLine, rfl⟩

theorem TriviaFrame.startOfLine (s : Lexer) (a : Bool) : TriviaFrame s (setAtStartOfLine a s) :=
  ⟨s.yyCursor, a, rfl⟩

theorem TriviaFrame.bufferEnd {s t : Lexer} (h : TriviaFrame s t) : t.bufferEnd = s.bufferEnd := by
  obtain ⟨c, a, rfl⟩ := h; rfl

theorem TriviaFrame.buffer {s t : Lexer} (h : TriviaFrame s t) : t.buffer = s.buffer := by
  obtain ⟨c, a, rfl⟩ := h; rfl

@[simp] theorem setYYCursor_yyCursor (c : Nat) (s : Lexer) : (setYYCursor c s).yyCursor = c := rfl

@[simp] theorem setYYCursor_buffer (c : Nat) (s : Lexer) : (setYYCursor c s).buffer = s.buffer := rfl

@[simp] theorem setYYCursor_bufferEnd (c : Nat) (s : Lexer) :
    (setYYCursor c s).bufferEnd = s.bufferEnd := rfl

@[simp] theorem setYYCursor_codeCompletionPtr (c : Nat) (s : Lexer) :
    (setYYCursor c s).codeCompletionPtr = s.codeCompletionPtr := rfl

@[simp] theorem setYYCursor_diags (c : Nat) (s : Lexer) : (setYYCursor c s).diags = s.diags := rfl

@[simp] theorem setAtStartOfLine_yyCursor (a : Bool) (s : Lexer) :
    (setAtStartOfLine a s).yyCursor = s.yyCursor := rfl

@[simp] theorem setAtStartOfLine_buffer (a : Bool) (s : Lexer) :
    (setAtStartOfLine a s).buffer = s.buffer := rfl

theorem skipToEndOfLine_false (E : Externs) (s : Lexer) :
    skipToEndOfLine E false s =
      setYYCursor (E.advance_to_end_of_line s.buffer s.yyCursor s.bufferEnd
          s.codeCompletionPtr s.diags).1 s := by
  simp [skipToEndOfLine]

theorem skipSlashStarComment_frame (E : Externs) (s : Lexer) :
    TriviaFrame s (skipSlashStarComment E s) ∧
      (skipSlashStarComment E s).yyCursor =
        (E.skip_to_end_of_slash_star_comment s.buffer s.yyCursor s.bufferEnd
          s.codeCompletionPtr s.diags).1 := by
  unfold skipSlashStarComment
  dsimp only
  split
  · exact ⟨⟨_, true, rfl⟩, rfl⟩
  · exact ⟨TriviaFrame.cursor _ _, rfl⟩

theorem advanceWhileContinuation_spec (E : Externs) (hE : E.Progress) (buf : List Nat)
    (e : Nat) : ∀ fuel q, q ≤ e → e + 1 - q ≤ fuel →
    ∃ t, advanceWhileContinuation E buf e fuel q = some t ∧ q ≤ t ∧ t ≤ e := by
  intro fuel
  induction fuel with
  | zero => intro q h1 h2; omega
  | succ fuel ih =>
    intro q h1 h2
    unfold advanceWhileContinuation
    cases hq : E.advance_if_valid_continuation_of_identifier buf q e with
    | none => exact ⟨q, rfl, le_refl _, h1⟩
    | some q1 =>
      have hlt : q < e := by
        by_contra hge
        rw [hE.continuation_end buf q e (by omega)] at hq
        cases hq
      obtain ⟨hb1, hb2⟩ := hE.continuation_bounds buf q e q1 hlt hq
      obtain ⟨t, ht, ht1, ht2⟩ := ih q1 hb2 (by omega)
      exact ⟨t, ht, by omega, ht2⟩

theorem skipNonBreakingSpaces_le : ∀ l : List Nat, skipNonBreakingSpaces l ≤ l.length
  | [] => by simp [skipNonBreakingSpaces]
  | [_] => by simp [skipNonBreakingSpaces]
  | a :: b :: rest => by
    unfold skipNonBreakingSpaces
    split
    · rename_i heq
      injection heq with h1 h2
      injection h2 with h2 h3
      subst h3
      have := skipNonBreakingSpaces_le rest
      simp only [List.length_cons]
      omega
    · omega

theorem lexUnknown_spec (E : Externs) (hE : E.Progress) (flag : Bool) (s : Lexer)
    (hlen : s.bufferEnd = s.buffer.length) (h2 : s.yyCursor - 1 < s.bufferEnd) :
    ∃ t b, lexUnknown E flag s = some (t, b) ∧ TriviaFrame s t ∧
      s.yyCursor - 1 < t.yyCursor ∧ t.yyCursor ≤ s.bufferEnd := by
  unfold lexUnknown
  dsimp only
  cases hq : E.advance_if_valid_continuation_of_identifier s.buffer (s.yyCursor - 1)
      s.bufferEnd with
  | some q =>
    obtain ⟨hb1, hb2⟩ := hE.continuation_bounds _ _ _ _ h2 hq
    obtain ⟨t, ht, ht1, ht2⟩ :=
      advanceWhileContinuation_spec E hE s.buffer s.bufferEnd (s.bufferEnd + 1 - q) q hb2
        (le_refl _)
    simp only [ht, Option.map_some']
    exact ⟨_, _, rfl, TriviaFrame.cursor _ _, by simp; omega, by simpa using ht2⟩
  | none =>
    obtain ⟨hv1, hv2⟩ := hE.validate_bounds s.buffer (s.yyCursor - 1) s.bufferEnd h2
    simp only
    split
    · exact ⟨_, _, rfl, TriviaFrame.cursor _ _, hv1, hv2⟩
    · split
      · refine ⟨_, _, rfl, TriviaFrame.cursor _ _, ?_, ?_⟩
        · simp only [setYYCursor_yyCursor]; omega
        · have := skipNonBreakingSpaces_le (s.buffer.drop
            (E.validate_utf8_character_and_advance s.buffer (s.yyCursor - 1) s.bufferEnd).2)
          simp only [List.length_drop] at this
          simp only [setYYCursor_yyCursor]
          omega
      · split
        · exact ⟨_, _, rfl, TriviaFrame.cursor _ _, hv1, hv2⟩
        · exact ⟨_, _, rfl, TriviaFrame.cursor _ _, hv1, hv2⟩

theorem lexTriviaRound_spec (E : Externs) (hE : E.Progress) (trailing : Bool) (s : Lexer)
    (trivia : List ParsedTriviaPiece) (hlen : s.bufferEnd = s.buffer.length)
    (hcur : s.yyCursor ≤ s.bufferEnd) :
    ∃ t tr again, lexTriviaRound E trailing s trivia = some ((t, tr), again) ∧ TriviaFrame s t ∧
      t.yyCursor ≤ s.bufferEnd ∧
      (again = true → s.yyCursor < t.yyCursor) ∧ (again = false → t.yyCursor = s.yyCursor) := by
  have stop : ∃ t tr again, (some ((setYYCursor ((setYYCursor (s.yyCursor + 1) s).yyCursor - 1)
          (setYYCursor (s.yyCursor + 1) s), trivia), false) :
            Option ((Lexer × List ParsedTriviaPiece) × Bool)) = some ((t, tr), again) ∧
        TriviaFrame s t ∧ t.yyCursor ≤ s.bufferEnd ∧
        (again = true → s.yyCursor < t.yyCursor) ∧ (again = false → t.yyCursor = s.yyCursor) :=
    ⟨_, _, _, rfl, (TriviaFrame.cursor _ _).trans (TriviaFrame.cursor _ _),
      by simpa using hcur, by simp, by simp⟩
  have step : ∀ (s1 : Lexer) (tr1 : List ParsedTriviaPiece), TriviaFrame s s1 →
      s.yyCursor < s1.yyCursor → s1.yyCursor ≤ s.bufferEnd →
      ∃ t tr again, (some ((s1, tr1), true) :
          Option ((Lexer × List ParsedTriviaPiece) × Bool)) = some ((t, tr), again) ∧
        TriviaFrame s t ∧ t.yyCursor ≤ s.bufferEnd ∧
        (again = true → s.yyCursor < t.yyCursor) ∧ (again = false → t.yyCursor = s.yyCursor) :=
    fun s1 tr1 hf hlt hle => ⟨_, _, _, rfl, hf, hle, fun _ => hlt, by simp⟩
  have inbuf : byteAt s.buffer s.yyCursor ≠ 0 → s.yyCursor + 1 ≤ s.bufferEnd := by
    intro h
    have := byteAt_lt_of_ne_zero _ _ h
    omega
  have fr1 : TriviaFrame s (setYYCursor (s.yyCursor + 1) s) := TriviaFrame.cursor _ _
  unfold lexTriviaRound
  dsimp only
  by_cases h10 : byteAt s.buffer s.yyCursor = 10
  · rw [if_pos h10]
    cases trailing
    · exact step _ _ (fr1.trans (TriviaFrame.startOfLine _ _)) (by simp) (inbuf (by omega))
    · exact stop
  rw [if_neg h10]
  by_cases h13 : byteAt s.buffer s.yyCursor = 13
  · rw [if_pos h13]
    cases trailing
    · simp only [Bool.false_eq_true, if_false]
      by_cases hnl : byteAt (setAtStartOfLine true (setYYCursor (s.yyCursor + 1) s)).buffer
          (setAtStartOfLine true (setYYCursor (s.yyCursor + 1) s)).yyCursor = 10
      · rw [if_pos hnl]
        have h2 : s.yyCursor + 1 < s.buffer.length :=
          byteAt_lt_of_ne_zero _ _ (by
            simp only [setAtStartOfLine_buffer, setAtStartOfLine_yyCursor, setYYCursor_buffer,
              setYYCursor_yyCursor] at hnl
            omega)
        exact step _ _ ((fr1.trans (TriviaFrame.startOfLine _ _)).trans (TriviaFrame.cursor _ _))
          (by simp; omega) (by simp; omega)
      · rw [if_neg hnl]
        exact step _ _ (fr1.trans (TriviaFrame.startOfLine _ _)) (by simp) (inbuf (by omega))
    · exact stop
  rw [if_neg h13]
  by_cases h32 : byteAt s.buffer s.yyCursor = 32
  · rw [if_pos h32]
    exact step _ _ fr1 (by simp) (inbuf (by omega))
  rw [if_neg h32]
  by_cases h9 : byteAt s.buffer s.yyCursor = 9
  · rw [if_pos h9]
    exact step _ _ fr1 (by simp) (inbuf (by omega))
  rw [if_neg h9]
  by_cases h11 : byteAt s.buffer s.yyCursor = 11
  · rw [if_pos h11]
    exact step _ _ fr1 (by simp) (inbuf (by omega))
  rw [if_neg h11]
  by_cases h12 : byteAt s.buffer s.yyCursor = 12
  · rw [if_pos h12]
    exact step _ _ fr1 (by simp) (inbuf (by omega))
  rw [if_neg h12]
  by_cases h47 : byteAt s.buffer s.yyCursor = 47
  · rw [if_pos h47]
    have hin := inbuf (by omega)
    split
    · exact stop
    · split
      · have hb := hE.eol_bounds s.buffer (s.yyCursor + 1) s.bufferEnd s.codeCompletionPtr
          s.diags hin
        refine step _ _ ?_ ?_ ?_
        · simp only [skipSlashSlashComment, skipToEndOfLine_false]
          exact fr1.trans (TriviaFrame.cursor _ _)
        · simp only [skipSlashSlashComment, skipToEndOfLine_false, setYYCursor_yyCursor,
            setYYCursor_buffer, setYYCursor_bufferEnd, setYYCursor_codeCompletionPtr,
            setYYCursor_diags]
          omega
        · simp only [skipSlashSlashComment, skipToEndOfLine_false, setYYCursor_yyCursor,
            setYYCursor_buffer, setYYCursor_bufferEnd, setYYCursor_codeCompletionPtr,
            setYYCursor_diags]
          omega
      · split
        · have hb := hE.comment_bounds s.buffer (s.yyCursor + 1) s.bufferEnd
            s.codeCompletionPtr s.diags hin
          obtain ⟨hfr, hcu⟩ :=
            skipSlashStarComment_frame E (setYYCursor (s.yyCursor + 1) s)
          refine step _ _ (fr1.trans hfr) ?_ ?_
          · rw [hcu]
            simp only [setYYCursor_yyCursor, setYYCursor_buffer, setYYCursor_bufferEnd,
              setYYCursor_codeCompletionPtr, setYYCursor_diags]
            omega
          · rw [hcu]
            simp only [setYYCursor_yyCursor, setYYCursor_buffer, setYYCursor_bufferEnd,
              setYYCursor_codeCompletionPtr, setYYCursor_diags]
            omega
        · exact stop
  rw [if_neg h47]
  by_cases h35 : byteAt s.buffer s.yyCursor = 35
  · rw [if_pos h35]
    have hin := inbuf (by omega)
    split
    · have hb := hE.eol_bounds s.buffer s.yyCursor s.bufferEnd s.codeCompletionPtr
        s.diags hcur
      have hm := hE.eol_moves s.buffer s.yyCursor s.bufferEnd s.codeCompletionPtr
        s.diags (by omega) (by omega) (by omega)
      refine step _ _ ?_ ?_ ?_
      · simp only [skipHashbang, skipToEndOfLine_false]
        exact (fr1.trans (TriviaFrame.cursor _ _)).trans (TriviaFrame.cursor _ _)
      · simp only [skipHashbang, skipToEndOfLine_false, Nat.add_sub_cancel,
          setYYCursor_yyCursor, setYYCursor_buffer, setYYCursor_bufferEnd,
          setYYCursor_codeCompletionPtr, setYYCursor_diags]
        omega
      · simp only [skipHashbang, skipToEndOfLine_false, Nat.add_sub_cancel,
          setYYCursor_yyCursor, setYYCursor_buffer, setYYCursor_bufferEnd,
          setYYCursor_codeCompletionPtr, setYYCursor_diags]
        omega
    · exact stop
  rw [if_neg h35]
  by_cases h0 : byteAt s.buffer s.yyCursor = 0
  · rw [if_pos h0]
    split
    · rename_i hk
      have hne : s.yyCursor ≠ s.bufferEnd := by
        intro heq
        simp only [getNullCharacterKind, setYYCursor_yyCursor, Nat.add_sub_cancel,
          setYYCursor_bufferEnd, heq] at hk
        split at hk <;> simp at hk
      exact step _ _ fr1 (by simp) (by simp; omega)
    · exact stop
    · exact stop
  rw [if_neg h0]
  have hin := inbuf h0
  split
  · exact stop
  · split
    · exact stop
    · split
      · exact stop
      · obtain ⟨t, b, ht, hft, ht1, ht2⟩ :=
          lexUnknown_spec E hE false (setYYCursor (s.yyCursor + 1) s) hlen
            (by simp only [setYYCursor_yyCursor, setYYCursor_bufferEnd, Nat.add_sub_cancel]
                omega)
        rw [ht]
        simp only [setYYCursor_yyCursor, setYYCursor_bufferEnd, Nat.add_sub_cancel]
          at ht1 ht2 ⊢
        split
        · exact ⟨_, _, _, rfl, (fr1.trans hft).trans (TriviaFrame.cursor _ _), hcur,
            by simp, by simp⟩
        · exact step _ _ (fr1.trans hft) ht1 ht2

theorem lexTriviaLoop_spec (E : Externs) (hE : E.Progress) (trailing : Bool) :
    ∀ (fuel : Nat) (s : Lexer) (trivia : List ParsedTriviaPiece),
      s.bufferEnd = s.buffer.length → s.yyCursor ≤ s.bufferEnd →
      s.bufferEnd + 1 - s.yyCursor ≤ fuel →
      ∃ t tr, lexTriviaLoop E trailing fuel s trivia = some (t, tr) ∧ TriviaFrame s t ∧
        s.yyCursor ≤ t.yyCursor ∧ t.yyCursor ≤ s.bufferEnd := by
  intro fuel
  induction fuel with
  | zero => intro s trivia _ h2 h3; omega
  | succ fuel ih =>
    intro s trivia hlen hcur hfuel
    obtain ⟨s1, tr1, again, hr, hf, hle, hag, hst⟩ :=
      lexTriviaRound_spec E hE trailing s trivia hlen hcur
    unfold lexTriviaLoop
    rw [hr]
    cases again with
    | false =>
      exact ⟨s1, tr1, rfl, hf, by rw [hst rfl], hle⟩
    | true =>
      have hlt := hag rfl
      have hb := hf.bufferEnd
      have hbuf := hf.buffer
      obtain ⟨t, tr, ht, hft, h4, h5⟩ :=
        ih s1 tr1 (by rw [hb, hbuf]; exact hlen) (by rw [hb]; exact hle) (by rw [hb]; omega)
      exact ⟨t, tr, ht, hf.trans hft, by omega, by rw [← hb]; exact h5⟩

theorem lexTrivia_spec (E : Externs) (hE : E.Progress) (trailing : Bool) (s : Lexer)
    (trivia : List ParsedTriviaPiece) (hlen : s.bufferEnd = s.buffer.length)
    (hcur : s.yyCursor ≤ s.bufferEnd) :
    ∃ t tr, lexTrivia E trivia trailing s = some (t, tr) ∧ TriviaFrame s t ∧
      s.yyCursor ≤ t.yyCursor ∧ t.yyCursor ≤ s.bufferEnd :=
  lexTriviaLoop_spec E hE trailing _ s trivia hlen hcur (le_refl _)

/-! ### Token formation -/

theorem formToken_spec (E : Externs) (hE : E.Progress) (kind : TokenKindType) (tokenStart : Nat)
    (s : Lexer) (hlen : s.bufferEnd = s.buffer.length) (hcur : s.yyCursor ≤ s.bufferEnd) :
    ∃ c a tr, formToken E kind tokenStart s = some (formedLexer kind tokenStart s c a tr) ∧
      s.yyCursor ≤ c ∧ c ≤ s.bufferEnd ∧
      (s.triviaRetention = TriviaRetentionMode.WithoutTrivia → c = s.yyCursor) := by
  unfold formToken
  dsimp only
  by_cases hw : s.triviaRetention = TriviaRetentionMode.WithTrivia
  · rw [if_pos hw]
    obtain ⟨t, tr, ht, ⟨c, a, hca⟩, h1, h2⟩ :=
      lexTrivia_spec E hE true s s.trailingTrivia hlen hcur
    rw [ht]
    subst hca
    refine ⟨c, a, tr, rfl, h1, h2, ?_⟩
    intro hwo
    rw [hw] at hwo
    cases hwo
  · rw [if_neg hw]
    exact ⟨s.yyCursor, s.nextToken.atStartOfLine, s.trailingTrivia, rfl, le_refl _, hcur,
      fun _ => rfl⟩

@[simp] theorem formedLexer_kind (kind : TokenKindType) (tokenStart : Nat) (s : Lexer) (c : Nat)
    (a : Bool) (tr : List ParsedTriviaPiece) :
    (formedLexer kind tokenStart s c a tr).nextToken.kind = formedKind kind tokenStart s := rfl

@[simp] theorem formedLexer_value (kind : TokenKindType) (tokenStart : Nat) (s : Lexer) (c : Nat)
    (a : Bool) (tr : List ParsedTriviaPiece) :
    (formedLexer kind tokenStart s c a tr).nextToken.value = s.nextToken.value := rfl

@[simp] theorem formedLexer_textStart (kind : TokenKindType) (tokenStart : Nat) (s : Lexer)
    (c : Nat) (a : Bool) (tr : List ParsedTriviaPiece) :
    (formedLexer kind tokenStart s c a tr).nextToken.textStart = tokenStart := rfl

@[simp] theorem formedLexer_yyCursor (kind : TokenKindType) (tokenStart : Nat) (s : Lexer)
    (c : Nat) (a : Bool) (tr : List ParsedTriviaPiece) :
    (formedLexer kind tokenStart s c a tr).yyCursor = c := rfl

@[simp] theorem formedLexer_yyLength (kind : TokenKindType) (tokenStart : Nat) (s : Lexer)
    (c : Nat) (a : Bool) (tr : List ParsedTriviaPiece) :
    (formedLexer kind tokenStart s c a tr).yyLength = s.yyLength := rfl

@[simp] theorem formedLexer_flags (kind : TokenKindType) (tokenStart : Nat) (s : Lexer)
    (c : Nat) (a : Bool) (tr : List ParsedTriviaPiece) :
    (formedLexer kind tokenStart s c a tr).flags = s.flags := rfl

@[simp] theorem formedLexer_currentExceptionMsg (kind : TokenKindType) (tokenStart : Nat)
    (s : Lexer) (c : Nat) (a : Bool) (tr : List ParsedTriviaPiece) :
    (formedLexer kind tokenStart s c a tr).currentExceptionMsg = s.currentExceptionMsg := rfl

@[simp] theorem formedLexer_invalidLexValue (kind : TokenKindType) (tokenStart : Nat)
    (s : Lexer) (c : Nat) (a : Bool) (tr : List ParsedTriviaPiece) :
    (formedLexer kind tokenStart s c a tr).nextToken.invalidLexValue =
      s.nextToken.invalidLexValue := rfl

theorem formedKind_of_lt (kind : TokenKindType) (tokenStart : Nat) (s : Lexer)
    (h : tokenStart < s.artificialEof) : formedKind kind tokenStart s = kind := by
  unfold formedKind
  rw [if_neg]
  omega

/-! ### Digit strings and `strtoll` -/

theorem takeWhile_append_head (f : Nat → Bool) (ds rest : List Nat)
    (hrest : ∀ c, rest.head? = some c → f c = false) :
    (ds ++ rest).takeWhile f = ds.takeWhile f := by
  induction ds with
  | nil =>
    cases rest with
    | nil => rfl
    | cons c cs => simp [List.takeWhile, hrest c (by simp)]
  | cons d ds ih =>
    simp only [List.cons_append, List.takeWhile]
    cases f d <;> simp [ih]

theorem digitsToNat_foldl (base : Nat) (ds : List Nat) (acc : Nat) :
    ds.foldl (fun acc c => acc * base + (digitValue c).getD 0) acc =
      acc * base ^ ds.length + digitsToNat base ds := by
  induction ds generalizing acc with
  | nil => simp [digitsToNat]
  | cons d ds ih =>
    simp only [List.foldl_cons, List.length_cons, digitsToNat]
    rw [ih, ih (0 * base + _)]
    ring

theorem digitsToNat_cons (base : Nat) (d : Nat) (ds : List Nat) :
    digitsToNat base (d :: ds) = (digitValue d).getD 0 * base ^ ds.length + digitsToNat base ds := by
  have := digitsToNat_foldl base ds (0 * base + (digitValue d).getD 0)
  simp only [digitsToNat, List.foldl_cons] at this ⊢
  rw [this]
  ring

theorem digitsToNat_nil (base : Nat) : digitsToNat base [] = 0 := rfl

theorem digitsToNat_lt (base : Nat) (ds : List Nat) (h : ∀ c ∈ ds, isDigitInBase base c = true) :
    digitsToNat base ds < base ^ ds.length := by
  induction ds with
  | nil => simp [digitsToNat]
  | cons d ds ih =>
    have hd := h d (by simp)
    have ih := ih (fun c hc => h c (by simp [hc]))
    rw [digitsToNat_cons, List.length_cons, pow_succ]
    have hv : (digitValue d).getD 0 < base := by
      unfold isDigitInBase at hd
      cases hdv : digitValue d with
      | none => simp [hdv] at hd
      | some v => simpa [hdv] using hd
    have : (digitValue d).getD 0 + 1 ≤ base := hv
    calc (digitValue d).getD 0 * base ^ ds.length + digitsToNat base ds
        < (digitValue d).getD 0 * base ^ ds.length + base ^ ds.length := by omega
      _ = ((digitValue d).getD 0 + 1) * base ^ ds.length := by ring
      _ ≤ base * base ^ ds.length := Nat.mul_le_mul_right _ this
      _ = base ^ ds.length * base := by ring

theorem digitsToNat_zeros (base : Nat) (zs ds : List Nat) (hz : ∀ c ∈ zs, c = 48) :
    digitsToNat base (zs ++ ds) = digitsToNat base ds := by
  induction zs with
  | nil => rfl
  | cons z zs ih =>
    have hz0 : z = 48 := hz z (by simp)
    subst hz0
    rw [List.cons_append, digitsToNat_cons, ih (fun c hc => hz c (by simp [hc]))]
    simp [digitValue]

theorem digitsToNat_ge (base : Nat) (d : Nat) (ds : List Nat) :
    (digitValue d).getD 0 * base ^ ds.length ≤ digitsToNat base (d :: ds) := by
  rw [digitsToNat_cons]
  omega

theorem isDigitInBase_facts (base c : Nat) (h : isDigitInBase base c = true) :
    isspace c = false ∧ c ≠ 45 ∧ c ≠ 43 := by
  have hr : (48 ≤ c ∧ c ≤ 57) ∨ (97 ≤ c ∧ c ≤ 122) ∨ (65 ≤ c ∧ c ≤ 90) := by
    by_cases h1 : 48 ≤ c ∧ c ≤ 57
    · exact Or.inl h1
    by_cases h2 : 97 ≤ c ∧ c ≤ 122
    · exact Or.inr (Or.inl h2)
    by_cases h3 : 65 ≤ c ∧ c ≤ 90
    · exact Or.inr (Or.inr h3)
    simp [isDigitInBase, digitValue, h1, h2, h3] at h
  refine ⟨?_, by omega, by omega⟩
  unfold isspace
  rcases hr with hr | hr | hr
  · have e1 : decide (c = 32) = false := by simp; omega
    have e2 : decide (c ≤ 13) = false := by simp; omega
    simp [e1, e2]
  · have e1 : decide (c = 32) = false := by simp; omega
    have e2 : decide (c ≤ 13) = false := by simp; omega
    simp [e1, e2]
  · have e1 : decide (c = 32) = false := by simp; omega
    have e2 : decide (c ≤ 13) = false := by simp; omega
    simp [e1, e2]

theorem countWhile_eq (f : Nat → Bool) (buf : List Nat) (p : Nat) (ds rest : List Nat)
    (h : buf.drop p = ds ++ rest) (hrest : ∀ c, rest.head? = some c → f c = false) :
    countWhile f buf p = (ds.takeWhile f).length := by
  unfold countWhile
  rw [h, takeWhile_append_head f ds rest hrest]

theorem byteAt_of_drop (buf : List Nat) (p : Nat) (l : List Nat) (h : buf.drop p = l) (i : Nat) :
    byteAt buf (p + i) = l.getD i 0 := by
  rw [byteAt_drop, h]

theorem drop_add_of_drop (buf : List Nat) (p k : Nat) (l : List Nat) (h : buf.drop p = l) :
    buf.drop (p + k) = l.drop k := by
  rw [← h, List.drop_drop]

theorem strtoll_digits (buf : List Nat) (p base : Nat) (ds rest : List Nat)
    (hbase : base ≠ 16) (h : buf.drop p = ds ++ rest) (hne : ds ≠ [])
    (hds : ∀ c ∈ ds, isDigitInBase base c = true)
    (hrest : ∀ c, rest.head? = some c → isDigitInBase base c = false) :
    strtoll buf p base =
      if digitsToNat base ds > INT64_MAX then
        { value := INT64_MAX, endPtr := p + ds.length, erange := true }
      else { value := digitsToNat base ds, endPtr := p + ds.length, erange := false } := by
  obtain ⟨d, ds', rfl⟩ := List.exists_cons_of_ne_nil hne
  obtain ⟨hsp, h45, h43⟩ := isDigitInBase_facts base d (hds d (by simp))
  have hws : countWhile isspace buf p = 0 := by
    unfold countWhile
    rw [h]
    simp [List.takeWhile, hsp]
  have hb0 : byteAt buf p = d := by
    have := byteAt_of_drop buf p _ h 0
    simpa using this
  unfold strtoll
  simp only [hws, Nat.add_zero, hb0, h45, h43, false_or, if_false, hbase, false_and]
  rw [h, takeWhile_append_stop _ _ _ hds hrest]
  simp

theorem strtoll_hex (buf : List Nat) (p x : Nat) (ds rest : List Nat)
    (hx : x = 120 ∨ x = 88) (h : buf.drop p = 48 :: x :: ds ++ rest) (hne : ds ≠ [])
    (hds : ∀ c ∈ ds, isDigitInBase 16 c = true)
    (hrest : ∀ c, rest.head? = some c → isDigitInBase 16 c = false) :
    strtoll buf p 16 =
      if digitsToNat 16 ds > INT64_MAX then
        { value := INT64_MAX, endPtr := p + 2 + ds.length, erange := true }
      else { value := digitsToNat 16 ds, endPtr := p + 2 + ds.length, erange := false } := by
  obtain ⟨d, ds', rfl⟩ := List.exists_cons_of_ne_nil hne
  have hws : countWhile isspace buf p = 0 := by
    unfold countWhile
    rw [h]
    simp [List.takeWhile, isspace]
  have hb0 : byteAt buf p = 48 := by
    have := byteAt_of_drop buf p _ h 0
    simpa using this
  have hb1 : byteAt buf (p + 1) = x := by
    have := byteAt_of_drop buf p _ h 1
    simpa using this
  have hb2 : byteAt buf (p + 2) = d := by
    have := byteAt_of_drop buf p _ h 2
    simpa using this
  have hd2 : buf.drop (p + 2) = (d :: ds') ++ rest := by
    rw [drop_add_of_drop buf p 2 _ h]
    rfl
  unfold strtoll
  have hx' : (x = 120 ∨ x = 88) = True := by simp [hx]
  have h16 : isDigitInBase 16 d = true := hds d (by simp)
  have hp2 : (if (48 : Nat) = 45 ∨ (48 : Nat) = 43 then p + 1 else p) = p := by simp
  simp only [hws, Nat.add_zero, hb0, hp2, hb1, hb2, h16, hx', and_self, if_true]
  rw [hd2, takeWhile_append_stop _ _ _ hds hrest]
  simp

/-! ### Numeric literal scanners -/

theorem NumberToken.cursor_le {s : Lexer} {text rest : List Nat} (h : NumberToken s text rest)
    (hne : text ≠ []) : s.yyCursor ≤ s.bufferEnd := by
  have h1 := congrArg List.length h.textAt
  simp only [List.length_drop, List.length_append] at h1
  have h2 := h.cursorEq
  have h3 := h.atBufferEnd
  have h4 := h.lengthEq
  have h0 : text.length ≠ 0 := fun h0 => hne (List.length_eq_zero.mp h0)
  omega

theorem leadingZeros_split (ds : List Nat) :
    (∀ c ∈ ds.takeWhile (fun c => decide (c = 48)), c = 48) ∧
    (∀ c, (ds.dropWhile (fun c => decide (c = 48))).head? = some c → c ≠ 48) ∧
    (ds.takeWhile (fun c => decide (c = 48))).length +
      (ds.dropWhile (fun c => decide (c = 48))).length = ds.length := by
  refine ⟨?_, ?_, ?_⟩
  · intro c hc
    have := List.mem_takeWhile_imp hc
    simpa using this
  · intro c hc
    have := List.head?_dropWhile_not (fun c => decide (c = 48)) ds
    rw [hc] at this
    simpa using this
  · have := congrArg List.length (List.takeWhile_append_dropWhile (fun c => decide (c = 48)) ds)
    rw [List.length_append] at this
    exact this

theorem digitsToNat_dropWhile (base : Nat) (ds : List Nat) :
    digitsToNat base (ds.dropWhile (fun c => decide (c = 48))) = digitsToNat base ds := by
  have h := List.takeWhile_append_dropWhile (fun c => decide (c = 48)) ds
  conv_rhs => rw [← h]
  rw [digitsToNat_zeros base _ _ (leadingZeros_split ds).1]

theorem mem_dropWhile_of (f : Nat → Bool) (ds : List Nat) (c : Nat)
    (h : c ∈ ds.dropWhile f) : c ∈ ds :=
  (List.dropWhile_sublist f).subset h

theorem digitsToNat_significant_ge (base : Nat) (sig : List Nat) (hne : sig ≠ [])
    (hds : ∀ c ∈ sig, isDigitInBase base c = true)
    (hhead : ∀ c, sig.head? = some c → c ≠ 48) :
    base ^ (sig.length - 1) ≤ digitsToNat base sig := by
  obtain ⟨d, ds', rfl⟩ := List.exists_cons_of_ne_nil hne
  have hd := hds d (by simp)
  have h48 := hhead d (by simp)
  have hv : 1 ≤ (digitValue d).getD 0 := by
    unfold isDigitInBase at hd
    unfold digitValue at hd ⊢
    split
    · rename_i h1
      simp only [Option.getD_some]
      omega
    · split
      · simp only [Option.getD_some]
        omega
      · split
        · simp only [Option.getD_some]
          omega
        · rename_i h1 h2 h3
          simp [h1, h2, h3] at hd
  calc base ^ ((d :: ds').length - 1) = 1 * base ^ ds'.length := by simp
    _ ≤ (digitValue d).getD 0 * base ^ ds'.length := Nat.mul_le_mul_right _ hv
    _ ≤ digitsToNat base (d :: ds') := digitsToNat_ge base d ds'

@[simp] theorem setValue_kind (v : TokenValue) (s : Lexer) :
    (setValue v s).nextToken.kind = s.nextToken.kind := rfl

@[simp] theorem setValue_value (v : TokenValue) (s : Lexer) :
    (setValue v s).nextToken.value = v := rfl

@[simp] theorem setNeedCorrect_kind (b : Bool) (s : Lexer) :
    (setNeedCorrectLNumberOverflow b s).nextToken.kind = s.nextToken.kind := rfl

@[simp] theorem setNeedCorrect_value (b : Bool) (s : Lexer) :
    (setNeedCorrectLNumberOverflow b s).nextToken.value = s.nextToken.value := rfl

@[simp] theorem setNeedCorrect_flag (b : Bool) (s : Lexer) :
    (setNeedCorrectLNumberOverflow b s).nextToken.needCorrectLNumberOverflow = b := rfl

@[simp] theorem setValue_needCorrect (v : TokenValue) (s : Lexer) :
    (setValue v s).nextToken.needCorrectLNumberOverflow =
      s.nextToken.needCorrectLNumberOverflow := rfl

@[simp] theorem setInvalidLexValue_kind (b : Bool) (s : Lexer) :
    (setInvalidLexValue b s).nextToken.kind = s.nextToken.kind := rfl

@[simp] theorem setInvalidLexValue_flag (b : Bool) (s : Lexer) :
    (setInvalidLexValue b s).nextToken.invalidLexValue = b := rfl

@[simp] theorem setInvalidLexValue_value (b : Bool) (s : Lexer) :
    (setInvalidLexValue b s).nextToken.value = s.nextToken.value := rfl

theorem zeros_not_in_rest (base : Nat) (hb : 1 < base) (rest : List Nat)
    (hrest : ∀ c, rest.head? = some c → isDigitInBase base c = false) :
    ∀ c, rest.head? = some c → (fun c => decide (c = 48)) c = false := by
  intro c hc
  have := hrest c hc
  simp only [decide_eq_false_iff_not]
  intro h48
  subst h48
  simp [isDigitInBase, digitValue] at this
  omega

theorem significant_drop (buf : List Nat) (p : Nat) (ds rest : List Nat)
    (h : buf.drop p = ds ++ rest) :
    buf.drop (p + (ds.takeWhile (fun c => decide (c = 48))).length) =
      ds.dropWhile (fun c => decide (c = 48)) ++ rest := by
  rw [drop_add_of_drop buf p _ _ h]
  have hsplit := List.takeWhile_append_dropWhile (fun c => decide (c = 48)) ds
  have e : ds ++ rest = ds.takeWhile (fun c => decide (c = 48)) ++
      (ds.dropWhile (fun c => decide (c = 48)) ++ rest) := by
    rw [← List.append_assoc, hsplit]
  rw [e]
  exact List.drop_left' rfl

/-- C5: for a binary literal `0b` followed by the binary digits `ds` (the byte
after the literal not being a binary digit), `lexBinaryNumber` returns, and the
token it forms is an integer literal `T_LNUMBER` with value exactly the number
`n` the digits denote when `n <= 2^63 - 1`, and a double literal `T_DNUMBER`
otherwise; `n <= 2^63 - 1` holds exactly when fewer than 64 digits remain after
the leading zeros are stripped. -/
theorem lexBinaryNumber_integer_iff_fits (E : Externs) (hE : E.Progress) (s : Lexer)
    (x : Nat) (ds rest : List Nat) (htok : NumberToken s (48 :: x :: ds) rest)
    (hds : ∀ c ∈ ds, isDigitInBase 2 c = true)
    (hrest : ∀ c, rest.head? = some c → isDigitInBase 2 c = false) :
    ∃ t, lexBinaryNumber E s = some t ∧
      (digitsToNat 2 ds ≤ INT64_MAX →
        t.nextToken.kind = TokenKindType.T_LNUMBER ∧
        t.nextToken.value = TokenValue.int (digitsToNat 2 ds)) ∧
      (INT64_MAX < digitsToNat 2 ds → t.nextToken.kind = TokenKindType.T_DNUMBER) ∧
      (digitsToNat 2 ds ≤ INT64_MAX ↔
        (ds.dropWhile (fun c => decide (c = 48))).length < 64) := by
  have hcur : s.yyCursor ≤ s.bufferEnd := htok.cursor_le (by simp)
  have h2 : s.buffer.drop (s.yyText + 2) = ds ++ rest := by
    rw [drop_add_of_drop _ _ 2 _ htok.textAt]
    rfl
  have hz := countWhile_eq (fun c => decide (c = 48)) s.buffer (s.yyText + 2) ds rest h2
    (zeros_not_in_rest 2 (by omega) rest hrest)
  have hsig := significant_drop s.buffer (s.yyText + 2) ds rest h2
  obtain ⟨hzs, hhead, hlen⟩ := leadingZeros_split ds
  have hval := digitsToNat_dropWhile 2 ds
  have hsigds : ∀ c ∈ ds.dropWhile (fun c => decide (c = 48)), isDigitInBase 2 c = true :=
    fun c hc => hds c (mem_dropWhile_of _ _ _ hc)
  have hyl : s.yyLength = ds.length + 2 := by
    rw [htok.lengthEq]; simp
  have hbound := htok.lengthBound
  have hnum : (((s.yyLength : Int) - 2 -
      ((countWhile (fun c => decide (c = 48)) s.buffer (s.yyText + 2) : Nat) : Int)) % 2 ^ 64) =
      ((ds.dropWhile (fun c => decide (c = 48))).length : Int) := by
    rw [hz, hyl]
    have : ((ds.length + 2 : Nat) : Int) - 2 -
        ((ds.takeWhile (fun c => decide (c = 48))).length : Int) =
        ((ds.dropWhile (fun c => decide (c = 48))).length : Int) := by omega
    rw [this]
    apply Int.emod_eq_of_lt
    · omega
    · have : (2 : Int) ^ 64 = 18446744073709551616 := by norm_num
      have h64 : (2 : Nat) ^ 64 = 18446744073709551616 := by norm_num
      omega
  have hiff : digitsToNat 2 ds ≤ INT64_MAX ↔
      (ds.dropWhile (fun c => decide (c = 48))).length < 64 := by
    constructor
    · intro hle
      by_contra hge
      have hne' : ds.dropWhile (fun c => decide (c = 48)) ≠ [] := by
        intro h0
        rw [h0] at hge
        simp at hge
      have := digitsToNat_significant_ge 2 _ hne' hsigds hhead
      rw [hval] at this
      have hpow : (2 : Nat) ^ 63 ≤ 2 ^ ((ds.dropWhile (fun c => decide (c = 48))).length - 1) :=
        Nat.pow_le_pow_right (by omega) (by omega)
      have h63 : (2 : Nat) ^ 63 = 9223372036854775808 := by norm_num
      unfold INT64_MAX at hle
      omega
    · intro hlt
      have := digitsToNat_lt 2 _ hsigds
      rw [hval] at this
      have hpow : (2 : Nat) ^ (ds.dropWhile (fun c => decide (c = 48))).length ≤ 2 ^ 63 :=
        Nat.pow_le_pow_right (by omega) (by omega)
      have h63 : (2 : Nat) ^ 63 = 9223372036854775808 := by norm_num
      unfold INT64_MAX
      omega
  unfold lexBinaryNumber
  dsimp only
  rw [hnum]
  by_cases hlt : (ds.dropWhile (fun c => decide (c = 48))).length < 64
  · have hfit := hiff.mpr hlt
    rw [if_pos (by exact_mod_cast hlt)]
    obtain ⟨c, a, tr, hf, _, _, _⟩ :=
      formToken_spec E hE TokenKindType.T_LNUMBER s.yyText s htok.atBufferEnd hcur
    rw [hf]
    refine ⟨_, rfl, ?_, ?_, hiff⟩
    · intro _
      refine ⟨by simp [formedKind_of_lt _ _ _ htok.inRange], ?_⟩
      simp only [setValue_value]
      congr 1
      by_cases hpos : 0 < (ds.dropWhile (fun c => decide (c = 48))).length
      · rw [if_pos (by exact_mod_cast hpos)]
        have hne' : ds.dropWhile (fun c => decide (c = 48)) ≠ [] := by
          intro h0
          rw [h0] at hpos
          simp at hpos
        rw [hz, strtoll_digits s.buffer _ 2 _ rest (by omega) hsig hne' hsigds hrest, hval]
        rw [if_neg (by omega)]
      · rw [if_neg (by exact_mod_cast hpos)]
        have h0 : ds.dropWhile (fun c => decide (c = 48)) = [] :=
          List.length_eq_zero.mp (by omega)
        rw [← hval, h0]
        rfl
    · intro hbig
      omega
  · rw [if_neg (by exact_mod_cast hlt)]
    obtain ⟨c, a, tr, hf, _, _, _⟩ :=
      formToken_spec E hE TokenKindType.T_DNUMBER s.yyText s htok.atBufferEnd hcur
    rw [hf]
    refine ⟨_, rfl, ?_, ?_, hiff⟩
    · intro hfit
      exact absurd (hiff.mp hfit) hlt
    · intro _
      simp [formedKind_of_lt _ _ _ htok.inRange]

theorem hexDigit_value_le (c : Nat) (hc : c ≤ 55) :
    (digitValue c).getD 0 ≤ 7 := by
  unfold digitValue
  split
  · simp only [Option.getD_some]; omega
  · split
    · omega
    · split
      · omega
      · simp

theorem hexDigit_value_ge (c : Nat) (h : isDigitInBase 16 c = true) (hc : 55 < c) :
    8 ≤ (digitValue c).getD 0 := by
  unfold isDigitInBase at h
  unfold digitValue at h ⊢
  split
  · simp only [Option.getD_some]; omega
  · split
    · simp only [Option.getD_some]; omega
    · split
      · simp only [Option.getD_some]; omega
      · rename_i h1 h2 h3
        simp [h1, h2, h3] at h

theorem hex_fits_iff (sig : List Nat) (hds : ∀ c ∈ sig, isDigitInBase 16 c = true)
    (hhead : ∀ c, sig.head? = some c → c ≠ 48) :
    digitsToNat 16 sig ≤ INT64_MAX ↔
      (sig.length < 16 ∨ (sig.length = 16 ∧ sig.headD 0 ≤ 55)) := by
  have h15 : (16 : Nat) ^ 15 = 1152921504606846976 := by norm_num
  have h16 : (16 : Nat) ^ 16 = 18446744073709551616 := by norm_num
  unfold INT64_MAX
  constructor
  · intro hle
    by_contra hcon
    have hne : sig ≠ [] := by
      intro h0
      rw [h0] at hcon
      simp at hcon
    obtain ⟨d, ds', rfl⟩ := List.exists_cons_of_ne_nil hne
    simp only [List.length_cons, List.headD_cons, not_or, not_and, not_lt, not_le] at hcon
    by_cases h16' : ds'.length + 1 = 16
    · have hd := hexDigit_value_ge d (hds d (by simp)) (hcon.2 h16')
      have hge := digitsToNat_ge 16 d ds'
      have hl : ds'.length = 15 := by omega
      rw [hl, h15] at hge
      omega
    · have hge := digitsToNat_significant_ge 16 (d :: ds') (by simp) hds hhead
      have hpow : (16 : Nat) ^ 16 ≤ 16 ^ ((d :: ds').length - 1) :=
        Nat.pow_le_pow_right (by omega) (by simp only [List.length_cons]; omega)
      omega
  · rintro (hlt | ⟨heq, hh⟩)
    · have := digitsToNat_lt 16 sig hds
      have hpow : (16 : Nat) ^ sig.length ≤ 16 ^ 15 :=
        Nat.pow_le_pow_right (by omega) (by omega)
      omega
    · have hne : sig ≠ [] := by
        intro h0
        rw [h0] at heq
        simp at heq
      obtain ⟨d, ds', rfl⟩ := List.exists_cons_of_ne_nil hne
      simp only [List.headD_cons] at hh
      simp only [List.length_cons] at heq
      have hd := hexDigit_value_le d hh
      have htl := digitsToNat_lt 16 ds' (fun c hc => hds c (by simp [hc]))
      have hl : ds'.length = 15 := by omega
      rw [digitsToNat_cons, hl, h15]
      rw [hl, h15] at htl
      omega

theorem byteAt_head_of_drop (buf : List Nat) (p : Nat) (sig rest : List Nat)
    (h : buf.drop p = sig ++ rest) (hne : sig ≠ []) : byteAt buf p = sig.headD 0 := by
  obtain ⟨d, ds', rfl⟩ := List.exists_cons_of_ne_nil hne
  have := byteAt_of_drop buf p _ h 0
  simpa using this

theorem literalBase_cases (ds : List Nat) :
    (ds.headD 0 = 48 ∧ literalBase ds = 8) ∨ (ds.headD 0 ≠ 48 ∧ literalBase ds = 10) := by
  unfold literalBase
  by_cases h : ds.headD 0 = 48
  · exact Or.inl ⟨h, by rw [if_pos h]⟩
  · exact Or.inr ⟨h, by rw [if_neg h]⟩

theorem digitValue_letter (c : Nat) (h1 : ¬ (48 ≤ c ∧ c ≤ 57)) :
    ∀ v, digitValue c = some v → 10 ≤ v := by
  intro v hv
  unfold digitValue at hv
  rw [if_neg h1] at hv
  by_cases h2 : 97 ≤ c ∧ c ≤ 122
  · rw [if_pos h2] at hv
    injection hv with hv
    omega
  · rw [if_neg h2] at hv
    by_cases h3 : 65 ≤ c ∧ c ≤ 90
    · rw [if_pos h3] at hv
      injection hv with hv
      omega
    · rw [if_neg h3] at hv
      cases hv

theorem not_digit_of_not_decimal (base c : Nat) (hb : base ≤ 10)
    (h : isDecimalDigit c = false) : isDigitInBase base c = false := by
  unfold isDecimalDigit at h
  have hc : ¬ (48 ≤ c ∧ c ≤ 57) := by
    intro hc
    simp [hc.1, hc.2] at h
  unfold isDigitInBase
  cases hv : digitValue c with
  | none => rfl
  | some v =>
    have := digitValue_letter c hc v hv
    simp only [decide_eq_false_iff_not]
    omega

theorem decimal_of_digit (base c : Nat) (hb : base ≤ 10) (h : isDigitInBase base c = true) :
    48 ≤ c ∧ c ≤ 57 ∧ digitValue c = some (c - 48) ∧ c - 48 < base := by
  unfold isDigitInBase at h
  by_cases h1 : 48 ≤ c ∧ c ≤ 57
  · have hv : digitValue c = some (c - 48) := by
      unfold digitValue
      rw [if_pos h1]
    rw [hv] at h
    simp only [decide_eq_true_eq] at h
    exact ⟨h1.1, h1.2, hv, h⟩
  · cases hv : digitValue c with
    | none => simp [hv] at h
    | some v =>
      have := digitValue_letter c h1 v hv
      simp only [hv, decide_eq_true_eq] at h
      omega

theorem octal_skip (buf : List Nat) (p : Nat) (tl rest : List Nat)
    (h : buf.drop p = (48 :: tl) ++ rest)
    (hrest : ∀ c, rest.head? = some c → c ≠ 48) :
    min (48 :: tl).length (countWhile (fun c => decide (c = 48)) buf (p + 1)) =
        (tl.takeWhile (fun c => decide (c = 48))).length ∧
      buf.drop (p + (tl.takeWhile (fun c => decide (c = 48))).length) =
        (48 :: tl.dropWhile (fun c => decide (c = 48))) ++ rest ∧
      (48 :: tl.dropWhile (fun c => decide (c = 48))).length +
        (tl.takeWhile (fun c => decide (c = 48))).length = (48 :: tl).length := by
  have h1 : buf.drop (p + 1) = tl ++ rest := by
    rw [drop_add_of_drop _ _ 1 _ h]
    rfl
  have hz := countWhile_eq (fun c => decide (c = 48)) buf (p + 1) tl rest h1 (by
    intro c hc
    have := hrest c hc
    simpa using this)
  obtain ⟨hzs, _, hlen⟩ := leadingZeros_split tl
  have hrep := List.eq_replicate_of_mem hzs
  have hsplit := List.takeWhile_append_dropWhile (fun c => decide (c = 48)) tl
  refine ⟨?_, ?_, ?_⟩
  · rw [hz]
    simp only [List.length_cons]
    omega
  · rw [drop_add_of_drop _ _ _ _ h]
    have e : (48 :: tl) ++ rest = tl.takeWhile (fun c => decide (c = 48)) ++
        ((48 :: tl.dropWhile (fun c => decide (c = 48))) ++ rest) := by
      conv_lhs => rw [← hsplit]
      generalize tl.takeWhile (fun c => decide (c = 48)) = zs at hrep ⊢
      rw [hrep]
      have : (48 : Nat) :: List.replicate zs.length 48 = List.replicate zs.length 48 ++ [48] := by
        rw [← List.replicate_succ, List.replicate_succ']
      simp only [List.cons_append, List.append_assoc]
      rw [← List.cons_append, this]
      simp
    rw [e]
    exact List.drop_left' rfl
  · simp only [List.length_cons]
    omega

theorem strtodEnd_integer (buf : List Nat) (p : Nat) (ds rest : List Nat)
    (h : buf.drop p = ds ++ rest) (hne : ds ≠ [])
    (hds : ∀ c ∈ ds, isDecimalDigit c = true)
    (hrest : ∀ c, rest.head? = some c → isDecimalDigit c = false)
    (hdot : rest.getD 0 0 ≠ 46) (hexp : exponentFollows rest = false) :
    strtodEnd buf p = p + ds.length := by
  have hint : countWhile isDecimalDigit buf p = ds.length := by
    unfold countWhile
    rw [h, takeWhile_append_stop _ _ _ hds hrest]
  have hrestdrop : buf.drop (p + ds.length) = rest := by
    rw [drop_add_of_drop _ _ _ _ h]
    exact List.drop_left' rfl
  have hb : ∀ k, byteAt buf (p + ds.length + k) = rest.getD k 0 :=
    fun k => byteAt_of_drop buf (p + ds.length) rest hrestdrop k
  have hb0 := hb 0
  have hb1 := hb 1
  have hb2 := hb 2
  simp only [Nat.add_zero] at hb0
  have hpos : ds.length ≠ 0 := fun h0 => hne (List.length_eq_zero.mp h0)
  unfold strtodEnd
  simp only [hint, hb0, hdot, if_false, Nat.add_zero]
  rw [if_neg hpos]
  by_cases he : rest.getD 0 0 = 101 ∨ rest.getD 0 0 = 69
  · rw [if_pos he]
    have he' : (decide (rest.getD 0 0 = 101) || decide (rest.getD 0 0 = 69)) = true := by
      simpa using he
    unfold exponentFollows at hexp
    rw [he', Bool.true_and] at hexp
    rw [hb1]
    by_cases hs : rest.getD 1 0 = 43 ∨ rest.getD 1 0 = 45
    · rw [if_pos hs] at hexp ⊢
      have : countWhile isDecimalDigit buf (p + ds.length + 2) = 0 := by
        unfold countWhile
        rw [drop_add_of_drop _ _ 2 _ hrestdrop]
        cases hr : rest.drop 2 with
        | nil => rfl
        | cons c cs =>
          have hc : rest.getD 2 0 = c := by
            have : rest.getD 2 0 = (rest.drop 2).getD 0 0 := by
              simp [List.getD_eq_getElem?_getD, List.getElem?_drop]
            rw [this, hr]
            rfl
          rw [hc] at hexp
          simp [List.takeWhile, hexp]
      rw [this]
      simp
    · rw [if_neg hs] at hexp ⊢
      have : countWhile isDecimalDigit buf (p + ds.length + 1) = 0 := by
        unfold countWhile
        rw [drop_add_of_drop _ _ 1 _ hrestdrop]
        cases hr : rest.drop 1 with
        | nil => rfl
        | cons c cs =>
          have hc : rest.getD 1 0 = c := by
            have : rest.getD 1 0 = (rest.drop 1).getD 0 0 := by
              simp [List.getD_eq_getElem?_getD, List.getElem?_drop]
            rw [this, hr]
            rfl
          rw [hc] at hexp
          simp [List.takeWhile, hexp]
      rw [this]
      simp
  · rw [if_neg he]

theorem short_literal_fits (ds : List Nat) (hlen : ds.length < 19)
    (hds : ∀ c ∈ ds, isDigitInBase (literalBase ds) c = true) :
    digitsToNat (literalBase ds) ds ≤ INT64_MAX := by
  have h := digitsToNat_lt (literalBase ds) ds hds
  have hb : literalBase ds ≤ 10 := by
    rcases literalBase_cases ds with ⟨_, h⟩ | ⟨_, h⟩ <;> omega
  have h1 : literalBase ds ^ ds.length ≤ 10 ^ ds.length := Nat.pow_le_pow_left hb _
  have h2 : (10 : Nat) ^ ds.length ≤ 10 ^ 18 := Nat.pow_le_pow_right (by omega) (by omega)
  have h3 : (10 : Nat) ^ 18 = 1000000000000000000 := by norm_num
  unfold INT64_MAX
  omega

/-! ### Comparing a literal with the text of the minimum 64-bit value -/

theorem digitValue_decimal_inj (c m : Nat) (hm : 48 ≤ m ∧ m ≤ 57)
    (h : (digitValue c).getD 0 = (digitValue m).getD 0) (hc : (digitValue c).isSome = true) :
    c = m := by
  have hmv : digitValue m = some (m - 48) := by
    unfold digitValue
    rw [if_pos hm]
  rw [hmv] at h
  simp only [Option.getD_some] at h
  by_cases h1 : 48 ≤ c ∧ c ≤ 57
  · have hcv : digitValue c = some (c - 48) := by
      unfold digitValue
      rw [if_pos h1]
    rw [hcv] at h
    simp only [Option.getD_some] at h
    omega
  · cases hv : digitValue c with
    | none => simp [hv] at hc
    | some v =>
      have := digitValue_letter c h1 v hv
      rw [hv] at h
      simp only [Option.getD_some] at h
      omega

theorem isSome_of_isDigitInBase (base c : Nat) (h : isDigitInBase base c = true) :
    (digitValue c).isSome = true := by
  unfold isDigitInBase at h
  cases hv : digitValue c with
  | none => simp [hv] at h
  | some v => rfl

theorem digitValue_lt_of_isDigitInBase (base c : Nat) (h : isDigitInBase base c = true) :
    (digitValue c).getD 0 < base := by
  unfold isDigitInBase at h
  cases hv : digitValue c with
  | none => simp [hv] at h
  | some v => simpa [hv] using h

theorem digits_eq_of_value_eq (base : Nat) :
    ∀ (l m : List Nat), l.length = m.length →
      (∀ c ∈ l, isDigitInBase base c = true) → (∀ c ∈ m, isDigitInBase base c = true) →
      (∀ c ∈ m, 48 ≤ c ∧ c ≤ 57) → digitsToNat base l = digitsToNat base m → l = m := by
  intro l
  induction l with
  | nil =>
    intro m hlen _ _ _ _
    cases m with
    | nil => rfl
    | cons _ _ => simp at hlen
  | cons c l ih =>
    intro m hlen hl hm hdec hval
    cases m with
    | nil => simp at hlen
    | cons d m =>
      simp only [List.length_cons, Nat.add_right_cancel_iff] at hlen
      rw [digitsToNat_cons, digitsToNat_cons, hlen] at hval
      have hlt1 := digitsToNat_lt base l (fun x hx => hl x (by simp [hx]))
      have hlt2 := digitsToNat_lt base m (fun x hx => hm x (by simp [hx]))
      rw [hlen] at hlt1
      have hpos : 0 < base ^ m.length := by omega
      have hq : (digitValue c).getD 0 = (digitValue d).getD 0 := by
        have e1 : ((digitValue c).getD 0 * base ^ m.length + digitsToNat base l) /
            base ^ m.length = (digitValue c).getD 0 := by
          rw [Nat.add_comm, Nat.add_mul_div_right _ _ hpos, Nat.div_eq_of_lt hlt1]
          simp
        have e2 : ((digitValue d).getD 0 * base ^ m.length + digitsToNat base m) /
            base ^ m.length = (digitValue d).getD 0 := by
          rw [Nat.add_comm, Nat.add_mul_div_right _ _ hpos, Nat.div_eq_of_lt hlt2]
          simp
        rw [← e1, ← e2, hval]
      have hcd : c = d :=
        digitValue_decimal_inj c d (hdec d (by simp)) hq
          (isSome_of_isDigitInBase base c (hl c (by simp)))
      have htl : digitsToNat base l = digitsToNat base m := by
        rw [hq] at hval
        omega
      rw [hcd, ih m hlen (fun x hx => hl x (by simp [hx])) (fun x hx => hm x (by simp [hx]))
        (fun x hx => hdec x (by simp [hx])) htl]

theorem canonical_length_le (base : Nat) (hb : 2 ≤ base) (l m : List Nat)
    (hl : ∀ c ∈ l, isDigitInBase base c = true)
    (hm : ∀ c ∈ m, isDigitInBase base c = true) (hmne : m ≠ [])
    (hmhead : ∀ c, m.head? = some c → c ≠ 48)
    (hval : digitsToNat base l = digitsToNat base m) : m.length ≤ l.length := by
  by_contra hlt
  have h1 := digitsToNat_lt base l hl
  have h2 := digitsToNat_significant_ge base m hmne hm hmhead
  have h3 : base ^ l.length ≤ base ^ (m.length - 1) :=
    Nat.pow_le_pow_right (by omega) (by omega)
  omega

theorem canonical_eq_of_value_eq (base : Nat) (hb : 2 ≤ base) (l m : List Nat)
    (hl : ∀ c ∈ l, isDigitInBase base c = true) (hlhead : ∀ c, l.head? = some c → c ≠ 48)
    (hm : ∀ c ∈ m, isDigitInBase base c = true) (hmne : m ≠ [])
    (hmhead : ∀ c, m.head? = some c → c ≠ 48) (hdec : ∀ c ∈ m, 48 ≤ c ∧ c ≤ 57)
    (hval : digitsToNat base l = digitsToNat base m) : l = m := by
  have hlne : l ≠ [] := by
    intro h0
    have := digitsToNat_significant_ge base m hmne hm hmhead
    rw [← hval, h0, digitsToNat_nil] at this
    have : 0 < base ^ (m.length - 1) := Nat.pow_pos (by omega)
    omega
  have h1 := canonical_length_le base hb l m hl hm hmne hmhead hval
  have h2 := canonical_length_le base hb m l hm hl hlne hlhead hval.symm
  exact digits_eq_of_value_eq base l m (by omega) hl hm hdec hval

theorem decMinText_value : digitsToNat 10 decMinText = INT64_MAX + 1 := by
  simp [digitsToNat, decMinText, digitValue, INT64_MAX]

theorem head_ne_of_headD (ds : List Nat) (h : ds.headD 0 ≠ 48) :
    ∀ c, ds.head? = some c → c ≠ 48 := by
  intro c hc
  cases ds with
  | nil => simp at hc
  | cons d tl =>
    simp only [List.head?_cons, Option.some.injEq] at hc
    simp only [List.headD_cons] at h
    omega

theorem decMinText_eq_iff (ds : List Nat) (hds : ∀ c ∈ ds, isDigitInBase 10 c = true)
    (hhead : ds.headD 0 ≠ 48) :
    decMinText = ds ↔ digitsToNat 10 ds = INT64_MAX + 1 := by
  constructor
  · intro h
    rw [← h]
    exact decMinText_value
  · intro h
    symm
    apply canonical_eq_of_value_eq 10 (by omega) ds decMinText hds (head_ne_of_headD ds hhead)
    · decide
    · decide
    · decide
    · decide
    · rw [h, decMinText_value]

/-! ### Save and restore -/

theorem applyMutation_yyStateStack (m : LexerMutation) (s t : Lexer)
    (h : applyMutation m s = some t) : t.yyStateStack = s.yyStateStack := by
  cases m <;> simp [applyMutation, pushYYCondition, popYYCondtion, pushHeredocLabel,
    popHeredocLabel, incLineNumber] at h
  all_goals first
    | (subst h; rfl)
    | (split at h <;> simp at h; subst h; rfl)

theorem applyMutation_labelHeap (m : LexerMutation) (s t : Lexer)
    (h : applyMutation m s = some t) : ∃ extra, t.labelHeap = s.labelHeap ++ extra := by
  cases m <;> simp [applyMutation, pushYYCondition, popYYCondtion, pushHeredocLabel,
    popHeredocLabel, incLineNumber] at h
  all_goals first
    | (subst h; exact ⟨[_], rfl⟩)
    | (subst h; exact ⟨[], (List.append_nil _).symm⟩)
    | (split at h <;> simp at h; subst h; exact ⟨[], (List.append_nil _).symm⟩)

theorem applyMutations_yyStateStack (ms : List LexerMutation) (s t : Lexer)
    (h : applyMutations ms s = some t) :
    t.yyStateStack = s.yyStateStack ∧ ∃ extra, t.labelHeap = s.labelHeap ++ extra := by
  induction ms generalizing s with
  | nil =>
    simp [applyMutations] at h
    subst h
    exact ⟨rfl, [], by simp⟩
  | cons m ms ih =>
    simp only [applyMutations] at h
    cases hm : applyMutation m s with
    | none => simp [hm] at h
    | some u =>
      simp [hm] at h
      obtain ⟨h1, e1, h2⟩ := ih u h
      obtain ⟨e2, h3⟩ := applyMutation_labelHeap m s u hm
      refine ⟨by rw [h1, applyMutation_yyStateStack m s u hm], e2 ++ e1, ?_⟩
      rw [h2, h3, List.append_assoc]

/-- C2: for every lexer state, `saveYYState`, then any sequence of defined
mutations of the scanner state (cursor, text pointer, marker, limit, length and
condition changes, pushes and pops on the condition stack and the heredoc-label
stack, line-number and flag changes), then `restoreYYState` succeeds and leaves
cursor, token-text pointer, marker, limit, token length, active condition,
condition stack, heredoc-label stack, line number, flags and the snapshot stack
equal to their values before the save; the label records allocated before the
save are still in place. -/
theorem save_mutate_restore (s t : Lexer) (ms : List LexerMutation)
    (h : applyMutations ms (saveYYState s) = some t) :
    ∃ r, restoreYYState t = some r ∧
      r.yyCursor = s.yyCursor ∧ r.yyText = s.yyText ∧ r.yyMarker = s.yyMarker ∧
      r.artificialEof = s.artificialEof ∧ r.yyLength = s.yyLength ∧
      r.yyCondition = s.yyCondition ∧ r.yyConditionStack = s.yyConditionStack ∧
      r.heredocLabelStack = s.heredocLabelStack ∧ r.lineNumber = s.lineNumber ∧
      r.flags = s.flags ∧ r.yyStateStack = s.yyStateStack ∧
      r.yyStateStack.length = s.yyStateStack.length ∧
      ∃ extra, r.labelHeap = s.labelHeap ++ extra := by
  obtain ⟨hstack, extra, hheap⟩ := applyMutations_yyStateStack ms (saveYYState s) t h
  unfold restoreYYState
  rw [hstack]
  simp only [saveYYState]
  exact ⟨_, rfl, rfl, rfl, rfl, rfl, rfl, rfl, rfl, rfl, rfl, rfl, rfl, rfl, extra, hheap⟩

/-! ### Invalid octal literals -/

@[simp] theorem setInvalidLexValue_flags (b : Bool) (s : Lexer) :
    (setInvalidLexValue b s).flags = s.flags := rfl

@[simp] theorem setInvalidLexValue_msg (b : Bool) (s : Lexer) :
    (setInvalidLexValue b s).currentExceptionMsg = s.currentExceptionMsg := rfl

@[simp] theorem setValue_flags (v : TokenValue) (s : Lexer) :
    (setValue v s).flags = s.flags := rfl

@[simp] theorem setValue_msg (v : TokenValue) (s : Lexer) :
    (setValue v s).currentExceptionMsg = s.currentExceptionMsg := rfl

@[simp] theorem setNeedCorrect_flags (b : Bool) (s : Lexer) :
    (setNeedCorrectLNumberOverflow b s).flags = s.flags := rfl

@[simp] theorem setNeedCorrect_msg (b : Bool) (s : Lexer) :
    (setNeedCorrectLNumberOverflow b s).currentExceptionMsg = s.currentExceptionMsg := rfl

@[simp] theorem setValue_invalidLexValue (v : TokenValue) (s : Lexer) :
    (setValue v s).nextToken.invalidLexValue = s.nextToken.invalidLexValue := rfl

@[simp] theorem setNeedCorrect_invalidLexValue (b : Bool) (s : Lexer) :
    (setNeedCorrectLNumberOverflow b s).nextToken.invalidLexValue =
      s.nextToken.invalidLexValue := rfl

theorem formToken_notify (E : Externs) (hE : E.Progress) (kind : TokenKindType) (msg : String)
    (code : Int) (s : Lexer) (hlen : s.bufferEnd = s.buffer.length)
    (hcur : s.yyCursor ≤ s.bufferEnd) (hin : s.yyText < s.artificialEof) :
    ∃ t, formToken E kind (notifyLexicalException msg code s).yyText
        (notifyLexicalException msg code s) = some t ∧
      t.nextToken.kind = kind ∧ t.flags.lexExceptionOccurred = true ∧
      t.currentExceptionMsg = msg ∧ t.nextToken.value = s.nextToken.value ∧
      t.nextToken.invalidLexValue = s.nextToken.invalidLexValue := by
  obtain ⟨c, a, tr, hf, _, _, _⟩ :=
    formToken_spec E hE kind (notifyLexicalException msg code s).yyText
      (notifyLexicalException msg code s) hlen hcur
  refine ⟨_, hf, ?_, rfl, rfl, rfl, rfl⟩
  rw [formedLexer_kind]
  exact formedKind_of_lt kind _ _ hin

theorem octal_prefix_split (ds : List Nat) (h0 : ds.headD 0 = 48)
    (hdec : ∀ c ∈ ds, isDecimalDigit c = true) (h89 : ∃ c ∈ ds, c = 56 ∨ c = 57) :
    ∃ tl post, ds.takeWhile (isDigitInBase 8) = 48 :: tl ∧
      ds = (48 :: tl) ++ post ∧ post ≠ [] ∧
      (∀ c ∈ (48 :: tl), isDigitInBase 8 c = true) ∧
      (∀ c, post.head? = some c → isDigitInBase 8 c = false ∧ c ≠ 48) := by
  have hsplit := List.takeWhile_append_dropWhile (isDigitInBase 8) ds
  have hpost : ds.dropWhile (isDigitInBase 8) ≠ [] := by
    intro hnil
    rw [List.dropWhile_eq_nil_iff] at hnil
    obtain ⟨c, hc, h⟩ := h89
    have := hnil c hc
    rcases h with h | h <;> subst h <;> simp [isDigitInBase, digitValue] at this
  cases ds with
  | nil =>
    obtain ⟨c, hc, _⟩ := h89
    simp at hc
  | cons d tl0 =>
    simp only [List.headD_cons] at h0
    subst h0
    have h48 : isDigitInBase 8 48 = true := by decide
    have htw : (48 :: tl0).takeWhile (isDigitInBase 8) = 48 :: tl0.takeWhile (isDigitInBase 8) := by
      simp [List.takeWhile, h48]
    refine ⟨tl0.takeWhile (isDigitInBase 8), (48 :: tl0).dropWhile (isDigitInBase 8), htw, ?_,
      hpost, ?_, ?_⟩
    · rw [← htw]
      exact hsplit.symm
    · intro c hc
      rw [← htw] at hc
      exact List.mem_takeWhile_imp hc
    · intro c hc
      have hnot := List.head?_dropWhile_not (isDigitInBase 8) (48 :: tl0)
      rw [hc] at hnot
      refine ⟨by simpa using hnot, ?_⟩
      intro h
      subst h
      simp [h48] at hnot

/-! ### Single-quoted strings -/

theorem bytesBetween_cons (buf : List Nat) (first last : Nat) (h1 : first < last)
    (h2 : last ≤ buf.length) :
    bytesBetween buf first last = byteAt buf first :: bytesBetween buf (first + 1) last := by
  unfold bytesBetween byteAt
  have hlt : first < (buf.take last).length := by
    rw [List.length_take]
    omega
  rw [List.drop_eq_getElem_cons hlt]
  congr 1
  rw [List.getElem_take, List.getD_eq_getElem?_getD, List.getElem?_eq_getElem (by omega)]
  rfl

theorem bytesBetween_nil (buf : List Nat) (first last : Nat) (h : last ≤ first) :
    bytesBetween buf first last = [] := by
  unfold bytesBetween
  apply List.drop_eq_nil_of_le
  rw [List.length_take]
  omega

theorem scanSingleQuote_spec (buf : List Nat) (yylimit : Nat) (hlim : yylimit ≤ buf.length) :
    ∀ (fuel yycursor : Nat), yycursor ≤ yylimit → yylimit - yycursor + 1 ≤ fuel →
      scanSingleQuote buf yylimit fuel yycursor =
        some (match closingQuoteOffset (bytesBetween buf yycursor yylimit) false with
          | some k => (yycursor + k + 1, true)
          | none => (yylimit, false)) := by
  intro fuel
  induction fuel with
  | zero => intro yycursor _ h; omega
  | succ fuel ih =>
    intro yycursor hle hfuel
    unfold scanSingleQuote
    by_cases hlt : yycursor < yylimit
    · rw [if_pos hlt, bytesBetween_cons buf yycursor yylimit hlt hlim]
      by_cases hq : byteAt buf yycursor = 39
      · rw [if_pos hq]
        simp [closingQuoteOffset, hq]
      · rw [if_neg hq]
        by_cases hb : byteAt buf yycursor = 92
        · by_cases hin : yycursor + 1 < yylimit
          · rw [if_pos ⟨hb, hin⟩, ih (yycursor + 1 + 1) (by omega) (by omega)]
            rw [bytesBetween_cons buf (yycursor + 1) yylimit hin hlim]
            simp only [closingQuoteOffset, hb, if_true, if_false, Nat.reduceEqDiff]
            cases closingQuoteOffset (bytesBetween buf (yycursor + 1 + 1) yylimit) false with
            | none => rfl
            | some k =>
              simp only [Option.map_some']
              congr 2
              omega
          · rw [if_neg (fun h => hin h.2), ih (yycursor + 1) (by omega) (by omega)]
            rw [bytesBetween_nil buf (yycursor + 1) yylimit (by omega)]
            simp [closingQuoteOffset, hb]
        · rw [if_neg (fun h => hb h.1), ih (yycursor + 1) (by omega) (by omega)]
          simp only [closingQuoteOffset, hq, hb, if_false]
          cases closingQuoteOffset (bytesBetween buf (yycursor + 1) yylimit) false with
          | none => rfl
          | some k =>
            simp only [Option.map_some']
            congr 2
            omega
    · rw [if_neg hlt, bytesBetween_nil buf yycursor yylimit (by omega)]
      simp only [closingQuoteOffset]
      congr 2
      omega

theorem closingQuoteOffset_lt : ∀ (l : List Nat) (e : Bool) (k : Nat),
    closingQuoteOffset l e = some k → k < l.length := by
  intro l
  induction l with
  | nil => intro e k h; simp [closingQuoteOffset] at h
  | cons c rest ih =>
    intro e k h
    cases e with
    | true =>
      simp only [closingQuoteOffset, Option.map_eq_some'] at h
      obtain ⟨j, hj, rfl⟩ := h
      have := ih false j hj
      simp only [List.length_cons]
      omega
    | false =>
      simp only [closingQuoteOffset] at h
      split at h
      · injection h with h
        subst h
        simp
      · split at h
        · simp only [Option.map_eq_some'] at h
          obtain ⟨j, hj, rfl⟩ := h
          have := ih true j hj
          simp only [List.length_cons]
          omega
        · simp only [Option.map_eq_some'] at h
          obtain ⟨j, hj, rfl⟩ := h
          have := ih false j hj
          simp only [List.length_cons]
          omega

theorem bytesBetween_length (buf : List Nat) (first last : Nat) (h : last ≤ buf.length) :
    (bytesBetween buf first last).length = last - first := by
  unfold bytesBetween
  rw [List.length_drop, List.length_take]
  omega

theorem formToken_cursor (E : Externs) (hE : E.Progress) (kind : TokenKindType)
    (tokenStart : Nat) (s : Lexer) (hlen : s.bufferEnd = s.buffer.length)
    (hcur : s.yyCursor ≤ s.bufferEnd) :
    ∃ c a tr, formToken E kind tokenStart s = some (formedLexer kind tokenStart s c a tr) ∧
      s.yyCursor ≤ c ∧ c ≤ s.bufferEnd ∧
      (s.triviaRetention = TriviaRetentionMode.WithoutTrivia ∨ s.yyCursor = s.bufferEnd →
        c = s.yyCursor) := by
  obtain ⟨c, a, tr, hf, h1, h2, h3⟩ := formToken_spec E hE kind tokenStart s hlen hcur
  refine ⟨c, a, tr, hf, h1, h2, ?_⟩
  rintro (h | h)
  · exact h3 h
  · omega

@[simp] theorem setYYLength_yyCursor (n : Nat) (s : Lexer) :
    (setYYLength n s).yyCursor = s.yyCursor := rfl

/-- C10: when the bytes between the cursor (just after the opening quote) and
the artificial end contain a `'` that is not escaped, a backslash escaping
exactly the one byte after it, `lexSingleQuoteString` returns a token of kind
`T_CONSTANT_ENCAPSED_STRING` whose text starts at the token start and ends
immediately after the first such quote, and the recorded token length is the
distance from the token start to the byte after that quote. -/
theorem lexSingleQuoteString_closed (E : Externs) (hE : E.Progress) (s : Lexer)
    (hs : QuoteOpened s) (k : Nat)
    (hq : closingQuoteOffset (bytesBetween s.buffer s.yyCursor s.artificialEof) false = some k) :
    ∃ t, lexSingleQuoteString E s = some t ∧
      t.nextToken.kind = TokenKindType.T_CONSTANT_ENCAPSED_STRING ∧
      t.nextToken.textStart = s.yyText ∧
      t.nextToken.textLength = s.yyCursor + k + 1 - s.yyText ∧
      t.yyLength = s.yyCursor + k + 1 - s.yyText ∧
      byteAt s.buffer (s.yyCursor + k) = 39 := by
  have hlimit : s.artificialEof ≤ s.buffer.length := by
    rw [← hs.atBufferEnd]; exact hs.limitInBuffer
  have hk := closingQuoteOffset_lt _ _ _ hq
  rw [bytesBetween_length _ _ _ hlimit] at hk
  have hscan := scanSingleQuote_spec s.buffer s.artificialEof hlimit
    (s.artificialEof - s.yyCursor + 1) s.yyCursor hs.beforeLimit (le_refl _)
  rw [hq] at hscan
  have hquote : byteAt s.buffer (s.yyCursor + k) = 39 := by
    have key : ∀ (l : List Nat) (e : Bool) (j : Nat),
        closingQuoteOffset l e = some j → l.getD j 0 = 39 := by
      intro l
      induction l with
      | nil => intro e j h; simp [closingQuoteOffset] at h
      | cons c rest ih =>
        intro e j h
        cases e with
        | true =>
          simp only [closingQuoteOffset, Option.map_eq_some'] at h
          obtain ⟨i, hi, rfl⟩ := h
          simpa using ih false i hi
        | false =>
          simp only [closingQuoteOffset] at h
          split at h
          · rename_i hc
            injection h with h
            subst h
            simpa using hc
          · split at h
            · simp only [Option.map_eq_some'] at h
              obtain ⟨i, hi, rfl⟩ := h
              simpa using ih true i hi
            · simp only [Option.map_eq_some'] at h
              obtain ⟨i, hi, rfl⟩ := h
              simpa using ih false i hi
    have h1 := key _ _ _ hq
    unfold bytesBetween at h1
    unfold byteAt
    rw [List.getD_eq_getElem?_getD] at h1 ⊢
    rw [List.getElem?_drop, List.getElem?_take_of_lt (by omega)] at h1
    exact h1
  unfold lexSingleQuoteString
  dsimp only
  rw [hscan]
  dsimp only
  have hform : ∀ (u : Lexer), u.buffer = s.buffer → u.bufferEnd = s.bufferEnd →
      u.artificialEof = s.artificialEof → u.yyText = s.yyText →
      u.yyCursor = s.yyCursor + k + 1 → u.yyLength = s.yyCursor + k + 1 - s.yyText →
      ∀ v, ∃ t, (formToken E TokenKindType.T_CONSTANT_ENCAPSED_STRING u.yyText u).map
          (setValue v) = some t ∧
        t.nextToken.kind = TokenKindType.T_CONSTANT_ENCAPSED_STRING ∧
        t.nextToken.textStart = s.yyText ∧
        t.nextToken.textLength = s.yyCursor + k + 1 - s.yyText ∧
        t.yyLength = s.yyCursor + k + 1 - s.yyText := by
    intro u hbuf hend hlim htext hcur hlen v
    obtain ⟨c, a, tr, hf, _, _, _⟩ :=
      formToken_spec E hE TokenKindType.T_CONSTANT_ENCAPSED_STRING u.yyText u
        (by rw [hend, hbuf]; exact hs.atBufferEnd)
        (by rw [hcur, hend]; have := hs.limitInBuffer; omega)
    rw [hf]
    refine ⟨_, rfl, ?_, ?_, ?_, ?_⟩
    · simp only [Option.map_some', setValue_kind, formedLexer_kind]
      exact formedKind_of_lt _ _ _ (by rw [htext, hlim]; have := hs.afterStart; omega)
    · show u.yyText = s.yyText
      exact htext
    · show u.yyCursor - u.yyText = _
      rw [hcur, htext]
    · show u.yyLength = _
      exact hlen
  have finish : ∀ (r : List Nat × Lexer), r.2.buffer = s.buffer → r.2.bufferEnd = s.bufferEnd →
      r.2.artificialEof = s.artificialEof → r.2.yyText = s.yyText →
      r.2.yyCursor = s.yyCursor + k + 1 → r.2.yyLength = s.yyCursor + k + 1 - s.yyText →
      ∃ t, (formToken E TokenKindType.T_CONSTANT_ENCAPSED_STRING r.2.yyText r.2).map
          (setValue (TokenValue.str r.1)) = some t ∧
        t.nextToken.kind = TokenKindType.T_CONSTANT_ENCAPSED_STRING ∧
        t.nextToken.textStart = s.yyText ∧
        t.nextToken.textLength = s.yyCursor + k + 1 - s.yyText ∧
        t.yyLength = s.yyCursor + k + 1 - s.yyText ∧
        byteAt s.buffer (s.yyCursor + k) = 39 := by
    intro r h1 h2 h3 h4 h5 h6
    obtain ⟨t, ht, a1, a2, a3, a4⟩ := hform r.2 h1 h2 h3 h4 h5 h6 (TokenValue.str r.1)
    exact ⟨t, ht, a1, a2, a3, a4, hquote⟩
  apply finish
  all_goals (split_ifs <;> rfl)

/-! ### The concrete helper instance -/

theorem plainExterns_progress : plainExterns.Progress where
  eol_bounds := by
    intro buf p e cc d hpe
    dsimp only [plainExterns]
    split
    · rename_i h
      dsimp only
      omega
    · dsimp only
      omega
  eol_moves := by
    intro buf p e cc d hpe h10 h13
    dsimp only [plainExterns]
    split
    · rename_i h
      have hk : countWhile (fun c => c ≠ 10 && c ≠ 13) buf p ≠ 0 := by
        intro h0
        rw [h0] at h
        simp only [Nat.add_zero] at h
        omega
      dsimp only
      omega
    · dsimp only
      omega
  comment_bounds := by
    intro buf p e cc d hpe
    dsimp only [plainExterns]
    omega
  continuation_bounds := by
    intro buf p e q _ h
    simp [plainExterns] at h
  continuation_end := by
    intro buf p e _
    rfl
  validate_bounds := by
    intro buf p e hpe
    dsimp only [plainExterns]
    omega

/-! ### Concrete instances -/

/-- `0b101` is the integer literal 5. -/
theorem lexBinaryNumber_integer_iff_fits_witness :
    ∃ t, lexBinaryNumber plainExterns
        (scanState [48, 98, 49, 48, 49] 0 5 TokenKindType.T_UNKNOWN_MARK false
          TriviaRetentionMode.WithTrivia) = some t ∧
      t.nextToken.kind = TokenKindType.T_LNUMBER ∧ t.nextToken.value = TokenValue.int 5 := by
  obtain ⟨t, ht, h1, _⟩ := lexBinaryNumber_integer_iff_fits plainExterns plainExterns_progress
    (scanState [48, 98, 49, 48, 49] 0 5 TokenKindType.T_UNKNOWN_MARK false
      TriviaRetentionMode.WithTrivia) 98 [49, 48, 49] []
    ⟨rfl, rfl, rfl, by norm_num [scanState], rfl, by decide⟩ (by decide) (by simp)
  exact ⟨t, ht, (h1 (by decide)).1, (h1 (by decide)).2⟩

/-- A save, a cursor move, a push on each stack, a line-number change and a pop,
then a restore. -/
theorem save_mutate_restore_witness :
    ∃ t r,
      applyMutations
        [LexerMutation.setYYCursor 1, LexerMutation.pushYYCondition YYLexerCondType.ST_HEREDOC,
         LexerMutation.pushHeredocLabel { name := [65] }, LexerMutation.incLineNumber 2,
         LexerMutation.popYYCondtion]
        (saveYYState (scanState [97, 98] 0 0 TokenKindType.T_UNKNOWN_MARK false
          TriviaRetentionMode.WithoutTrivia)) = some t ∧
      restoreYYState t = some r ∧ r.yyCursor = 0 ∧ r.yyConditionStack = [] ∧
      r.heredocLabelStack = [] ∧ r.lineNumber = 0 ∧ r.yyStateStack = [] := by
  have h : applyMutations
        [LexerMutation.setYYCursor 1, LexerMutation.pushYYCondition YYLexerCondType.ST_HEREDOC,
         LexerMutation.pushHeredocLabel { name := [65] }, LexerMutation.incLineNumber 2,
         LexerMutation.popYYCondtion]
        (saveYYState (scanState [97, 98] 0 0 TokenKindType.T_UNKNOWN_MARK false
          TriviaRetentionMode.WithoutTrivia)) = some _ := rfl
  obtain ⟨r, hr, h1, _, _, _, _, _, h7, h8, h9, _, h11, _⟩ := save_mutate_restore _ _ _ h
  exact ⟨_, r, h, hr, h1, h7, h8, h9, h11⟩

/-- C9 (amended): when no unescaped `'` occurs between the cursor (just after
the opening quote) and the artificial end, `lexSingleQuoteString` returns one
recovery token of kind `T_ENCAPSED_AND_WHITESPACE` whose text runs from the
token start to the artificial end; the cursor is then exactly at the artificial
end when trivia retention is off or the artificial end is the end of the
buffer, and in every case it is not before the artificial end and not past
the end of the buffer. -/
theorem lexSingleQuoteString_unterminated (E : Externs) (hE : E.Progress) (s : Lexer)
    (hs : QuoteOpened s)
    (hq : closingQuoteOffset (bytesBetween s.buffer s.yyCursor s.artificialEof) false = none) :
    ∃ t, lexSingleQuoteString E s = some t ∧
      t.nextToken.kind = TokenKindType.T_ENCAPSED_AND_WHITESPACE ∧
      t.nextToken.textStart = s.yyText ∧
      t.nextToken.textLength = s.artificialEof - s.yyText ∧
      t.yyLength = s.artificialEof - s.yyText ∧
      s.artificialEof ≤ t.yyCursor ∧ t.yyCursor ≤ s.bufferEnd ∧
      (s.triviaRetention = TriviaRetentionMode.WithoutTrivia ∨
        s.artificialEof = s.bufferEnd → t.yyCursor = s.artificialEof) := by
  have hlimit : s.artificialEof ≤ s.buffer.length := by
    rw [← hs.atBufferEnd]; exact hs.limitInBuffer
  have hscan := scanSingleQuote_spec s.buffer s.artificialEof hlimit
    (s.artificialEof - s.yyCursor + 1) s.yyCursor hs.beforeLimit (le_refl _)
  rw [hq] at hscan
  unfold lexSingleQuoteString
  dsimp only
  rw [hscan]
  dsimp only
  obtain ⟨c, a, tr, hf, h1, h2, h3⟩ :=
    formToken_cursor E hE TokenKindType.T_ENCAPSED_AND_WHITESPACE s.yyText
      (setYYLength (s.artificialEof - s.yyText) (setYYCursor s.artificialEof s))
      hs.atBufferEnd hs.limitInBuffer
  have hf' : formToken E TokenKindType.T_ENCAPSED_AND_WHITESPACE
      (setYYLength (s.artificialEof - s.yyText) (setYYCursor s.artificialEof s)).yyText
      (setYYLength (s.artificialEof - s.yyText) (setYYCursor s.artificialEof s)) = _ := hf
  rw [hf']
  refine ⟨_, rfl, ?_, rfl, rfl, rfl, h1, h2, h3⟩
  rw [formedLexer_kind]
  exact formedKind_of_lt _ _ _ (by
    show s.yyText < s.artificialEof
    have := hs.afterStart
    have := hs.beforeLimit
    omega)

/-- C9, the claim as stated fails: a lexer with trivia retention on that is
restricted to the first two bytes of the buffer `'a  x` meets no closing quote
before its artificial end (offset 2); `lexSingleQuoteString` forms the recovery
token with text `'a`, and the trailing-trivia scan of `formToken` leaves the
cursor at offset 4, past the artificial end. -/
theorem lexSingleQuoteString_unterminated_counterexample :
    (lexSingleQuoteString plainExterns
        { buffer := [39, 97, 32, 32, 120], bufferEnd := 5, artificialEof := 2,
          yyText := 0, yyLength := 1, yyCursor := 1,
          triviaRetention := TriviaRetentionMode.WithTrivia }).map
      (fun t => (t.nextToken.kind, t.nextToken.textLength, t.yyCursor, t.artificialEof)) =
      some (TokenKindType.T_ENCAPSED_AND_WHITESPACE, 2, 4, 2) := by
  decide

/-- The buffer `'ab` lexed to its end: the recovery token covers all three bytes
and the cursor stops at the end. -/
theorem lexSingleQuoteString_unterminated_witness :
    ∃ t, lexSingleQuoteString plainExterns
        (scanState [39, 97, 98] 0 1 TokenKindType.T_UNKNOWN_MARK false
          TriviaRetentionMode.WithTrivia) = some t ∧
      t.nextToken.kind = TokenKindType.T_ENCAPSED_AND_WHITESPACE ∧
      t.nextToken.textLength = 3 ∧ t.yyCursor = 3 := by
  obtain ⟨t, ht, h1, _, h3, _, _, _, h6⟩ :=
    lexSingleQuoteString_unterminated plainExterns plainExterns_progress
      (scanState [39, 97, 98] 0 1 TokenKindType.T_UNKNOWN_MARK false
        TriviaRetentionMode.WithTrivia)
      ⟨rfl, by decide, by decide, by decide⟩ (by decide)
  exact ⟨t, ht, h1, h3, h6 (Or.inr rfl)⟩

/-- The text `'a\'b'` followed by `;`: the backslash escapes the second quote and
the token ends after the third one, six bytes from its start. -/
theorem lexSingleQuoteString_closed_witness :
    ∃ t, lexSingleQuoteString plainExterns
        (scanState [39, 97, 92, 39, 98, 39, 59] 0 1 TokenKindType.T_UNKNOWN_MARK false
          TriviaRetentionMode.WithTrivia) = some t ∧
      t.nextToken.kind = TokenKindType.T_CONSTANT_ENCAPSED_STRING ∧
      t.nextToken.textLength = 6 ∧ t.yyLength = 6 := by
  obtain ⟨t, ht, h1, _, h3, h4, _⟩ :=
    lexSingleQuoteString_closed plainExterns plainExterns_progress
      (scanState [39, 97, 92, 39, 98, 39, 59] 0 1 TokenKindType.T_UNKNOWN_MARK false
        TriviaRetentionMode.WithTrivia)
      ⟨rfl, by decide, by decide, by decide⟩ 4 (by decide)
  exact ⟨t, ht, h1, h3, h4⟩

/-! ### The empty heredoc body and the round trip -/

/-- C1, where the code departs from the claim: when the token before is the
heredoc header (`T_START_HEREDOC`), `lexHereAndNowDocEnd` forms the token of the
empty body with its text starting one byte before `m_yyText`, the position at
which `lexImpl` began this token and at which the extent of the header token
ended, and reaching up to the cursor; it then sets the cursor back to
`m_yyText`.  So the byte before `m_yyText` is in the text of two tokens, and the
bytes from `m_yyText` up to the cursor are lexed once more by the next call. -/
theorem lexHereAndNowDocEnd_empty_body_extent (E : Externs) (hE : E.Progress) (s : Lexer)
    (hlen : s.bufferEnd = s.buffer.length) (hcur : s.yyCursor ≤ s.bufferEnd)
    (hstart : 0 < s.yyText)
    (hprev : s.nextToken.kind = TokenKindType.T_START_HEREDOC) :
    ∃ t, lexHereAndNowDocEnd E s = some t ∧
      t.nextToken.textStart = s.yyText - 1 ∧
      t.nextToken.textLength = s.yyCursor - (s.yyText - 1) ∧
      t.yyCursor = s.yyText := by
  unfold lexHereAndNowDocEnd
  rw [if_pos hprev]
  dsimp only
  rw [if_neg (show ¬ (setYYLength 0 s).yyText = 0 from Nat.pos_iff_ne_zero.mp hstart)]
  obtain ⟨c, a, tr, hf, -⟩ :=
    formToken_spec E hE TokenKindType.T_ENCAPSED_AND_WHITESPACE ((setYYLength 0 s).yyText - 1)
      (setYYLength 0 s) hlen hcur
  rw [hf]
  exact ⟨_, rfl, rfl, rfl, rfl⟩

/-- The state in which the scanner reaches `lexHereAndNowDocEnd` on the buffer
`<<<A`, newline, `A`, newline, after the header token: the token began at
offset 5 and one byte was consumed.  The token formed has the text of offsets 4
and 5, and the cursor is back at offset 5. -/
theorem lexHereAndNowDocEnd_empty_body_extent_witness :
    ∃ t, lexHereAndNowDocEnd plainExterns
        (scanState [60, 60, 60, 65, 10, 65, 10] 5 1 TokenKindType.T_START_HEREDOC false
          TriviaRetentionMode.WithTrivia) = some t ∧
      t.nextToken.textStart = 4 ∧ t.nextToken.textLength = 2 ∧ t.yyCursor = 5 :=
  lexHereAndNowDocEnd_empty_body_extent plainExterns plainExterns_progress
    (scanState [60, 60, 60, 65, 10, 65, 10] 5 1 TokenKindType.T_START_HEREDOC false
      TriviaRetentionMode.WithTrivia) rfl (by decide) (by decide) rfl

/-- C1, a buffer that is not reproduced: the seven bytes `<<<A`, newline, `A`,
newline, lexed from offset 0 to the end with trivia retention on.  The four
calls of `lex` return the header with the text of offsets 0 to 4, the empty body
with the text of offsets 4 and 5, the end marker with the text of offset 5, and
the end of file with the last newline as leading trivia: offsets 4 and 5 are in
two tokens each and the lengths add up to 9. -/
theorem lex_empty_heredoc_extents :
    (lexMany plainExterns 3 4
        (lexerInitialize [60, 60, 60, 65, 10, 65, 10] Option.none CommentRetentionMode.None
          TriviaRetentionMode.WithTrivia 0 7)).map
      (fun l => l.map fun s => (s.nextToken.kind, tokenExtent s)) =
      some [(TokenKindType.T_START_HEREDOC, 0, 0, 5, 0),
        (TokenKindType.T_ENCAPSED_AND_WHITESPACE, 0, 4, 2, 0),
        (TokenKindType.T_END_HEREDOC, 0, 5, 1, 0),
        (TokenKindType.END, 1, 7, 0, 0)] := by
  decide

/-! ### Trailing trivia -/

theorem appendOrSquash_filter (K : TriviaKind → Bool) (trivia : List ParsedTriviaPiece)
    (kind : TriviaKind) (n : Nat) (hk : K kind = false) :
    (appendOrSquash trivia kind n).filter (fun p => K p.kind) =
      trivia.filter (fun p => K p.kind) := by
  unfold appendOrSquash
  cases h : trivia.getLast? with
  | none => simp [List.filter_append, hk]
  | some last =>
    dsimp only
    have hsplit := List.dropLast_append_getLast? last h
    by_cases hl : last.kind = kind
    · rw [if_pos hl]
      conv_rhs => rw [← hsplit]
      simp [List.filter_append, hk, hl]
    · rw [if_neg hl]
      simp [List.filter_append, hk]

theorem pushBack_filter (K : TriviaKind → Bool) (trivia : List ParsedTriviaPiece)
    (kind : TriviaKind) (n : Nat) (hk : K kind = false) :
    (pushBack trivia kind n).filter (fun p => K p.kind) =
      trivia.filter (fun p => K p.kind) := by
  simp [pushBack, List.filter_append, hk]

theorem lexUnknown_cursorOnly (E : Externs) (b : Bool) (s t : Lexer) (k : Bool)
    (h : lexUnknown E b s = some (t, k)) : t = setYYCursor t.yyCursor s := by
  unfold lexUnknown at h
  dsimp only at h
  split at h
  · simp only [Option.map_eq_some'] at h
    obtain ⟨a, _, ha⟩ := h
    injection ha with ha _
    rw [← ha]
    rfl
  · split at h
    · injection h with h; injection h with h _; rw [← h]; rfl
    · split at h
      · injection h with h; injection h with h _; rw [← h]; rfl
      · split at h
        · injection h with h; injection h with h _; rw [← h]; rfl
        · injection h with h; injection h with h _; rw [← h]; rfl

theorem lexTriviaRound_trailing (E : Externs) (s : Lexer) (trivia : List ParsedTriviaPiece)
    (t : Lexer) (tr : List ParsedTriviaPiece) (again : Bool)
    (h : lexTriviaRound E true s trivia = some ((t, tr), again)) :
    t = setYYCursor t.yyCursor s ∧
      tr.filter (fun p => isLineBreakOrComment p.kind) =
        trivia.filter (fun p => isLineBreakOrComment p.kind) := by
  have key : ∀ (x : Lexer) (y : List ParsedTriviaPiece) (b : Bool),
      x = setYYCursor x.yyCursor s →
      y.filter (fun p => isLineBreakOrComment p.kind) =
        trivia.filter (fun p => isLineBreakOrComment p.kind) →
      some ((x, y), b) = some ((t, tr), again) →
      t = setYYCursor t.yyCursor s ∧
        tr.filter (fun p => isLineBreakOrComment p.kind) =
          trivia.filter (fun p => isLineBreakOrComment p.kind) := by
    intro x y b hx hy he
    injection he with he
    injection he with he _
    injection he with h1 h2
    subst h1 h2
    exact ⟨hx, hy⟩
  unfold lexTriviaRound at h
  dsimp only at h
  by_cases h10 : byteAt s.buffer s.yyCursor = 10
  · rw [if_pos h10] at h
    exact key _ _ _ rfl rfl h
  rw [if_neg h10] at h
  by_cases h13 : byteAt s.buffer s.yyCursor = 13
  · rw [if_pos h13] at h
    exact key _ _ _ rfl rfl h
  rw [if_neg h13] at h
  by_cases h32 : byteAt s.buffer s.yyCursor = 32
  · rw [if_pos h32] at h
    exact key _ _ _ rfl (appendOrSquash_filter _ _ TriviaKind.Space _ rfl) h
  rw [if_neg h32] at h
  by_cases h9 : byteAt s.buffer s.yyCursor = 9
  · rw [if_pos h9] at h
    exact key _ _ _ rfl (appendOrSquash_filter _ _ TriviaKind.Tab _ rfl) h
  rw [if_neg h9] at h
  by_cases h11 : byteAt s.buffer s.yyCursor = 11
  · rw [if_pos h11] at h
    exact key _ _ _ rfl (appendOrSquash_filter _ _ TriviaKind.VerticalTab _ rfl) h
  rw [if_neg h11] at h
  by_cases h12 : byteAt s.buffer s.yyCursor = 12
  · rw [if_pos h12] at h
    exact key _ _ _ rfl (appendOrSquash_filter _ _ TriviaKind.Formfeed _ rfl) h
  rw [if_neg h12] at h
  by_cases h47 : byteAt s.buffer s.yyCursor = 47
  · rw [if_pos h47] at h
    simp only [Bool.true_or, if_true] at h
    exact key _ _ _ rfl rfl h
  rw [if_neg h47] at h
  by_cases h35 : byteAt s.buffer s.yyCursor = 35
  · rw [if_pos h35] at h
    split at h
    · exact key _ _ _ (by simp only [skipHashbang, skipToEndOfLine_false]; rfl)
        (pushBack_filter _ _ TriviaKind.GarbageText _ rfl) h
    · exact key _ _ _ rfl rfl h
  rw [if_neg h35] at h
  by_cases h0 : byteAt s.buffer s.yyCursor = 0
  · rw [if_pos h0] at h
    split at h
    · exact key _ _ _ rfl (pushBack_filter _ _ TriviaKind.GarbageText _ rfl) h
    · exact key _ _ _ rfl rfl h
    · exact key _ _ _ rfl rfl h
  rw [if_neg h0] at h
  split at h
  · exact key _ _ _ rfl rfl h
  · split at h
    · exact key _ _ _ rfl rfl h
    · split at h
      · exact key _ _ _ rfl rfl h
      · split at h
        · cases h
        · rename_i s1 k hu
          have hs1 := lexUnknown_cursorOnly E _ _ _ _ hu
          split at h
          · exact key _ _ _ (by rw [hs1]; rfl) rfl h
          · exact key _ _ _ (by rw [hs1]; rfl) (pushBack_filter _ _ TriviaKind.GarbageText _ rfl) h

theorem lexTriviaLoop_trailing (E : Externs) :
    ∀ (fuel : Nat) (s : Lexer) (trivia : List ParsedTriviaPiece) (t : Lexer)
      (tr : List ParsedTriviaPiece),
      lexTriviaLoop E true fuel s trivia = some (t, tr) →
      t = setYYCursor t.yyCursor s ∧
        tr.filter (fun p => isLineBreakOrComment p.kind) =
          trivia.filter (fun p => isLineBreakOrComment p.kind) := by
  intro fuel
  induction fuel with
  | zero => intro s trivia t tr h; simp [lexTriviaLoop] at h
  | succ fuel ih =>
    intro s trivia t tr h
    unfold lexTriviaLoop at h
    cases hr : lexTriviaRound E true s trivia with
    | none => rw [hr] at h; cases h
    | some r =>
      obtain ⟨⟨s1, tr1⟩, again⟩ := r
      rw [hr] at h
      obtain ⟨h1, h2⟩ := lexTriviaRound_trailing E s trivia s1 tr1 again hr
      cases again with
      | false =>
        dsimp only at h
        injection h with h
        injection h with ha hb
        subst ha hb
        exact ⟨h1, h2⟩
      | true =>
        dsimp only at h
        obtain ⟨h3, h4⟩ := ih s1 tr1 t tr h
        refine ⟨?_, h4.trans h2⟩
        rw [h3, h1]
        rfl

theorem lexTriviaRound_trailing_blank (E : Externs) (s : Lexer)
    (trivia : List ParsedTriviaPiece)
    (hb : byteAt s.buffer s.yyCursor = 32 ∨ byteAt s.buffer s.yyCursor = 9 ∨
      byteAt s.buffer s.yyCursor = 11 ∨ byteAt s.buffer s.yyCursor = 12) :
    ∃ tr, lexTriviaRound E true s trivia = some ((setYYCursor (s.yyCursor + 1) s, tr), true) := by
  unfold lexTriviaRound
  dsimp only
  rw [if_neg (by omega), if_neg (by omega)]
  by_cases h32 : byteAt s.buffer s.yyCursor = 32
  · rw [if_pos h32]; exact ⟨_, rfl⟩
  rw [if_neg h32]
  by_cases h9 : byteAt s.buffer s.yyCursor = 9
  · rw [if_pos h9]; exact ⟨_, rfl⟩
  rw [if_neg h9]
  by_cases h11 : byteAt s.buffer s.yyCursor = 11
  · rw [if_pos h11]; exact ⟨_, rfl⟩
  rw [if_neg h11, if_pos (by omega)]
  exact ⟨_, rfl⟩

theorem lexTriviaRound_trailing_stop (E : Externs) (s : Lexer)
    (trivia : List ParsedTriviaPiece)
    (hb : byteAt s.buffer s.yyCursor = 10 ∨ byteAt s.buffer s.yyCursor = 13) :
    lexTriviaRound E true s trivia = some ((s, trivia), false) := by
  unfold lexTriviaRound
  dsimp only
  by_cases h10 : byteAt s.buffer s.yyCursor = 10
  · rw [if_pos h10]; rfl
  · rw [if_neg h10, if_pos (by omega)]; rfl

theorem lexTriviaLoop_trailing_run (E : Externs) :
    ∀ (ws : List Nat) (fuel : Nat) (s : Lexer) (trivia : List ParsedTriviaPiece)
      (c : Nat) (rest : List Nat),
      s.buffer.drop s.yyCursor = ws ++ c :: rest →
      (∀ b ∈ ws, b = 32 ∨ b = 9 ∨ b = 11 ∨ b = 12) → (c = 10 ∨ c = 13) →
      ws.length + 1 ≤ fuel →
      ∃ tr, lexTriviaLoop E true fuel s trivia =
        some (setYYCursor (s.yyCursor + ws.length) s, tr) := by
  intro ws
  induction ws with
  | nil =>
    intro fuel s trivia c rest hd _ hc hf
    cases fuel with
    | zero => omega
    | succ fuel =>
      have hb : byteAt s.buffer s.yyCursor = c := by
        have := byteAt_of_drop s.buffer s.yyCursor _ hd 0
        simpa using this
      unfold lexTriviaLoop
      rw [lexTriviaRound_trailing_stop E s trivia (by rw [hb]; exact hc)]
      exact ⟨_, rfl⟩
  | cons b ws ih =>
    intro fuel s trivia c rest hd hws hc hf
    cases fuel with
    | zero => omega
    | succ fuel =>
      have hb : byteAt s.buffer s.yyCursor = b := by
        have := byteAt_of_drop s.buffer s.yyCursor _ hd 0
        simpa using this
      obtain ⟨tr1, hr⟩ := lexTriviaRound_trailing_blank E s trivia
        (by rw [hb]; exact hws b (List.mem_cons_self _ _))
      unfold lexTriviaLoop
      rw [hr]
      dsimp only
      have hd1 : (setYYCursor (s.yyCursor + 1) s).buffer.drop
          (setYYCursor (s.yyCursor + 1) s).yyCursor = ws ++ c :: rest := by
        have := drop_add_of_drop s.buffer s.yyCursor 1 _ hd
        simpa using this
      obtain ⟨tr, ht⟩ := ih fuel (setYYCursor (s.yyCursor + 1) s) tr1 c rest hd1
        (fun x hx => hws x (List.mem_cons_of_mem _ hx)) hc
        (by simp only [List.length_cons] at hf; omega)
      refine ⟨tr, ?_⟩
      rw [ht]
      simp only [setYYCursor_yyCursor, List.length_cons]
      have : s.yyCursor + 1 + ws.length = s.yyCursor + (ws.length + 1) := by omega
      rw [this]
      rfl

/-- C19: `lexTrivia` called for trailing trivia returns, changes nothing of the
lexer but the cursor (so the at-start-of-line flag is as before), leaves the
line-terminator and comment pieces of the trivia list as they were, and, when a
run of spaces, tabs, vertical tabs and form feeds at the cursor is followed by
`\n` or `\r`, stops with the cursor on that byte. -/
theorem lexTrivia_trailing_leaves_line_terminator (E : Externs) (hE : E.Progress) (s : Lexer)
    (trivia : List ParsedTriviaPiece) (hlen : s.bufferEnd = s.buffer.length)
    (hcur : s.yyCursor ≤ s.bufferEnd) :
    ∃ t tr, lexTrivia E trivia true s = some (t, tr) ∧
      t = setYYCursor t.yyCursor s ∧
      t.nextToken.atStartOfLine = s.nextToken.atStartOfLine ∧
      tr.filter (fun p => isLineBreakOrComment p.kind) =
        trivia.filter (fun p => isLineBreakOrComment p.kind) ∧
      ∀ (ws : List Nat) (c : Nat) (rest : List Nat),
        s.buffer.drop s.yyCursor = ws ++ c :: rest →
        (∀ b ∈ ws, b = 32 ∨ b = 9 ∨ b = 11 ∨ b = 12) → (c = 10 ∨ c = 13) →
        t.yyCursor = s.yyCursor + ws.length := by
  obtain ⟨t, tr, ht, _, _, _⟩ := lexTrivia_spec E hE true s trivia hlen hcur
  obtain ⟨h1, h2⟩ := lexTriviaLoop_trailing E _ s trivia t tr ht
  refine ⟨t, tr, ht, h1, ?_, h2, ?_⟩
  · rw [h1]; rfl
  · intro ws c rest hd hws hc
    have hl : (s.buffer.drop s.yyCursor).length = ws.length + (rest.length + 1) := by
      rw [hd]; simp
    rw [List.length_drop] at hl
    obtain ⟨tr2, ht2⟩ := lexTriviaLoop_trailing_run E ws (s.bufferEnd + 1 - s.yyCursor) s trivia
      c rest hd hws hc (by omega)
    have ht' : lexTriviaLoop E true (s.bufferEnd + 1 - s.yyCursor) s trivia = some (t, tr) := ht
    rw [ht2] at ht'
    injection ht' with ht'
    injection ht' with ht' _
    rw [← ht']
    rfl

/-- The buffer of two spaces, a newline and `x`, scanned for trailing trivia from
offset 0: the cursor stops on the newline at offset 2 and the at-start-of-line
flag stays clear. -/
theorem lexTrivia_trailing_leaves_line_terminator_witness :
    ∃ t tr, lexTrivia plainExterns [] true
        (scanState [32, 32, 10, 120] 0 0 TokenKindType.T_UNKNOWN_MARK false
          TriviaRetentionMode.WithTrivia) = some (t, tr) ∧
      t.nextToken.atStartOfLine = false ∧
      tr.filter (fun p => isLineBreakOrComment p.kind) = [] ∧
      t.yyCursor = 2 := by
  obtain ⟨t, tr, ht, _, h2, h3, h4⟩ :=
    lexTrivia_trailing_leaves_line_terminator plainExterns plainExterns_progress
      (scanState [32, 32, 10, 120] 0 0 TokenKindType.T_UNKNOWN_MARK false
        TriviaRetentionMode.WithTrivia) [] rfl (by decide)
  exact ⟨t, tr, ht, h2, h3, h4 [32, 32] 10 [120] rfl (by decide) (Or.inl rfl)⟩

/-! ### Leading trivia and the at-start-of-line flag -/

theorem appendOrSquash_any (K : TriviaKind → Bool) (trivia : List ParsedTriviaPiece)
    (kind : TriviaKind) (n : Nat) :
    (appendOrSquash trivia kind n).any (fun p => K p.kind) =
      (trivia.any (fun p => K p.kind) || K kind) := by
  unfold appendOrSquash
  cases h : trivia.getLast? with
  | none => simp [List.any_append]
  | some last =>
    dsimp only
    have hsplit := List.dropLast_append_getLast? last h
    by_cases hl : last.kind = kind
    · rw [if_pos hl]
      conv_rhs => rw [← hsplit]
      simp [List.any_append, hl]
    · rw [if_neg hl]
      simp [List.any_append]

theorem pushBack_any (K : TriviaKind → Bool) (trivia : List ParsedTriviaPiece)
    (kind : TriviaKind) (n : Nat) :
    (pushBack trivia kind n).any (fun p => K p.kind) =
      (trivia.any (fun p => K p.kind) || K kind) := by
  simp [pushBack, List.any_append]

@[simp] theorem setYYCursor_nextToken (c : Nat) (s : Lexer) :
    (setYYCursor c s).nextToken = s.nextToken := rfl

@[simp] theorem setAtStartOfLine_flag (b : Bool) (s : Lexer) :
    (setAtStartOfLine b s).nextToken.atStartOfLine = b := rfl

theorem skipSlashStarComment_flag (E : Externs) (s : Lexer) :
    (skipSlashStarComment E s).nextToken.atStartOfLine = true ∨
      (skipSlashStarComment E s).nextToken.atStartOfLine = s.nextToken.atStartOfLine := by
  unfold skipSlashStarComment
  dsimp only
  split
  · exact Or.inl rfl
  · exact Or.inr rfl

theorem leadingFlagStep_trans {s s1 t : Lexer} {trivia tr1 tr : List ParsedTriviaPiece}
    (h1 : LeadingFlagStep s trivia s1 tr1) (h2 : LeadingFlagStep s1 tr1 t tr) :
    LeadingFlagStep s trivia t tr := by
  obtain ⟨a1, b1, c1, d1⟩ := h1
  obtain ⟨a2, b2, c2, d2⟩ := h2
  refine ⟨fun h => a2 (a1 h), ?_, ?_, fun h => d2 (d1 h)⟩
  · intro h
    rcases b2 h with h | h
    · rcases b1 h with h | h
      · exact Or.inl h
      · exact Or.inr (a2 h)
    · exact Or.inr h
  · intro h
    rcases c2 h with h | h
    · rcases c1 h with h | h
      · exact Or.inl h
      · exact Or.inr (d2 h)
    · exact Or.inr h

theorem lexTriviaRound_leading (E : Externs) (s : Lexer) (trivia : List ParsedTriviaPiece)
    (t : Lexer) (tr : List ParsedTriviaPiece) (again : Bool)
    (h : lexTriviaRound E false s trivia = some ((t, tr), again)) :
    LeadingFlagStep s trivia t tr := by
  have key : ∀ (x : Lexer) (y : List ParsedTriviaPiece) (b : Bool),
      some ((x, y), b) = some ((t, tr), again) →
      LeadingFlagStep s trivia x y → LeadingFlagStep s trivia t tr := by
    intro x y b he hx
    injection he with he
    injection he with he _
    injection he with h1 h2
    subst h1 h2
    exact hx
  have same : ∀ (x : Lexer), x.nextToken.atStartOfLine = s.nextToken.atStartOfLine →
      LeadingFlagStep s trivia x trivia :=
    fun x hx => ⟨fun h => by rw [hx]; exact h, fun h => Or.inl h,
      fun h => Or.inl (by rw [← hx]; exact h), fun h => h⟩
  have blank : ∀ (x : Lexer) (k : TriviaKind) (n : Nat),
      x.nextToken.atStartOfLine = s.nextToken.atStartOfLine →
      isNewlineTriviaKind k = false →
      LeadingFlagStep s trivia x (appendOrSquash trivia k n) := by
    intro x k n hx hk
    refine ⟨fun h => by rw [hx]; exact h, ?_, fun h => Or.inl (by rw [← hx]; exact h), ?_⟩
    · intro h
      simp only [hasNewlinePiece, appendOrSquash_any, hk, Bool.or_false] at h
      exact Or.inl h
    · intro h
      simp only [hasNewlineOrBlockComment] at h ⊢
      rw [appendOrSquash_any (fun k => isNewlineTriviaKind k || isBlockCommentKind k), h]
      rfl
  have garbage : ∀ (x : Lexer) (k : TriviaKind) (n : Nat),
      x.nextToken.atStartOfLine = s.nextToken.atStartOfLine →
      isNewlineTriviaKind k = false →
      LeadingFlagStep s trivia x (pushBack trivia k n) := by
    intro x k n hx hk
    refine ⟨fun h => by rw [hx]; exact h, ?_, fun h => Or.inl (by rw [← hx]; exact h), ?_⟩
    · intro h
      simp only [hasNewlinePiece, pushBack_any, hk, Bool.or_false] at h
      exact Or.inl h
    · intro h
      simp only [hasNewlineOrBlockComment] at h ⊢
      rw [pushBack_any (fun k => isNewlineTriviaKind k || isBlockCommentKind k), h]
      rfl
  have newline : ∀ (x : Lexer) (k : TriviaKind) (n : Nat),
      x.nextToken.atStartOfLine = true → isNewlineTriviaKind k = true →
      LeadingFlagStep s trivia x (appendOrSquash trivia k n) := by
    intro x k n hx hk
    refine ⟨fun _ => hx, fun _ => Or.inr hx, fun _ => Or.inr ?_, ?_⟩
    · simp only [hasNewlineOrBlockComment]
      rw [appendOrSquash_any (fun k => isNewlineTriviaKind k || isBlockCommentKind k), hk]
      simp
    · intro h
      simp only [hasNewlineOrBlockComment] at h ⊢
      rw [appendOrSquash_any (fun k => isNewlineTriviaKind k || isBlockCommentKind k), h]
      rfl
  unfold lexTriviaRound at h
  dsimp only at h
  by_cases h10 : byteAt s.buffer s.yyCursor = 10
  · rw [if_pos h10] at h
    exact key _ _ _ h (newline _ TriviaKind.Newline 1 rfl rfl)
  rw [if_neg h10] at h
  by_cases h13 : byteAt s.buffer s.yyCursor = 13
  · rw [if_pos h13] at h
    simp only [Bool.false_eq_true, if_false] at h
    split at h
    · exact key _ _ _ h (newline _ TriviaKind.CarriageReturnLineFeed 2 rfl rfl)
    · exact key _ _ _ h (newline _ TriviaKind.CarriageReturn 1 rfl rfl)
  rw [if_neg h13] at h
  by_cases h32 : byteAt s.buffer s.yyCursor = 32
  · rw [if_pos h32] at h
    exact key _ _ _ h (blank _ TriviaKind.Space 1 rfl rfl)
  rw [if_neg h32] at h
  by_cases h9 : byteAt s.buffer s.yyCursor = 9
  · rw [if_pos h9] at h
    exact key _ _ _ h (blank _ TriviaKind.Tab 1 rfl rfl)
  rw [if_neg h9] at h
  by_cases h11 : byteAt s.buffer s.yyCursor = 11
  · rw [if_pos h11] at h
    exact key _ _ _ h (blank _ TriviaKind.VerticalTab 1 rfl rfl)
  rw [if_neg h11] at h
  by_cases h12 : byteAt s.buffer s.yyCursor = 12
  · rw [if_pos h12] at h
    exact key _ _ _ h (blank _ TriviaKind.Formfeed 1 rfl rfl)
  rw [if_neg h12] at h
  by_cases h47 : byteAt s.buffer s.yyCursor = 47
  · rw [if_pos h47] at h
    split at h
    · exact key _ _ _ h (same _ rfl)
    · split at h
      · have hfl : (skipSlashSlashComment E false (setYYCursor (s.yyCursor + 1) s)).nextToken.atStartOfLine
            = s.nextToken.atStartOfLine := by
          simp only [skipSlashSlashComment, skipToEndOfLine_false]
          rfl
        split at h
        · exact key _ _ _ h (garbage _ TriviaKind.DocLineComment _ hfl rfl)
        · exact key _ _ _ h (garbage _ TriviaKind.LineComment _ hfl rfl)
      · split at h
        · have hfl := skipSlashStarComment_flag E (setYYCursor (s.yyCursor + 1) s)
          have blockStep : ∀ (k : TriviaKind) (n : Nat), isBlockCommentKind k = true →
              LeadingFlagStep s trivia (skipSlashStarComment E (setYYCursor (s.yyCursor + 1) s))
                (pushBack trivia k n) := by
            intro k n hk
            have hany : hasNewlineOrBlockComment (pushBack trivia k n) = true := by
              simp only [hasNewlineOrBlockComment]
              rw [pushBack_any (fun k => isNewlineTriviaKind k || isBlockCommentKind k), hk]
              simp
            have hnl : isNewlineTriviaKind k = false := by
              cases k <;> simp_all [isBlockCommentKind, isNewlineTriviaKind]
            refine ⟨?_, ?_, fun _ => Or.inr hany, fun _ => hany⟩
            · intro hs
              rcases hfl with hfl | hfl
              · exact hfl
              · rw [hfl]; exact hs
            · intro hh
              simp only [hasNewlinePiece, pushBack_any, hnl, Bool.or_false] at hh
              exact Or.inl hh
          split at h
          · exact key _ _ _ h (blockStep TriviaKind.DocBlockComment _ rfl)
          · exact key _ _ _ h (blockStep TriviaKind.BlockComment _ rfl)
        · exact key _ _ _ h (same _ rfl)
  rw [if_neg h47] at h
  by_cases h35 : byteAt s.buffer s.yyCursor = 35
  · rw [if_pos h35] at h
    split at h
    · exact key _ _ _ h (garbage _ TriviaKind.GarbageText _
        (by simp only [skipHashbang, skipToEndOfLine_false]; rfl) rfl)
    · exact key _ _ _ h (same _ rfl)
  rw [if_neg h35] at h
  by_cases h0 : byteAt s.buffer s.yyCursor = 0
  · rw [if_pos h0] at h
    split at h
    · exact key _ _ _ h (garbage _ TriviaKind.GarbageText _ rfl rfl)
    · exact key _ _ _ h (same _ rfl)
    · exact key _ _ _ h (same _ rfl)
  rw [if_neg h0] at h
  split at h
  · exact key _ _ _ h (same _ rfl)
  · split at h
    · exact key _ _ _ h (same _ rfl)
    · split at h
      · exact key _ _ _ h (same _ rfl)
      · split at h
        · cases h
        · rename_i s1 k hu
          have hs1 := lexUnknown_cursorOnly E _ _ _ _ hu
          have hfl : s1.nextToken.atStartOfLine = s.nextToken.atStartOfLine := by
            rw [hs1]; rfl
          split at h
          · exact key _ _ _ h (same _ hfl)
          · exact key _ _ _ h (garbage _ TriviaKind.GarbageText _ hfl rfl)

theorem lexTriviaLoop_leading (E : Externs) :
    ∀ (fuel : Nat) (s : Lexer) (trivia : List ParsedTriviaPiece) (t : Lexer)
      (tr : List ParsedTriviaPiece),
      lexTriviaLoop E false fuel s trivia = some (t, tr) → LeadingFlagStep s trivia t tr := by
  intro fuel
  induction fuel with
  | zero => intro s trivia t tr h; simp [lexTriviaLoop] at h
  | succ fuel ih =>
    intro s trivia t tr h
    unfold lexTriviaLoop at h
    cases hr : lexTriviaRound E false s trivia with
    | none => rw [hr] at h; cases h
    | some r =>
      obtain ⟨⟨s1, tr1⟩, again⟩ := r
      rw [hr] at h
      have h1 := lexTriviaRound_leading E s trivia s1 tr1 again hr
      cases again with
      | false =>
        dsimp only at h
        injection h with h
        injection h with ha hb
        subst ha hb
        exact h1
      | true =>
        dsimp only at h
        exact leadingFlagStep_trans h1 (ih s1 tr1 t tr h)

theorem formToken_keeps_flag (E : Externs) (kind : TokenKindType) (tokenStart : Nat)
    (v t : Lexer) (h : formToken E kind tokenStart v = some t) :
    t.nextToken.atStartOfLine = v.nextToken.atStartOfLine ∧
      t.leadingTrivia = v.leadingTrivia := by
  unfold formToken at h
  dsimp only at h
  split at h
  · simp only [Option.map_eq_some'] at h
    obtain ⟨⟨x, y⟩, hx, ht⟩ := h
    obtain ⟨h1, _⟩ := lexTriviaLoop_trailing E _ v v.trailingTrivia x y hx
    rw [← ht]
    dsimp only
    rw [h1]
    exact ⟨rfl, rfl⟩
  · injection h with h
    rw [← h]
    exact ⟨rfl, rfl⟩

theorem lexImpl_eq (E : Externs) (yy : Lexer → Option Lexer) (s : Lexer) :
    lexImpl E yy s = (lexImplLeading E (lexImplStart s)).bind fun u => yy (lexImplText u) := by
  unfold lexImpl lexImplLeading lexImplStart lexImplText
  dsimp only
  split <;> simp_all

theorem lexImplStart_facts (s : Lexer) :
    (lexImplStart s).buffer = s.buffer ∧ (lexImplStart s).bufferEnd = s.bufferEnd ∧
      ((lexImplStart s).nextToken.atStartOfLine = true ↔ s.yyCursor = s.bufferStart) ∧
      hasNewlinePiece (lexImplStart s).leadingTrivia = false ∧
      hasNewlineOrBlockComment (lexImplStart s).leadingTrivia = false ∧
      (lexImplStart s).yyCursor =
        (if s.yyCursor = s.bufferStart ∧ s.bufferStart < s.contentStart then
          s.yyCursor + (s.contentStart - s.bufferStart) else s.yyCursor) := by
  unfold lexImplStart
  dsimp only
  by_cases hstart : s.yyCursor = s.bufferStart
  · by_cases hbom : s.bufferStart < s.contentStart
    · rw [if_pos hstart, if_pos hbom, if_pos ⟨hstart, hbom⟩]
      exact ⟨rfl, rfl, ⟨fun _ => hstart, fun _ => rfl⟩, rfl, rfl, rfl⟩
    · rw [if_pos hstart, if_neg hbom, if_neg (fun h => hbom h.2)]
      exact ⟨rfl, rfl, ⟨fun _ => hstart, fun _ => rfl⟩, rfl, rfl, rfl⟩
  · rw [if_neg hstart, if_neg (fun h => hstart h.1)]
    exact ⟨rfl, rfl, ⟨(fun h => by cases h), fun h => absurd h hstart⟩, rfl, rfl, rfl⟩

theorem lexImplText_facts (u : Lexer) :
    (lexImplText u).nextToken = u.nextToken ∧ (lexImplText u).leadingTrivia = u.leadingTrivia := by
  unfold lexImplText
  dsimp only
  split <;> exact ⟨rfl, rfl⟩

theorem lexImpl_flag_cases (E : Externs) (hE : E.Progress) (yy : Lexer → Option Lexer)
    (s : Lexer) (hlen : s.bufferEnd = s.buffer.length) (hcur : s.yyCursor ≤ s.bufferEnd)
    (hcs : s.contentStart ≤ s.bufferEnd) :
    ∃ u, lexImpl E yy s = yy u ∧
      (s.yyCursor = s.bufferStart ∨ hasNewlinePiece u.leadingTrivia = true →
        u.nextToken.atStartOfLine = true) ∧
      (u.nextToken.atStartOfLine = true →
        s.yyCursor = s.bufferStart ∨ hasNewlineOrBlockComment u.leadingTrivia = true) := by
  obtain ⟨hbuf, hend, hpflag, hpnl, hpnb, hpc⟩ := lexImplStart_facts s
  have hplen : (lexImplStart s).bufferEnd = (lexImplStart s).buffer.length := by
    rw [hbuf, hend]; exact hlen
  have hpcur : (lexImplStart s).yyCursor ≤ (lexImplStart s).bufferEnd := by
    rw [hpc, hend]
    split <;> omega
  rw [lexImpl_eq]
  unfold lexImplLeading
  by_cases hres : (!(lexImplStart s).flags.reserveHeredocSpaces) = true
  · rw [if_pos hres]
    obtain ⟨t, tr, ht, _, _, _⟩ :=
      lexTrivia_spec E hE false (lexImplStart s) (lexImplStart s).leadingTrivia hplen hpcur
    obtain ⟨a, b, c, _⟩ :=
      lexTriviaLoop_leading E _ (lexImplStart s) (lexImplStart s).leadingTrivia t tr ht
    rw [ht]
    refine ⟨_, rfl, ?_, ?_⟩
    · rw [(lexImplText_facts _).1, (lexImplText_facts _).2]
      rintro (h | h)
      · exact a (hpflag.mpr h)
      · rcases b h with h1 | h1
        · rw [hpnl] at h1; cases h1
        · exact h1
    · rw [(lexImplText_facts _).1, (lexImplText_facts _).2]
      intro h
      rcases c h with h1 | h1
      · exact Or.inl (hpflag.mp h1)
      · exact Or.inr h1
  · rw [if_neg hres]
    refine ⟨_, rfl, ?_, ?_⟩
    · rw [(lexImplText_facts _).1, (lexImplText_facts _).2]
      rintro (h | h)
      · exact hpflag.mpr h
      · have h' : hasNewlinePiece (lexImplStart s).leadingTrivia = true := h
        rw [hpnl] at h'
        cases h'
    · rw [(lexImplText_facts _).1]
      intro h
      exact Or.inl (hpflag.mp h)

/-- C20 (amended): in the state `lexImpl` hands to the scanner, the
at-start-of-line flag of the token is true whenever the call started at the
start of the buffer or the leading trivia holds a line-terminator piece
(`Newline`, `CarriageReturn` or `CarriageReturnLineFeed`); and when the flag is
true, the call started at the start of the buffer, or the leading trivia holds a
line-terminator piece or a block-comment piece (a block comment the comment
skipper reports as spanning lines sets the flag).  `formToken` forms the token
with the flag and the leading trivia of the state it is called in, so the same
holds of every token formed from a state that still has the flag and the
leading trivia handed to the scanner.  (Nested calls of `lex` replace both; a
token formed after them is not covered.) -/
theorem lexImpl_atStartOfLine (E : Externs) (hE : E.Progress) (yy : Lexer → Option Lexer)
    (s : Lexer) (hlen : s.bufferEnd = s.buffer.length) (hcur : s.yyCursor ≤ s.bufferEnd)
    (hcs : s.contentStart ≤ s.bufferEnd) :
    (∃ u, lexImpl E yy s = yy u ∧
      (s.yyCursor = s.bufferStart ∨ hasNewlinePiece u.leadingTrivia = true →
        u.nextToken.atStartOfLine = true) ∧
      (u.nextToken.atStartOfLine = true →
        s.yyCursor = s.bufferStart ∨ hasNewlineOrBlockComment u.leadingTrivia = true) ∧
      ∀ (kind : TokenKindType) (tokenStart : Nat) (v t : Lexer),
        v.nextToken.atStartOfLine = u.nextToken.atStartOfLine →
        v.leadingTrivia = u.leadingTrivia →
        formToken E kind tokenStart v = some t →
        (s.yyCursor = s.bufferStart ∨ hasNewlinePiece t.leadingTrivia = true →
          t.nextToken.atStartOfLine = true) ∧
        (t.nextToken.atStartOfLine = true →
          s.yyCursor = s.bufferStart ∨ hasNewlineOrBlockComment t.leadingTrivia = true)) ∧
    ∀ (kind : TokenKindType) (tokenStart : Nat) (v t : Lexer),
      formToken E kind tokenStart v = some t →
      t.nextToken.atStartOfLine = v.nextToken.atStartOfLine ∧
        t.leadingTrivia = v.leadingTrivia := by
  refine ⟨?_, fun kind tokenStart v t h => formToken_keeps_flag E kind tokenStart v t h⟩
  obtain ⟨u, hu, h1, h2⟩ := lexImpl_flag_cases E hE yy s hlen hcur hcs
  refine ⟨u, hu, h1, h2, fun kind tokenStart v t hv1 hv2 ht => ?_⟩
  obtain ⟨f1, f2⟩ := formToken_keeps_flag E kind tokenStart v t ht
  rw [f1, f2, hv1, hv2]
  exact ⟨h1, h2⟩

/-- The buffer `x`, newline, `y` lexed from offset 1: the leading trivia of the
second token holds the newline, and the flag is set. -/
theorem lexImpl_atStartOfLine_witness :
    ∃ u, lexImpl plainExterns some
        (lexerInitialize [120, 10, 121] Option.none CommentRetentionMode.None
          TriviaRetentionMode.WithTrivia 1 3) = some u ∧
      hasNewlinePiece u.leadingTrivia = true ∧ u.nextToken.atStartOfLine = true := by
  obtain ⟨⟨u, hu, h1, _, _⟩, _⟩ :=
    lexImpl_atStartOfLine plainExterns plainExterns_progress some
      (lexerInitialize [120, 10, 121] Option.none CommentRetentionMode.None
        TriviaRetentionMode.WithTrivia 1 3) rfl (by decide) (by decide)
  have hev : (lexImpl plainExterns some
      (lexerInitialize [120, 10, 121] Option.none CommentRetentionMode.None
        TriviaRetentionMode.WithTrivia 1 3)).map (fun u => hasNewlinePiece u.leadingTrivia) =
      some true := by decide
  rw [hu] at hev
  have hnl : hasNewlinePiece u.leadingTrivia = true := by
    injection hev
  exact ⟨u, hu, hnl, h1 (Or.inr hnl)⟩

/-- C20, the claim as stated fails in both directions.  A lexer over the buffer
of a byte order mark and `x` that starts at offset 3, the content start, hands
the scanner a token that begins at the content start with the flag clear.  A
lexer over two spaces and `x` that starts at offset 0 hands the scanner a token
that begins at offset 2, after leading trivia without a line terminator, with
the flag set. -/
theorem lexImpl_atStartOfLine_counterexample :
    (lexImpl plainExterns some
        (lexerInitialize [0xEF, 0xBB, 0xBF, 120] Option.none CommentRetentionMode.None
          TriviaRetentionMode.WithTrivia 3 4)).map
      (fun u => (u.nextToken.atStartOfLine, u.yyText, u.contentStart, u.leadingTrivia)) =
      some (false, 3, 3, []) ∧
    (lexImpl plainExterns some
        (lexerInitialize [32, 32, 120] Option.none CommentRetentionMode.None
          TriviaRetentionMode.WithTrivia 0 3)).map
      (fun u => (u.nextToken.atStartOfLine, u.yyText, u.contentStart, u.leadingTrivia)) =
      some (true, 2, 0, [{ kind := TriviaKind.Space, length := 2 }]) := by
  decide

/-! ### The end marker of a heredoc -/

/-- C12, where the code departs from the claim: `lexHeredocHeader` tests the
byte before the final newline against the letter `r` (114), not against the
carriage return.  For the header `<<<bar` with a newline it pushes the label
`ba`, dropping the `r`; for the header `<<<A` with a carriage return and a
newline it pushes the label `A` with the carriage return included; and of two
spaces before the label it skips only one, so that for `<<<  A` with a newline
the label is a space and `A`. -/
theorem lexHeredocHeader_label_name (lexFn : Lexer → Option Lexer) :
    (lexHeredocHeader plainExterns lexFn
        (scanState [60, 60, 60, 98, 97, 114, 10] 0 7 TokenKindType.T_UNKNOWN_MARK false
          TriviaRetentionMode.WithoutTrivia)).map topLabelName = some (some [98, 97]) ∧
    (lexHeredocHeader plainExterns lexFn
        (scanState [60, 60, 60, 65, 13, 10] 0 6 TokenKindType.T_UNKNOWN_MARK false
          TriviaRetentionMode.WithoutTrivia)).map topLabelName = some (some [65, 13]) ∧
    (lexHeredocHeader plainExterns lexFn
        (scanState [60, 60, 60, 32, 32, 65, 10] 0 7 TokenKindType.T_UNKNOWN_MARK false
          TriviaRetentionMode.WithoutTrivia)).map topLabelName = some (some [32, 65]) := by
  refine ⟨?_, ?_, ?_⟩ <;> rfl

/-! ### The empty heredoc -/

theorem isLabelStart_not_blank (b : Nat) (h : isLabelStart b = true) :
    b ≠ 32 ∧ b ≠ 9 ∧ b ≠ 39 ∧ b ≠ 34 ∧ b ≠ 60 := by
  simp only [isLabelStart, Bool.or_eq_true, Bool.and_eq_true, decide_eq_true_eq] at h
  omega

theorem EmptyHeredoc.name_ne_nil {s : Lexer} {name ws : List Nat} {c : Nat} {rest : List Nat}
    (h : EmptyHeredoc s name ws c rest) : name ≠ [] := by
  intro hn
  have := h.labelStart
  rw [hn] at this
  simp [isLabelStart] at this

theorem drop_append_of_drop (buf : List Nat) (p : Nat) (pre post : List Nat)
    (h : buf.drop p = pre ++ post) : buf.drop (p + pre.length) = post := by
  rw [drop_add_of_drop buf p pre.length _ h]
  simp

theorem slice_of_drop (buf : List Nat) (p : Nat) (pre post : List Nat)
    (h : buf.drop p = pre ++ post) : slice buf p pre.length = pre := by
  unfold slice
  rw [h]
  simp

theorem byteAt_of_drop_cons (buf : List Nat) (p : Nat) (c : Nat) (post : List Nat)
    (h : buf.drop p = c :: post) : byteAt buf p = c := by
  have := byteAt_of_drop buf p _ h 0
  simpa using this

theorem countIndentation_of_drop (buf : List Nat) (p limit : Nat) (ws : List Nat) (c : Nat)
    (post : List Nat) (h : buf.drop p = ws ++ c :: post)
    (hws : ∀ b ∈ ws, b = 32 ∨ b = 9) (hc : c ≠ 32 ∧ c ≠ 9) (hlim : p + ws.length < limit) :
    countIndentation buf p limit = ws.length := by
  unfold countIndentation bytesBetween
  rw [List.drop_take, h]
  have hk : limit - p = ws.length + (limit - p - ws.length) := by omega
  rw [hk, List.take_append]
  obtain ⟨k, hk2⟩ : ∃ k, limit - p - ws.length = k + 1 := ⟨limit - p - ws.length - 1, by omega⟩
  rw [hk2, List.take_succ_cons]
  rw [takeWhile_append_stop]
  · intro b hb
    rcases hws b hb with h1 | h1 <;> simp [h1]
  · intro x hx
    simp only [List.head?_cons, Option.some.injEq] at hx
    subst hx
    simp [hc.1, hc.2]

theorem lexHeredocHeader_empty_eq (E : Externs) (lexFn : Lexer → Option Lexer) (s : Lexer)
    (name ws : List Nat) (c : Nat) (rest : List Nat) (h : EmptyHeredoc s name ws c rest) :
    lexHeredocHeader E lexFn s =
      formToken E TokenKindType.T_START_HEREDOC s.yyText
        (emptyHeredocState s name ws.length (spacingOf ws)) := by
  have hne := h.name_ne_nil
  obtain ⟨b, tl, hbt⟩ := List.exists_cons_of_ne_nil hne
  have hb := isLabelStart_not_blank b (by have := h.labelStart; rw [hbt] at this; simpa using this)
  have hbs : isLabelStart b = true := by have := h.labelStart; rw [hbt] at this; simpa using this
  have d0 : s.buffer.drop s.yyText = 60 :: 60 :: 60 :: (name ++ 10 :: (ws ++ name ++ c :: rest)) := by
    rw [h.textAt]; rfl
  have d1 : s.buffer.drop (s.yyText + 3) = name ++ 10 :: (ws ++ name ++ c :: rest) :=
    drop_append_of_drop s.buffer s.yyText [60, 60, 60] _ d0
  have d2 : s.buffer.drop (s.yyText + 3 + name.length) = [10] ++ (ws ++ name ++ c :: rest) :=
    drop_append_of_drop s.buffer _ name _ d1
  have d3 : s.buffer.drop (s.yyText + 3 + name.length + 1) = ws ++ (name ++ c :: rest) := by
    have := drop_append_of_drop s.buffer _ [10] _ d2
    simpa [List.append_assoc] using this
  have d4 : s.buffer.drop (s.yyText + 3 + name.length + 1 + ws.length) = name ++ c :: rest :=
    drop_append_of_drop s.buffer _ ws _ d3
  have d5 : s.buffer.drop (s.yyText + 3 + name.length + 1 + ws.length + name.length) = c :: rest :=
    drop_append_of_drop s.buffer _ name _ d4
  have hcur : s.yyCursor = s.yyText + 3 + name.length + 1 := by
    rw [h.cursorEq, h.lengthEq]; omega
  have f1 : byteAt s.buffer s.yyText = 60 := byteAt_of_drop_cons _ _ _ _ d0
  have f2 : byteAt s.buffer (s.yyText + s.yyLength - 2) ≠ 114 := by
    obtain ⟨init, l, hil⟩ : ∃ init l, name = init ++ [l] :=
      ⟨name.dropLast, name.getLast hne, (List.dropLast_append_getLast hne).symm⟩
    have hl : l ≠ 114 := by
      intro hl
      apply h.labelEnd
      rw [hil, hl]
      simp
    have e1 : s.buffer.drop (s.yyText + 3) = init ++ l :: 10 :: (ws ++ name ++ c :: rest) := by
      rw [d1]
      exact (congrArg (fun n => n ++ 10 :: (ws ++ name ++ c :: rest)) hil).trans (by simp)
    have e2 := drop_append_of_drop s.buffer _ init _ e1
    have e3 : s.yyText + s.yyLength - 2 = s.yyText + 3 + init.length := by
      rw [h.lengthEq, hil]
      simp only [List.length_append, List.length_singleton]
      omega
    rw [e3, byteAt_of_drop_cons _ _ _ _ e2]
    exact hl
  have f3 : byteAt s.buffer (s.yyText + 0 + 3) = b := by
    have : s.buffer.drop (s.yyText + 3) = b :: (tl ++ 10 :: (ws ++ name ++ c :: rest)) := by
      rw [d1, hbt]; rfl
    exact byteAt_of_drop_cons _ _ _ _ this
  have f4 : slice s.buffer (s.yyText + 0 + 3) name.length = name := slice_of_drop _ _ _ _ d1
  have f5 : countIndentation s.buffer s.yyCursor s.artificialEof = ws.length := by
    rw [hcur]
    have : s.buffer.drop (s.yyText + 3 + name.length + 1) =
        ws ++ b :: (tl ++ c :: rest) := by
      rw [d3]
      conv_lhs => rw [hbt]
      rfl
    have hm := h.markerInRange
    exact countIndentation_of_drop _ _ _ ws b _ this h.blanks ⟨hb.1, hb.2.1⟩ (by omega)
  have f6 : slice s.buffer s.yyCursor ws.length = ws := by
    rw [hcur]; exact slice_of_drop _ _ _ _ d3
  have f7 : byteAt s.buffer (s.yyCursor + ws.length) = b := by
    rw [hcur]
    have : s.buffer.drop (s.yyText + 3 + name.length + 1 + ws.length) = b :: (tl ++ c :: rest) := by
      rw [d4]
      conv_lhs => rw [hbt]
      rfl
    exact byteAt_of_drop_cons _ _ _ _ this
  have f8 : slice s.buffer (s.yyCursor + ws.length) name.length = name := by
    rw [hcur]; exact slice_of_drop _ _ _ _ d4
  have f9 : byteAt s.buffer (s.yyCursor + ws.length + name.length) = c := by
    rw [hcur]; exact byteAt_of_drop_cons _ _ _ _ d5
  have f10 : ((s.yyLength : Int) - ((0 : Nat) : Int) - 3 - 1).toNat = name.length := by
    rw [h.lengthEq]
    omega
  have f11 : s.yyCursor + ws.length ≠ s.artificialEof := by
    have := h.markerInRange; omega
  have f12 : ((name.length : Nat) : Int) < (s.artificialEof : Int) - ((s.yyCursor + ws.length : Nat) : Int) := by
    have := h.markerInRange; omega
  have f3' : byteAt s.buffer (s.yyText + 3) = b := by simpa using f3
  have f4' : slice s.buffer (s.yyText + 3) name.length = name := by simpa using f4
  have f10' : ((s.yyLength : Int) - 3 - 1).toNat = name.length := by
    rw [h.lengthEq]
    omega
  unfold lexHeredocHeader
  lift_lets
  intro yytext yylimit binary s1 bpfx s2 newlineLength length0 iter0 blank iter1 length1
    nowdoc quoted iter hereDocLabelLength isHeredoc s3 heredocLabel label s4 savedCursor
    indentation spacing s5
  intro s_1 s_2 s_3 s_4 s_5 src5 s_6 s_7 src7 s_8 scanned
  have hbin : binary = false := by simp only [binary, yytext, f1]; rfl
  clear_value binary
  subst hbin
  have hs1 : s1 = s := rfl
  clear_value s1
  subst hs1
  have hbp : bpfx = 0 := rfl
  clear_value bpfx
  subst hbp
  have hnl : newlineLength = 1 := if_neg f2
  clear_value newlineLength
  subst hnl
  have hblank : blank = false := by
    show (decide (byteAt s1.buffer (s1.yyText + 0 + 3) = 32) ||
      decide (byteAt s1.buffer (s1.yyText + 0 + 3) = 9)) = false
    rw [f3]
    simp [hb.1, hb.2.1]
  clear_value blank
  subst hblank
  have hnow : nowdoc = false := by
    show decide (byteAt s1.buffer (s1.yyText + 0 + 3) = 39) = false
    rw [f3]
    simp [hb.2.2.1]
  clear_value nowdoc
  subst hnow
  have hq : quoted = false := by
    show (false || decide (byteAt s1.buffer (s1.yyText + 0 + 3) = 34)) = false
    rw [f3]
    simp [hb.2.2.2.1]
  clear_value quoted
  subst hq
  have hll : hereDocLabelLength.toNat = name.length := f10
  have hlab : heredocLabel = name := by
    show slice s1.buffer (s1.yyText + 0 + 3) hereDocLabelLength.toNat = name
    rw [hll]
    exact f4
  clear_value heredocLabel
  subst hlab
  have hind : indentation = ws.length := f5
  clear_value indentation
  subst hind
  have hsp : spacing = spacingOf ws := by
    show spacingOf (slice s1.buffer s1.yyCursor ws.length) = spacingOf ws
    rw [f6]
  clear_value spacing
  subst hsp
  have c1 : ¬ (s5.yyCursor = yylimit) := f11
  have hla : labelAt s5 label = { name := heredocLabel, indentation := 0 } := by
    show (s1.labelHeap ++ [({ name := heredocLabel, indentation := 0 } : HereDocLabel)]).getD
      s1.labelHeap.length { name := [] } = _
    simp [List.getD_eq_getElem?_getD]
  have c2 : (isFoundHeredocEndMarker s5 (labelAt s5 label) &&
      !isLabelStart (byteAt s5.buffer (s5.yyCursor + hereDocLabelLength.toNat))) = true := by
    rw [hla, hll]
    show (isFoundHeredocEndMarker _ _ &&
      !isLabelStart (byteAt s1.buffer (s1.yyCursor + ws.length + heredocLabel.length))) = true
    rw [f9, h.successor]
    simp only [isFoundHeredocEndMarker, Bool.not_false, Bool.and_true]
    show (isLabelStart (byteAt s1.buffer (s1.yyCursor + ws.length)) &&
      decide ((heredocLabel.length : Int) <
        (s1.artificialEof : Int) - ((s1.yyCursor + ws.length : Nat) : Int)) &&
      decide (slice s1.buffer (s1.yyCursor + ws.length) heredocLabel.length = heredocLabel)) = true
    rw [f7, hbs, f8]
    have f12' : (heredocLabel.length : Int) <
        (s1.artificialEof : Int) - ((s1.yyCursor : Int) + (ws.length : Int)) := by
      have := h.markerInRange; omega
    simp [f12']
  rw [if_neg c1, if_pos c2]
  rfl

theorem spacingOf_mixed (ws : List Nat) :
    spacingOf ws = HEREDOC_USING_SPACES + HEREDOC_USING_TABS ↔ (32 ∈ ws ∧ 9 ∈ ws) := by
  unfold spacingOf HEREDOC_USING_SPACES HEREDOC_USING_TABS
  by_cases h1 : 32 ∈ ws <;> by_cases h2 : 9 ∈ ws <;> simp [h1, h2]

theorem emptyHeredocState_facts (s : Lexer) (name : List Nat) (n sp : Nat) :
    (emptyHeredocState s name n sp).buffer = s.buffer ∧
    (emptyHeredocState s name n sp).bufferEnd = s.bufferEnd ∧
    (emptyHeredocState s name n sp).yyCursor = s.yyCursor ∧
    (emptyHeredocState s name n sp).artificialEof = s.artificialEof ∧
    (emptyHeredocState s name n sp).triviaRetention = s.triviaRetention ∧
    (emptyHeredocState s name n sp).yyCondition = YYLexerCondType.ST_END_HEREDOC ∧
    (emptyHeredocState s name n sp).heredocLabelStack =
      s.labelHeap.length :: s.heredocLabelStack ∧
    labelAt (emptyHeredocState s name n sp) s.labelHeap.length =
      { name := name, indentation := n } ∧
    (emptyHeredocState s name n sp).flags.reserveHeredocSpaces = true ∧
    (emptyHeredocState s name n sp).flags.lexExceptionOccurred =
      (if sp = HEREDOC_USING_SPACES + HEREDOC_USING_TABS then true
        else s.flags.lexExceptionOccurred) ∧
    (emptyHeredocState s name n sp).currentExceptionMsg =
      (if sp = HEREDOC_USING_SPACES + HEREDOC_USING_TABS then
        "Invalid indentation - tabs and spaces cannot be mixed" else s.currentExceptionMsg) := by
  have hheap : ((s.labelHeap ++ [({ name := name, indentation := 0 } : HereDocLabel)]).set
      s.labelHeap.length { name := name, indentation := n }).getD s.labelHeap.length
        { name := [] } = { name := name, indentation := n } := by
    simp [List.getD_eq_getElem?_getD]
  have hget : (s.labelHeap ++ [({ name := name, indentation := 0 } : HereDocLabel)]).getD
      s.labelHeap.length { name := [] } = { name := name, indentation := 0 } := by
    simp [List.getD_eq_getElem?_getD]
  unfold emptyHeredocState
  dsimp only
  generalize hX : (if sp = HEREDOC_USING_SPACES + HEREDOC_USING_TABS then
      notifyLexicalException "Invalid indentation - tabs and spaces cannot be mixed" 0
        (setYYCursor
          ((pushHeredocLabel { name := name, indentation := 0 }
            { incLineNumber 1 s with yyCondition := YYLexerCondType.ST_HEREDOC }).yyCursor + n)
          (pushHeredocLabel { name := name, indentation := 0 }
            { incLineNumber 1 s with yyCondition := YYLexerCondType.ST_HEREDOC }))
    else
      setYYCursor
        ((pushHeredocLabel { name := name, indentation := 0 }
          { incLineNumber 1 s with yyCondition := YYLexerCondType.ST_HEREDOC }).yyCursor + n)
        (pushHeredocLabel { name := name, indentation := 0 }
          { incLineNumber 1 s with yyCondition := YYLexerCondType.ST_HEREDOC })) = X
  have x1 : X.buffer = s.buffer := by rw [← hX]; split <;> rfl
  have x2 : X.bufferEnd = s.bufferEnd := by rw [← hX]; split <;> rfl
  have x4 : X.artificialEof = s.artificialEof := by rw [← hX]; split <;> rfl
  have x5 : X.triviaRetention = s.triviaRetention := by rw [← hX]; split <;> rfl
  have x7 : X.heredocLabelStack = s.labelHeap.length :: s.heredocLabelStack := by
    rw [← hX]; split <;> rfl
  have x8 : X.labelHeap = s.labelHeap ++ [{ name := name, indentation := 0 }] := by
    rw [← hX]; split <;> rfl
  have x10 : X.flags.lexExceptionOccurred =
      (if sp = HEREDOC_USING_SPACES + HEREDOC_USING_TABS then true
        else s.flags.lexExceptionOccurred) := by
    rw [← hX]; split <;> rfl
  have x11 : X.currentExceptionMsg =
      (if sp = HEREDOC_USING_SPACES + HEREDOC_USING_TABS then
        "Invalid indentation - tabs and spaces cannot be mixed" else s.currentExceptionMsg) := by
    rw [← hX]; split <;> rfl
  refine ⟨x1, x2, rfl, x4, x5, rfl, x7, ?_, rfl, x10, x11⟩
  show (X.labelHeap.set s.labelHeap.length
    { name := (X.labelHeap.getD s.labelHeap.length { name := [] }).name, indentation := n,
      intentationUseSpaces :=
        (X.labelHeap.getD s.labelHeap.length { name := [] }).intentationUseSpaces }).getD
      s.labelHeap.length { name := [] } = _
  rw [x8, hget]
  exact hheap

theorem lexHeredocHeader_empty_cases (E : Externs) (hE : E.Progress)
    (lexFn : Lexer → Option Lexer) (s : Lexer) (name ws : List Nat) (c : Nat) (rest : List Nat)
    (h : EmptyHeredoc s name ws c rest) :
    ∃ t, lexHeredocHeader E lexFn s = some t ∧
      t.nextToken.kind = TokenKindType.T_START_HEREDOC ∧
      t.yyCondition = YYLexerCondType.ST_END_HEREDOC ∧
      t.heredocLabelStack = s.labelHeap.length :: s.heredocLabelStack ∧
      labelAt t s.labelHeap.length = { name := name, indentation := ws.length } ∧
      t.flags.reserveHeredocSpaces = true ∧
      t.flags.lexExceptionOccurred =
        (if 32 ∈ ws ∧ 9 ∈ ws then true else s.flags.lexExceptionOccurred) ∧
      t.currentExceptionMsg =
        (if 32 ∈ ws ∧ 9 ∈ ws then "Invalid indentation - tabs and spaces cannot be mixed"
          else s.currentExceptionMsg) ∧
      s.yyCursor ≤ t.yyCursor ∧ t.yyCursor ≤ s.bufferEnd ∧
      (s.triviaRetention = TriviaRetentionMode.WithoutTrivia → t.yyCursor = s.yyCursor) := by
  rw [lexHeredocHeader_empty_eq E lexFn s name ws c rest h]
  obtain ⟨e1, e2, e3, e4, e5, e6, e7, e8, e9, e10, e11⟩ :=
    emptyHeredocState_facts s name ws.length (spacingOf ws)
  have hm := h.markerInRange
  have hl := h.limitInBuffer
  obtain ⟨cur, a, tr, hf, h1, h2, h3⟩ :=
    formToken_spec E hE TokenKindType.T_START_HEREDOC s.yyText
      (emptyHeredocState s name ws.length (spacingOf ws))
      (by rw [e1, e2]; exact h.atBufferEnd) (by rw [e2, e3]; omega)
  have hmix : (spacingOf ws = HEREDOC_USING_SPACES + HEREDOC_USING_TABS) = (32 ∈ ws ∧ 9 ∈ ws) :=
    propext (spacingOf_mixed ws)
  rw [hf]
  refine ⟨_, rfl, ?_, e6, e7, e8, e9, ?_, ?_, ?_, ?_, ?_⟩
  · rw [formedLexer_kind]
    apply formedKind_of_lt
    rw [e4]
    have := h.cursorEq
    have := h.lengthEq
    omega
  · rw [formedLexer_flags, e10]
    simp only [hmix]
  · rw [formedLexer_currentExceptionMsg, e11]
    simp only [hmix]
  · rw [formedLexer_yyCursor]
    rw [e3] at h1
    exact h1
  · rw [formedLexer_yyCursor]
    rw [e2] at h2
    exact h2
  · intro hw
    rw [formedLexer_yyCursor, ← e3]
    exact h3 (by rw [e5]; exact hw)

theorem lexHereAndNowDocEnd_empty_cases (E : Externs) (hE : E.Progress) (u : Lexer)
    (hlen : u.bufferEnd = u.buffer.length) (hcur : u.yyCursor ≤ u.bufferEnd)
    (hstart : 0 < u.yyText) (hin : u.yyText - 1 < u.artificialEof)
    (hprev : u.nextToken.kind = TokenKindType.T_START_HEREDOC) :
    ∃ t, lexHereAndNowDocEnd E u = some t ∧
      t.nextToken.kind = TokenKindType.T_ENCAPSED_AND_WHITESPACE ∧
      t.nextToken.value = TokenValue.str [] ∧
      t.heredocLabelStack = u.heredocLabelStack ∧ t.labelHeap = u.labelHeap ∧
      t.yyCondition = u.yyCondition ∧
      t.yyCursor = u.yyText := by
  unfold lexHereAndNowDocEnd
  rw [if_pos hprev]
  dsimp only
  rw [if_neg (show ¬ (setYYLength 0 u).yyText = 0 from Nat.pos_iff_ne_zero.mp hstart)]
  obtain ⟨c, a, tr, hf, -⟩ :=
    formToken_spec E hE TokenKindType.T_ENCAPSED_AND_WHITESPACE ((setYYLength 0 u).yyText - 1)
      (setYYLength 0 u) hlen hcur
  rw [hf]
  refine ⟨_, rfl, ?_, rfl, rfl, rfl, rfl, rfl⟩
  show formedKind TokenKindType.T_ENCAPSED_AND_WHITESPACE (u.yyText - 1) (setYYLength 0 u) = _
  exact formedKind_of_lt _ _ _ hin

/-- C14, the part of the claim that holds: for a plain header `<<<`, label,
newline followed at once by the closing line, `lexHeredocHeader` forms the
`T_START_HEREDOC` token, sets the condition to `ST_END_HEREDOC`, pushes the
label and records the number of leading spaces and tabs of the closing line as
its indentation; with trivia retention off the cursor is back at the first byte
after the header, and with trivia retention on it is there or further on.  The
call of `lexHereAndNowDocEnd` that follows a `T_START_HEREDOC` token forms a
`T_ENCAPSED_AND_WHITESPACE` token with the empty string as value, leaves the
label stack and the condition as they are and the cursor at `m_yyText`. -/
theorem lexHeredocHeader_empty_body (E : Externs) (hE : E.Progress)
    (lexFn : Lexer → Option Lexer) (s : Lexer) (name ws : List Nat) (c : Nat) (rest : List Nat)
    (h : EmptyHeredoc s name ws c rest) :
    (∃ t, lexHeredocHeader E lexFn s = some t ∧
      t.nextToken.kind = TokenKindType.T_START_HEREDOC ∧
      t.yyCondition = YYLexerCondType.ST_END_HEREDOC ∧
      t.heredocLabelStack = s.labelHeap.length :: s.heredocLabelStack ∧
      labelAt t s.labelHeap.length = { name := name, indentation := ws.length } ∧
      s.yyCursor ≤ t.yyCursor ∧
      (s.triviaRetention = TriviaRetentionMode.WithoutTrivia → t.yyCursor = s.yyCursor)) ∧
    ∀ u : Lexer, u.bufferEnd = u.buffer.length → u.yyCursor ≤ u.bufferEnd →
      0 < u.yyText → u.yyText - 1 < u.artificialEof →
      u.nextToken.kind = TokenKindType.T_START_HEREDOC →
      ∃ t, lexHereAndNowDocEnd E u = some t ∧
        t.nextToken.kind = TokenKindType.T_ENCAPSED_AND_WHITESPACE ∧
        t.nextToken.value = TokenValue.str [] ∧
        t.heredocLabelStack = u.heredocLabelStack ∧
        t.yyCondition = u.yyCondition ∧
        t.yyCursor = u.yyText := by
  constructor
  · obtain ⟨t, ht, h1, h2, h3, h4, _, _, _, h8, _, h10⟩ :=
      lexHeredocHeader_empty_cases E hE lexFn s name ws c rest h
    exact ⟨t, ht, h1, h2, h3, h4, h8, h10⟩
  · intro u hlen hcur hstart hin hprev
    obtain ⟨t, ht, h1, h2, h3, _, h5, h6⟩ :=
      lexHereAndNowDocEnd_empty_cases E hE u hlen hcur hstart hin hprev
    exact ⟨t, ht, h1, h2, h3, h5, h6⟩

/-- The heredoc `<<<A`, newline, two spaces, `A`, newline with trivia retention
off: after the header the condition is `ST_END_HEREDOC`, the label `A` has the
indentation 2, and the cursor is at offset 5, the first byte after the header. -/
theorem lexHeredocHeader_empty_body_witness :
    ∃ t, lexHeredocHeader plainExterns (fun _ => Option.none)
        (scanState [60, 60, 60, 65, 10, 32, 32, 65, 10] 0 5 TokenKindType.T_UNKNOWN_MARK false
          TriviaRetentionMode.WithoutTrivia) = some t ∧
      t.yyCondition = YYLexerCondType.ST_END_HEREDOC ∧
      labelAt t 0 = { name := [65], indentation := 2 } ∧ t.yyCursor = 5 := by
  obtain ⟨⟨t, ht, _, h2, _, h4, _, h6⟩, _⟩ :=
    lexHeredocHeader_empty_body plainExterns plainExterns_progress (fun _ => Option.none)
      (scanState [60, 60, 60, 65, 10, 32, 32, 65, 10] 0 5 TokenKindType.T_UNKNOWN_MARK false
        TriviaRetentionMode.WithoutTrivia) [65] [32, 32] 10 []
      ⟨rfl, by decide, rfl, by decide, by decide, by decide, by decide, rfl, rfl, by decide⟩
  exact ⟨t, ht, h2, h4, h6 rfl⟩

/-- C14, where the code departs from the claim: for the same heredoc with
trivia retention on, `formToken` takes the two spaces of the closing line as
trailing trivia of the header token, and `lexHeredocHeader` returns with the
cursor at offset 7, not at offset 5, the first byte after the header. -/
theorem lexHeredocHeader_empty_body_counterexample :
    (lexHeredocHeader plainExterns (lex plainExterns 9)
        (scanState [60, 60, 60, 65, 10, 32, 32, 65, 10] 0 5 TokenKindType.T_UNKNOWN_MARK false
          TriviaRetentionMode.WithTrivia)).map
      (fun t => (t.nextToken.kind, t.yyCondition, (labelAt t 0).indentation, t.yyCursor,
        t.trailingTrivia)) =
      some (TokenKindType.T_START_HEREDOC, YYLexerCondType.ST_END_HEREDOC, 2, 7,
        [{ kind := TriviaKind.Space, length := 2 }]) := by
  rfl

/-! ### Double-quoted strings -/

theorem lexTriviaRound_trailing_token_start (E : Externs) (s : Lexer)
    (trivia : List ParsedTriviaPiece)
    (hb : stopsTrailingTrivia (byteAt s.buffer s.yyCursor) = true) :
    lexTriviaRound E true s trivia = some ((s, trivia), false) := by
  simp only [stopsTrailingTrivia, Bool.or_eq_true, decide_eq_true_eq] at hb
  rcases hb with (h10 | h13) | hts
  · exact lexTriviaRound_trailing_stop E s trivia (Or.inl h10)
  · exact lexTriviaRound_trailing_stop E s trivia (Or.inr h13)
  · have hne : byteAt s.buffer s.yyCursor ≠ 10 ∧ byteAt s.buffer s.yyCursor ≠ 13 ∧
        byteAt s.buffer s.yyCursor ≠ 32 ∧ byteAt s.buffer s.yyCursor ≠ 9 ∧
        byteAt s.buffer s.yyCursor ≠ 11 ∧ byteAt s.buffer s.yyCursor ≠ 12 ∧
        byteAt s.buffer s.yyCursor ≠ 47 ∧ byteAt s.buffer s.yyCursor ≠ 35 ∧
        byteAt s.buffer s.yyCursor ≠ 0 := by
      simp only [isTokenStartByte, Bool.or_eq_true, Bool.and_eq_true, decide_eq_true_eq] at hts
      omega
    obtain ⟨n1, n2, n3, n4, n5, n6, n7, n8, n9⟩ := hne
    unfold lexTriviaRound
    dsimp only
    rw [if_neg n1, if_neg n2, if_neg n3, if_neg n4, if_neg n5, if_neg n6, if_neg n7, if_neg n8,
      if_neg n9, if_pos hts]
    rfl

theorem formToken_facts (E : Externs) (hE : E.Progress) (kind : TokenKindType)
    (tokenStart : Nat) (x : Lexer) (hlen : x.bufferEnd = x.buffer.length)
    (hcur : x.yyCursor ≤ x.bufferEnd) :
    ∃ t, formToken E kind tokenStart x = some t ∧
      t.nextToken.kind = formedKind kind tokenStart x ∧
      t.nextToken.textStart = tokenStart ∧
      t.nextToken.textLength = x.yyCursor - tokenStart ∧
      t.nextToken.value = x.nextToken.value ∧
      t.yyLength = x.yyLength ∧ t.yyCondition = x.yyCondition ∧ t.flags = x.flags ∧
      t.currentExceptionMsg = x.currentExceptionMsg ∧
      t.heredocLabelStack = x.heredocLabelStack ∧ t.labelHeap = x.labelHeap ∧
      x.yyCursor ≤ t.yyCursor ∧ t.yyCursor ≤ x.bufferEnd ∧
      (x.triviaRetention = TriviaRetentionMode.WithoutTrivia ∨ x.yyCursor = x.bufferEnd ∨
        stopsTrailingTrivia (byteAt x.buffer x.yyCursor) = true → t.yyCursor = x.yyCursor) := by
  obtain ⟨c, a, tr, hf, h1, h2, h3⟩ := formToken_cursor E hE kind tokenStart x hlen hcur
  refine ⟨_, hf, rfl, rfl, rfl, rfl, rfl, rfl, rfl, rfl, rfl, rfl, h1, h2, ?_⟩
  rintro (h | h | h)
  · exact h3 (Or.inl h)
  · exact h3 (Or.inr h)
  · by_cases hw : x.triviaRetention = TriviaRetentionMode.WithTrivia
    · have hfuel : x.bufferEnd + 1 - x.yyCursor = (x.bufferEnd - x.yyCursor) + 1 := by omega
      have hl : lexTrivia E x.trailingTrivia true x = some (x, x.trailingTrivia) := by
        unfold lexTrivia
        rw [hfuel]
        unfold lexTriviaLoop
        rw [lexTriviaRound_trailing_token_start E x _ h]
      have hf2 : formToken E kind tokenStart x =
          some (formedLexer kind tokenStart x x.yyCursor x.nextToken.atStartOfLine
            x.trailingTrivia) := by
        unfold formToken
        dsimp only
        rw [if_pos hw, hl]
        rfl
      rw [hf2] at hf
      injection hf with hf
      have := congrArg Lexer.yyCursor hf
      simpa using this.symm
    · have hwo : x.triviaRetention = TriviaRetentionMode.WithoutTrivia := by
        cases hx : x.triviaRetention with
        | WithTrivia => exact absurd hx hw
        | WithoutTrivia => rfl
      exact h3 (Or.inl hwo)

theorem firstAnchor_bounds (buf : List Nat) (limit : Nat) :
    ∀ (n p : Nat) (e : Bool), limit - p = n → p ≤ limit →
      p ≤ firstAnchor buf limit n p e ∧ firstAnchor buf limit n p e ≤ limit ∧
      (firstAnchor buf limit n p e < limit →
        isDoubleQuoteAnchor buf (firstAnchor buf limit n p e) = true) := by
  intro n
  induction n with
  | zero =>
    intro p e hn hp
    simp only [firstAnchor]
    exact ⟨hp, le_refl _, fun h => absurd h (lt_irrefl _)⟩
  | succ n ih =>
    intro p e hn hp
    have hlt : ¬ limit ≤ p := by omega
    unfold firstAnchor
    rw [if_neg hlt]
    have next := fun e' => ih (p + 1) e' (by omega) (by omega)
    by_cases he : e = true
    · rw [if_pos he]
      obtain ⟨a, b, c⟩ := next false
      exact ⟨by omega, b, c⟩
    · rw [if_neg he]
      by_cases h92 : byteAt buf p = 92
      · rw [if_pos h92]
        obtain ⟨a, b, c⟩ := next true
        exact ⟨by omega, b, c⟩
      · rw [if_neg h92]
        by_cases ha : isDoubleQuoteAnchor buf p = true
        · rw [if_pos ha]
          exact ⟨le_refl _, by omega, fun _ => ha⟩
        · rw [if_neg ha]
          obtain ⟨a, b, c⟩ := next false
          exact ⟨by omega, b, c⟩

theorem scanDoubleQuote_spec (buf : List Nat) (limit : Nat) :
    ∀ (n fuel c : Nat), limit - c = n → c ≤ limit → n + 1 ≤ fuel →
      scanDoubleQuote buf limit fuel c = some (firstAnchor buf limit n c false) := by
  intro n
  induction n using Nat.strong_induction_on with
  | _ n ih =>
    intro fuel c hn hc hfuel
    obtain ⟨fuel, rfl⟩ : ∃ f, fuel = f + 1 := ⟨fuel - 1, by omega⟩
    unfold scanDoubleQuote
    by_cases hlt : c < limit
    · rw [if_pos hlt]
      obtain ⟨m, rfl⟩ : ∃ m, n = m + 1 := ⟨n - 1, by omega⟩
      have step : scanDoubleQuote buf limit fuel (c + 1) =
          some (firstAnchor buf limit m (c + 1) false) :=
        ih m (by omega) fuel (c + 1) (by omega) (by omega) (by omega)
      have hnl : ¬ limit ≤ c := by omega
      have hrhs : firstAnchor buf limit (m + 1) c false =
          (if byteAt buf c = 92 then firstAnchor buf limit m (c + 1) true
            else if isDoubleQuoteAnchor buf c = true then c
            else firstAnchor buf limit m (c + 1) false) := by
        conv_lhs => unfold firstAnchor
        rw [if_neg hnl]
        simp
      rw [hrhs]
      dsimp only
      simp only [Nat.add_sub_cancel]
      by_cases h34 : byteAt buf c = 34
      · rw [if_pos h34, if_neg (show ¬ byteAt buf c = 92 by omega),
          if_pos (show isDoubleQuoteAnchor buf c = true by simp [isDoubleQuoteAnchor, h34])]
      rw [if_neg h34]
      by_cases h36 : byteAt buf c = 36
      · rw [if_pos h36, if_neg (show ¬ byteAt buf c = 92 by omega)]
        by_cases hn : (isLabelStart (byteAt buf (c + 1)) || decide (byteAt buf (c + 1) = 123)) = true
        · rw [if_pos hn, if_pos (show isDoubleQuoteAnchor buf c = true by
            simp only [isDoubleQuoteAnchor, h36, hn]; simp)]
        · rw [if_neg hn, if_neg (show ¬ isDoubleQuoteAnchor buf c = true by
            simp only [isDoubleQuoteAnchor, h36]
            simp only [Bool.not_eq_true] at hn
            simp [hn]), step]
      rw [if_neg h36]
      by_cases h123 : byteAt buf c = 123
      · rw [if_pos h123, if_neg (show ¬ byteAt buf c = 92 by omega)]
        by_cases hn : byteAt buf (c + 1) = 36
        · rw [if_pos hn, if_pos (show isDoubleQuoteAnchor buf c = true by
            simp [isDoubleQuoteAnchor, h123, hn])]
        · rw [if_neg hn, if_neg (show ¬ isDoubleQuoteAnchor buf c = true by
            simp [isDoubleQuoteAnchor, h123, hn]), step]
      rw [if_neg h123]
      by_cases h92 : byteAt buf c = 92
      · rw [if_pos h92, if_pos h92]
        by_cases hin : c + 1 < limit
        · rw [if_pos hin]
          obtain ⟨k, rfl⟩ : ∃ k, m = k + 1 := ⟨m - 1, by omega⟩
          rw [ih k (by omega) fuel (c + 1 + 1) (by omega) (by omega) (by omega)]
          conv_rhs => unfold firstAnchor
          rw [if_neg (show ¬ limit ≤ c + 1 by omega)]
          simp
        · rw [if_neg hin]
          have hm : m = 0 := by omega
          subst hm
          rw [step]
          simp [firstAnchor]
      · rw [if_neg h92, if_neg h92,
          if_neg (show ¬ isDoubleQuoteAnchor buf c = true by
            simp [isDoubleQuoteAnchor, h34, h36, h123]), step]
    · rw [if_neg hlt]
      have hcl : c = limit := by omega
      subst hcl
      cases n with
      | zero => simp [firstAnchor]
      | succ n => omega

theorem isDoubleQuoteAnchor_stops (buf : List Nat) (p : Nat)
    (h : isDoubleQuoteAnchor buf p = true) : stopsTrailingTrivia (byteAt buf p) = true := by
  simp only [isDoubleQuoteAnchor, Bool.or_eq_true, Bool.and_eq_true, decide_eq_true_eq] at h
  have hc : byteAt buf p = 34 ∨ byteAt buf p = 36 ∨ byteAt buf p = 123 := by
    rcases h with (h | h) | h
    · exact Or.inl h
    · exact Or.inr (Or.inl h.1)
    · exact Or.inr (Or.inr h.1)
  rcases hc with hc | hc | hc <;> rw [hc] <;> rfl

theorem HelperFrame.facts {s t : Lexer} (h : HelperFrame s t) :
    t.buffer = s.buffer ∧ t.bufferEnd = s.bufferEnd ∧ t.yyCursor = s.yyCursor ∧
      t.yyText = s.yyText ∧ t.yyLength = s.yyLength ∧ t.artificialEof = s.artificialEof ∧
      t.triviaRetention = s.triviaRetention ∧ t.yyCondition = s.yyCondition ∧
      t.heredocLabelStack = s.heredocLabelStack ∧ t.labelHeap = s.labelHeap ∧
      t.valueContainer = s.valueContainer := by
  obtain ⟨_, _, _, rfl⟩ := h
  exact ⟨rfl, rfl, rfl, rfl, rfl, rfl, rfl, rfl, rfl, rfl, rfl⟩

theorem lexDoubleQuoteString_cases (E : Externs) (hE : E.Progress) (hS : E.StringFrame)
    (s : Lexer) (h : DoubleQuoteEntered s) :
    ∃ t, lexDoubleQuoteString E s = some t ∧
      s.yyCursor ≤ firstAnchor s.buffer s.artificialEof (s.artificialEof - s.yyCursor) s.yyCursor
        (decide (byteAt s.buffer s.yyText = 92)) ∧
      t.yyLength = firstAnchor s.buffer s.artificialEof (s.artificialEof - s.yyCursor) s.yyCursor
        (decide (byteAt s.buffer s.yyText = 92)) - s.yyText ∧
      t.nextToken.textStart = s.yyText ∧
      t.nextToken.textLength =
        firstAnchor s.buffer s.artificialEof (s.artificialEof - s.yyCursor) s.yyCursor
          (decide (byteAt s.buffer s.yyText = 92)) - s.yyText ∧
      firstAnchor s.buffer s.artificialEof (s.artificialEof - s.yyCursor) s.yyCursor
        (decide (byteAt s.buffer s.yyText = 92)) ≤ t.yyCursor ∧
      t.yyCursor ≤ s.bufferEnd ∧
      (firstAnchor s.buffer s.artificialEof (s.artificialEof - s.yyCursor) s.yyCursor
          (decide (byteAt s.buffer s.yyText = 92)) < s.artificialEof ∨
        s.triviaRetention = TriviaRetentionMode.WithoutTrivia ∨
        s.artificialEof = s.bufferEnd →
        t.yyCursor = firstAnchor s.buffer s.artificialEof (s.artificialEof - s.yyCursor)
          s.yyCursor (decide (byteAt s.buffer s.yyText = 92))) := by
  have hlen := h.atBufferEnd
  have hlim := h.limitInBuffer
  have hone := h.afterChar
  have hbl := h.beforeLimit
  obtain ⟨b1, b2, b3⟩ := firstAnchor_bounds s.buffer s.artificialEof
    (s.artificialEof - s.yyCursor) s.yyCursor (decide (byteAt s.buffer s.yyText = 92)) rfl hbl
  generalize hstop : firstAnchor s.buffer s.artificialEof (s.artificialEof - s.yyCursor)
    s.yyCursor (decide (byteAt s.buffer s.yyText = 92)) = stop at b1 b2 b3 ⊢
  unfold lexDoubleQuoteString
  dsimp only
  by_cases hg : s.yyCursor ≥ s.artificialEof
  · rw [if_pos hg]
    have hcl : s.yyCursor = s.artificialEof := by omega
    have hst : stop = s.artificialEof := by omega
    obtain ⟨t, ht, _, f2, f3, _, f5, _, _, _, _, _, f11, f12, f13⟩ :=
      formToken_facts E hE TokenKindType.T_ERROR s.yyText (setYYCursor s.artificialEof s)
        hlen hlim
    refine ⟨t, ht, b1, ?_, f2, ?_, ?_, f12, ?_⟩
    · rw [f5]
      show s.yyLength = stop - s.yyText
      rw [h.lengthEq]
      omega
    · rw [f3, hst]
      rfl
    · rw [hst]
      exact f11
    · rintro (h1 | h1 | h1)
      · omega
      · rw [hst]
        exact f13 (Or.inl h1)
      · rw [hst]
        exact f13 (Or.inr (Or.inl h1))
  · rw [if_neg hg]
    have hlt : s.yyCursor < s.artificialEof := by omega
    have hscan : scanDoubleQuote s.buffer s.artificialEof
        (s.artificialEof -
          (if byteAt s.buffer s.yyText = 92 ∧ s.yyCursor < s.artificialEof then s.yyCursor + 1
            else s.yyCursor) + 1)
        (if byteAt s.buffer s.yyText = 92 ∧ s.yyCursor < s.artificialEof then s.yyCursor + 1
          else s.yyCursor) = some stop := by
      obtain ⟨m, hm⟩ : ∃ m, s.artificialEof - s.yyCursor = m + 1 :=
        ⟨s.artificialEof - s.yyCursor - 1, by omega⟩
      by_cases he : byteAt s.buffer s.yyText = 92
      · rw [if_pos ⟨he, hlt⟩]
        rw [scanDoubleQuote_spec s.buffer s.artificialEof m _ (s.yyCursor + 1) (by omega)
          (by omega) (by omega)]
        rw [← hstop, hm]
        conv_rhs => unfold firstAnchor
        rw [if_neg (show ¬ s.artificialEof ≤ s.yyCursor by omega)]
        simp [he]
      · rw [if_neg (fun hh => he hh.1)]
        rw [scanDoubleQuote_spec s.buffer s.artificialEof (m + 1) _ s.yyCursor hm
          (by omega) (by omega)]
        rw [← hstop, hm]
        simp [he]
    rw [hscan]
    dsimp only
    obtain ⟨g1, g2, g3, g4, g5, g6, g7, _, _, _, _⟩ :=
      (hS.convert_frame (setYYLength (stop - s.yyText) (setYYCursor stop s))
        (slice (setYYLength (stop - s.yyText) (setYYCursor stop s)).buffer s.yyText
          (setYYLength (stop - s.yyText) (setYYCursor stop s)).yyLength) 34).facts
    generalize E.convert_double_quote_str_escape_sequences
      (setYYLength (stop - s.yyText) (setYYCursor stop s))
      (slice (setYYLength (stop - s.yyText) (setYYCursor stop s)).buffer s.yyText
        (setYYLength (stop - s.yyText) (setYYCursor stop s)).yyLength) 34 = r
      at g1 g2 g3 g4 g5 g6 g7 ⊢
    have key : ∀ kind, ∃ t, formToken E kind s.yyText r.2.2 = some t ∧
        t.yyLength = stop - s.yyText ∧ t.nextToken.textStart = s.yyText ∧
        t.nextToken.textLength = stop - s.yyText ∧ stop ≤ t.yyCursor ∧
        t.yyCursor ≤ s.bufferEnd ∧
        (stop < s.artificialEof ∨ s.triviaRetention = TriviaRetentionMode.WithoutTrivia ∨
          s.artificialEof = s.bufferEnd → t.yyCursor = stop) := by
      intro kind
      obtain ⟨t, ht, _, f2, f3, _, f5, _, _, _, _, _, f11, f12, f13⟩ :=
        formToken_facts E hE kind s.yyText r.2.2 (by rw [g1, g2]; exact hlen)
          (by rw [g2, g3]; show stop ≤ s.bufferEnd; omega)
      refine ⟨t, ht, ?_, f2, ?_, ?_, ?_, ?_⟩
      · rw [f5, g5]; rfl
      · rw [f3, g3]; rfl
      · rw [g3] at f11; exact f11
      · rw [g2] at f12; exact f12
      · intro hc
        rw [g3] at f13
        apply f13
        rcases hc with h1 | h1 | h1
        · right; right
          rw [g1]
          exact isDoubleQuoteAnchor_stops _ _ (b3 h1)
        · left
          rw [g7]; exact h1
        · by_cases hsl : stop < s.artificialEof
          · right; right
            rw [g1]
            exact isDoubleQuoteAnchor_stops _ _ (b3 hsl)
          · right; left
            rw [g2]
            show stop = s.bufferEnd
            omega
    split
    · obtain ⟨t, ht, k1, k2, k3, k4, k5, k6⟩ := key TokenKindType.T_CONSTANT_ENCAPSED_STRING
      rw [ht]
      exact ⟨_, rfl, b1, k1, k2, k3, k4, k5, k6⟩
    · obtain ⟨t, ht, k1, k2, k3, k4, k5, k6⟩ := key TokenKindType.T_ERROR
      rw [ht]
      exact ⟨_, rfl, b1, k1, k2, k3, k4, k5, k6⟩

theorem plainExterns_stringFrame : plainExterns.StringFrame where
  handle_newlines_frame := fun _ _ _ => ⟨_, rfl⟩
  convert_frame := fun s _ _ => ⟨s.lineNumber, s.flags.lexExceptionOccurred,
    s.currentExceptionMsg, rfl⟩
  strip_frame := fun s _ _ _ _ _ => ⟨s.lineNumber, s.flags.lexExceptionOccurred,
    s.currentExceptionMsg, rfl⟩

/-- C11 (amended): `lexDoubleQuoteString`, called with one byte of the body
matched, ends the token at the first position at or after the cursor, skipping
each backslash together with the byte it escapes, that holds a `"`, a `$`
followed by a label-start byte or by `{`, or a `{` followed by `$`, and at the
artificial end if there is no such position before it: the recorded token
length and the length of the token text are the distance from the token start
to that position.  The cursor is left at that position when the position is
before the artificial end, when trivia retention is off, or when the artificial
end is the end of the buffer; in the remaining case it is left at or after the
artificial end; in every case it is not past the end of the buffer. -/
theorem lexDoubleQuoteString_stop (E : Externs) (hE : E.Progress) (hS : E.StringFrame)
    (s : Lexer) (h : DoubleQuoteEntered s) :
    ∃ t, lexDoubleQuoteString E s = some t ∧
      s.yyCursor ≤ firstAnchor s.buffer s.artificialEof (s.artificialEof - s.yyCursor) s.yyCursor
        (decide (byteAt s.buffer s.yyText = 92)) ∧
      t.yyLength = firstAnchor s.buffer s.artificialEof (s.artificialEof - s.yyCursor) s.yyCursor
        (decide (byteAt s.buffer s.yyText = 92)) - s.yyText ∧
      t.nextToken.textStart = s.yyText ∧
      t.nextToken.textLength =
        firstAnchor s.buffer s.artificialEof (s.artificialEof - s.yyCursor) s.yyCursor
          (decide (byteAt s.buffer s.yyText = 92)) - s.yyText ∧
      firstAnchor s.buffer s.artificialEof (s.artificialEof - s.yyCursor) s.yyCursor
        (decide (byteAt s.buffer s.yyText = 92)) ≤ t.yyCursor ∧
      t.yyCursor ≤ s.bufferEnd ∧
      (firstAnchor s.buffer s.artificialEof (s.artificialEof - s.yyCursor) s.yyCursor
          (decide (byteAt s.buffer s.yyText = 92)) < s.artificialEof ∨
        s.triviaRetention = TriviaRetentionMode.WithoutTrivia ∨
        s.artificialEof = s.bufferEnd →
        t.yyCursor = firstAnchor s.buffer s.artificialEof (s.artificialEof - s.yyCursor)
          s.yyCursor (decide (byteAt s.buffer s.yyText = 92))) :=
  lexDoubleQuoteString_cases E hE hS s h

/-- The string body `ab\"$x"` with trivia retention on: the escaped quote is
skipped and the token ends at the `$` at offset 4, where the cursor is left. -/
theorem lexDoubleQuoteString_stop_witness :
    ∃ t, lexDoubleQuoteString plainExterns
        (scanState [97, 98, 92, 34, 36, 120, 34] 0 1 TokenKindType.T_UNKNOWN_MARK false
          TriviaRetentionMode.WithTrivia) = some t ∧
      t.yyLength = 4 ∧ t.nextToken.textLength = 4 ∧ t.yyCursor = 4 := by
  obtain ⟨t, ht, _, h2, _, h4, _, _, h6⟩ :=
    lexDoubleQuoteString_stop plainExterns plainExterns_progress plainExterns_stringFrame
      (scanState [97, 98, 92, 34, 36, 120, 34] 0 1 TokenKindType.T_UNKNOWN_MARK false
        TriviaRetentionMode.WithTrivia)
      ⟨rfl, by decide, rfl, rfl, by decide⟩
  have hfa : firstAnchor [97, 98, 92, 34, 36, 120, 34] 7 (7 - 1) 1
      (decide (byteAt [97, 98, 92, 34, 36, 120, 34] 0 = 92)) = 4 := by decide
  exact ⟨t, ht, h2.trans (by rw [show (scanState [97, 98, 92, 34, 36, 120, 34] 0 1
      TokenKindType.T_UNKNOWN_MARK false TriviaRetentionMode.WithTrivia).buffer =
        [97, 98, 92, 34, 36, 120, 34] from rfl]; exact congrArg (· - 0) hfa),
    h4.trans (congrArg (· - 0) hfa), (h6 (Or.inl (by decide))).trans hfa⟩

/-- C11, the claim as stated fails: a lexer with trivia retention on that is
restricted to the first two bytes of the buffer `ab`, two spaces, `x` finds no
anchor before its artificial end (offset 2); the token ends there, and the
trailing-trivia scan of `formToken` leaves the cursor at offset 4, past the
artificial end. -/
theorem lexDoubleQuoteString_stop_counterexample :
    (lexDoubleQuoteString plainExterns
        { buffer := [97, 98, 32, 32, 120], bufferEnd := 5, artificialEof := 2,
          yyText := 0, yyLength := 1, yyCursor := 1,
          triviaRetention := TriviaRetentionMode.WithTrivia }).map
      (fun t => (t.nextToken.textLength, t.yyLength, t.yyCursor, t.artificialEof)) =
      some (2, 2, 4, 2) := by
  decide

/-! ### The bodies of heredoc and nowdoc -/

theorem heredocBodyLoop_line (s : Lexer) (label : HereDocLabel) (fuel x : Nat)
    (hx : x < s.artificialEof) (hb : byteAt s.buffer x = 13 ∨ byteAt s.buffer x = 10) :
    heredocBodyLoop s label (fuel + 1) x =
      match checkLine s label (byteAt s.buffer x) (x + 1) with
      | LineCheck.endMarker q i sp nl => some (BodyScan.endMarker q i sp nl)
      | LineCheck.unterminated q => some (BodyScan.unterminated q)
      | LineCheck.resume q _ _ => heredocBodyLoop s label fuel q := by
  conv_lhs => unfold heredocBodyLoop
  unfold checkLine
  rw [if_pos hx]
  dsimp only
  rw [if_pos hb]
  split_ifs <;> rfl

theorem nowdocBodyLoop_line (s : Lexer) (label : HereDocLabel) (fuel x i0 sp0 : Nat)
    (hx : x < s.artificialEof) (hb : byteAt s.buffer x = 13 ∨ byteAt s.buffer x = 10) :
    nowdocBodyLoop s label (fuel + 1) x i0 sp0 =
      match checkLine s label (byteAt s.buffer x) (x + 1) with
      | LineCheck.endMarker q i sp nl => some (BodyScan.endMarker q i sp nl)
      | LineCheck.unterminated q => some (BodyScan.unterminated q)
      | LineCheck.resume q i sp => nowdocBodyLoop s label fuel q i sp := by
  conv_lhs => unfold nowdocBodyLoop
  unfold checkLine
  rw [if_pos hx]
  dsimp only
  rw [if_pos hb]
  split_ifs <;> rfl

theorem nowdocBodyLoop_other (s : Lexer) (label : HereDocLabel) (fuel x i0 sp0 : Nat)
    (hx : x < s.artificialEof) (hb : ¬ (byteAt s.buffer x = 13 ∨ byteAt s.buffer x = 10)) :
    nowdocBodyLoop s label (fuel + 1) x i0 sp0 = nowdocBodyLoop s label fuel (x + 1) i0 sp0 := by
  conv_lhs => unfold nowdocBodyLoop
  rw [if_pos hx]
  dsimp only
  rw [if_neg hb]

theorem countIndentation_le (buf : List Nat) (y limit : Nat) (h : limit ≤ buf.length) :
    countIndentation buf y limit ≤ limit - y := by
  unfold countIndentation
  have h1 := (List.takeWhile_sublist (fun c => decide (c = 32) || decide (c = 9))
    (l := bytesBetween buf y limit)).length_le
  rw [bytesBetween_length buf y limit h] at h1
  exact h1

theorem isFound_lt (s : Lexer) (label : HereDocLabel) (q : Nat)
    (h : isFoundHeredocEndMarker (setYYCursor q s) label = true) :
    q + label.name.length < s.artificialEof := by
  simp only [isFoundHeredocEndMarker, setYYCursor, Bool.and_eq_true, decide_eq_true_eq] at h
  omega

theorem checkLine_cursor (s : Lexer) (c y : Nat) (hlen : s.bufferEnd = s.buffer.length)
    (hlim : s.artificialEof ≤ s.bufferEnd) (hy : y ≤ s.artificialEof) :
    y ≤ (if c = 13 ∧ byteAt s.buffer y = 10 then y + 1 else y) ∧
    (if c = 13 ∧ byteAt s.buffer y = 10 then y + 1 else y) ≤ y + 1 ∧
    (if c = 13 ∧ byteAt s.buffer y = 10 then y + 1 else y) +
        countIndentation s.buffer (if c = 13 ∧ byteAt s.buffer y = 10 then y + 1 else y)
          s.artificialEof ≤ s.bufferEnd ∧
    ((if c = 13 ∧ byteAt s.buffer y = 10 then y + 1 else y) +
        countIndentation s.buffer (if c = 13 ∧ byteAt s.buffer y = 10 then y + 1 else y)
          s.artificialEof ≤ s.artificialEof ∨
      ((if c = 13 ∧ byteAt s.buffer y = 10 then y + 1 else y) +
        countIndentation s.buffer (if c = 13 ∧ byteAt s.buffer y = 10 then y + 1 else y)
          s.artificialEof = s.artificialEof + 1 ∧ y = s.artificialEof ∧
        c = 13 ∧ byteAt s.buffer y = 10)) := by
  have hci := fun p => countIndentation_le s.buffer p s.artificialEof (by omega)
  by_cases hcr : c = 13 ∧ byteAt s.buffer y = 10
  · rw [if_pos hcr]
    have hyl : y < s.buffer.length := byteAt_lt_of_ne_zero _ _ (by rw [hcr.2]; decide)
    have := hci (y + 1)
    refine ⟨by omega, by omega, by omega, ?_⟩
    by_cases hyy : y = s.artificialEof
    · exact Or.inr ⟨by omega, hyy, hcr.1, hcr.2⟩
    · left; omega
  · rw [if_neg hcr]
    have := hci y
    exact ⟨le_refl _, by omega, by omega, Or.inl (by omega)⟩

theorem checkLine_endMarker (s : Lexer) (label : HereDocLabel) (c y q i sp nl : Nat)
    (h : checkLine s label c y = LineCheck.endMarker q i sp nl) :
    (q - i = y ∨ (q - i = y + 1 ∧ c = 13 ∧ byteAt s.buffer y = 10)) ∧ i ≤ q ∧
      q < s.artificialEof ∧ markerAt s label q = true ∧
      i = countIndentation s.buffer (q - i) s.artificialEof ∧
      sp = spacingOf (slice s.buffer (q - i) i) ∧ nl = newlineLengthBefore s.buffer q i := by
  have c1 : (if c = 13 ∧ byteAt s.buffer y = 10 then y + 1 else y) = y ∨
      ((if c = 13 ∧ byteAt s.buffer y = 10 then y + 1 else y) = y + 1 ∧ c = 13 ∧
        byteAt s.buffer y = 10) := by
    by_cases hcr : c = 13 ∧ byteAt s.buffer y = 10
    · rw [if_pos hcr]
      exact Or.inr ⟨rfl, hcr⟩
    · rw [if_neg hcr]
      exact Or.inl rfl
  unfold checkLine at h
  dsimp only at h
  generalize (if c = 13 ∧ byteAt s.buffer y = 10 then y + 1 else y) = y' at h c1
  split_ifs at h with h1 h2 h3
  injection h with e1 e2 e3 e4
  subst e1 e2 e3
  have hq := isFound_lt s label _ h2
  rw [Nat.add_sub_cancel]
  refine ⟨c1, by omega, by omega, ?_, rfl, rfl, e4.symm⟩
  simp only [markerAt, h2, Bool.true_and]
  simpa using h3

theorem checkLine_unterminated (s : Lexer) (label : HereDocLabel) (c y q : Nat)
    (h : checkLine s label c y = LineCheck.unterminated q) : q = s.artificialEof := by
  unfold checkLine at h
  dsimp only at h
  generalize (if c = 13 ∧ byteAt s.buffer y = 10 then y + 1 else y) = y' at h
  split_ifs at h with h1 h2 h3
  injection h with e1
  rw [← e1]
  exact h1

theorem checkLine_resume (s : Lexer) (label : HereDocLabel) (c y q i sp : Nat)
    (hlen : s.bufferEnd = s.buffer.length) (hlim : s.artificialEof ≤ s.bufferEnd)
    (hy : y ≤ s.artificialEof)
    (h : checkLine s label c y = LineCheck.resume q i sp) :
    y ≤ q ∧ q ≤ s.bufferEnd ∧ q ≠ s.artificialEof ∧
      (q ≤ s.artificialEof ∨ (q = s.artificialEof + 1 ∧ y = s.artificialEof ∧
        c = 13 ∧ byteAt s.buffer y = 10)) ∧
      markerAt s label q = false := by
  obtain ⟨c1, c2, c3, c4⟩ := checkLine_cursor s c y hlen hlim hy
  unfold checkLine at h
  dsimp only at h
  generalize (if c = 13 ∧ byteAt s.buffer y = 10 then y + 1 else y) = y' at h c1 c2 c3 c4
  split_ifs at h with h1 h2 h3
  · injection h with e1 e2 e3
    subst e1
    refine ⟨by omega, c3, h1, c4, ?_⟩
    simp [markerAt, h2, h3]
  · injection h with e1 e2 e3
    subst e1
    refine ⟨by omega, c3, h1, c4, ?_⟩
    simp only [markerAt, Bool.and_eq_false_imp]
    intro hh
    exact absurd hh h2

theorem checkLine_resume_at (s : Lexer) (label : HereDocLabel) (x q i sp : Nat)
    (hlen : s.bufferEnd = s.buffer.length) (hlim : s.artificialEof ≤ s.bufferEnd)
    (hx : x < s.artificialEof)
    (h : checkLine s label (byteAt s.buffer x) (x + 1) = LineCheck.resume q i sp) :
    x < q ∧ q ≤ s.bufferEnd ∧ q ≠ s.artificialEof ∧
      (q ≤ s.artificialEof ∨ (q = s.artificialEof + 1 ∧
        byteAt s.buffer (s.artificialEof - 1) = 13 ∧ byteAt s.buffer s.artificialEof = 10)) := by
  obtain ⟨a1, a2, a3, a4, _⟩ := checkLine_resume s label _ _ q i sp hlen hlim (by omega) h
  refine ⟨by omega, a2, a3, ?_⟩
  rcases a4 with h4 | ⟨h4, h5, h6, h7⟩
  · exact Or.inl h4
  · refine Or.inr ⟨h4, ?_, ?_⟩
    · rw [← h5, Nat.add_sub_cancel]
      exact h6
    · rw [← h5]
      exact h7

theorem checkLine_endMarker_ok (s : Lexer) (label : HereDocLabel) (x q i sp nl : Nat)
    (hnl : byteAt s.buffer x = 13 ∨ byteAt s.buffer x = 10)
    (h : checkLine s label (byteAt s.buffer x) (x + 1) = LineCheck.endMarker q i sp nl) :
    x < q - i ∧ i ≤ q ∧ q < s.artificialEof ∧ closingLineAt s label (q - i) = true ∧
      i = countIndentation s.buffer (q - i) s.artificialEof ∧
      sp = spacingOf (slice s.buffer (q - i) i) ∧ nl = newlineLengthBefore s.buffer q i := by
  obtain ⟨a1, a2, a3, a4, a5, a6, a7⟩ :=
    checkLine_endMarker s label _ _ q i sp nl h
  refine ⟨by omega, a2, a3, ?_, a5, a6, a7⟩
  have hq : q - i + countIndentation s.buffer (q - i) s.artificialEof = q := by omega
  have hterm : byteAt s.buffer (q - i - 1) = 10 ∨ byteAt s.buffer (q - i - 1) = 13 := by
    rcases a1 with e | ⟨e, _, e3⟩
    · rw [e, Nat.add_sub_cancel]
      exact hnl.symm
    · rw [e, Nat.add_sub_cancel]
      exact Or.inl e3
  simp only [closingLineAt, hq, a4, Bool.and_true, Bool.or_eq_true, decide_eq_true_eq]
  exact hterm

theorem BodyScan.Ok.mono {s : Lexer} {label : HereDocLabel} {b : Bool} {x x' : Nat}
    {r : BodyScan} (hx : x ≤ x') (h : BodyScan.Ok s label b x' r) : BodyScan.Ok s label b x r := by
  cases r with
  | endMarker q i sp nl =>
    obtain ⟨h1, h2⟩ := h
    exact ⟨by omega, h2⟩
  | unterminated q =>
    obtain ⟨h1, h2⟩ := h
    exact ⟨h1, by omega⟩
  | stopped c i sp =>
    obtain ⟨h1, h2⟩ := h
    exact ⟨by omega, h2⟩

theorem heredocBodyLoop_ok (s : Lexer) (label : HereDocLabel)
    (hlen : s.bufferEnd = s.buffer.length) (hlim : s.artificialEof ≤ s.bufferEnd) :
    ∀ (fuel x : Nat), x ≤ s.bufferEnd →
      (x ≤ s.artificialEof ∨ (x = s.artificialEof + 1 ∧
        byteAt s.buffer (s.artificialEof - 1) = 13 ∧ byteAt s.buffer s.artificialEof = 10)) →
      s.artificialEof - x + 1 ≤ fuel →
      ∃ r, heredocBodyLoop s label fuel x = some r ∧ BodyScan.Ok s label true x r := by
  intro fuel
  induction fuel with
  | zero => intro x _ _ h; omega
  | succ fuel ih =>
    intro x hx1 hx2 hfuel
    by_cases hlt : x < s.artificialEof
    · have next : ∀ q, x < q → q ≤ s.bufferEnd →
          (q ≤ s.artificialEof ∨ (q = s.artificialEof + 1 ∧
            byteAt s.buffer (s.artificialEof - 1) = 13 ∧
            byteAt s.buffer s.artificialEof = 10)) →
          ∃ r, heredocBodyLoop s label fuel q = some r ∧ BodyScan.Ok s label true x r := by
        intro q h1 h2 h3
        obtain ⟨r, hr, hok⟩ := ih q h2 h3 (by omega)
        exact ⟨r, hr, hok.mono (by omega)⟩
      by_cases hnl : byteAt s.buffer x = 13 ∨ byteAt s.buffer x = 10
      · rw [heredocBodyLoop_line s label fuel x hlt hnl]
        cases hcl : checkLine s label (byteAt s.buffer x) (x + 1) with
        | endMarker q i sp nl =>
          exact ⟨_, rfl, checkLine_endMarker_ok s label x q i sp nl hnl hcl⟩
        | unterminated q =>
          have := checkLine_unterminated s label _ _ q hcl
          exact ⟨_, rfl, this, by omega⟩
        | resume q i sp =>
          obtain ⟨a1, a2, _, a4⟩ := checkLine_resume_at s label x q i sp hlen hlim hlt hcl
          exact next q a1 a2 a4
      · unfold heredocBodyLoop
        rw [if_pos hlt]
        dsimp only
        rw [if_neg hnl]
        simp only [Nat.add_sub_cancel]
        have stopHere : isInterpolationAt s.buffer x = true →
            ∃ r, some (BodyScan.stopped x 0 0) = some r ∧ BodyScan.Ok s label true x r :=
          fun ha => ⟨_, rfl, le_refl _, by omega, Or.inl (by omega), fun _ => ⟨rfl, ha⟩⟩
        by_cases h36 : byteAt s.buffer x = 36
        · rw [if_pos h36]
          split
          · rename_i hn
            exact stopHere (by simp only [isInterpolationAt, h36, hn]; simp)
          · exact next (x + 1) (by omega) (by omega) (Or.inl (by omega))
        rw [if_neg h36]
        by_cases h123 : byteAt s.buffer x = 123
        · rw [if_pos h123]
          split
          · rename_i hn
            exact stopHere (by simp [isInterpolationAt, h123, hn])
          · exact next (x + 1) (by omega) (by omega) (Or.inl (by omega))
        rw [if_neg h123]
        by_cases h92 : byteAt s.buffer x = 92
        · rw [if_pos h92]
          split
          · rename_i hn
            exact next (x + 1 + 1) (by omega) (by omega) (Or.inl (by omega))
          · exact next (x + 1) (by omega) (by omega) (Or.inl (by omega))
        · rw [if_neg h92]
          exact next (x + 1) (by omega) (by omega) (Or.inl (by omega))
    · unfold heredocBodyLoop
      rw [if_neg hlt]
      exact ⟨_, rfl, le_refl _, hx1, hx2, fun h => absurd h hlt⟩

theorem nowdocBodyLoop_ok (s : Lexer) (label : HereDocLabel)
    (hlen : s.bufferEnd = s.buffer.length) (hlim : s.artificialEof ≤ s.bufferEnd) :
    ∀ (fuel x i0 sp0 : Nat), x ≤ s.bufferEnd →
      (x ≤ s.artificialEof ∨ (x = s.artificialEof + 1 ∧
        byteAt s.buffer (s.artificialEof - 1) = 13 ∧ byteAt s.buffer s.artificialEof = 10)) →
      s.artificialEof - x + 1 ≤ fuel →
      ∃ r, nowdocBodyLoop s label fuel x i0 sp0 = some r ∧ BodyScan.Ok s label false x r := by
  intro fuel
  induction fuel with
  | zero => intro x _ _ _ _ h; omega
  | succ fuel ih =>
    intro x i0 sp0 hx1 hx2 hfuel
    by_cases hlt : x < s.artificialEof
    · have next : ∀ q i sp, x < q → q ≤ s.bufferEnd →
          (q ≤ s.artificialEof ∨ (q = s.artificialEof + 1 ∧
            byteAt s.buffer (s.artificialEof - 1) = 13 ∧
            byteAt s.buffer s.artificialEof = 10)) →
          ∃ r, nowdocBodyLoop s label fuel q i sp = some r ∧ BodyScan.Ok s label false x r := by
        intro q i sp h1 h2 h3
        obtain ⟨r, hr, hok⟩ := ih q i sp h2 h3 (by omega)
        exact ⟨r, hr, hok.mono (by omega)⟩
      by_cases hnl : byteAt s.buffer x = 13 ∨ byteAt s.buffer x = 10
      · rw [nowdocBodyLoop_line s label fuel x i0 sp0 hlt hnl]
        cases hcl : checkLine s label (byteAt s.buffer x) (x + 1) with
        | endMarker q i sp nl =>
          exact ⟨_, rfl, checkLine_endMarker_ok s label x q i sp nl hnl hcl⟩
        | unterminated q =>
          have := checkLine_unterminated s label _ _ q hcl
          exact ⟨_, rfl, this, by omega⟩
        | resume q i sp =>
          obtain ⟨a1, a2, _, a4⟩ := checkLine_resume_at s label x q i sp hlen hlim hlt hcl
          exact next q i sp a1 a2 a4
      · rw [nowdocBodyLoop_other s label fuel x i0 sp0 hlt hnl]
        exact next (x + 1) i0 sp0 (by omega) (by omega) (Or.inl (by omega))
    · unfold nowdocBodyLoop
      rw [if_neg hlt]
      exact ⟨_, rfl, le_refl _, hx1, hx2, fun h => absurd h hlt⟩

/-! ### The token a body scanner forms -/

theorem helperFrame_trans {s a b : Lexer} (h1 : HelperFrame s a) (h2 : HelperFrame a b) :
    HelperFrame s b := by
  obtain ⟨l1, o1, m1, rfl⟩ := h1
  obtain ⟨l2, o2, m2, rfl⟩ := h2
  exact ⟨l2, o2, m2, rfl⟩

theorem HelperFrame.of_handle_newlines (E : Externs) (hS : E.StringFrame) (s : Lexer)
    (p n : Nat) : HelperFrame s (E.handle_newlines s p n) ∧
      (E.handle_newlines s p n).flags = s.flags ∧
      (E.handle_newlines s p n).currentExceptionMsg = s.currentExceptionMsg := by
  obtain ⟨line, h⟩ := hS.handle_newlines_frame s p n
  rw [h]
  exact ⟨⟨line, s.flags.lexExceptionOccurred, s.currentExceptionMsg, rfl⟩, rfl, rfl⟩

theorem formToken_frame (E : Externs) (hE : E.Progress) (kind : TokenKindType)
    (u x : Lexer) (hx : HelperFrame u x) (hlen : u.bufferEnd = u.buffer.length)
    (hcur : u.yyCursor ≤ u.bufferEnd) :
    ∃ t, formToken E kind u.yyText x = some t ∧ BodyTokenFormed u t ∧
      t.nextToken.kind = formedKind kind u.yyText u ∧ t.flags = x.flags ∧
      t.currentExceptionMsg = x.currentExceptionMsg ∧
      t.nextToken.value = x.nextToken.value ∧ t.buffer = u.buffer ∧ t.yyText = u.yyText := by
  obtain ⟨l, o, m, rfl⟩ := hx
  obtain ⟨c, a, tr, hf, _⟩ := formToken_cursor E hE kind u.yyText
    { u with lineNumber := l, flags := { u.flags with lexExceptionOccurred := o },
             currentExceptionMsg := m } hlen hcur
  obtain ⟨t, ht, f1, f2, f3, f4, f5, f6, f7, f8, _, _, f11, f12, f13⟩ :=
    formToken_facts E hE kind u.yyText
      { u with lineNumber := l, flags := { u.flags with lexExceptionOccurred := o },
               currentExceptionMsg := m } hlen hcur
  have ht2 : t = formedLexer kind u.yyText
      { u with lineNumber := l, flags := { u.flags with lexExceptionOccurred := o },
               currentExceptionMsg := m } c a tr := by
    rw [ht] at hf
    injection hf
  refine ⟨t, ht, ⟨f6, f5, f2, f3, f11, f12, f13⟩, f1, f7, f8, f4, ?_, ?_⟩
  · rw [ht2]
    rfl
  · rw [ht2]
    rfl

theorem BodyTokenFormed.setValue {u t : Lexer} (h : BodyTokenFormed u t) (v : TokenValue) :
    BodyTokenFormed u (setValue v t) :=
  ⟨h.condition, h.length, h.textStart, h.textLength, h.cursorLe, h.cursorIn, h.cursorEq⟩

theorem formErrorToken_frame (E : Externs) (hE : E.Progress)
    (u x : Lexer) (hx : HelperFrame u x) (hlen : u.bufferEnd = u.buffer.length)
    (hcur : u.yyCursor ≤ u.bufferEnd) :
    ∃ t, formErrorToken E u.yyText x = some t ∧ BodyTokenFormed u t := by
  obtain ⟨t, ht, hb, _⟩ := formToken_frame E hE TokenKindType.T_ERROR u x hx hlen hcur
  unfold formErrorToken
  rw [ht]
  refine ⟨_, rfl, ?_⟩
  dsimp only
  split
  · exact hb.setValue _
  · exact hb

theorem plainToken_frame (E : Externs) (hE : E.Progress) (hS : E.StringFrame)
    (u : Lexer) (n nl : Nat) (hlen : u.bufferEnd = u.buffer.length)
    (hcur : u.yyCursor ≤ u.bufferEnd) :
    ∃ t, (formToken E TokenKindType.T_ENCAPSED_AND_WHITESPACE u.yyText
        (E.handle_newlines u u.yyText n)).map
          (setValue (TokenValue.str (slice u.buffer u.yyText (u.yyLength - nl)))) = some t ∧
      BodyTokenFormed u t ∧ PlainBodyToken u t nl := by
  obtain ⟨hx, hfl, hmsg⟩ := HelperFrame.of_handle_newlines E hS u u.yyText n
  obtain ⟨t, ht, hb, g1, g2, g3, _⟩ :=
    formToken_frame E hE TokenKindType.T_ENCAPSED_AND_WHITESPACE u _ hx hlen hcur
  rw [ht]
  exact ⟨_, rfl, hb.setValue _, ⟨g1, rfl, g2.trans hfl, g3.trans hmsg⟩⟩

theorem formUnterminatedBody_frame (E : Externs) (hE : E.Progress) (hS : E.StringFrame)
    (s : Lexer) (q : Nat) (hlen : s.bufferEnd = s.buffer.length) (hq : q ≤ s.bufferEnd) :
    ∃ t, formUnterminatedBody E q s = some t ∧
      BodyTokenFormed (setYYLength (q - s.yyText) (setYYCursor q s)) t ∧
      PlainBodyToken (setYYLength (q - s.yyText) (setYYCursor q s)) t 0 := by
  obtain ⟨hx, hfl, hmsg⟩ := HelperFrame.of_handle_newlines E hS
    (setYYLength (q - s.yyText) (setYYCursor q s)) s.yyText (q - s.yyText)
  obtain ⟨t, ht, hb, g1, g2, g3, _, g5, g6⟩ :=
    formToken_frame E hE TokenKindType.T_ENCAPSED_AND_WHITESPACE
      (setYYLength (q - s.yyText) (setYYCursor q s)) _ hx hlen hq
  unfold formUnterminatedBody
  dsimp only
  have ht2 : formToken E TokenKindType.T_ENCAPSED_AND_WHITESPACE s.yyText
      (E.handle_newlines (setYYLength (q - s.yyText) (setYYCursor q s)) s.yyText
        (setYYLength (q - s.yyText) (setYYCursor q s)).yyLength) = some t := ht
  rw [ht2]
  refine ⟨_, rfl, hb.setValue _, ⟨g1, ?_, g2.trans hfl, g3.trans hmsg⟩⟩
  show TokenValue.str (slice t.buffer s.yyText t.yyLength) = _
  rw [g5, hb.length]
  rfl

theorem finishHeredocBody_frame (E : Externs) (hE : E.Progress) (hS : E.StringFrame)
    (u : Lexer) (p nl : Nat) (hlen : u.bufferEnd = u.buffer.length)
    (hcur : u.yyCursor ≤ u.bufferEnd) :
    ∃ t, finishHeredocBody E p nl u = some t ∧
      BodyTokenFormed (setYYLength (u.yyCursor - u.yyText) u) t ∧
      (u.flags.heredocScanAhead = true ∨ u.flags.lexExceptionOccurred = true ∨
          (u.valueContainer = false ∧ u.flags.checkHeredocIndentation = false) →
        PlainBodyToken (setYYLength (u.yyCursor - u.yyText) u) t nl) := by
  unfold finishHeredocBody
  dsimp only
  by_cases hmode : (!(setYYLength (u.yyCursor - u.yyText) u).flags.heredocScanAhead &&
      !(setYYLength (u.yyCursor - u.yyText) u).flags.lexExceptionOccurred &&
      (isInParseMode (setYYLength (u.yyCursor - u.yyText) u) ||
        (setYYLength (u.yyCursor - u.yyText) u).flags.checkHeredocIndentation)) = true
  · rw [if_pos hmode]
    have hno : ¬ (u.flags.heredocScanAhead = true ∨ u.flags.lexExceptionOccurred = true ∨
        (u.valueContainer = false ∧ u.flags.checkHeredocIndentation = false)) := by
      simp only [setYYLength, isInParseMode, Bool.and_eq_true, Bool.not_eq_true',
        Bool.or_eq_true] at hmode
      rintro (h | h | ⟨h1, h2⟩)
      · rw [hmode.1.1] at h
        cases h
      · rw [hmode.1.2] at h
        cases h
      · rw [h1, h2] at hmode
        rcases hmode.2 with h | h <;> cases h
    have key : ∀ r : Bool × List Nat × Lexer,
        HelperFrame (setYYLength (u.yyCursor - u.yyText) u) r.2.2 →
        ∃ t, (if (!r.1) = true then formErrorToken E u.yyText r.2.2
          else
            if (!(E.convert_double_quote_str_escape_sequences r.2.2 r.2.1 0).1) = true then
              formToken E TokenKindType.T_ERROR u.yyText
                (E.convert_double_quote_str_escape_sequences r.2.2 r.2.1 0).2.2
            else
              (formToken E TokenKindType.T_ENCAPSED_AND_WHITESPACE u.yyText
                (E.convert_double_quote_str_escape_sequences r.2.2 r.2.1 0).2.2).map
                (setValue (TokenValue.str
                  (E.convert_double_quote_str_escape_sequences r.2.2 r.2.1 0).2.1))) = some t ∧
          BodyTokenFormed (setYYLength (u.yyCursor - u.yyText) u) t := by
      intro r hr
      have hr2 := helperFrame_trans hr (hS.convert_frame r.2.2 r.2.1 0)
      split
      · exact formErrorToken_frame E hE (setYYLength (u.yyCursor - u.yyText) u) _ hr hlen hcur
      · split
        · obtain ⟨t, ht, hb, _⟩ := formToken_frame E hE TokenKindType.T_ERROR
            (setYYLength (u.yyCursor - u.yyText) u) _ hr2 hlen hcur
          exact ⟨t, ht, hb⟩
        · obtain ⟨t, ht, hb, _⟩ := formToken_frame E hE TokenKindType.T_ENCAPSED_AND_WHITESPACE
            (setYYLength (u.yyCursor - u.yyText) u) _ hr2 hlen hcur
          have ht2 : formToken E TokenKindType.T_ENCAPSED_AND_WHITESPACE u.yyText
              (E.convert_double_quote_str_escape_sequences r.2.2 r.2.1 0).2.2 = some t := ht
          rw [ht2]
          exact ⟨_, rfl, hb.setValue _⟩
    obtain ⟨t, ht, hb⟩ := key _ (hS.strip_frame (setYYLength (u.yyCursor - u.yyText) u)
      (slice u.buffer u.yyText (u.yyCursor - u.yyText - nl)) (labelAt u p).indentation
      (labelAt u p).intentationUseSpaces
      (decide (byteAt u.buffer (u.yyText - 1) = 10) || decide (byteAt u.buffer (u.yyText - 1) = 13))
      (decide (nl ≠ 0)))
    exact ⟨t, ht, hb, fun h => absurd h hno⟩
  · rw [if_neg hmode]
    obtain ⟨t, ht, hb, hp⟩ := plainToken_frame E hE hS (setYYLength (u.yyCursor - u.yyText) u)
      ((setYYLength (u.yyCursor - u.yyText) u).yyLength - nl) nl hlen hcur
    exact ⟨t, ht, hb, fun _ => hp⟩

theorem finishNowdocBody_frame (E : Externs) (hE : E.Progress) (hS : E.StringFrame)
    (u : Lexer) (nl i sp : Nat) (hlen : u.bufferEnd = u.buffer.length)
    (hcur : u.yyCursor ≤ u.bufferEnd) :
    ∃ t, finishNowdocBody E nl i sp u = some t ∧
      BodyTokenFormed (setYYLength (u.yyCursor - u.yyText) u) t ∧
      (u.flags.lexExceptionOccurred = true ∨ sp = 0 ∨
          (u.valueContainer = false ∧ u.flags.checkHeredocIndentation = false) →
        PlainBodyToken (setYYLength (u.yyCursor - u.yyText) u) t nl) := by
  unfold finishNowdocBody
  dsimp only
  by_cases hmode : (!(setYYLength (u.yyCursor - u.yyText) u).flags.lexExceptionOccurred &&
      decide (sp ≠ 0) &&
      (isInParseMode (setYYLength (u.yyCursor - u.yyText) u) ||
        (setYYLength (u.yyCursor - u.yyText) u).flags.checkHeredocIndentation)) = true
  · rw [if_pos hmode]
    have hno : ¬ (u.flags.lexExceptionOccurred = true ∨ sp = 0 ∨
        (u.valueContainer = false ∧ u.flags.checkHeredocIndentation = false)) := by
      simp only [setYYLength, isInParseMode, Bool.and_eq_true, Bool.not_eq_true',
        Bool.or_eq_true, decide_eq_true_eq] at hmode
      rintro (h | h | ⟨h1, h2⟩)
      · rw [hmode.1.1] at h
        cases h
      · exact hmode.1.2 h
      · rw [h1, h2] at hmode
        rcases hmode.2 with h | h <;> cases h
    have key : ∀ r : Bool × List Nat × Lexer,
        HelperFrame (setYYLength (u.yyCursor - u.yyText) u) r.2.2 →
        ∃ t, (if (!r.1) = true then formErrorToken E u.yyText r.2.2
          else
            (formToken E TokenKindType.T_ENCAPSED_AND_WHITESPACE u.yyText
              (E.handle_newlines r.2.2 u.yyText (r.2.2.yyLength - nl))).map
              (setValue (TokenValue.str r.2.1))) = some t ∧
          BodyTokenFormed (setYYLength (u.yyCursor - u.yyText) u) t := by
      intro r hr
      have hr2 := helperFrame_trans hr (HelperFrame.of_handle_newlines E hS r.2.2 u.yyText
        (r.2.2.yyLength - nl)).1
      split
      · exact formErrorToken_frame E hE (setYYLength (u.yyCursor - u.yyText) u) _ hr hlen hcur
      · obtain ⟨t, ht, hb, _⟩ := formToken_frame E hE TokenKindType.T_ENCAPSED_AND_WHITESPACE
          (setYYLength (u.yyCursor - u.yyText) u) _ hr2 hlen hcur
        have ht2 : formToken E TokenKindType.T_ENCAPSED_AND_WHITESPACE u.yyText
            (E.handle_newlines r.2.2 u.yyText (r.2.2.yyLength - nl)) = some t := ht
        rw [ht2]
        exact ⟨_, rfl, hb.setValue _⟩
    obtain ⟨t, ht, hb⟩ := key _ (hS.strip_frame (setYYLength (u.yyCursor - u.yyText) u)
      (slice u.buffer u.yyText (u.yyCursor - u.yyText - nl)) i
      (decide (sp = HEREDOC_USING_SPACES))
      (decide (byteAt u.buffer (u.yyText - 1) = 10) || decide (byteAt u.buffer (u.yyText - 1) = 13))
      (decide (nl ≠ 0)))
    exact ⟨t, ht, hb, fun h => absurd h hno⟩
  · rw [if_neg hmode]
    obtain ⟨t, ht, hb, hp⟩ := plainToken_frame E hE hS (setYYLength (u.yyCursor - u.yyText) u)
      ((setYYLength (u.yyCursor - u.yyText) u).yyLength - nl) nl hlen hcur
    exact ⟨t, ht, hb, fun _ => hp⟩

/-! ### The body scanners at a closing line -/

theorem heredocMarkerState_facts (s : Lexer) (q i sp : Nat) :
    (heredocMarkerState s q i sp).yyCursor =
        (if s.flags.heredocScanAhead = true then q else q - i) ∧
      (heredocMarkerState s q i sp).yyText = s.yyText ∧
      (heredocMarkerState s q i sp).buffer = s.buffer ∧
      (heredocMarkerState s q i sp).bufferEnd = s.bufferEnd ∧
      (heredocMarkerState s q i sp).artificialEof = s.artificialEof ∧
      (heredocMarkerState s q i sp).triviaRetention = s.triviaRetention ∧
      (heredocMarkerState s q i sp).valueContainer = s.valueContainer ∧
      (heredocMarkerState s q i sp).yyCondition = YYLexerCondType.ST_END_HEREDOC ∧
      (heredocMarkerState s q i sp).flags.heredocScanAhead = s.flags.heredocScanAhead ∧
      (heredocMarkerState s q i sp).flags.checkHeredocIndentation =
        s.flags.checkHeredocIndentation ∧
      (heredocMarkerState s q i sp).flags.lexExceptionOccurred =
        (if sp = HEREDOC_USING_SPACES + HEREDOC_USING_TABS then true
          else s.flags.lexExceptionOccurred) ∧
      (heredocMarkerState s q i sp).currentExceptionMsg =
        (if sp = HEREDOC_USING_SPACES + HEREDOC_USING_TABS then
          "Invalid indentation - tabs and spaces cannot be mixed"
          else s.currentExceptionMsg) := by
  unfold heredocMarkerState
  by_cases hsp : sp = HEREDOC_USING_SPACES + HEREDOC_USING_TABS
  · by_cases hsa : s.flags.heredocScanAhead = true
    · simp [hsp, hsa, setYYCursor, notifyLexicalException]
    · simp [hsp, hsa, setYYCursor, notifyLexicalException]
  · by_cases hsa : s.flags.heredocScanAhead = true
    · simp [hsp, hsa, setYYCursor, notifyLexicalException]
    · simp [hsp, hsa, setYYCursor, notifyLexicalException]

theorem nowdocMarkerState_facts (s : Lexer) (p q i sp : Nat) :
    (nowdocMarkerState s p q i sp).yyCursor = q - i ∧
      (nowdocMarkerState s p q i sp).yyText = s.yyText ∧
      (nowdocMarkerState s p q i sp).buffer = s.buffer ∧
      (nowdocMarkerState s p q i sp).bufferEnd = s.bufferEnd ∧
      (nowdocMarkerState s p q i sp).artificialEof = s.artificialEof ∧
      (nowdocMarkerState s p q i sp).triviaRetention = s.triviaRetention ∧
      (nowdocMarkerState s p q i sp).valueContainer = s.valueContainer ∧
      (nowdocMarkerState s p q i sp).yyCondition = YYLexerCondType.ST_END_HEREDOC ∧
      (nowdocMarkerState s p q i sp).flags.checkHeredocIndentation =
        s.flags.checkHeredocIndentation ∧
      (nowdocMarkerState s p q i sp).flags.lexExceptionOccurred =
        (if sp = HEREDOC_USING_SPACES + HEREDOC_USING_TABS then true
          else s.flags.lexExceptionOccurred) ∧
      (nowdocMarkerState s p q i sp).currentExceptionMsg =
        (if sp = HEREDOC_USING_SPACES + HEREDOC_USING_TABS then
          "Invalid indentation - tabs and spaces cannot be mixed"
          else s.currentExceptionMsg) := by
  unfold nowdocMarkerState
  by_cases hsp : sp = HEREDOC_USING_SPACES + HEREDOC_USING_TABS
  · simp [hsp, setYYCursor, notifyLexicalException, updateLabel]
  · simp [hsp, setYYCursor, notifyLexicalException, updateLabel]

theorem lexHeredocBody_eq (E : Externs) (s : Lexer) (p : Nat) (hs : BodyEntered s p) :
    lexHeredocBody E s =
      match heredocBodyLoop s (labelAt s p) (s.artificialEof - s.yyText + 1) s.yyText with
      | none => none
      | some (BodyScan.unterminated yycursor) => formUnterminatedBody E yycursor s
      | some (BodyScan.endMarker q i sp nl) =>
        finishHeredocBody E p nl (heredocMarkerState s q i sp)
      | some (BodyScan.stopped c _ _) => finishHeredocBody E p 0 (setYYCursor c s) := by
  obtain ⟨rest, hst⟩ := hs.topLabel
  have h1 : s.yyCursor - 1 = s.yyText := by have := hs.afterChar; omega
  have h2 : ¬ s.yyCursor > s.artificialEof := by have := hs.beforeLimit; omega
  unfold lexHeredocBody
  dsimp only
  rw [hst]
  dsimp only
  rw [if_neg h2, h1]

theorem lexNowdocBody_eq (E : Externs) (s : Lexer) (p : Nat) (hs : BodyEntered s p) :
    lexNowdocBody E s =
      match nowdocBodyLoop s (labelAt s p) (s.artificialEof - s.yyText + 1) s.yyText 0 0 with
      | none => none
      | some (BodyScan.unterminated yycursor) => formUnterminatedBody E yycursor s
      | some (BodyScan.endMarker q i sp nl) =>
        finishNowdocBody E nl i sp (nowdocMarkerState s p q i sp)
      | some (BodyScan.stopped c i sp) => finishNowdocBody E 0 i sp (setYYCursor c s) := by
  obtain ⟨rest, hst⟩ := hs.topLabel
  have h1 : s.yyCursor - 1 = s.yyText := by have := hs.afterChar; omega
  have h2 : ¬ s.yyCursor > s.artificialEof := by have := hs.beforeLimit; omega
  unfold lexNowdocBody
  dsimp only
  rw [hst]
  dsimp only
  rw [if_neg h2, h1]

theorem checkLine_eq (s : Lexer) (label : HereDocLabel) (x : Nat) :
    checkLine s label (byteAt s.buffer x) (x + 1) =
      if markerPosition s x = s.artificialEof then LineCheck.unterminated (markerPosition s x)
      else if isFoundHeredocEndMarker (setYYCursor (markerPosition s x) s) label = true ∧
          isLabelStart (byteAt s.buffer (markerPosition s x + label.name.length)) = false then
        LineCheck.endMarker (markerPosition s x)
          (countIndentation s.buffer (lineStartAfter s.buffer x) s.artificialEof)
          (spacingOf (slice s.buffer (lineStartAfter s.buffer x)
            (countIndentation s.buffer (lineStartAfter s.buffer x) s.artificialEof)))
          (newlineLengthBefore s.buffer (markerPosition s x)
            (countIndentation s.buffer (lineStartAfter s.buffer x) s.artificialEof))
      else LineCheck.resume (markerPosition s x)
          (countIndentation s.buffer (lineStartAfter s.buffer x) s.artificialEof)
          (spacingOf (slice s.buffer (lineStartAfter s.buffer x)
            (countIndentation s.buffer (lineStartAfter s.buffer x) s.artificialEof))) := by
  unfold checkLine markerPosition lineStartAfter
  dsimp only
  split_ifs <;> simp_all

theorem heredocBody_open (E : Externs) (hE : E.Progress) (hS : E.StringFrame)
    (s : Lexer) (p x : Nat) (hs : BodyEntered s p) (r : BodyScan)
    (hok : BodyScan.Ok s (labelAt s p) true x r) :
    ∃ t, (match some r with
        | none => none
        | some (BodyScan.unterminated yycursor) => formUnterminatedBody E yycursor s
        | some (BodyScan.endMarker q i sp nl) =>
          finishHeredocBody E p nl (heredocMarkerState s q i sp)
        | some (BodyScan.stopped c _ _) => finishHeredocBody E p 0 (setYYCursor c s)) = some t ∧
      (t.yyCondition = YYLexerCondType.ST_END_HEREDOC →
        ∃ q i, x < q - i ∧ i ≤ q ∧
          t.yyLength = (if s.flags.heredocScanAhead = true then q else q - i) - s.yyText) := by
  have hlen := hs.atBufferEnd
  have hlim := hs.limitInBuffer
  cases r with
  | endMarker q i sp nl =>
    obtain ⟨a1, a2, a3, _⟩ := hok
    obtain ⟨e1, e2, e3, e4, e5, e6, e7, e8, e9, e10, e11, e12⟩ := heredocMarkerState_facts s q i sp
    obtain ⟨t, ht, hb, _⟩ := finishHeredocBody_frame E hE hS (heredocMarkerState s q i sp) p nl
      (by rw [e4, e3]; exact hlen) (by rw [e1, e4]; split <;> omega)
    refine ⟨t, ht, fun _ => ⟨q, i, a1, a2, ?_⟩⟩
    rw [hb.length]
    show (heredocMarkerState s q i sp).yyCursor - (heredocMarkerState s q i sp).yyText = _
    rw [e1, e2]
  | unterminated q =>
    obtain ⟨a1, a2⟩ := hok
    obtain ⟨t, ht, hb, _⟩ := formUnterminatedBody_frame E hE hS s q hlen (by omega)
    refine ⟨t, ht, fun h => ?_⟩
    rw [hb.condition] at h
    exact absurd h hs.bodyOpen
  | stopped c i sp =>
    obtain ⟨a1, a2, a3, _⟩ := hok
    obtain ⟨t, ht, hb, _⟩ := finishHeredocBody_frame E hE hS (setYYCursor c s) p 0 hlen a2
    refine ⟨t, ht, fun h => ?_⟩
    rw [hb.condition] at h
    exact absurd h hs.bodyOpen

/-- C13, the claim as stated fails: in the body `ab`, newline, `EOT1` of a
heredoc with label `EOT` the digit after the label does not keep the line from
closing the body: the condition becomes `ST_END_HEREDOC` and the text is the
three bytes before that line. -/
theorem lexHeredocBody_closing_line_counterexample :
    (lexHeredocBody plainExterns
        { scanState [97, 98, 10, 69, 79, 84, 49, 10] 0 1 TokenKindType.T_START_HEREDOC false
            TriviaRetentionMode.WithoutTrivia with
          heredocLabelStack := [0], labelHeap := [{ name := [69, 79, 84] }],
          yyCondition := YYLexerCondType.ST_HEREDOC }).map
      (fun t => (t.yyCondition, t.yyLength, t.nextToken.kind, t.nextToken.value)) =
      some (YYLexerCondType.ST_END_HEREDOC, 3, TokenKindType.T_ENCAPSED_AND_WHITESPACE,
        TokenValue.str [97, 98]) := by
  decide

/-! ### Nowdoc bodies and unterminated bodies -/

theorem bodyScan_eq (s : Lexer) (p : Nat) (hs : BodyEntered s p) :
    heredocBodyScan s p =
        heredocBodyLoop s (labelAt s p) (s.artificialEof - s.yyText + 1) s.yyText ∧
      nowdocBodyScan s p =
        nowdocBodyLoop s (labelAt s p) (s.artificialEof - s.yyText + 1) s.yyText 0 0 := by
  have h1 : s.yyCursor - 1 = s.yyText := by have := hs.afterChar; omega
  unfold heredocBodyScan nowdocBodyScan
  rw [h1]
  exact ⟨rfl, rfl⟩

theorem BodyEntered.text_lt {s : Lexer} {p : Nat} (hs : BodyEntered s p) :
    s.yyText < s.artificialEof := by
  have h1 := hs.afterChar
  have h2 := hs.beforeLimit
  omega

/-- C17: `lexNowdocBody`, entered on a body, returns one token that
starts at the start of the text and ends in one of two ways only.  Either it
ends at the start of a closing line before the artificial end (a line
terminator, a run of spaces and tabs, the label, and then a byte that starts no
label), and the condition becomes `ST_END_HEREDOC`; or it ends at the artificial
end, and the condition is kept.  A `$`, a `{` or a backslash in the body neither
ends nor splits the token.  The one exception to ending at the artificial end:
when a `\r` is the last byte before the artificial end and the buffer goes on
with a `\n`, the token ends one byte after the artificial end.  Outside parse
mode and with the indentation check off the token is a
`T_ENCAPSED_AND_WHITESPACE`. -/
theorem lexNowdocBody_stop (E : Externs) (hE : E.Progress) (hS : E.StringFrame)
    (s : Lexer) (p : Nat) (hs : BodyEntered s p) :
    ∃ t, lexNowdocBody E s = some t ∧
      t.nextToken.textStart = s.yyText ∧ t.nextToken.textLength = t.yyLength ∧
      ((t.yyCondition = YYLexerCondType.ST_END_HEREDOC ∧
          s.yyText + t.yyLength < s.artificialEof ∧
          closingLineAt s (labelAt s p) (s.yyText + t.yyLength) = true) ∨
        (t.yyCondition = s.yyCondition ∧ s.yyText + t.yyLength ≤ s.bufferEnd ∧
          (s.yyText + t.yyLength = s.artificialEof ∨
            (s.yyText + t.yyLength = s.artificialEof + 1 ∧
              byteAt s.buffer (s.artificialEof - 1) = 13 ∧
              byteAt s.buffer s.artificialEof = 10)))) ∧
      (s.valueContainer = false → s.flags.checkHeredocIndentation = false →
        t.nextToken.kind = TokenKindType.T_ENCAPSED_AND_WHITESPACE) := by
  have hlen := hs.atBufferEnd
  have hlim := hs.limitInBuffer
  have htl := hs.text_lt
  rw [lexNowdocBody_eq E s p hs]
  obtain ⟨r, hr, hok⟩ := nowdocBodyLoop_ok s (labelAt s p) hlen hlim
    (s.artificialEof - s.yyText + 1) s.yyText 0 0 (by omega) (Or.inl (by omega)) (le_refl _)
  rw [hr]
  cases r with
  | endMarker q i sp nl =>
    obtain ⟨a1, a2, a3, a4, _⟩ := hok
    obtain ⟨e1, e2, e3, e4, e5, e6, e7, e8, e9, _⟩ := nowdocMarkerState_facts s p q i sp
    obtain ⟨t, ht, hb, hp⟩ := finishNowdocBody_frame E hE hS (nowdocMarkerState s p q i sp) nl i sp
      (by rw [e4, e3]; exact hlen) (by rw [e1, e4]; omega)
    have hL : t.yyLength = q - i - s.yyText := by
      rw [hb.length]
      show (nowdocMarkerState s p q i sp).yyCursor - (nowdocMarkerState s p q i sp).yyText = _
      rw [e1, e2]
    have hsum : s.yyText + t.yyLength = q - i := by omega
    refine ⟨t, ht, ?_, ?_, Or.inl ⟨?_, ?_, ?_⟩, ?_⟩
    · rw [hb.textStart]
      exact e2
    · rw [hb.textLength, hL]
      show (nowdocMarkerState s p q i sp).yyCursor - (nowdocMarkerState s p q i sp).yyText = _
      rw [e1, e2]
    · rw [hb.condition]
      exact e8
    · omega
    · rw [hsum]
      exact a4
    · intro h1 h2
      rw [(hp (Or.inr (Or.inr ⟨by rw [e7]; exact h1, by rw [e9]; exact h2⟩))).kind]
      exact formedKind_of_lt _ _ _ (by
        show (nowdocMarkerState s p q i sp).yyText < (nowdocMarkerState s p q i sp).artificialEof
        rw [e2, e5]
        exact htl)
  | unterminated q =>
    obtain ⟨a1, a2⟩ := hok
    obtain ⟨t, ht, hb, hp⟩ := formUnterminatedBody_frame E hE hS s q hlen (by omega)
    have hL : t.yyLength = q - s.yyText := hb.length
    refine ⟨t, ht, hb.textStart, ?_, Or.inr ⟨hb.condition, ?_, Or.inl ?_⟩, ?_⟩
    · rw [hb.textLength, hL]
      rfl
    · omega
    · omega
    · intro _ _
      rw [hp.kind]
      exact formedKind_of_lt _ _ _ htl
  | stopped c i sp =>
    obtain ⟨a1, a2, a3, a4⟩ := hok
    have hc : s.artificialEof ≤ c := by
      by_contra hcon
      have := (a4 (by omega)).1
      cases this
    obtain ⟨t, ht, hb, hp⟩ := finishNowdocBody_frame E hE hS (setYYCursor c s) 0 i sp hlen a2
    have hL : t.yyLength = c - s.yyText := hb.length
    have hsum : s.yyText + t.yyLength = c := by omega
    refine ⟨t, ht, hb.textStart, ?_, Or.inr ⟨hb.condition, ?_, ?_⟩, ?_⟩
    · rw [hb.textLength, hL]
      rfl
    · omega
    · rw [hsum]
      rcases a3 with h | h
      · exact Or.inl (by omega)
      · exact Or.inr h
    · intro h1 h2
      rw [(hp (Or.inr (Or.inr ⟨h1, h2⟩))).kind]
      exact formedKind_of_lt _ _ _ htl

/-- The nowdoc body `a$b`, newline, `A` with label `A`: the `$` does not end the
token, which is the four bytes before the closing line. -/
theorem lexNowdocBody_stop_witness :
    ∃ t, lexNowdocBody plainExterns
        { scanState [97, 36, 98, 10, 65, 10] 0 1 TokenKindType.T_START_HEREDOC false
            TriviaRetentionMode.WithoutTrivia with
          heredocLabelStack := [0], labelHeap := [{ name := [65] }],
          yyCondition := YYLexerCondType.ST_NOWDOC } = some t ∧
      t.nextToken.textStart = 0 ∧ t.nextToken.textLength = t.yyLength ∧ t.yyLength = 4 ∧
      t.nextToken.kind = TokenKindType.T_ENCAPSED_AND_WHITESPACE := by
  obtain ⟨t, ht, h1, h2, _, h4⟩ :=
    lexNowdocBody_stop plainExterns plainExterns_progress plainExterns_stringFrame
      { scanState [97, 36, 98, 10, 65, 10] 0 1 TokenKindType.T_START_HEREDOC false
          TriviaRetentionMode.WithoutTrivia with
        heredocLabelStack := [0], labelHeap := [{ name := [65] }],
        yyCondition := YYLexerCondType.ST_NOWDOC } 0
      ⟨rfl, by decide, rfl, by decide, ⟨[], rfl⟩, by decide⟩
  have hev : (lexNowdocBody plainExterns
      { scanState [97, 36, 98, 10, 65, 10] 0 1 TokenKindType.T_START_HEREDOC false
          TriviaRetentionMode.WithoutTrivia with
        heredocLabelStack := [0], labelHeap := [{ name := [65] }],
        yyCondition := YYLexerCondType.ST_NOWDOC }).map (fun t => t.yyLength) = some 4 := by
    decide
  rw [ht] at hev
  exact ⟨t, ht, h1, h2, Option.some.inj hev, h4 rfl rfl⟩

/-- C17, where the code departs from the claim: in the buffer `<<<'A'`, newline,
`a`, `\r`, `\n`, `A`, newline a lexer restricted to the first nine bytes
(artificial end at offset 9, after the `\r`) is in the nowdoc body at offset 7.
`lexNowdocBody` reads the `\n` at the artificial end as the second byte of the
line terminator: the token has three bytes and the cursor is left at offset 10,
one byte after the artificial end. -/
theorem lexNowdocBody_stop_counterexample :
    (lexNowdocBody plainExterns
        { buffer := [60, 60, 60, 39, 65, 39, 10, 97, 13, 10, 65, 10], bufferEnd := 12,
          artificialEof := 9, yyText := 7, yyLength := 1, yyCursor := 8,
          heredocLabelStack := [0], labelHeap := [{ name := [65] }],
          yyCondition := YYLexerCondType.ST_NOWDOC }).map
      (fun t => (t.nextToken.textStart, t.nextToken.textLength, t.yyLength, t.yyCursor,
        t.artificialEof)) =
      some (7, 3, 3, 10, 9) := by
  decide

theorem recoveredBody_of_frames (s t : Lexer) (c : Nat)
    (hb : BodyTokenFormed (setYYLength (c - s.yyText) (setYYCursor c s)) t)
    (hp : PlainBodyToken (setYYLength (c - s.yyText) (setYYCursor c s)) t 0)
    (htl : s.yyText < s.artificialEof) (hc1 : s.artificialEof ≤ c)
    (hc2 : c ≤ s.artificialEof ∨ (c = s.artificialEof + 1 ∧
      byteAt s.buffer (s.artificialEof - 1) = 13 ∧ byteAt s.buffer s.artificialEof = 10)) :
    RecoveredBody s t := by
  have hL : t.yyLength = c - s.yyText := hb.length
  have hcur : c ≤ t.yyCursor := hb.cursorLe
  have hin : t.yyCursor ≤ s.bufferEnd := hb.cursorIn
  have hsum : s.yyText + t.yyLength = c := by omega
  have hend : s.yyText + t.yyLength = s.artificialEof ∨
      (s.yyText + t.yyLength = s.artificialEof + 1 ∧
        byteAt s.buffer (s.artificialEof - 1) = 13 ∧ byteAt s.buffer s.artificialEof = 10) := by
    rw [hsum]
    rcases hc2 with h | h
    · exact Or.inl (by omega)
    · exact Or.inr h
  have hc3 : c ≤ s.artificialEof + 1 := by
    rcases hc2 with h | h <;> omega
  refine ⟨?_, ?_, hb.textStart, ?_, hend, by omega, hin, ?_, ?_⟩
  · rw [hp.kind]
    exact formedKind_of_lt _ _ _ htl
  · rw [hp.value, hL]
    rfl
  · rw [hb.textLength, hL]
    rfl
  · intro hw
    rw [hsum]
    exact hb.cursorEq (Or.inl hw)
  · intro he
    omega

/-- C18 (amended): outside parse mode and with the indentation check off, on a
body in which no closing line starts before the artificial end (and, for a
heredoc, no interpolation anchor lies before it), `lexHeredocBody` and
`lexNowdocBody` each return one `T_ENCAPSED_AND_WHITESPACE` token whose value
is the text of the token, all the bytes from the token start to the artificial
end (and one byte more when the `\r` of a `\r\n` pair is the last byte before
the artificial end).  The cursor is left at the end of the text when trivia
retention is off, and at the end of the text or after it when the trailing
trivia is scanned; when the artificial end is the end of the buffer the cursor
is left at the artificial end. -/
theorem unterminated_body_token (E : Externs) (hE : E.Progress) (hS : E.StringFrame)
    (s : Lexer) (p : Nat) (hs : BodyEntered s p) (hparse : s.valueContainer = false)
    (hcheck : s.flags.checkHeredocIndentation = false)
    (hclose : ∀ y, y < s.artificialEof → s.yyText < y →
      closingLineAt s (labelAt s p) y = false) :
    ((∀ k, k < s.artificialEof → s.yyText ≤ k → isInterpolationAt s.buffer k = false) →
        ∃ t, lexHeredocBody E s = some t ∧ RecoveredBody s t) ∧
      (∃ t, lexNowdocBody E s = some t ∧ RecoveredBody s t) := by
  have hlen := hs.atBufferEnd
  have hlim := hs.limitInBuffer
  have htl := hs.text_lt
  constructor
  · intro hanchor
    rw [lexHeredocBody_eq E s p hs]
    obtain ⟨r, hr, hok⟩ := heredocBodyLoop_ok s (labelAt s p) hlen hlim
      (s.artificialEof - s.yyText + 1) s.yyText (by omega) (Or.inl (by omega)) (le_refl _)
    rw [hr]
    cases r with
    | endMarker q i sp nl =>
      obtain ⟨a1, a2, a3, a4, _⟩ := hok
      rw [hclose (q - i) (by omega) a1] at a4
      cases a4
    | unterminated q =>
      obtain ⟨a1, a2⟩ := hok
      obtain ⟨t, ht, hb, hp⟩ := formUnterminatedBody_frame E hE hS s q hlen (by omega)
      exact ⟨t, ht, recoveredBody_of_frames s t q hb hp htl (by omega) (Or.inl (by omega))⟩
    | stopped c i sp =>
      obtain ⟨a1, a2, a3, a4⟩ := hok
      have hc : s.artificialEof ≤ c := by
        by_contra hcon
        have := (a4 (by omega)).2
        rw [hanchor c (by omega) a1] at this
        cases this
      obtain ⟨t, ht, hb, hp⟩ := finishHeredocBody_frame E hE hS (setYYCursor c s) p 0 hlen a2
      exact ⟨t, ht, recoveredBody_of_frames s t c hb
        (hp (Or.inr (Or.inr ⟨hparse, hcheck⟩))) htl hc a3⟩
  · rw [lexNowdocBody_eq E s p hs]
    obtain ⟨r, hr, hok⟩ := nowdocBodyLoop_ok s (labelAt s p) hlen hlim
      (s.artificialEof - s.yyText + 1) s.yyText 0 0 (by omega) (Or.inl (by omega)) (le_refl _)
    rw [hr]
    cases r with
    | endMarker q i sp nl =>
      obtain ⟨a1, a2, a3, a4, _⟩ := hok
      rw [hclose (q - i) (by omega) a1] at a4
      cases a4
    | unterminated q =>
      obtain ⟨a1, a2⟩ := hok
      obtain ⟨t, ht, hb, hp⟩ := formUnterminatedBody_frame E hE hS s q hlen (by omega)
      exact ⟨t, ht, recoveredBody_of_frames s t q hb hp htl (by omega) (Or.inl (by omega))⟩
    | stopped c i sp =>
      obtain ⟨a1, a2, a3, a4⟩ := hok
      have hc : s.artificialEof ≤ c := by
        by_contra hcon
        have := (a4 (by omega)).1
        cases this
      obtain ⟨t, ht, hb, hp⟩ := finishNowdocBody_frame E hE hS (setYYCursor c s) 0 i sp hlen a2
      exact ⟨t, ht, recoveredBody_of_frames s t c hb
        (hp (Or.inr (Or.inr ⟨hparse, hcheck⟩))) htl hc a3⟩

/-- The body `ab`, newline, `c` with label `A` over the whole buffer, trivia
retained: no closing line and no anchor; both scanners return the four bytes as
the value and leave the cursor at the end of the buffer. -/
theorem unterminated_body_token_witness :
    (∃ t, lexHeredocBody plainExterns
        { scanState [97, 98, 10, 99] 0 1 TokenKindType.T_START_HEREDOC false
            TriviaRetentionMode.WithTrivia with
          heredocLabelStack := [0], labelHeap := [{ name := [65] }],
          yyCondition := YYLexerCondType.ST_HEREDOC } = some t ∧
        t.nextToken.kind = TokenKindType.T_ENCAPSED_AND_WHITESPACE ∧
        t.nextToken.value = TokenValue.str [97, 98, 10, 99] ∧ t.yyCursor = 4) ∧
      (∃ t, lexNowdocBody plainExterns
        { scanState [97, 98, 10, 99] 0 1 TokenKindType.T_START_HEREDOC false
            TriviaRetentionMode.WithTrivia with
          heredocLabelStack := [0], labelHeap := [{ name := [65] }],
          yyCondition := YYLexerCondType.ST_HEREDOC } = some t ∧
        t.nextToken.kind = TokenKindType.T_ENCAPSED_AND_WHITESPACE ∧
        t.nextToken.value = TokenValue.str [97, 98, 10, 99] ∧ t.yyCursor = 4) := by
  obtain ⟨hh, hn⟩ :=
    unterminated_body_token plainExterns plainExterns_progress plainExterns_stringFrame
      { scanState [97, 98, 10, 99] 0 1 TokenKindType.T_START_HEREDOC false
          TriviaRetentionMode.WithTrivia with
        heredocLabelStack := [0], labelHeap := [{ name := [65] }],
        yyCondition := YYLexerCondType.ST_HEREDOC } 0
      ⟨rfl, by decide, rfl, by decide, ⟨[], rfl⟩, by decide⟩ rfl rfl (by decide)
  obtain ⟨t, ht, hr⟩ := hh (by decide)
  obtain ⟨t2, ht2, hr2⟩ := hn
  have e1 := hr.wholeBuffer rfl
  have e2 := hr2.wholeBuffer rfl
  refine ⟨⟨t, ht, hr.kind, ?_, e1.2⟩, ⟨t2, ht2, hr2.kind, ?_, e2.2⟩⟩
  · have hl : t.yyLength = 4 := by
      have := e1.1
      exact (Nat.zero_add _).symm.trans this
    rw [hr.value, hl]
    rfl
  · have hl : t2.yyLength = 4 := by
      have := e2.1
      exact (Nat.zero_add _).symm.trans this
    rw [hr2.value, hl]
    rfl

/-- C18, the claim as stated fails: a lexer with trivia retention on that is
restricted to the first two bytes of the buffer `ab`, two spaces, `x`
(artificial end at offset 2), outside parse mode, with no closing line and no
anchor in the body, forms the heredoc token with the value `ab`, and the
trailing-trivia scan of `formToken` leaves the cursor at offset 4, past the
artificial end. -/
theorem unterminated_body_token_counterexample :
    (lexHeredocBody plainExterns
        { buffer := [97, 98, 32, 32, 120], bufferEnd := 5, artificialEof := 2,
          yyText := 0, yyLength := 1, yyCursor := 1,
          triviaRetention := TriviaRetentionMode.WithTrivia,
          heredocLabelStack := [0], labelHeap := [{ name := [65] }],
          yyCondition := YYLexerCondType.ST_HEREDOC }).map
      (fun t => (t.nextToken.kind, t.nextToken.value, t.yyCursor, t.artificialEof)) =
      some (TokenKindType.T_ENCAPSED_AND_WHITESPACE, TokenValue.str [97, 98], 4, 2) := by
  decide

/-! ### Mixed tabs and spaces before the closing marker -/

theorem scan_endMarker_ok (s : Lexer) (p q i sp nl : Nat) (hs : BodyEntered s p) :
    (heredocBodyScan s p = some (BodyScan.endMarker q i sp nl) →
        BodyScan.Ok s (labelAt s p) true s.yyText (BodyScan.endMarker q i sp nl)) ∧
      (nowdocBodyScan s p = some (BodyScan.endMarker q i sp nl) →
        BodyScan.Ok s (labelAt s p) false s.yyText (BodyScan.endMarker q i sp nl)) := by
  have hlen := hs.atBufferEnd
  have hlim := hs.limitInBuffer
  have htl := hs.text_lt
  obtain ⟨e1, e2⟩ := bodyScan_eq s p hs
  constructor
  · intro h
    obtain ⟨r, hr, hok⟩ := heredocBodyLoop_ok s (labelAt s p) hlen hlim
      (s.artificialEof - s.yyText + 1) s.yyText (by omega) (Or.inl (by omega)) (le_refl _)
    rw [e1, hr] at h
    rw [Option.some.inj h] at hok
    exact hok
  · intro h
    obtain ⟨r, hr, hok⟩ := nowdocBodyLoop_ok s (labelAt s p) hlen hlim
      (s.artificialEof - s.yyText + 1) s.yyText 0 0 (by omega) (Or.inl (by omega)) (le_refl _)
    rw [e2, hr] at h
    rw [Option.some.inj h] at hok
    exact hok

/-! ### The snapshot of `saveYYState` -/

/-- C30 (amended): `saveYYState` copies the heredoc-label stack into the
snapshot and leaves the live one as it was, but it moves the condition stack
into the snapshot: after the call the live condition stack is empty.  The
snapshot it pushes holds both stacks as they were before the call, and nothing
else of the lexer changes. -/
theorem saveYYState_stacks (s : Lexer) :
    ∃ snap, saveYYState s =
        { s with yyConditionStack := [], yyStateStack := snap :: s.yyStateStack } ∧
      snap.conditionStack = s.yyConditionStack ∧
      snap.heredocLabelStack = s.heredocLabelStack ∧
      (saveYYState s).heredocLabelStack = s.heredocLabelStack ∧
      (saveYYState s).yyConditionStack = [] ∧
      (saveYYState s).labelHeap = s.labelHeap :=
  ⟨_, rfl, rfl, rfl, rfl, rfl, rfl⟩

/-- C30, the claim as stated fails: a lexer whose condition stack holds the one
condition `ST_IN_SCRIPTING`, pushed by `pushYYCondition`, has an empty live
condition stack after `saveYYState`. -/
theorem saveYYState_stacks_counterexample :
    (pushYYCondition YYLexerCondType.ST_HEREDOC
        (scanState [123, 36, 120, 125] 0 2 TokenKindType.T_START_HEREDOC false
          TriviaRetentionMode.WithoutTrivia)).yyConditionStack =
      [YYLexerCondType.ST_IN_SCRIPTING] ∧
    (saveYYState (pushYYCondition YYLexerCondType.ST_HEREDOC
        (scanState [123, 36, 120, 125] 0 2 TokenKindType.T_START_HEREDOC false
          TriviaRetentionMode.WithoutTrivia))).yyConditionStack = [] := by
  decide

/-! ### The text and the kind of a formed token -/

/-- C28: `formToken(kind, tokenStart)`, called with the cursor inside the buffer
and at or after `tokenStart`, forms a token whose text starts at `tokenStart`
and is the bytes from there to the cursor as it was on entry, also when the
trailing-trivia scan moves the cursor on; its kind is `END` if and only if the
requested kind is `END` or `tokenStart` is at or after the artificial end, and
otherwise it is the requested kind. -/
theorem formToken_text_and_kind (E : Externs) (hE : E.Progress) (kind : TokenKindType)
    (tokenStart : Nat) (s : Lexer) (hlen : s.bufferEnd = s.buffer.length)
    (hcur : s.yyCursor ≤ s.bufferEnd) (hstart : tokenStart ≤ s.yyCursor) :
    ∃ t, formToken E kind tokenStart s = some t ∧
      t.nextToken.textStart = tokenStart ∧
      tokenStart + t.nextToken.textLength = s.yyCursor ∧
      slice t.buffer t.nextToken.textStart t.nextToken.textLength =
        bytesBetween s.buffer tokenStart s.yyCursor ∧
      s.yyCursor ≤ t.yyCursor ∧
      (t.nextToken.kind = TokenKindType.END ↔
        kind = TokenKindType.END ∨ tokenStart ≥ s.artificialEof) ∧
      (¬ (kind = TokenKindType.END ∨ tokenStart ≥ s.artificialEof) →
        t.nextToken.kind = kind) := by
  obtain ⟨c, a, tr, hf, h1, _, _⟩ := formToken_spec E hE kind tokenStart s hlen hcur
  refine ⟨_, hf, rfl, ?_, ?_, h1, ?_, ?_⟩
  · show tokenStart + (s.yyCursor - tokenStart) = s.yyCursor
    omega
  · show slice s.buffer tokenStart (s.yyCursor - tokenStart) = _
    unfold slice bytesBetween
    rw [List.drop_take]
  · show formedKind kind tokenStart s = TokenKindType.END ↔ _
    unfold formedKind
    by_cases hk : kind = TokenKindType.END
    · simp [hk]
    · by_cases hs : tokenStart ≥ s.artificialEof
      · simp [hk, hs]
      · simp [hk, hs]
  · intro h
    show formedKind kind tokenStart s = kind
    unfold formedKind
    rw [if_neg]
    intro hh
    exact h (Or.inr hh.2)

/-- The token `ab` at the head of the buffer `ab`, two spaces, `c`, with trivia
retention on: the text is the two bytes, the two spaces are trailing trivia. -/
theorem formToken_text_and_kind_witness :
    ∃ t, formToken plainExterns TokenKindType.T_IDENTIFIER_STRING 0
        (scanState [97, 98, 32, 32, 99] 0 2 TokenKindType.T_UNKNOWN_MARK false
          TriviaRetentionMode.WithTrivia) = some t ∧
      t.nextToken.textStart = 0 ∧ 0 + t.nextToken.textLength = 2 ∧
      t.nextToken.kind = TokenKindType.T_IDENTIFIER_STRING ∧ t.yyCursor = 4 := by
  obtain ⟨t, ht, h1, h2, _, _, _, h6⟩ :=
    formToken_text_and_kind plainExterns plainExterns_progress TokenKindType.T_IDENTIFIER_STRING 0
      (scanState [97, 98, 32, 32, 99] 0 2 TokenKindType.T_UNKNOWN_MARK false
        TriviaRetentionMode.WithTrivia) rfl (by decide) (by decide)
  have hev : (formToken plainExterns TokenKindType.T_IDENTIFIER_STRING 0
      (scanState [97, 98, 32, 32, 99] 0 2 TokenKindType.T_UNKNOWN_MARK false
        TriviaRetentionMode.WithTrivia)).map (fun t => t.yyCursor) = some 4 := by decide
  rw [ht] at hev
  exact ⟨t, ht, h1, h2, h6 (by decide), Option.some.inj hev⟩

/-! ### One-token lookahead -/

/-- C25, what the code does: `lex` first forms a new token with `lexImpl` and
then returns `m_nextToken`.  The token it returns is therefore the token
`peekNextToken` returns after the call, the one formed during it, and not the
token `peekNextToken` returned before the call. -/
theorem lexCall_returns_formed_token (E : Externs) (yy : Lexer → Option Lexer) (s t : Lexer)
    (tok : Token) (l tr : List ParsedTriviaPiece) (h : lexCall E yy s = some (t, tok, l, tr)) :
    lexImpl E yy s = some t ∧ tok = peekNextToken t := by
  unfold lexCall at h
  cases hl : lexImpl E yy s with
  | none =>
    rw [hl] at h
    cases h
  | some u =>
    rw [hl] at h
    dsimp only [Option.map] at h
    split at h
    · injection h with h
      injection h with h1 h2
      injection h2 with h2 _
      subst h1
      exact ⟨rfl, h2.symm⟩
    · injection h with h
      injection h with h1 h2
      injection h2 with h2 _
      subst h1
      exact ⟨rfl, h2.symm⟩

/-- The first call of `lex` on the empty buffer returns the end-of-file token,
which `peekNextToken` returns afterwards. -/
theorem lexCall_returns_formed_token_witness :
    ∃ t tok, lexCall plainExterns (yy_token_lex plainExterns (lex plainExterns 1))
        (lexerInitialize [] Option.none CommentRetentionMode.None
          TriviaRetentionMode.WithoutTrivia 0 0) = some (t, tok, [], []) ∧
      tok = peekNextToken t ∧ tok.kind = TokenKindType.END := by
  have hev : lexCall plainExterns (yy_token_lex plainExterns (lex plainExterns 1))
      (lexerInitialize [] Option.none CommentRetentionMode.None
        TriviaRetentionMode.WithoutTrivia 0 0) =
      some ({ lexerInitialize [] Option.none CommentRetentionMode.None
          TriviaRetentionMode.WithoutTrivia 0 0 with
        nextToken := { kind := TokenKindType.END, atStartOfLine := true } },
        { kind := TokenKindType.END, atStartOfLine := true }, [], []) := by
    decide
  exact ⟨_, _, hev, (lexCall_returns_formed_token plainExterns _ _ _ _ _ _ hev).2, rfl⟩

/-- C25, where the code departs from the claim: on the buffer `<<<A`, newline,
`A`, newline a freshly initialised lexer has `peekNextToken` return a token of
kind `T_UNKNOWN_MARK`, and the call of `lex` that follows returns the
`T_START_HEREDOC` token; `peekNextToken` then returns that same
`T_START_HEREDOC` token, and the next call of `lex` returns a
`T_ENCAPSED_AND_WHITESPACE` token. -/
theorem lexCall_returns_formed_token_counterexample :
    (peekNextToken (lexerInitialize [60, 60, 60, 65, 10, 65, 10] Option.none
        CommentRetentionMode.None TriviaRetentionMode.WithoutTrivia 0 7)).kind =
      TokenKindType.T_UNKNOWN_MARK ∧
    ((lexCall plainExterns (yy_token_lex plainExterns (lex plainExterns 3))
        (lexerInitialize [60, 60, 60, 65, 10, 65, 10] Option.none
          CommentRetentionMode.None TriviaRetentionMode.WithoutTrivia 0 7)).bind
      fun r => (lexCall plainExterns (yy_token_lex plainExterns (lex plainExterns 3)) r.1).map
        fun r2 => (r.2.1.kind, (peekNextToken r.1).kind, r2.2.1.kind)) =
      some (TokenKindType.T_START_HEREDOC, TokenKindType.T_START_HEREDOC,
        TokenKindType.T_ENCAPSED_AND_WHITESPACE) := by
  decide

/-! ### The start of a line -/

theorem find_start_of_line_cases (buf : List Nat) :
    ∀ offset : Nat,
      (find_start_of_line buf offset = 0 ∧
        ∀ k, 1 ≤ k → k ≤ offset → byteAt buf k ≠ 10 ∧ byteAt buf k ≠ 13) ∨
      (∃ k, 1 ≤ k ∧ k ≤ offset ∧ (byteAt buf k = 10 ∨ byteAt buf k = 13) ∧
        find_start_of_line buf offset = k + 1 ∧
        ∀ j, k < j → j ≤ offset → byteAt buf j ≠ 10 ∧ byteAt buf j ≠ 13) := by
  intro offset
  induction offset with
  | zero => exact Or.inl ⟨rfl, fun k h1 h2 => by omega⟩
  | succ c ih =>
    unfold find_start_of_line
    by_cases hnl : byteAt buf (c + 1) = 10 ∨ byteAt buf (c + 1) = 13
    · rw [if_pos hnl]
      exact Or.inr ⟨c + 1, by omega, le_refl _, hnl, rfl, fun j h1 h2 => by omega⟩
    · rw [if_neg hnl]
      have hnot : byteAt buf (c + 1) ≠ 10 ∧ byteAt buf (c + 1) ≠ 13 :=
        ⟨fun h => hnl (Or.inl h), fun h => hnl (Or.inr h)⟩
      rcases ih with ⟨h0, hall⟩ | ⟨k, h1, h2, h3, h4, h5⟩
      · refine Or.inl ⟨h0, fun k hk1 hk2 => ?_⟩
        by_cases hk : k = c + 1
        · rw [hk]
          exact hnot
        · exact hall k hk1 (by omega)
      · refine Or.inr ⟨k, h1, by omega, h3, h4, fun j hj1 hj2 => ?_⟩
        by_cases hj : j = c + 1
        · rw [hj]
          exact hnot
        · exact h5 j hj1 (by omega)

theorem take_length_takeWhile (f : Nat → Bool) :
    ∀ l : List Nat, l.take (l.takeWhile f).length = l.takeWhile f
  | [] => rfl
  | a :: l => by
    by_cases h : f a = true
    · rw [List.takeWhile_cons_of_pos h, List.length_cons, List.take_succ_cons,
        take_length_takeWhile f l]
    · rw [List.takeWhile_cons_of_neg h]
      rfl

/-- C27, what the code does: `find_start_of_line`, which `getLocForStartOfLine`
and `getIndentationForLine` call, returns the start of the line that contains
the offset, the greatest line start at or before the offset, whenever the byte
at the offset is no line terminator (or the offset is 0) and the first byte of
the buffer is no line terminator.  For an offset after 0 on a `\n` or `\r` it
returns the offset plus one, the start of the next line; and it never looks at
the first byte of the buffer, so that with a line terminator there and none
after it up to the offset it returns 0.  `getIndentationForLine` returns the
run of bytes from the position `find_start_of_line` gives that are not NUL and
are horizontal whitespace. -/
theorem find_start_of_line_line_start (hws : Nat → Bool) (buf : List Nat) (offset : Nat) :
    ((offset = 0 ∨ (byteAt buf offset ≠ 10 ∧ byteAt buf offset ≠ 13)) →
        byteAt buf 0 ≠ 10 → byteAt buf 0 ≠ 13 →
        getLocForStartOfLine buf offset ≤ offset ∧
        isLineStart buf (getLocForStartOfLine buf offset) = true ∧
        ∀ q, getLocForStartOfLine buf offset < q → q ≤ offset → isLineStart buf q = false) ∧
      (offset ≠ 0 → (byteAt buf offset = 10 ∨ byteAt buf offset = 13) →
        getLocForStartOfLine buf offset = offset + 1) ∧
      ((∀ k, 1 ≤ k → k ≤ offset → byteAt buf k ≠ 10 ∧ byteAt buf k ≠ 13) →
        getLocForStartOfLine buf offset = 0) ∧
      getIndentationForLine hws buf offset =
        (getLocForStartOfLine buf offset,
          (buf.drop (getLocForStartOfLine buf offset)).takeWhile
            fun c => c ≠ 0 && hws c) := by
  unfold getLocForStartOfLine
  refine ⟨?_, ?_, ?_, ?_⟩
  · intro hoff h10 h13
    rcases find_start_of_line_cases buf offset with ⟨h0, hall⟩ | ⟨k, h1, h2, h3, h4, h5⟩
    · rw [h0]
      refine ⟨Nat.zero_le _, rfl, fun q hq1 hq2 => ?_⟩
      have hq : q - 1 = 0 ∨ (1 ≤ q - 1 ∧ q - 1 ≤ offset) := by omega
      have hb : byteAt buf (q - 1) ≠ 10 ∧ byteAt buf (q - 1) ≠ 13 := by
        rcases hq with hq | hq
        · rw [hq]
          exact ⟨h10, h13⟩
        · exact hall _ hq.1 hq.2
      simp [isLineStart, hb.1, hb.2]
      omega
    · have hk : k ≠ offset := by
        intro hko
        rw [hko] at h3
        rcases hoff with hoff | hoff
        · omega
        · rcases h3 with h3 | h3
          · exact hoff.1 h3
          · exact hoff.2 h3
      rw [h4]
      refine ⟨by omega, ?_, fun q hq1 hq2 => ?_⟩
      · simp only [isLineStart, Nat.add_sub_cancel, Bool.or_eq_true, decide_eq_true_eq]
        rcases h3 with h3 | h3
        · exact Or.inl (Or.inr h3)
        · exact Or.inr h3
      · have hb := h5 (q - 1) (by omega) (by omega)
        simp [isLineStart, hb.1, hb.2]
        omega
  · intro h0 hnl
    obtain ⟨c, rfl⟩ : ∃ c, offset = c + 1 := ⟨offset - 1, by omega⟩
    unfold find_start_of_line
    rw [if_pos hnl]
  · intro hall
    rcases find_start_of_line_cases buf offset with ⟨h0, _⟩ | ⟨k, h1, h2, h3, _⟩
    · exact h0
    · have := hall k h1 h2
      rcases h3 with h3 | h3
      · exact absurd h3 this.1
      · exact absurd h3 this.2
  · unfold getIndentationForLine
    dsimp only
    rw [Nat.add_sub_cancel_left]
    unfold slice countWhile
    rw [take_length_takeWhile]

/-- The offset of `c` in the buffer `ab`, newline, two spaces, `cd`: the line
starts at offset 3 and is indented by the two spaces. -/
theorem find_start_of_line_line_start_witness :
    getLocForStartOfLine [97, 98, 10, 32, 32, 99, 100] 5 = 3 ∧
      getIndentationForLine (fun c => c = 32 || c = 9) [97, 98, 10, 32, 32, 99, 100] 5 =
        (3, [32, 32]) := by
  obtain ⟨h1, _, _, h4⟩ :=
    find_start_of_line_line_start (fun c => c = 32 || c = 9) [97, 98, 10, 32, 32, 99, 100] 5
  obtain ⟨a1, a2, a3⟩ := h1 (Or.inr (by decide)) (by decide) (by decide)
  have hev : getLocForStartOfLine [97, 98, 10, 32, 32, 99, 100] 5 = 3 := by decide
  exact ⟨hev, h4.trans (by rw [hev]; decide)⟩

/-- C27, where the code departs from the claim: in the buffer `ab`, newline,
`cd` the offset 2 of the newline lies on the line that starts at offset 0, and
the code returns offset 3, after the offset itself; in the buffer newline, `ab`
the offset 1 lies on the line that starts at offset 1, and the code returns 0. -/
theorem find_start_of_line_line_start_counterexample :
    getLocForStartOfLine [97, 98, 10, 99, 100] 2 = 3 ∧
      isLineStart [97, 98, 10, 99, 100] 0 = true ∧
      isLineStart [97, 98, 10, 99, 100] 1 = false ∧
      isLineStart [97, 98, 10, 99, 100] 2 = false ∧
    getLocForStartOfLine [10, 97, 98] 1 = 0 ∧ isLineStart [10, 97, 98] 1 = true := by
  decide

/-! ### How the trivia scanner extends a trivia list -/

theorem triviaGrowth_trans {attach : Bool} {l m n : List ParsedTriviaPiece}
    (h1 : TriviaGrowth attach l m) (h2 : TriviaGrowth attach m n) : TriviaGrowth attach l n := by
  induction h2 with
  | same => exact h1
  | blank k j _ hk ih => exact TriviaGrowth.blank k j ih hk
  | garbage j _ ih => exact TriviaGrowth.garbage j ih
  | comment k j _ ha hk ih => exact TriviaGrowth.comment k j ih ha hk

theorem lexTriviaRound_growth (E : Externs) (trailing : Bool) (s : Lexer)
    (trivia : List ParsedTriviaPiece) (t : Lexer) (tr : List ParsedTriviaPiece) (again : Bool)
    (h : lexTriviaRound E trailing s trivia = some ((t, tr), again)) :
    TriviaFrame s t ∧ TriviaGrowth (attachesComments trailing s) trivia tr := by
  have key : ∀ (x : Lexer) (y : List ParsedTriviaPiece) (b : Bool),
      TriviaFrame s x → TriviaGrowth (attachesComments trailing s) trivia y →
      some ((x, y), b) = some ((t, tr), again) →
      TriviaFrame s t ∧ TriviaGrowth (attachesComments trailing s) trivia tr := by
    intro x y b hx hy he
    injection he with he
    injection he with he _
    injection he with h1 h2
    subst h1 h2
    exact ⟨hx, hy⟩
  have hsame : TriviaGrowth (attachesComments trailing s) trivia trivia := TriviaGrowth.same trivia
  have blank : ∀ (k : TriviaKind) (n : Nat), isWhitespaceTriviaKind k = true →
      TriviaGrowth (attachesComments trailing s) trivia (appendOrSquash trivia k n) :=
    fun k n hk => TriviaGrowth.blank k n hsame hk
  have fc : ∀ c, TriviaFrame s (setYYCursor c s) := fun c => TriviaFrame.cursor s c
  have fca : ∀ c a, TriviaFrame s (setAtStartOfLine a (setYYCursor c s)) :=
    fun c a => ⟨c, a, rfl⟩
  have fcc : ∀ c d, TriviaFrame s (setYYCursor d (setYYCursor c s)) :=
    fun c d => ⟨d, s.nextToken.atStartOfLine, rfl⟩
  have fcac : ∀ c a d, TriviaFrame s (setYYCursor d (setAtStartOfLine a (setYYCursor c s))) :=
    fun c a d => ⟨d, a, rfl⟩
  unfold lexTriviaRound at h
  dsimp only at h
  by_cases h10 : byteAt s.buffer s.yyCursor = 10
  · rw [if_pos h10] at h
    split at h
    · exact key _ _ _ (fcc _ _) hsame h
    · exact key _ _ _ (fca _ _) (blank TriviaKind.Newline 1 rfl) h
  rw [if_neg h10] at h
  by_cases h13 : byteAt s.buffer s.yyCursor = 13
  · rw [if_pos h13] at h
    split at h
    · exact key _ _ _ (fcc _ _) hsame h
    · split at h
      · exact key _ _ _ (fcac _ _ _) (blank TriviaKind.CarriageReturnLineFeed 2 rfl) h
      · exact key _ _ _ (fca _ _) (blank TriviaKind.CarriageReturn 1 rfl) h
  rw [if_neg h13] at h
  by_cases h32 : byteAt s.buffer s.yyCursor = 32
  · rw [if_pos h32] at h
    exact key _ _ _ (fc _) (blank TriviaKind.Space 1 rfl) h
  rw [if_neg h32] at h
  by_cases h9 : byteAt s.buffer s.yyCursor = 9
  · rw [if_pos h9] at h
    exact key _ _ _ (fc _) (blank TriviaKind.Tab 1 rfl) h
  rw [if_neg h9] at h
  by_cases h11 : byteAt s.buffer s.yyCursor = 11
  · rw [if_pos h11] at h
    exact key _ _ _ (fc _) (blank TriviaKind.VerticalTab 1 rfl) h
  rw [if_neg h11] at h
  by_cases h12 : byteAt s.buffer s.yyCursor = 12
  · rw [if_pos h12] at h
    exact key _ _ _ (fc _) (blank TriviaKind.Formfeed 1 rfl) h
  rw [if_neg h12] at h
  by_cases h47 : byteAt s.buffer s.yyCursor = 47
  · rw [if_pos h47] at h
    by_cases hstop : (trailing ||
        decide ((setYYCursor (s.yyCursor + 1) s).commentRetention =
          CommentRetentionMode.ReturnAsTokens)) = true
    · rw [if_pos hstop] at h
      exact key _ _ _ (fcc _ _) hsame h
    · rw [if_neg hstop] at h
      have hatt : attachesComments trailing s = true := by
        unfold attachesComments
        simp only [Bool.or_eq_true, decide_eq_true_eq, not_or] at hstop
        simp only [Bool.and_eq_true, Bool.not_eq_true', decide_eq_true_eq]
        exact ⟨by simpa using hstop.1, hstop.2⟩
      split at h
      · refine key _ _ _ ?_ (TriviaGrowth.comment _ _ hsame hatt ?_) h
        · simp only [skipSlashSlashComment, skipToEndOfLine_false]
          exact fcc _ _
        · split <;> rfl
      · split at h
        · refine key _ _ _ ?_ (TriviaGrowth.comment _ _ hsame hatt ?_) h
          · exact (fc _).trans (skipSlashStarComment_frame E _).1
          · split <;> rfl
        · exact key _ _ _ (fcc _ _) hsame h
  rw [if_neg h47] at h
  by_cases h35 : byteAt s.buffer s.yyCursor = 35
  · rw [if_pos h35] at h
    split at h
    · refine key _ _ _ ?_ (TriviaGrowth.garbage _ hsame) h
      simp only [skipHashbang, skipToEndOfLine_false]
      exact ⟨_, s.nextToken.atStartOfLine, rfl⟩
    · exact key _ _ _ (fcc _ _) hsame h
  rw [if_neg h35] at h
  by_cases h0 : byteAt s.buffer s.yyCursor = 0
  · rw [if_pos h0] at h
    split at h
    · exact key _ _ _ (fc _) (TriviaGrowth.garbage _ hsame) h
    · exact key _ _ _ (fcc _ _) hsame h
    · exact key _ _ _ (fcc _ _) hsame h
  rw [if_neg h0] at h
  split at h
  · exact key _ _ _ (fcc _ _) hsame h
  · split at h
    · exact key _ _ _ (fcc _ _) hsame h
    · split at h
      · exact key _ _ _ (fcc _ _) hsame h
      · split at h
        · cases h
        · rename_i s1 k hu
          have hs1 := lexUnknown_cursorOnly E _ _ _ _ hu
          split at h
          · exact key _ _ _ (by rw [hs1]; exact ⟨_, s.nextToken.atStartOfLine, rfl⟩) hsame h
          · exact key _ _ _ (by rw [hs1]; exact fcc _ _) (TriviaGrowth.garbage _ hsame) h

theorem triviaFrame_attachesComments {s t : Lexer} (h : TriviaFrame s t) (trailing : Bool) :
    attachesComments trailing t = attachesComments trailing s := by
  obtain ⟨c, a, rfl⟩ := h
  rfl

theorem lexTriviaLoop_growth (E : Externs) (trailing : Bool) :
    ∀ (fuel : Nat) (s : Lexer) (trivia : List ParsedTriviaPiece) (t : Lexer)
      (tr : List ParsedTriviaPiece),
      lexTriviaLoop E trailing fuel s trivia = some (t, tr) →
      TriviaFrame s t ∧ TriviaGrowth (attachesComments trailing s) trivia tr := by
  intro fuel
  induction fuel with
  | zero => intro s trivia t tr h; simp [lexTriviaLoop] at h
  | succ fuel ih =>
    intro s trivia t tr h
    unfold lexTriviaLoop at h
    cases hr : lexTriviaRound E trailing s trivia with
    | none => rw [hr] at h; cases h
    | some r =>
      obtain ⟨⟨s1, tr1⟩, again⟩ := r
      rw [hr] at h
      obtain ⟨h1, h2⟩ := lexTriviaRound_growth E trailing s trivia s1 tr1 again hr
      cases again with
      | false =>
        dsimp only at h
        injection h with h
        injection h with ha hb
        subst ha hb
        exact ⟨h1, h2⟩
      | true =>
        dsimp only at h
        obtain ⟨h3, h4⟩ := ih s1 tr1 t tr h
        rw [triviaFrame_attachesComments h1] at h4
        exact ⟨h1.trans h3, triviaGrowth_trans h2 h4⟩

theorem triviaGrowth_comments {l m : List ParsedTriviaPiece} (h : TriviaGrowth false l m) :
    m.filter (fun p => is_comment_trivia_kind p.kind) =
      l.filter (fun p => is_comment_trivia_kind p.kind) := by
  induction h with
  | same => rfl
  | blank k j _ hk ih =>
    rw [appendOrSquash_filter is_comment_trivia_kind _ k j (by cases k <;> first | rfl | cases hk)]
    exact ih
  | garbage j _ ih =>
    rw [pushBack_filter is_comment_trivia_kind _ TriviaKind.GarbageText j rfl]
    exact ih
  | comment k j _ ha _ _ => cases ha

theorem appendOrSquash_head (l : List ParsedTriviaPiece) (p : ParsedTriviaPiece)
    (k : TriviaKind) (n : Nat) (h : l.head? = some p) (hk : p.kind ≠ k) :
    (appendOrSquash l k n).head? = some p := by
  cases l with
  | nil => cases h
  | cons a l =>
    simp only [List.head?_cons, Option.some.injEq] at h
    subst h
    cases l with
    | nil => simp [appendOrSquash, hk]
    | cons b l =>
      unfold appendOrSquash
      cases hl : (a :: b :: l).getLast? with
      | none => simp
      | some last =>
        dsimp only
        split
        · simp [List.dropLast]
        · simp

theorem triviaGrowth_head {attach : Bool} {l m : List ParsedTriviaPiece}
    (h : TriviaGrowth attach l m) (p : ParsedTriviaPiece) (hp : l.head? = some p)
    (hk : p.kind = TriviaKind.GarbageText) : m.head? = some p := by
  induction h with
  | same => exact hp
  | blank k j _ hw ih =>
    exact appendOrSquash_head _ p k j ih (by rw [hk]; intro he; rw [← he] at hw; cases hw)
  | garbage j _ ih =>
    unfold pushBack
    cases hm : ‹List ParsedTriviaPiece› <;> simp_all
  | comment k j _ _ _ ih =>
    unfold pushBack
    cases hm : ‹List ParsedTriviaPiece› <;> simp_all

/-! ### Run-length encoding of a whitespace run -/

theorem appendOrSquash_singleton (p : ParsedTriviaPiece) (k : TriviaKind) (n : Nat) :
    appendOrSquash [p] k n =
      if p.kind = k then [{ p with length := p.length + n }] else [p, { kind := k, length := n }] := by
  simp [appendOrSquash]

theorem appendOrSquash_append (tr R : List ParsedTriviaPiece) (k : TriviaKind) (n : Nat)
    (hR : R ≠ []) : appendOrSquash (tr ++ R) k n = tr ++ appendOrSquash R k n := by
  unfold appendOrSquash
  rw [List.getLast?_append_of_ne_nil tr hR]
  cases hl : R.getLast? with
  | none => simp
  | some last =>
    dsimp only
    split
    · rw [List.dropLast_append_of_ne_nil _ hR, List.append_assoc]
    · rw [List.append_assoc]

theorem appendOrSquash_cons_cons (a b : ParsedTriviaPiece) (l : List ParsedTriviaPiece)
    (k : TriviaKind) (n : Nat) :
    appendOrSquash (a :: b :: l) k n = a :: appendOrSquash (b :: l) k n :=
  appendOrSquash_append [a] (b :: l) k n (by simp)

theorem appendOrSquash_of_last (tr : List ParsedTriviaPiece) (k : TriviaKind) (n : Nat)
    (h : ∀ p, tr.getLast? = some p → p.kind ≠ k) :
    appendOrSquash tr k n = tr ++ [{ kind := k, length := n }] := by
  unfold appendOrSquash
  cases hl : tr.getLast? with
  | none => rfl
  | some last =>
    dsimp only
    rw [if_neg (h last hl)]

theorem appendOrSquash_ne_nil (tr : List ParsedTriviaPiece) (k : TriviaKind) (n : Nat) :
    appendOrSquash tr k n ≠ [] := by
  unfold appendOrSquash
  cases tr.getLast? with
  | none => simp
  | some last =>
    dsimp only
    split <;> simp

theorem prependUnit_ne_nil (k : TriviaKind) (n : Nat) (R : List ParsedTriviaPiece) :
    prependUnit k n R ≠ [] := by
  cases R with
  | nil => simp [prependUnit]
  | cons p ps =>
    simp only [prependUnit]
    split <;> simp

theorem appendOrSquash_prependUnit (k0 : TriviaKind) (n0 : Nat) (k : TriviaKind) (n : Nat) :
    ∀ R : List ParsedTriviaPiece,
      appendOrSquash (prependUnit k0 n0 R) k n = prependUnit k0 n0 (appendOrSquash R k n)
  | [] => by
    by_cases h : k0 = k
    · subst h
      simp [prependUnit, appendOrSquash]
    · have h2 : ¬ k = k0 := fun e => h e.symm
      simp [prependUnit, appendOrSquash, h, h2]
  | [p] => by
    by_cases hp0 : p.kind = k0
    · subst hp0
      by_cases hpk : p.kind = k
      · subst hpk
        simp [prependUnit, appendOrSquash_singleton, Nat.add_assoc]
      · simp [prependUnit, appendOrSquash_singleton, hpk]
    · by_cases hpk : p.kind = k
      · subst hpk
        simp [prependUnit, appendOrSquash_singleton, appendOrSquash_cons_cons, hp0]
      · simp [prependUnit, appendOrSquash_singleton, appendOrSquash_cons_cons, hp0, hpk]
  | p :: q :: ps => by
    rw [appendOrSquash_cons_cons]
    by_cases hp0 : p.kind = k0
    · simp [prependUnit, hp0, appendOrSquash_cons_cons]
    · simp [prependUnit, hp0, appendOrSquash_cons_cons]

theorem runLengthEncoding_snoc (k : TriviaKind) (n : Nat) :
    ∀ us : List (TriviaKind × Nat),
      appendOrSquash (runLengthEncoding us) k n = runLengthEncoding (us ++ [(k, n)])
  | [] => rfl
  | u :: us => by
    show appendOrSquash (prependUnit u.1 u.2 (runLengthEncoding us)) k n =
      prependUnit u.1 u.2 (runLengthEncoding (us ++ [(k, n)]))
    rw [appendOrSquash_prependUnit, runLengthEncoding_snoc k n us]

theorem runLengthEncoding_ne_nil (u : TriviaKind × Nat) (us : List (TriviaKind × Nat)) :
    runLengthEncoding (u :: us) ≠ [] :=
  prependUnit_ne_nil _ _ _

theorem foldl_appendOrSquash (trivia : List ParsedTriviaPiece) :
    ∀ (us : List (TriviaKind × Nat)) (u : TriviaKind × Nat) (done : List (TriviaKind × Nat)),
      us.foldl (fun acc v => appendOrSquash acc v.1 v.2) (trivia ++ runLengthEncoding (u :: done)) =
        trivia ++ runLengthEncoding (u :: done ++ us)
  | [], u, done => by simp
  | v :: us, u, done => by
    rw [List.foldl_cons, appendOrSquash_append _ _ _ _ (runLengthEncoding_ne_nil u done),
      runLengthEncoding_snoc, List.cons_append, foldl_appendOrSquash trivia us u (done ++ [v])]
    simp

theorem foldl_appendOrSquash_units (trivia : List ParsedTriviaPiece)
    (us : List (TriviaKind × Nat))
    (hlast : ∀ p, trivia.getLast? = some p → isWhitespaceTriviaKind p.kind = false)
    (hus : ∀ u ∈ us, isWhitespaceTriviaKind u.1 = true) :
    us.foldl (fun acc v => appendOrSquash acc v.1 v.2) trivia = trivia ++ runLengthEncoding us := by
  cases us with
  | nil => simp [runLengthEncoding]
  | cons u us =>
    have hu := hus u (List.mem_cons_self _ _)
    rw [List.foldl_cons, appendOrSquash_of_last trivia u.1 u.2
      (fun p hp he => by have := hlast p hp; rw [he, hu] at this; cases this)]
    have := foldl_appendOrSquash trivia us u []
    simpa [runLengthEncoding, prependUnit] using this

theorem prependUnit_chain (k : TriviaKind) (n : Nat) :
    ∀ R : List ParsedTriviaPiece, List.Chain' (fun p q => p.kind ≠ q.kind) R →
      List.Chain' (fun p q => p.kind ≠ q.kind) (prependUnit k n R)
  | [], _ => by simp [prependUnit]
  | [p], _ => by
    simp only [prependUnit]
    split
    · simp
    · rename_i h
      simp only [List.chain'_cons, List.chain'_singleton, and_true]
      exact fun e => h e.symm
  | p :: q :: ps, h => by
    simp only [prependUnit]
    rw [List.chain'_cons] at h
    split
    · rw [List.chain'_cons]
      exact h
    · rename_i hk
      rw [List.chain'_cons, List.chain'_cons]
      exact ⟨fun e => hk e.symm, h⟩

theorem runLengthEncoding_chain :
    ∀ us : List (TriviaKind × Nat),
      List.Chain' (fun p q => p.kind ≠ q.kind) (runLengthEncoding us)
  | [] => List.chain'_nil
  | u :: us => prependUnit_chain u.1 u.2 _ (runLengthEncoding_chain us)

theorem prependUnit_sum (k : TriviaKind) (n : Nat) (R : List ParsedTriviaPiece) :
    ((prependUnit k n R).map fun p => p.length).sum = n + (R.map fun p => p.length).sum := by
  cases R with
  | nil => simp [prependUnit]
  | cons p ps =>
    simp only [prependUnit]
    split
    · simp [Nat.add_assoc]
    · simp

theorem runLengthEncoding_sum :
    ∀ us : List (TriviaKind × Nat),
      ((runLengthEncoding us).map fun p => p.length).sum = (us.map fun u => u.2).sum
  | [] => rfl
  | u :: us => by
    show ((prependUnit u.1 u.2 (runLengthEncoding us)).map fun p => p.length).sum = _
    rw [prependUnit_sum, runLengthEncoding_sum us]
    simp

theorem whitespaceKind_isWhitespace (c : Nat) : isWhitespaceTriviaKind (whitespaceKind c) = true := by
  unfold whitespaceKind
  split_ifs <;> rfl

theorem whitespaceUnits_facts :
    ∀ (n : Nat) (ws : List Nat), ws.length ≤ n →
      (∀ u ∈ whitespaceUnits ws, isWhitespaceTriviaKind u.1 = true) ∧
        ((whitespaceUnits ws).map fun u => u.2).sum = ws.length
  | _, [], _ => ⟨fun u hu => by simp [whitespaceUnits] at hu, rfl⟩
  | _, [c], _ => by
    refine ⟨fun u hu => ?_, rfl⟩
    simp only [whitespaceUnits, List.mem_singleton] at hu
    rw [hu]
    exact whitespaceKind_isWhitespace c
  | 0, c :: d :: rest, h => by simp at h
  | n + 1, c :: d :: rest, h => by
    have h1 := whitespaceUnits_facts n (d :: rest) (by simp at h ⊢; omega)
    have h2 := whitespaceUnits_facts n rest (by simp at h ⊢; omega)
    unfold whitespaceUnits
    split
    · refine ⟨fun u hu => ?_, ?_⟩
      · rcases List.mem_cons.mp hu with hu | hu
        · rw [hu]; rfl
        · exact h2.1 u hu
      · simp only [List.map_cons, List.sum_cons, h2.2, List.length_cons]
        omega
    · refine ⟨fun u hu => ?_, ?_⟩
      · rcases List.mem_cons.mp hu with hu | hu
        · rw [hu]; exact whitespaceKind_isWhitespace c
        · exact h1.1 u hu
      · simp only [List.map_cons, List.sum_cons, h1.2, List.length_cons]
        omega

theorem lexTriviaRound_crlf (E : Externs) (s : Lexer) (trivia : List ParsedTriviaPiece)
    (h13 : byteAt s.buffer s.yyCursor = 13) (h10 : byteAt s.buffer (s.yyCursor + 1) = 10) :
    ∃ t, lexTriviaRound E false s trivia =
        some ((t, appendOrSquash trivia TriviaKind.CarriageReturnLineFeed 2), true) ∧
      TriviaFrame s t ∧ t.yyCursor = s.yyCursor + 2 := by
  unfold lexTriviaRound
  dsimp only
  rw [if_neg (by omega), if_pos h13, if_neg (by simp)]
  have h : byteAt (setAtStartOfLine true (setYYCursor (s.yyCursor + 1) s)).buffer
      (setAtStartOfLine true (setYYCursor (s.yyCursor + 1) s)).yyCursor = 10 := h10
  rw [if_pos h]
  exact ⟨_, rfl, ⟨_, true, rfl⟩, rfl⟩

theorem lexTriviaRound_unit (E : Externs) (s : Lexer) (trivia : List ParsedTriviaPiece)
    (hws : byteAt s.buffer s.yyCursor = 32 ∨ byteAt s.buffer s.yyCursor = 9 ∨
      byteAt s.buffer s.yyCursor = 11 ∨ byteAt s.buffer s.yyCursor = 12 ∨
      byteAt s.buffer s.yyCursor = 10 ∨ byteAt s.buffer s.yyCursor = 13)
    (hpair : ¬ (byteAt s.buffer s.yyCursor = 13 ∧ byteAt s.buffer (s.yyCursor + 1) = 10)) :
    ∃ t, lexTriviaRound E false s trivia =
        some ((t, appendOrSquash trivia (whitespaceKind (byteAt s.buffer s.yyCursor)) 1), true) ∧
      TriviaFrame s t ∧ t.yyCursor = s.yyCursor + 1 := by
  unfold lexTriviaRound whitespaceKind
  dsimp only
  by_cases h10 : byteAt s.buffer s.yyCursor = 10
  · rw [if_pos h10, if_neg (by simp), if_pos h10]
    exact ⟨_, rfl, ⟨_, true, rfl⟩, rfl⟩
  rw [if_neg h10, if_neg h10]
  by_cases h13 : byteAt s.buffer s.yyCursor = 13
  · rw [if_pos h13, if_neg (by simp), if_pos h13]
    have h : ¬ byteAt (setAtStartOfLine true (setYYCursor (s.yyCursor + 1) s)).buffer
        (setAtStartOfLine true (setYYCursor (s.yyCursor + 1) s)).yyCursor = 10 :=
      fun h => hpair ⟨h13, h⟩
    rw [if_neg h]
    exact ⟨_, rfl, ⟨_, true, rfl⟩, rfl⟩
  rw [if_neg h13, if_neg h13]
  by_cases h32 : byteAt s.buffer s.yyCursor = 32
  · rw [if_pos h32, if_pos h32]
    exact ⟨_, rfl, TriviaFrame.cursor _ _, rfl⟩
  rw [if_neg h32, if_neg h32]
  by_cases h9 : byteAt s.buffer s.yyCursor = 9
  · rw [if_pos h9, if_pos h9]
    exact ⟨_, rfl, TriviaFrame.cursor _ _, rfl⟩
  rw [if_neg h9, if_neg h9]
  by_cases h11 : byteAt s.buffer s.yyCursor = 11
  · rw [if_pos h11, if_pos h11]
    exact ⟨_, rfl, TriviaFrame.cursor _ _, rfl⟩
  rw [if_neg h11, if_neg h11, if_pos (by omega)]
  exact ⟨_, rfl, TriviaFrame.cursor _ _, rfl⟩

theorem lexTriviaRound_stop (E : Externs) (trailing : Bool) (s : Lexer)
    (trivia : List ParsedTriviaPiece)
    (hstop : isTokenStartByte (byteAt s.buffer s.yyCursor) = true ∨
      (byteAt s.buffer s.yyCursor = 47 ∧
        (trailing = true ∨ s.commentRetention = CommentRetentionMode.ReturnAsTokens))) :
    lexTriviaRound E trailing s trivia = some ((s, trivia), false) := by
  have hne : ∀ c, isTokenStartByte c = false → byteAt s.buffer s.yyCursor = c →
      (byteAt s.buffer s.yyCursor = 47 ∧
        (trailing = true ∨ s.commentRetention = CommentRetentionMode.ReturnAsTokens)) := by
    intro c hc he
    rcases hstop with h | h
    · rw [he, hc] at h
      cases h
    · exact h
  unfold lexTriviaRound
  dsimp only
  by_cases h10 : byteAt s.buffer s.yyCursor = 10
  · have := (hne 10 (by decide) h10).1
    omega
  rw [if_neg h10]
  by_cases h13 : byteAt s.buffer s.yyCursor = 13
  · have := (hne 13 (by decide) h13).1
    omega
  rw [if_neg h13]
  by_cases h32 : byteAt s.buffer s.yyCursor = 32
  · have := (hne 32 (by decide) h32).1
    omega
  rw [if_neg h32]
  by_cases h9 : byteAt s.buffer s.yyCursor = 9
  · have := (hne 9 (by decide) h9).1
    omega
  rw [if_neg h9]
  by_cases h11 : byteAt s.buffer s.yyCursor = 11
  · have := (hne 11 (by decide) h11).1
    omega
  rw [if_neg h11]
  by_cases h12 : byteAt s.buffer s.yyCursor = 12
  · have := (hne 12 (by decide) h12).1
    omega
  rw [if_neg h12]
  by_cases h47 : byteAt s.buffer s.yyCursor = 47
  · rw [if_pos h47]
    have hc : (trailing || decide ((setYYCursor (s.yyCursor + 1) s).commentRetention =
        CommentRetentionMode.ReturnAsTokens)) = true := by
      rcases (hne 47 (by decide) h47).2 with h | h
      · rw [h]
        rfl
      · have h2 : (setYYCursor (s.yyCursor + 1) s).commentRetention =
            CommentRetentionMode.ReturnAsTokens := h
        simp [h2]
    rw [if_pos hc]
    rfl
  rw [if_neg h47]
  by_cases h35 : byteAt s.buffer s.yyCursor = 35
  · have := (hne 35 (by decide) h35).1
    omega
  rw [if_neg h35]
  by_cases h0 : byteAt s.buffer s.yyCursor = 0
  · have := (hne 0 (by decide) h0).1
    omega
  rw [if_neg h0]
  have hts : isTokenStartByte (byteAt s.buffer s.yyCursor) = true := by
    rcases hstop with h | h
    · exact h
    · exact absurd h.1 h47
  rw [if_pos hts]
  rfl

theorem lexTriviaLoop_whitespace (E : Externs) :
    ∀ (n : Nat) (ws : List Nat) (fuel : Nat) (s : Lexer) (trivia : List ParsedTriviaPiece)
      (c : Nat) (rest : List Nat),
      ws.length ≤ n →
      s.buffer.drop s.yyCursor = ws ++ c :: rest →
      (∀ b ∈ ws, b = 32 ∨ b = 9 ∨ b = 11 ∨ b = 12 ∨ b = 10 ∨ b = 13) →
      (isTokenStartByte c = true ∨
        (c = 47 ∧ s.commentRetention = CommentRetentionMode.ReturnAsTokens)) →
      ws.length + 1 ≤ fuel →
      ∃ t, lexTriviaLoop E false fuel s trivia =
          some (t, (whitespaceUnits ws).foldl (fun acc u => appendOrSquash acc u.1 u.2) trivia) ∧
        TriviaFrame s t ∧ t.yyCursor = s.yyCursor + ws.length := by
  intro n
  induction n with
  | zero =>
    intro ws fuel s trivia c rest hn hd _ hc hf
    have hnil : ws = [] := List.length_eq_zero.mp (by omega)
    subst hnil
    cases fuel with
    | zero => omega
    | succ fuel =>
      have hb : byteAt s.buffer s.yyCursor = c := by
        have := byteAt_of_drop s.buffer s.yyCursor _ hd 0
        simpa using this
      unfold lexTriviaLoop
      rw [lexTriviaRound_stop E false s trivia (by
        rw [hb]
        rcases hc with h | h
        · exact Or.inl h
        · exact Or.inr ⟨h.1, Or.inr h.2⟩)]
      exact ⟨s, rfl, TriviaFrame.refl s, rfl⟩
  | succ n ih =>
    intro ws fuel s trivia c rest hn hd hws hc hf
    cases fuel with
    | zero => omega
    | succ fuel =>
      have hb0 : byteAt s.buffer s.yyCursor = (ws ++ c :: rest).getD 0 0 :=
        by have := byteAt_of_drop s.buffer s.yyCursor _ hd 0; simpa using this
      have hb1 : byteAt s.buffer (s.yyCursor + 1) = (ws ++ c :: rest).getD 1 0 :=
        byteAt_of_drop s.buffer s.yyCursor _ hd 1
      have hcne : c ≠ 10 := by
        rintro rfl
        rcases hc with h | h
        · exact absurd h (by decide)
        · exact absurd h.1 (by decide)
      cases ws with
      | nil =>
        unfold lexTriviaLoop
        rw [lexTriviaRound_stop E false s trivia (by
          rw [hb0]
          rcases hc with h | h
          · exact Or.inl h
          · exact Or.inr ⟨h.1, Or.inr h.2⟩)]
        exact ⟨s, rfl, TriviaFrame.refl s, rfl⟩
      | cons b ws =>
        have hbw := hws b (List.mem_cons_self _ _)
        have hb : byteAt s.buffer s.yyCursor = b := by simpa using hb0
        by_cases hpair : b = 13 ∧ ∃ ws2, ws = 10 :: ws2
        · obtain ⟨h13, ws2, rfl⟩ := hpair
          subst h13
          obtain ⟨s1, hr, hf1, hc1⟩ := lexTriviaRound_crlf E s trivia hb (by simpa using hb1)
          have hd1 : s1.buffer.drop s1.yyCursor = ws2 ++ c :: rest := by
            rw [hf1.buffer, hc1]
            have := drop_add_of_drop s.buffer s.yyCursor 2 _ hd
            simpa using this
          have hcr : s1.commentRetention = s.commentRetention := by
            obtain ⟨x, y, rfl⟩ := hf1
            rfl
          obtain ⟨t, ht, hft, hct⟩ := ih ws2 fuel s1 (appendOrSquash trivia
            TriviaKind.CarriageReturnLineFeed 2) c rest
            (by simp only [List.length_cons] at hn; omega) hd1
            (fun x hx => hws x (List.mem_cons_of_mem _ (List.mem_cons_of_mem _ hx)))
            (by rw [hcr]; exact hc) (by simp only [List.length_cons] at hf; omega)
          unfold lexTriviaLoop
          rw [hr]
          dsimp only
          rw [ht]
          refine ⟨t, ?_, hf1.trans hft, ?_⟩
          · simp [whitespaceUnits]
          · rw [hct, hc1]
            simp only [List.length_cons]
            omega
        · have hnp : ¬ (byteAt s.buffer s.yyCursor = 13 ∧ byteAt s.buffer (s.yyCursor + 1) = 10) := by
            rintro ⟨h13, h10⟩
            rw [hb1] at h10
            cases ws with
            | nil => exact hcne (by simpa using h10)
            | cons d ws2 =>
              have hd10 : d = 10 := by simpa using h10
              exact hpair ⟨by rw [← hb]; exact h13, ws2, by rw [hd10]⟩
          obtain ⟨s1, hr, hf1, hc1⟩ := lexTriviaRound_unit E s trivia (by rw [hb]; exact hbw) hnp
          have hd1 : s1.buffer.drop s1.yyCursor = ws ++ c :: rest := by
            rw [hf1.buffer, hc1]
            have := drop_add_of_drop s.buffer s.yyCursor 1 _ hd
            simpa using this
          have hcr : s1.commentRetention = s.commentRetention := by
            obtain ⟨x, y, rfl⟩ := hf1
            rfl
          obtain ⟨t, ht, hft, hct⟩ := ih ws fuel s1 (appendOrSquash trivia
            (whitespaceKind (byteAt s.buffer s.yyCursor)) 1) c rest
            (by simp only [List.length_cons] at hn; omega) hd1
            (fun x hx => hws x (List.mem_cons_of_mem _ hx))
            (by rw [hcr]; exact hc) (by simp only [List.length_cons] at hf; omega)
          unfold lexTriviaLoop
          rw [hr]
          dsimp only
          rw [ht]
          refine ⟨t, ?_, hf1.trans hft, ?_⟩
          · have hu : whitespaceUnits (b :: ws) = (whitespaceKind b, 1) :: whitespaceUnits ws := by
              cases ws with
              | nil => rfl
              | cons d ws2 =>
                simp only [whitespaceUnits]
                rw [if_neg]
                rintro ⟨h13, h10⟩
                exact hpair ⟨h13, ws2, by rw [h10]⟩
            rw [hu, hb]
            rfl
          · rw [hct, hc1]
            simp only [List.length_cons]
            omega

theorem getD_append_length (ws : List Nat) (c : Nat) (rest : List Nat) :
    (ws ++ c :: rest).getD ws.length 0 = c := by
  induction ws with
  | nil => rfl
  | cons a ws ih => simpa using ih

/-- C29: when the bytes at the cursor are a run of whitespace bytes followed by
a token-start byte, `lexTrivia` for leading trivia returns, stops on the
token-start byte, and has appended to the trivia list (whose last piece, if it
has one, is of no whitespace kind) exactly the run-length encoding of the units
of the run, a `\r\n` pair being one `CarriageReturnLineFeed` unit of 2 bytes: no
two adjacent pieces have the same kind and the lengths sum to the number of
bytes of the run. -/
theorem lexTrivia_run_length_encoding (E : Externs) (s : Lexer)
    (trivia : List ParsedTriviaPiece) (ws : List Nat) (c : Nat) (rest : List Nat)
    (hlen : s.bufferEnd = s.buffer.length)
    (hd : s.buffer.drop s.yyCursor = ws ++ c :: rest)
    (hws : ∀ b ∈ ws, b = 32 ∨ b = 9 ∨ b = 11 ∨ b = 12 ∨ b = 10 ∨ b = 13)
    (hc : isTokenStartByte c = true)
    (hlast : ∀ p, trivia.getLast? = some p → isWhitespaceTriviaKind p.kind = false) :
    ∃ t, lexTrivia E trivia false s =
        some (t, trivia ++ runLengthEncoding (whitespaceUnits ws)) ∧
      TriviaFrame s t ∧ t.yyCursor = s.yyCursor + ws.length ∧
      byteAt t.buffer t.yyCursor = c ∧
      List.Chain' (fun p q => p.kind ≠ q.kind) (runLengthEncoding (whitespaceUnits ws)) ∧
      ((runLengthEncoding (whitespaceUnits ws)).map fun p => p.length).sum = ws.length := by
  have hl := congrArg List.length hd
  simp only [List.length_drop, List.length_append, List.length_cons] at hl
  obtain ⟨t, ht, hf, hcur⟩ := lexTriviaLoop_whitespace E ws.length ws
    (s.bufferEnd + 1 - s.yyCursor) s trivia c rest (le_refl _) hd hws (Or.inl hc) (by omega)
  obtain ⟨hk, hsum⟩ := whitespaceUnits_facts ws.length ws (le_refl _)
  rw [foldl_appendOrSquash_units trivia _ hlast hk] at ht
  refine ⟨t, ht, hf, hcur, ?_, runLengthEncoding_chain _, ?_⟩
  · rw [hf.buffer, hcur, byteAt_of_drop s.buffer s.yyCursor _ hd ws.length]
    exact getD_append_length ws c rest
  · rw [runLengthEncoding_sum, hsum]

/-- Two spaces, a tab, two `\r\n` pairs and `x`: the leading trivia is a `Space`
piece of length 2, a `Tab` piece of length 1 and a `CarriageReturnLineFeed`
piece of length 4, and the cursor stops on `x` at offset 7. -/
theorem lexTrivia_run_length_encoding_witness :
    ∃ t, lexTrivia plainExterns [] false
        (scanState [32, 32, 9, 13, 10, 13, 10, 120] 0 0 TokenKindType.T_UNKNOWN_MARK false
          TriviaRetentionMode.WithTrivia) =
        some (t, [{ kind := TriviaKind.Space, length := 2 }, { kind := TriviaKind.Tab, length := 1 },
          { kind := TriviaKind.CarriageReturnLineFeed, length := 4 }]) ∧
      t.yyCursor = 7 := by
  obtain ⟨t, ht, _, hc, _⟩ := lexTrivia_run_length_encoding plainExterns
    (scanState [32, 32, 9, 13, 10, 13, 10, 120] 0 0 TokenKindType.T_UNKNOWN_MARK false
      TriviaRetentionMode.WithTrivia) [] [32, 32, 9, 13, 10, 13, 10] 120 [] rfl rfl
    (by decide) (by decide) (by simp)
  exact ⟨t, ht, hc⟩

/-! ### Comments are attached or returned -/

theorem lexTrivia_stop (E : Externs) (trailing : Bool) (s : Lexer)
    (trivia : List ParsedTriviaPiece) (hcur : s.yyCursor ≤ s.bufferEnd)
    (hstop : isTokenStartByte (byteAt s.buffer s.yyCursor) = true ∨
      (byteAt s.buffer s.yyCursor = 47 ∧
        (trailing = true ∨ s.commentRetention = CommentRetentionMode.ReturnAsTokens))) :
    lexTrivia E trivia trailing s = some (s, trivia) := by
  have hfuel : s.bufferEnd + 1 - s.yyCursor = (s.bufferEnd - s.yyCursor) + 1 := by omega
  unfold lexTrivia
  rw [hfuel]
  unfold lexTriviaLoop
  rw [lexTriviaRound_stop E trailing s trivia hstop]

theorem formToken_commentLength (E : Externs) (kind : TokenKindType) (tokenStart : Nat)
    (s t : Lexer) (h : formToken E kind tokenStart s = some t) :
    t.nextToken.commentLength =
      (if s.commentRetention = CommentRetentionMode.AttachToNextToken then
        commentLengthOf s.leadingTrivia else 0) ∧
      t.trailingTrivia.filter (fun p => is_comment_trivia_kind p.kind) =
        s.trailingTrivia.filter (fun p => is_comment_trivia_kind p.kind) := by
  unfold formToken at h
  dsimp only at h
  split at h
  · simp only [Option.map_eq_some'] at h
    obtain ⟨⟨x, y⟩, hx, ht⟩ := h
    obtain ⟨_, hg⟩ := lexTriviaLoop_growth E true _ s s.trailingTrivia x y hx
    rw [← ht]
    exact ⟨rfl, triviaGrowth_comments hg⟩
  · injection h with h
    rw [← h]
    exact ⟨rfl, rfl⟩

/-- C22: in a lexer that returns comments as tokens, `lexTrivia`, for leading
and for trailing trivia, returns with the comment pieces of the trivia list
exactly as they were, returns at once with the lexer and the list unchanged
when the cursor is on a `/`, stops on the `/` that follows a run of whitespace
bytes, and `formToken` records a comment length of 0 and leaves the comment
pieces of the trailing trivia as they were.  In every lexer, a token that
`formToken` forms with a comment length other than 0 is formed with comment
retention `AttachToNextToken`. -/
theorem comments_attached_or_returned (E : Externs) (hE : E.Progress) (s : Lexer)
    (trivia : List ParsedTriviaPiece) (trailing : Bool) (kind : TokenKindType)
    (tokenStart : Nat) (hlen : s.bufferEnd = s.buffer.length)
    (hcur : s.yyCursor ≤ s.bufferEnd) :
    (s.commentRetention = CommentRetentionMode.ReturnAsTokens →
      (∃ t tr, lexTrivia E trivia trailing s = some (t, tr) ∧
        tr.filter (fun p => is_comment_trivia_kind p.kind) =
          trivia.filter (fun p => is_comment_trivia_kind p.kind)) ∧
      (byteAt s.buffer s.yyCursor = 47 → lexTrivia E trivia trailing s = some (s, trivia)) ∧
      (∀ ws rest, s.buffer.drop s.yyCursor = ws ++ 47 :: rest →
        (∀ b ∈ ws, b = 32 ∨ b = 9 ∨ b = 11 ∨ b = 12 ∨ b = 10 ∨ b = 13) →
        ∃ t tr, lexTrivia E trivia false s = some (t, tr) ∧
          t.yyCursor = s.yyCursor + ws.length ∧ byteAt t.buffer t.yyCursor = 47 ∧
          tr.filter (fun p => is_comment_trivia_kind p.kind) =
            trivia.filter (fun p => is_comment_trivia_kind p.kind)) ∧
      ∃ t, formToken E kind tokenStart s = some t ∧ t.nextToken.commentLength = 0 ∧
        t.trailingTrivia.filter (fun p => is_comment_trivia_kind p.kind) =
          s.trailingTrivia.filter (fun p => is_comment_trivia_kind p.kind)) ∧
    (∀ t, formToken E kind tokenStart s = some t → t.nextToken.commentLength ≠ 0 →
      s.commentRetention = CommentRetentionMode.AttachToNextToken) := by
  refine ⟨fun hret => ?_, fun t ht hne => ?_⟩
  · have hatt : ∀ b, attachesComments b s = false := by
      intro b
      simp [attachesComments, hret]
    refine ⟨?_, ?_, ?_, ?_⟩
    · obtain ⟨t, tr, ht, _⟩ := lexTrivia_spec E hE trailing s trivia hlen hcur
      obtain ⟨_, hg⟩ := lexTriviaLoop_growth E trailing _ s trivia t tr ht
      rw [hatt] at hg
      exact ⟨t, tr, ht, triviaGrowth_comments hg⟩
    · intro h47
      exact lexTrivia_stop E trailing s trivia hcur (Or.inr ⟨h47, Or.inr hret⟩)
    · intro ws rest hd hws
      have hl := congrArg List.length hd
      simp only [List.length_drop, List.length_append, List.length_cons] at hl
      obtain ⟨t, ht, hf, hc⟩ := lexTriviaLoop_whitespace E ws.length ws
        (s.bufferEnd + 1 - s.yyCursor) s trivia 47 rest (le_refl _) hd hws
        (Or.inr ⟨rfl, hret⟩) (by omega)
      obtain ⟨_, hg⟩ := lexTriviaLoop_growth E false _ s trivia t _ ht
      rw [hatt] at hg
      refine ⟨t, _, ht, hc, ?_, triviaGrowth_comments hg⟩
      rw [hf.buffer, hc, byteAt_of_drop s.buffer s.yyCursor _ hd ws.length]
      exact getD_append_length ws 47 rest
    · obtain ⟨c, a, tr, hf, _⟩ := formToken_spec E hE kind tokenStart s hlen hcur
      obtain ⟨h1, h2⟩ := formToken_commentLength E kind tokenStart s _ hf
      refine ⟨_, hf, ?_, h2⟩
      rw [h1, hret]
      rfl
  · obtain ⟨h1, _⟩ := formToken_commentLength E kind tokenStart s t ht
    by_contra hna
    rw [h1, if_neg hna] at hne
    exact hne rfl

/-- A lexer that returns comments as tokens, on two spaces and `// x`: the
leading-trivia scan from offset 0 takes the two spaces, appends no comment
piece and stops on the `/` at offset 2. -/
theorem comments_attached_or_returned_witness :
    ∃ t tr, lexTrivia plainExterns [] false
        (lexerInitialize [32, 32, 47, 47, 32, 120] Option.none
          CommentRetentionMode.ReturnAsTokens TriviaRetentionMode.WithTrivia 0 6) = some (t, tr) ∧
      t.yyCursor = 2 ∧ byteAt t.buffer t.yyCursor = 47 ∧
      tr.filter (fun p => is_comment_trivia_kind p.kind) = [] := by
  obtain ⟨h, _⟩ := comments_attached_or_returned plainExterns plainExterns_progress
    (lexerInitialize [32, 32, 47, 47, 32, 120] Option.none
      CommentRetentionMode.ReturnAsTokens TriviaRetentionMode.WithTrivia 0 6) [] false
    TokenKindType.END 0 rfl (by decide)
  obtain ⟨_, _, h3, _⟩ := h rfl
  exact h3 [32, 32] [47, 32, 120] rfl (by decide)

/-! ### The byte order mark -/

theorem byteAt_length (buf : List Nat) : byteAt buf buf.length = 0 := by
  unfold byteAt
  exact List.getD_eq_default _ _ (le_refl _)

theorem lexTriviaRound_at_end (E : Externs) (trailing : Bool) (s : Lexer)
    (trivia : List ParsedTriviaPiece) (hlen : s.bufferEnd = s.buffer.length)
    (hcur : s.yyCursor = s.bufferEnd) :
    lexTriviaRound E trailing s trivia = some ((s, trivia), false) := by
  have h0 : byteAt s.buffer s.yyCursor = 0 := by
    rw [hcur, hlen]
    exact byteAt_length _
  unfold lexTriviaRound
  dsimp only
  have hne : ∀ c, c ≠ 0 → ¬ byteAt s.buffer s.yyCursor = c := fun c hc h => hc (h.symm.trans h0)
  rw [if_neg (hne 10 (by decide)), if_neg (hne 13 (by decide)), if_neg (hne 32 (by decide)),
    if_neg (hne 9 (by decide)), if_neg (hne 11 (by decide)), if_neg (hne 12 (by decide)),
    if_neg (hne 47 (by decide)), if_neg (hne 35 (by decide)), if_pos h0]
  split
  · rename_i h
    unfold getNullCharacterKind at h
    split at h
    · cases h
    · rw [if_pos (by simpa using hcur)] at h
      cases h
  · rfl
  · rfl

theorem lexTrivia_at_end (E : Externs) (trailing : Bool) (s : Lexer)
    (trivia : List ParsedTriviaPiece) (hlen : s.bufferEnd = s.buffer.length)
    (hcur : s.yyCursor = s.bufferEnd) :
    lexTrivia E trivia trailing s = some (s, trivia) := by
  have hfuel : s.bufferEnd + 1 - s.yyCursor = 0 + 1 := by omega
  unfold lexTrivia
  rw [hfuel]
  unfold lexTriviaLoop
  rw [lexTriviaRound_at_end E trailing s trivia hlen hcur]

theorem lexImplText_frame (u : Lexer) :
    (lexImplText u).yyCursor = u.yyCursor ∧ (lexImplText u).yyText = u.yyCursor ∧
      (lexImplText u).buffer = u.buffer ∧ (lexImplText u).bufferStart = u.bufferStart ∧
      (lexImplText u).bufferEnd = u.bufferEnd ∧ (lexImplText u).contentStart = u.contentStart ∧
      (lexImplText u).artificialEof = u.artificialEof := by
  unfold lexImplText
  dsimp only
  split <;> exact ⟨rfl, rfl, rfl, rfl, rfl, rfl, rfl⟩

theorem lexImplStart_frame (s : Lexer) :
    (lexImplStart s).bufferStart = s.bufferStart ∧
      (lexImplStart s).contentStart = s.contentStart ∧
      (lexImplStart s).artificialEof = s.artificialEof ∧
      (lexImplStart s).flags = s.flags ∧
      (lexImplStart s).leadingTrivia =
        (if s.yyCursor = s.bufferStart ∧ s.bufferStart < s.contentStart then
          [{ kind := TriviaKind.GarbageText, length := s.contentStart - s.bufferStart }]
        else []) := by
  unfold lexImplStart
  dsimp only
  by_cases hstart : s.yyCursor = s.bufferStart
  · by_cases hbom : s.bufferStart < s.contentStart
    · rw [if_pos hstart, if_pos hbom, if_pos ⟨hstart, hbom⟩]
      exact ⟨rfl, rfl, rfl, rfl, rfl⟩
    · rw [if_pos hstart, if_neg hbom, if_neg (fun h => hbom h.2)]
      exact ⟨rfl, rfl, rfl, rfl, rfl⟩
  · rw [if_neg hstart, if_neg (fun h => hstart h.1)]
    exact ⟨rfl, rfl, rfl, rfl, rfl⟩

theorem lexImplLeading_spec (E : Externs) (hE : E.Progress) (s : Lexer)
    (hlen : s.bufferEnd = s.buffer.length) (hcur : s.yyCursor ≤ s.bufferEnd) :
    ∃ u, lexImplLeading E s = some u ∧
      u.buffer = s.buffer ∧ u.bufferStart = s.bufferStart ∧ u.bufferEnd = s.bufferEnd ∧
      u.contentStart = s.contentStart ∧ u.artificialEof = s.artificialEof ∧
      s.yyCursor ≤ u.yyCursor ∧ u.yyCursor ≤ s.bufferEnd ∧
      (s.nextToken.atStartOfLine = true → u.nextToken.atStartOfLine = true) ∧
      (∀ p, s.leadingTrivia.head? = some p → p.kind = TriviaKind.GarbageText →
        u.leadingTrivia.head? = some p) ∧
      (s.yyCursor = s.bufferEnd →
        u.yyCursor = s.yyCursor ∧ u.leadingTrivia = s.leadingTrivia ∧
        u.nextToken = s.nextToken) := by
  unfold lexImplLeading
  by_cases hres : (!s.flags.reserveHeredocSpaces) = true
  · rw [if_pos hres]
    obtain ⟨t, tr, ht, hf, h1, h2⟩ := lexTrivia_spec E hE false s s.leadingTrivia hlen hcur
    obtain ⟨_, hg⟩ := lexTriviaLoop_growth E false _ s s.leadingTrivia t tr ht
    obtain ⟨a, _⟩ := lexTriviaLoop_leading E _ s s.leadingTrivia t tr ht
    rw [ht]
    refine ⟨_, rfl, hf.buffer, ?_, hf.bufferEnd, ?_, ?_, h1, h2, a,
      fun p hp hk => triviaGrowth_head hg p hp hk, ?_⟩
    · obtain ⟨c, b, rfl⟩ := hf
      rfl
    · obtain ⟨c, b, rfl⟩ := hf
      rfl
    · obtain ⟨c, b, rfl⟩ := hf
      rfl
    · intro hend
      have he := lexTrivia_at_end E false s s.leadingTrivia hlen hend
      rw [he] at ht
      injection ht with ht
      injection ht with ht1 ht2
      subst ht1 ht2
      exact ⟨rfl, rfl, rfl⟩
  · rw [if_neg hres]
    exact ⟨_, rfl, rfl, rfl, rfl, rfl, rfl, le_refl _, hcur, fun h => h, fun p hp _ => hp,
      fun _ => ⟨rfl, rfl, rfl⟩⟩

theorem lexerInitialize_start (buf : List Nat) (codeCompletionPtr : Option Nat)
    (commentRetention : CommentRetentionMode) (triviaRetention : TriviaRetentionMode)
    (endOffset : Nat) (hbom : slice buf 0 3 = [0xEF, 0xBB, 0xBF]) :
    (lexImplStart (lexerInitialize buf codeCompletionPtr commentRetention triviaRetention 0
        endOffset)).leadingTrivia = [bomPiece] ∧
      (lexImplStart (lexerInitialize buf codeCompletionPtr commentRetention triviaRetention 0
        endOffset)).yyCursor = 3 ∧
      (lexImplStart (lexerInitialize buf codeCompletionPtr commentRetention triviaRetention 0
        endOffset)).nextToken.atStartOfLine = true ∧
      (lexImplStart (lexerInitialize buf codeCompletionPtr commentRetention triviaRetention 0
        endOffset)).buffer = buf ∧
      (lexImplStart (lexerInitialize buf codeCompletionPtr commentRetention triviaRetention 0
        endOffset)).bufferEnd = buf.length ∧
      (lexImplStart (lexerInitialize buf codeCompletionPtr commentRetention triviaRetention 0
        endOffset)).artificialEof = endOffset ∧
      3 ≤ buf.length := by
  have h3 : 3 ≤ buf.length := by
    have := congrArg List.length hbom
    simp only [slice, List.drop_zero, List.length_take, List.length_cons, List.length_nil] at this
    omega
  have hi : lexerInitialize buf codeCompletionPtr commentRetention triviaRetention 0 endOffset =
      { buffer := buf, bufferStart := 0, bufferEnd := buf.length, contentStart := 0 + 3,
        codeCompletionPtr := codeCompletionPtr, artificialEof := 0 + endOffset, yyCursor := 0 + 0,
        commentRetention := commentRetention, triviaRetention := triviaRetention } := by
    unfold lexerInitialize
    dsimp only
    rw [if_pos hbom]
  rw [hi]
  refine ⟨rfl, rfl, rfl, rfl, rfl, ?_, h3⟩
  show 0 + endOffset = endOffset
  omega

/-- C21, what the code does: for a buffer that starts with the byte order mark
`EF BB BF`, the first `lexImpl` from offset 0 calls the scanner in a state
whose leading trivia starts with a `GarbageText` piece of length 3, whose
cursor and token start lie past the mark, and whose token is marked
at-start-of-line; a token `formToken` forms from a state that still has that
flag and that leading trivia has both.  If the buffer holds nothing but the
mark, the leading trivia is exactly that piece, the cursor is at offset 3, and
`formToken` forms there, whatever kind the scanner asks for, the end-of-file
token, with empty text, that leading trivia and the at-start-of-line mark.
(Nested calls of `lex` replace the flag and the leading trivia; the token of a
heredoc header formed after the scan-ahead pass has neither.) -/
theorem lexImpl_byte_order_mark (E : Externs) (hE : E.Progress)
    (yy : Lexer → Option Lexer) (buf : List Nat) (codeCompletionPtr : Option Nat)
    (commentRetention : CommentRetentionMode) (triviaRetention : TriviaRetentionMode)
    (endOffset : Nat) (hbom : slice buf 0 3 = [0xEF, 0xBB, 0xBF])
    (hend : endOffset ≤ buf.length) :
    ∃ u, lexImpl E yy (lexerInitialize buf codeCompletionPtr commentRetention triviaRetention 0
          endOffset) = yy u ∧
      u.leadingTrivia.head? = some { kind := TriviaKind.GarbageText, length := 3 } ∧
      3 ≤ u.yyCursor ∧ u.yyText = u.yyCursor ∧ u.nextToken.atStartOfLine = true ∧
      (∀ (kind : TokenKindType) (tokenStart : Nat) (v t : Lexer),
        v.nextToken.atStartOfLine = u.nextToken.atStartOfLine →
        v.leadingTrivia = u.leadingTrivia →
        formToken E kind tokenStart v = some t →
        t.leadingTrivia.head? = some { kind := TriviaKind.GarbageText, length := 3 } ∧
          t.nextToken.atStartOfLine = true) ∧
      (buf.length = 3 →
        u.leadingTrivia = [{ kind := TriviaKind.GarbageText, length := 3 }] ∧ u.yyCursor = 3 ∧
        ∀ kind, ∃ t, formToken E kind u.yyText u = some t ∧
          t.nextToken.kind = TokenKindType.END ∧ t.nextToken.textLength = 0 ∧
          t.leadingTrivia = [{ kind := TriviaKind.GarbageText, length := 3 }] ∧
          t.nextToken.atStartOfLine = true) := by
  obtain ⟨s1, s2, s3, s4, s5, s6, s7⟩ := lexerInitialize_start buf codeCompletionPtr
    commentRetention triviaRetention endOffset hbom
  obtain ⟨v, hv, v1, v2, v3, v4, v5, v6, v7, v8, v9, v10⟩ := lexImplLeading_spec E hE
    (lexImplStart (lexerInitialize buf codeCompletionPtr commentRetention triviaRetention 0
      endOffset)) (by rw [s4, s5]) (by rw [s2, s5]; exact s7)
  obtain ⟨t1, t2, t3, t4, t5, t6, t7⟩ := lexImplText_frame v
  obtain ⟨n1, n2⟩ := lexImplText_facts v
  rw [lexImpl_eq, hv]
  have hpiece : (lexImplText v).leadingTrivia.head? =
      some { kind := TriviaKind.GarbageText, length := 3 } := by
    rw [n2]
    exact v9 bomPiece (by rw [s1]; rfl) rfl
  have hflag : (lexImplText v).nextToken.atStartOfLine = true := by
    rw [n1]
    exact v8 s3
  refine ⟨lexImplText v, rfl, hpiece, ?_, ?_, hflag, ?_, ?_⟩
  · rw [t1]
    rw [s2] at v6
    exact v6
  · rw [t1, t2]
  · intro kind tokenStart w t hw1 hw2 ht
    obtain ⟨f1, f2⟩ := formToken_keeps_flag E kind tokenStart w t ht
    rw [f1, f2, hw1, hw2]
    exact ⟨hpiece, hflag⟩
  · intro h3
    obtain ⟨e1, e2, e3⟩ := v10 (by rw [s2, s5, h3])
    have hc : (lexImplText v).yyCursor = 3 := by rw [t1, e1, s2]
    refine ⟨by rw [n2, e2, s1]; rfl, hc, fun kind => ?_⟩
    obtain ⟨t, ht, k1, k2, k3, _⟩ := formToken_facts E hE kind (lexImplText v).yyText
      (lexImplText v) (by rw [t5, t3, v3, v1, s5, s4]) (by rw [t1, t5, v3]; exact v7)
    obtain ⟨f1, f2⟩ := formToken_keeps_flag E kind _ _ _ ht
    refine ⟨t, ht, ?_, ?_, ?_, ?_⟩
    · rw [k1]
      unfold formedKind
      by_cases hk : kind = TokenKindType.END
      · rw [if_neg (fun h => h.1 hk)]
        exact hk
      · rw [if_pos ⟨hk, by rw [t2, t7, v5, s6, e1, s2]; omega⟩]
    · rw [k3, t2, t1]
      omega
    · rw [f2, n2, e2, s1]
      rfl
    · rw [f1, n1]
      exact v8 s3

/-- C21, the claim as stated fails: the buffer of the byte order mark, the
header `<<<A`, the body line `x` and the closing line `A`, lexed from offset 0.
The first call of `lex` returns the `T_START_HEREDOC` token that starts at
offset 3 with no leading trivia and the at-start-of-line flag clear: the two
nested calls of `lex` of the scan-ahead pass have cleared the leading trivia
and reset the flag, and `restoreYYState` restores neither. -/
theorem lexImpl_byte_order_mark_counterexample :
    (lex plainExterns 2 (lexerInitialize
        [0xEF, 0xBB, 0xBF, 60, 60, 60, 65, 10, 120, 10, 65, 10] Option.none
        CommentRetentionMode.None TriviaRetentionMode.WithTrivia 0 12)).map
      (fun t => (t.nextToken.kind, t.nextToken.textStart, t.leadingTrivia,
        t.nextToken.atStartOfLine)) =
      some (TokenKindType.T_START_HEREDOC, 3, [], false) := by
  decide

/-- The buffer of the byte order mark alone: the first call of `lex` leaves the
leading trivia with the one garbage-text piece of length 3 and forms the
end-of-file token. -/
theorem lexImpl_byte_order_mark_witness :
    (lex plainExterns 1 (lexerInitialize [0xEF, 0xBB, 0xBF] Option.none
        CommentRetentionMode.None TriviaRetentionMode.WithTrivia 0 3)).map
      (fun t => (t.nextToken.kind, t.leadingTrivia, t.yyCursor, t.nextToken.atStartOfLine)) =
      some (TokenKindType.END, [{ kind := TriviaKind.GarbageText, length := 3 }], 3, true) ∧
    ∃ u, lexImpl plainExterns (yy_token_lex plainExterns (lex plainExterns 0))
        (lexerInitialize [0xEF, 0xBB, 0xBF] Option.none
          CommentRetentionMode.None TriviaRetentionMode.WithTrivia 0 3) =
        yy_token_lex plainExterns (lex plainExterns 0) u ∧
      u.leadingTrivia.head? = some { kind := TriviaKind.GarbageText, length := 3 } :=
  ⟨by decide,
    (lexImpl_byte_order_mark plainExterns plainExterns_progress
      (yy_token_lex plainExterns (lex plainExterns 0)) [0xEF, 0xBB, 0xBF] Option.none
      CommentRetentionMode.None TriviaRetentionMode.WithTrivia 3 (by decide) (by decide)).imp
      fun _ h => ⟨h.1, h.2.1⟩⟩

/-! ### The bounds on the pointers -/

theorem pointerBounds_of_frame {s t : Lexer} (h : PointerBounds s) (hbuf : t.buffer = s.buffer)
    (hstart : t.bufferStart = s.bufferStart) (hend : t.bufferEnd = s.bufferEnd)
    (hcontent : t.contentStart = s.contentStart) (hlimit : t.artificialEof = s.artificialEof)
    (hge : s.yyCursor ≤ t.yyCursor) (hle : t.yyCursor ≤ s.bufferEnd) : PointerBounds t where
  atBufferEnd := by rw [hend, hbuf]; exact h.atBufferEnd
  contentGe := by rw [hstart, hcontent]; exact h.contentGe
  contentLe := by rw [hcontent, hend]; exact h.contentLe
  cursorGe := by rw [hstart]; exact le_trans h.cursorGe hge
  cursorLe := by rw [hend]; exact hle
  limitGe := by rw [hstart, hlimit]; exact h.limitGe
  limitLe := by rw [hlimit, hend]; exact h.limitLe

/-- C23 (amended): after `initialize(offset, endOffset)` with `offset <=
endOffset <= buffer length` the content start, the cursor and the artificial
end lie between the buffer start and the buffer end, the cursor is not after
the artificial end, and the cursor is not before the content start when the
buffer has no byte order mark or the offset is at least 3.  The steps of `lex`
that the source holds (`lexImpl` up to the call of the scanner, `lexTrivia` for
leading and for trailing trivia, and `formToken`) return, leave the buffer
start, the content start, the artificial end and the buffer end where they
are, never move the cursor back and keep it inside the buffer; `lexImpl`
entered with the cursor at the buffer start or not before the content start
calls the scanner with the cursor not before the content start.  So the cursor
stays at or before the artificial end when that is the buffer end. -/
theorem pointer_bounds_kept (E : Externs) (hE : E.Progress) :
    (∀ (buf : List Nat) (codeCompletionPtr : Option Nat)
        (commentRetention : CommentRetentionMode) (triviaRetention : TriviaRetentionMode)
        (offset endOffset : Nat), offset ≤ endOffset → endOffset ≤ buf.length →
      PointerBounds (lexerInitialize buf codeCompletionPtr commentRetention triviaRetention
        offset endOffset) ∧
      (lexerInitialize buf codeCompletionPtr commentRetention triviaRetention
          offset endOffset).yyCursor ≤
        (lexerInitialize buf codeCompletionPtr commentRetention triviaRetention
          offset endOffset).artificialEof ∧
      (slice buf 0 3 ≠ [0xEF, 0xBB, 0xBF] ∨ 3 ≤ offset →
        (lexerInitialize buf codeCompletionPtr commentRetention triviaRetention
            offset endOffset).contentStart ≤
          (lexerInitialize buf codeCompletionPtr commentRetention triviaRetention
            offset endOffset).yyCursor)) ∧
    (∀ s : Lexer, PointerBounds s →
      (∃ u, lexImplLeading E (lexImplStart s) = some u ∧
        (∀ yy, lexImpl E yy s = yy (lexImplText u)) ∧
        PointerBounds (lexImplText u) ∧
        (lexImplText u).bufferStart = s.bufferStart ∧
        (lexImplText u).contentStart = s.contentStart ∧
        (lexImplText u).artificialEof = s.artificialEof ∧
        (lexImplText u).bufferEnd = s.bufferEnd ∧
        s.yyCursor ≤ (lexImplText u).yyCursor ∧
        (s.yyCursor = s.bufferStart ∨ s.contentStart ≤ s.yyCursor →
          (lexImplText u).contentStart ≤ (lexImplText u).yyCursor) ∧
        (s.artificialEof = s.bufferEnd →
          (lexImplText u).yyCursor ≤ (lexImplText u).artificialEof)) ∧
      (∀ (trivia : List ParsedTriviaPiece) (trailing : Bool),
        ∃ t tr, lexTrivia E trivia trailing s = some (t, tr) ∧ PointerBounds t ∧
          t.bufferStart = s.bufferStart ∧ t.contentStart = s.contentStart ∧
          t.artificialEof = s.artificialEof ∧ t.bufferEnd = s.bufferEnd ∧
          s.yyCursor ≤ t.yyCursor ∧
          (s.artificialEof = s.bufferEnd → t.yyCursor ≤ t.artificialEof)) ∧
      (∀ (kind : TokenKindType) (tokenStart : Nat),
        ∃ t, formToken E kind tokenStart s = some t ∧ PointerBounds t ∧
          t.bufferStart = s.bufferStart ∧ t.contentStart = s.contentStart ∧
          t.artificialEof = s.artificialEof ∧ t.bufferEnd = s.bufferEnd ∧
          s.yyCursor ≤ t.yyCursor ∧
          (s.artificialEof = s.bufferEnd → t.yyCursor ≤ t.artificialEof))) := by
  refine ⟨?_, ?_⟩
  · intro buf ccp cr tr offset endOffset hoff hend
    unfold lexerInitialize
    dsimp only
    refine ⟨⟨rfl, Nat.zero_le _, ?_, Nat.zero_le _, ?_, Nat.zero_le _, ?_⟩, ?_, ?_⟩
    · show 0 + (if slice buf 0 3 = [0xEF, 0xBB, 0xBF] then 3 else 0) ≤ buf.length
      split
      · rename_i hbom
        have := congrArg List.length hbom
        simp only [slice, List.drop_zero, List.length_take, List.length_cons,
          List.length_nil] at this
        omega
      · omega
    · show 0 + offset ≤ buf.length
      omega
    · show 0 + endOffset ≤ buf.length
      omega
    · show 0 + offset ≤ 0 + endOffset
      omega
    · intro h
      show 0 + (if slice buf 0 3 = [0xEF, 0xBB, 0xBF] then 3 else 0) ≤ 0 + offset
      rcases h with h | h
      · rw [if_neg h]
        omega
      · split <;> omega
  · intro s hs
    refine ⟨?_, ?_, ?_⟩
    · obtain ⟨hbuf, hend, _, _, _, hpc⟩ := lexImplStart_facts s
      obtain ⟨p1, p2, p3, _, _⟩ := lexImplStart_frame s
      have hsc : s.yyCursor ≤ (lexImplStart s).yyCursor := by
        rw [hpc]
        split <;> omega
      have hce : (lexImplStart s).yyCursor ≤ s.bufferEnd := by
        rw [hpc]
        have := hs.contentLe
        have := hs.cursorLe
        split
        · rename_i h
          omega
        · omega
      obtain ⟨u, hu, v1, v2, v3, v4, v5, v6, v7, _⟩ := lexImplLeading_spec E hE (lexImplStart s)
        (by rw [hbuf, hend]; exact hs.atBufferEnd) (by rw [hend]; exact hce)
      obtain ⟨t1, t2, t3, t4, t5, t6, t7⟩ := lexImplText_frame u
      have hb : PointerBounds (lexImplText u) :=
        pointerBounds_of_frame hs (by rw [t3, v1, hbuf]) (by rw [t4, v2, p1])
          (by rw [t5, v3, hend]) (by rw [t6, v4, p2]) (by rw [t7, v5, p3])
          (by rw [t1]; exact le_trans hsc v6) (by rw [t1]; rw [hend] at v7; exact v7)
      refine ⟨u, hu, fun yy => by rw [lexImpl_eq, hu]; rfl, hb, by rw [t4, v2, p1],
        by rw [t6, v4, p2], by rw [t7, v5, p3], by rw [t5, v3, hend],
        by rw [t1]; exact le_trans hsc v6, ?_, ?_⟩
      · intro h
        rw [t6, v4, p2, t1]
        refine le_trans ?_ v6
        rw [hpc]
        have := hs.contentGe
        rcases h with h | h
        · split
          · omega
          · rename_i hn
            have : ¬ s.bufferStart < s.contentStart := fun hlt => hn ⟨h, hlt⟩
            omega
        · split <;> omega
      · intro h
        have := hb.cursorLe
        rw [t7, v5, p3, h]
        rw [t5, v3, hend] at this
        exact this
    · intro trivia trailing
      obtain ⟨t, tr, ht, hf, h1, h2⟩ :=
        lexTrivia_spec E hE trailing s trivia hs.atBufferEnd hs.cursorLe
      have e1 : t.bufferStart = s.bufferStart := by obtain ⟨c, b, rfl⟩ := hf; rfl
      have e2 : t.contentStart = s.contentStart := by obtain ⟨c, b, rfl⟩ := hf; rfl
      have e3 : t.artificialEof = s.artificialEof := by obtain ⟨c, b, rfl⟩ := hf; rfl
      refine ⟨t, tr, ht, pointerBounds_of_frame hs hf.buffer e1 hf.bufferEnd e2 e3 h1 h2,
        e1, e2, e3, hf.bufferEnd, h1, fun h => by rw [e3, h]; exact h2⟩
    · intro kind tokenStart
      obtain ⟨c, a, tr, hf, h1, h2, _⟩ :=
        formToken_spec E hE kind tokenStart s hs.atBufferEnd hs.cursorLe
      refine ⟨_, hf, pointerBounds_of_frame hs rfl rfl rfl rfl rfl h1 h2, rfl, rfl, rfl, rfl,
        h1, fun h => ?_⟩
      show c ≤ s.artificialEof
      rw [h]
      exact h2

/-- A lexer restricted to the first byte of two spaces and `x`: the first
`lexImpl` calls the scanner with the bounds kept and the cursor not moved
back. -/
theorem pointer_bounds_kept_witness :
    ∃ u, (∀ yy, lexImpl plainExterns yy (lexerInitialize [32, 32, 120] Option.none
        CommentRetentionMode.None TriviaRetentionMode.WithoutTrivia 0 1) = yy u) ∧
      PointerBounds u ∧ 0 ≤ u.yyCursor := by
  obtain ⟨h1, h2⟩ := pointer_bounds_kept plainExterns plainExterns_progress
  obtain ⟨u, _, hu, hb, _, _, _, _, hc, _⟩ :=
    (h2 _ (h1 [32, 32, 120] Option.none CommentRetentionMode.None
      TriviaRetentionMode.WithoutTrivia 0 1 (by decide) (by decide)).1).1
  exact ⟨_, hu, hb, hc⟩

/-- C23, the claim as stated fails: after `initialize(0, 4)` on a buffer that
starts with the byte order mark the cursor, at offset 0, is before the content
start, at offset 3; and a lexer restricted to the first byte of two spaces and
`x` has, after the leading-trivia scan of its first `lexImpl`, the cursor at
offset 2, after the artificial end at offset 1. -/
theorem pointer_bounds_kept_counterexample :
    ((lexerInitialize [0xEF, 0xBB, 0xBF, 120] Option.none CommentRetentionMode.None
        TriviaRetentionMode.WithoutTrivia 0 4).yyCursor,
      (lexerInitialize [0xEF, 0xBB, 0xBF, 120] Option.none CommentRetentionMode.None
        TriviaRetentionMode.WithoutTrivia 0 4).contentStart) = (0, 3) ∧
    (lexImplLeading plainExterns (lexImplStart (lexerInitialize [32, 32, 120] Option.none
        CommentRetentionMode.None TriviaRetentionMode.WithoutTrivia 0 1))).map
      (fun u => (u.yyCursor, u.artificialEof)) = some (2, 1) := by
  decide

/-! ### Restoring a lexer state -/

theorem lexImplLeading_keeps (E : Externs) (s u : Lexer) (h : lexImplLeading E s = some u) :
    u.yyConditionStack = s.yyConditionStack ∧ u.heredocLabelStack = s.heredocLabelStack ∧
      u.labelHeap = s.labelHeap ∧ u.yyCondition = s.yyCondition ∧
      u.yyStateStack = s.yyStateStack ∧ u.lineNumber = s.lineNumber ∧
      u.flags = { s.flags with reserveHeredocSpaces := false } ∧
      u.currentExceptionMsg = s.currentExceptionMsg ∧
      (s.flags.reserveHeredocSpaces = true → u.yyCursor = s.yyCursor) := by
  unfold lexImplLeading at h
  by_cases hres : (!s.flags.reserveHeredocSpaces) = true
  · rw [if_pos hres] at h
    simp only [Option.map_eq_some'] at h
    obtain ⟨⟨t, tr⟩, ht, hu⟩ := h
    obtain ⟨⟨c, a, hf⟩, _⟩ := lexTriviaLoop_growth E false _ s s.leadingTrivia t tr ht
    have hr : s.flags.reserveHeredocSpaces = false := by simpa using hres
    rw [← hu]
    dsimp only
    subst hf
    refine ⟨rfl, rfl, rfl, rfl, rfl, rfl, ?_, rfl, fun h => ?_⟩
    · show s.flags = { s.flags with reserveHeredocSpaces := false }
      rw [← hr]
    · rw [hr] at h
      cases h
  · rw [if_neg hres] at h
    injection h with h
    rw [← h]
    exact ⟨rfl, rfl, rfl, rfl, rfl, rfl, rfl, rfl, fun _ => rfl⟩

theorem lexImplStart_keeps (s : Lexer) :
    (lexImplStart s).yyConditionStack = s.yyConditionStack ∧
      (lexImplStart s).heredocLabelStack = s.heredocLabelStack ∧
      (lexImplStart s).labelHeap = s.labelHeap ∧ (lexImplStart s).yyCondition = s.yyCondition ∧
      (lexImplStart s).yyStateStack = s.yyStateStack ∧
      (lexImplStart s).lineNumber = s.lineNumber ∧ (lexImplStart s).flags = s.flags ∧
      (lexImplStart s).currentExceptionMsg = s.currentExceptionMsg := by
  unfold lexImplStart
  dsimp only
  split
  · split <;> exact ⟨rfl, rfl, rfl, rfl, rfl, rfl, rfl, rfl⟩
  · exact ⟨rfl, rfl, rfl, rfl, rfl, rfl, rfl, rfl⟩

theorem lexImplText_keeps (u : Lexer) :
    (lexImplText u).yyConditionStack = u.yyConditionStack ∧
      (lexImplText u).heredocLabelStack = u.heredocLabelStack ∧
      (lexImplText u).labelHeap = u.labelHeap ∧ (lexImplText u).yyCondition = u.yyCondition ∧
      (lexImplText u).yyStateStack = u.yyStateStack ∧
      (lexImplText u).lineNumber =
        (if u.flags.incrementLineNumber then u.lineNumber + 1 else u.lineNumber) ∧
      (lexImplText u).flags = u.flags ∧
      (lexImplText u).currentExceptionMsg = u.currentExceptionMsg := by
  unfold lexImplText
  dsimp only
  split <;> exact ⟨rfl, rfl, rfl, rfl, rfl, rfl, rfl, rfl⟩

theorem lexImpl_clears_trivia (E : Externs) (yy : Lexer → Option Lexer) (s : Lexer) :
    lexImpl E yy s = lexImpl E yy { s with leadingTrivia := [], trailingTrivia := [] } := by
  unfold lexImpl
  rfl

theorem restoreState_eq (E : Externs) (yy : Lexer → Option Lexer) (loc : Nat)
    (leadingTrivia : Option (List ParsedTriviaPiece)) (enableDiagnostics : Bool) (s : Lexer) :
    restoreState E yy loc leadingTrivia enableDiagnostics s =
      (lexImpl E yy (setYYCursor loc
        { s with diags := if enableDiagnostics then s.diags else false })).map
        (restoreStateFinish s.diags leadingTrivia) := by
  unfold restoreState restoreStateFinish
  rfl

/-- C24 (amended): `restoreState(state)` rewinds the cursor to the location of
the state and runs `lexImpl` there, with the diagnostics engine taken away
unless diagnostics are enabled; afterwards the engine is put back and, with
trivia retention on, the leading trivia of the state is installed.  The scanner
is called with the cursor at or after the location and with the condition
stack, the heredoc-label stack and its labels, the active condition and the
snapshot stack as they are when `restoreState` is called, not as they were at
the location; the line number is the current one, advanced by one when the
increment-line-number flag is set, and the flags are the current ones with the
reserve-heredoc-spaces flag cleared.  What `restoreState` returns depends on the
lexer only through the lexer with the cursor rewound and the trivia lists
cleared: it forms the token the lexer formed at the location before when that
rewound lexer is the same as then. -/
theorem restoreState_rewinds_cursor (E : Externs) (hE : E.Progress)
    (yy : Lexer → Option Lexer) (loc : Nat) (leadingTrivia : Option (List ParsedTriviaPiece))
    (enableDiagnostics : Bool) (s : Lexer) (hlen : s.bufferEnd = s.buffer.length)
    (hloc : loc ≤ s.bufferEnd) (hcontent : s.contentStart ≤ s.bufferEnd) :
    (∃ u, restoreState E yy loc leadingTrivia enableDiagnostics s =
          (yy u).map (restoreStateFinish s.diags leadingTrivia) ∧
      loc ≤ u.yyCursor ∧ u.yyText = u.yyCursor ∧
      u.yyConditionStack = s.yyConditionStack ∧ u.heredocLabelStack = s.heredocLabelStack ∧
      u.labelHeap = s.labelHeap ∧ u.yyCondition = s.yyCondition ∧
      u.yyStateStack = s.yyStateStack ∧
      u.lineNumber = (if s.flags.incrementLineNumber then s.lineNumber + 1 else s.lineNumber) ∧
      u.flags = { s.flags with reserveHeredocSpaces := false }) ∧
    (∀ r : Lexer,
      { r with yyCursor := loc, leadingTrivia := [], trailingTrivia := [] } =
        { s with yyCursor := loc, leadingTrivia := [], trailingTrivia := [] } →
      restoreState E yy loc leadingTrivia enableDiagnostics r =
        restoreState E yy loc leadingTrivia enableDiagnostics s) := by
  refine ⟨?_, ?_⟩
  · obtain ⟨hbuf, hend, _, _, _, hpc⟩ := lexImplStart_facts
      (setYYCursor loc { s with diags := if enableDiagnostics then s.diags else false })
    obtain ⟨a1, a2, a3, a4, a5, a6, a7, _⟩ := lexImplStart_keeps
      (setYYCursor loc { s with diags := if enableDiagnostics then s.diags else false })
    have hge : loc ≤ (lexImplStart (setYYCursor loc
        { s with diags := if enableDiagnostics then s.diags else false })).yyCursor := by
      rw [hpc]
      show loc ≤ if loc = s.bufferStart ∧ s.bufferStart < s.contentStart then
        loc + (s.contentStart - s.bufferStart) else loc
      split <;> omega
    have hle : (lexImplStart (setYYCursor loc
        { s with diags := if enableDiagnostics then s.diags else false })).yyCursor ≤
        s.bufferEnd := by
      rw [hpc]
      show (if loc = s.bufferStart ∧ s.bufferStart < s.contentStart then
        loc + (s.contentStart - s.bufferStart) else loc) ≤ s.bufferEnd
      split
      · rename_i h
        omega
      · exact hloc
    obtain ⟨u, hu, _, _, _, _, _, v6, _⟩ := lexImplLeading_spec E hE _
      (by rw [hbuf, hend]; exact hlen) (by rw [hend]; exact hle)
    obtain ⟨b1, b2, b3, b4, b5, b6, b7, _, _⟩ := lexImplLeading_keeps E _ u hu
    obtain ⟨c1, c2, c3, c4, c5, c6, c7, _⟩ := lexImplText_keeps u
    obtain ⟨t1, t2, _⟩ := lexImplText_frame u
    refine ⟨lexImplText u, ?_, ?_, ?_, ?_, ?_, ?_, ?_, ?_, ?_, ?_⟩
    · rw [restoreState_eq, lexImpl_eq, hu]
      rfl
    · rw [t1]
      exact le_trans hge v6
    · rw [t1, t2]
    · rw [c1, b1, a1]
      rfl
    · rw [c2, b2, a2]
      rfl
    · rw [c3, b3, a3]
      rfl
    · rw [c4, b4, a4]
      rfl
    · rw [c5, b5, a5]
      rfl
    · rw [c6, b6, a6, b7, a7]
      rfl
    · rw [c7, b7, a7]
      rfl
  · intro r hr
    have hd : r.diags = s.diags := by
      have := congrArg Lexer.diags hr
      exact this
    rw [restoreState_eq, restoreState_eq, lexImpl_clears_trivia E yy (setYYCursor loc
        { r with diags := if enableDiagnostics then r.diags else false }),
      lexImpl_clears_trivia E yy (setYYCursor loc
        { s with diags := if enableDiagnostics then s.diags else false }), hd]
    have e1 : ({ setYYCursor loc { r with diags := if enableDiagnostics then s.diags else false }
        with leadingTrivia := [], trailingTrivia := [] } : Lexer) =
        { ({ r with yyCursor := loc, leadingTrivia := [], trailingTrivia := [] } : Lexer) with
          diags := if enableDiagnostics then s.diags else false } := rfl
    have e2 : ({ setYYCursor loc { s with diags := if enableDiagnostics then s.diags else false }
        with leadingTrivia := [], trailingTrivia := [] } : Lexer) =
        { ({ s with yyCursor := loc, leadingTrivia := [], trailingTrivia := [] } : Lexer) with
          diags := if enableDiagnostics then s.diags else false } := rfl
    rw [e1, e2, hr]

/-- The buffer `<<<A`, newline, `A`, newline after the first call of `lex`, which
has formed the `T_START_HEREDOC` token: `restoreState` for the location 0 calls
the scanner with the condition `ST_END_HEREDOC` and the one heredoc label still
on the stack. -/
theorem restoreState_rewinds_cursor_witness :
    ∃ u, restoreState plainExterns (yy_token_lex plainExterns (lex plainExterns 3)) 0
          Option.none false
          { lexerInitialize [60, 60, 60, 65, 10, 65, 10] Option.none CommentRetentionMode.None
              TriviaRetentionMode.WithoutTrivia 5 7 with
            yyCondition := YYLexerCondType.ST_END_HEREDOC, heredocLabelStack := [0],
            labelHeap := [{ name := [65] }] } =
        (yy_token_lex plainExterns (lex plainExterns 3) u).map
          (restoreStateFinish false Option.none) ∧
      u.yyCondition = YYLexerCondType.ST_END_HEREDOC ∧ u.heredocLabelStack = [0] := by
  obtain ⟨⟨u, h1, _, _, _, h5, _, h7, _⟩, _⟩ := restoreState_rewinds_cursor plainExterns
    plainExterns_progress (yy_token_lex plainExterns (lex plainExterns 3)) 0 Option.none false
    { lexerInitialize [60, 60, 60, 65, 10, 65, 10] Option.none CommentRetentionMode.None
        TriviaRetentionMode.WithoutTrivia 5 7 with
      yyCondition := YYLexerCondType.ST_END_HEREDOC, heredocLabelStack := [0],
      labelHeap := [{ name := [65] }] } rfl (by decide) (by decide)
  exact ⟨u, h1, h7, h5⟩

/-- C24, the claim as stated fails: on the buffer of a blank, `<<<A`, newline,
`A`, newline the first call of `lex` forms at offset 1 the `T_START_HEREDOC`
token, entered with the condition `ST_IN_SCRIPTING` and an empty label stack,
and leaves the condition `ST_END_HEREDOC` and one label on the stack;
`restoreState` for the location 1 of that token then keeps that condition and
that label and forms a `T_ENCAPSED_AND_WHITESPACE` token that starts at
offset 0, not the `T_START_HEREDOC` token of offset 1. -/
theorem restoreState_rewinds_cursor_counterexample :
    ((lex plainExterns 3 (lexerInitialize [32, 60, 60, 60, 65, 10, 65, 10] Option.none
        CommentRetentionMode.None TriviaRetentionMode.WithoutTrivia 0 8)).bind fun s1 =>
      (restoreState plainExterns (yy_token_lex plainExterns (lex plainExterns 3)) 1
        Option.none false s1).map fun t =>
        (s1.nextToken.kind, s1.nextToken.textStart, s1.yyCondition, s1.heredocLabelStack,
          t.nextToken.kind, t.nextToken.textStart)) =
      some (TokenKindType.T_START_HEREDOC, 1, YYLexerCondType.ST_END_HEREDOC, [0],
        TokenKindType.T_ENCAPSED_AND_WHITESPACE, 0) := by
  decide

/-! ### The lexical-exception flag -/

theorem formToken_flags (E : Externs) (kind : TokenKindType) (tokenStart : Nat) (s t : Lexer)
    (h : formToken E kind tokenStart s = some t) :
    t.flags = s.flags ∧ t.currentExceptionMsg = s.currentExceptionMsg := by
  unfold formToken at h
  dsimp only at h
  split at h
  · simp only [Option.map_eq_some'] at h
    obtain ⟨⟨x, y⟩, hx, ht⟩ := h
    obtain ⟨⟨c, a, hf⟩, _⟩ := lexTriviaLoop_growth E true _ s s.trailingTrivia x y hx
    rw [← ht]
    dsimp only
    subst hf
    exact ⟨rfl, rfl⟩
  · injection h with h
    rw [← h]
    exact ⟨rfl, rfl⟩

theorem keepsException_ite {c : Prop} [Decidable c] {s : Lexer} {a b : Option Lexer}
    (ha : KeepsException s a) (hb : KeepsException s b) :
    KeepsException s (if c then a else b) := by
  split
  · exact ha
  · exact hb

theorem keepsException_map {s : Lexer} {o : Option Lexer} (f : Lexer → Lexer)
    (hf : ∀ x, (f x).flags.lexExceptionOccurred = x.flags.lexExceptionOccurred)
    (h : KeepsException s o) : KeepsException s (o.map f) := by
  intro t ht hs
  simp only [Option.map_eq_some'] at ht
  obtain ⟨x, hx, rfl⟩ := ht
  rw [hf]
  exact h x hx hs

theorem keepsException_formToken (E : Externs) (kind : TokenKindType) (tokenStart : Nat)
    {s : Lexer} (x : Lexer)
    (hx : s.flags.lexExceptionOccurred = true → x.flags.lexExceptionOccurred = true) :
    KeepsException s (formToken E kind tokenStart x) := by
  intro t ht hs
  rw [(formToken_flags E kind tokenStart x t ht).1]
  exact hx hs

theorem keepsException_formErrorToken (E : Externs) (tokenStart : Nat) {s : Lexer} (x : Lexer)
    (hx : s.flags.lexExceptionOccurred = true → x.flags.lexExceptionOccurred = true) :
    KeepsException s (formErrorToken E tokenStart x) := by
  unfold formErrorToken
  refine keepsException_map _ (fun y => ?_) (keepsException_formToken E _ _ x hx)
  dsimp only
  split <;> rfl

theorem lexBinaryNumber_keeps (E : Externs) (s : Lexer) :
    KeepsException s (lexBinaryNumber E s) := by
  unfold lexBinaryNumber
  dsimp only
  exact keepsException_ite
    (keepsException_map _ (fun _ => rfl) (keepsException_formToken E _ _ s id))
    (keepsException_map _ (fun _ => rfl) (keepsException_formToken E _ _ s id))

theorem keepsException_none {s : Lexer} : KeepsException s none := by
  intro t ht
  cases ht

theorem lexHexNumber_keeps (E : Externs) (s : Lexer) :
    KeepsException s (lexHexNumber E s) := by
  unfold lexHexNumber
  dsimp only
  refine keepsException_ite keepsException_none (keepsException_ite
    (keepsException_map _ (fun _ => rfl) (keepsException_formToken E _ _ s id)) ?_)
  split
  · exact keepsException_none
  · exact keepsException_map _ (fun _ => rfl) (keepsException_formToken E _ _ s id)

theorem lexLongNumber_keeps (E : Externs) (s : Lexer) :
    KeepsException s (lexLongNumber E s) := by
  have plain : ∀ (k : TokenKindType) (p : Nat), KeepsException s (formToken E k p s) :=
    fun k p => keepsException_formToken E k p s id
  have raised : ∀ (k : TokenKindType) (p : Nat) (m : String) (c : Int),
      KeepsException s (formToken E k p (notifyLexicalException m c s)) :=
    fun k p m c => keepsException_formToken E k p _ (fun _ => rfl)
  have either : ∀ (k : TokenKindType) (p : Nat) (m : String) (c : Int) (q : Prop)
      [Decidable q],
      KeepsException s (formToken E k p (if q then notifyLexicalException m c s else s)) := by
    intro k p m c q _
    refine keepsException_formToken E k p _ (fun hs => ?_)
    split
    · rfl
    · exact hs
  unfold lexLongNumber
  dsimp only
  refine keepsException_ite (keepsException_ite (keepsException_ite (raised _ _ _ _)
    (keepsException_map _ (fun _ => rfl) (raised _ _ _ _)))
    (keepsException_map _ (fun _ => rfl) (plain _ _)))
    (keepsException_ite keepsException_none (keepsException_ite ?_
      (keepsException_ite (keepsException_ite (raised _ _ _ _)
        (keepsException_map _ (fun _ => rfl) (raised _ _ _ _)))
        (keepsException_map _ (fun _ => rfl) (plain _ _)))))
  split
  · exact keepsException_none
  · exact keepsException_ite (either _ _ _ _ _)
      (keepsException_map _ (fun _ => rfl) (either _ _ _ _ _))

theorem lexSingleQuoteString_keeps (E : Externs) (s : Lexer) :
    KeepsException s (lexSingleQuoteString E s) := by
  unfold lexSingleQuoteString
  dsimp only
  generalize scanSingleQuote s.buffer s.artificialEof (s.artificialEof - s.yyCursor + 1)
    s.yyCursor = r
  rcases r with _ | ⟨c, _ | _⟩
  · intro t ht
    cases ht
  · exact keepsException_formToken E _ _ _ id
  · refine keepsException_map _ (fun _ => rfl) (keepsException_formToken E _ _ _ (fun hs => ?_))
    split_ifs <;> exact hs

theorem lexHereAndNowDocEnd_keeps (E : Externs) (s : Lexer) :
    KeepsException s (lexHereAndNowDocEnd E s) := by
  unfold lexHereAndNowDocEnd
  dsimp only
  refine keepsException_ite (keepsException_ite keepsException_none
    (keepsException_map _ (fun _ => rfl) (keepsException_formToken E _ _ _ id))) ?_
  split
  · intro t ht
    cases ht
  · exact keepsException_formToken E _ _ _ id

theorem lexTrivia_keeps (E : Externs) (trivia : List ParsedTriviaPiece) (trailing : Bool)
    (s : Lexer) : KeepsException s ((lexTrivia E trivia trailing s).map fun r => r.1) := by
  intro t ht hs
  simp only [Option.map_eq_some'] at ht
  obtain ⟨⟨x, y⟩, hx, rfl⟩ := ht
  obtain ⟨⟨c, a, hf⟩, _⟩ := lexTriviaLoop_growth E trailing _ s trivia x y hx
  subst hf
  exact hs

theorem lexImplFront_keeps (E : Externs) (s : Lexer) :
    KeepsException s ((lexImplLeading E (lexImplStart s)).map lexImplText) := by
  intro t ht hs
  simp only [Option.map_eq_some'] at ht
  obtain ⟨u, hu, rfl⟩ := ht
  obtain ⟨_, _, _, _, _, _, a7, _⟩ := lexImplStart_keeps s
  obtain ⟨_, _, _, _, _, _, b7, _⟩ := lexImplLeading_keeps E _ u hu
  obtain ⟨_, _, _, _, _, _, c7, _⟩ := lexImplText_keeps u
  rw [c7, b7, a7]
  exact hs

theorem scanAheadLoop_stack (lexFn : Lexer → Option Lexer)
    (hfn : ∀ a b, lexFn a = some b → b.yyStateStack = a.yyStateStack) :
    ∀ (fuel level : Nat) (first : TokenKindType) (s : Lexer) (r : Lexer × TokenKindType),
      scanAheadLoop lexFn fuel level first s = some r → r.1.yyStateStack = s.yyStateStack := by
  intro fuel
  induction fuel with
  | zero => intro level first s r h; simp [scanAheadLoop] at h
  | succ fuel ih =>
    intro level first s r h
    unfold scanAheadLoop at h
    split at h
    · cases hl : lexFn s with
      | none => rw [hl] at h; cases h
      | some s1 =>
        rw [hl] at h
        dsimp only at h
        have h1 := hfn s s1 hl
        split at h
        · injection h with h
          rw [← h, ← h1]
          rfl
        · split at h
          · exact (ih _ _ _ _ h).trans h1
          · exact (ih _ _ _ _ h).trans h1
          · exact (ih _ _ _ _ h).trans h1
          · exact (ih _ _ _ _ h).trans h1
    · injection h with h
      rw [← h]

theorem restoreYYState_flags (z y : Lexer) (snap : LexerState) (rest : List LexerState)
    (hz : z.yyStateStack = snap :: rest) (h : restoreYYState z = some y) :
    y.flags = snap.lexerFlags ∧ y.currentExceptionMsg = z.currentExceptionMsg := by
  unfold restoreYYState at h
  rw [hz] at h
  injection h with h
  rw [← h]
  exact ⟨rfl, rfl⟩

theorem ite_some_cases {c : Prop} [Decidable c] {a : Option Lexer} {b x : Lexer}
    (h : (if c then a else some b) = some x) : a = some x ∨ x = b := by
  split at h
  · exact Or.inl h
  · injection h with h
    exact Or.inr h.symm

theorem lexHeredocHeader_keeps (E : Externs) (lexFn : Lexer → Option Lexer)
    (hfn : ∀ a b, lexFn a = some b → b.yyStateStack = a.yyStateStack) (s : Lexer) :
    KeepsException s (lexHeredocHeader E lexFn s) := by
  have hbin : ∀ b : Bool, (if b = true then setLexingBinaryStrFlag true s else s).flags.lexExceptionOccurred =
      s.flags.lexExceptionOccurred := by
    intro b
    split <;> rfl
  have hnot : ∀ (c : Prop) [Decidable c] (m : String) (x : Lexer),
      x.flags.lexExceptionOccurred = true →
      (if c then notifyLexicalException m 0 x else x).flags.lexExceptionOccurred = true := by
    intro c _ m x hx
    split
    · rfl
    · exact hx
  unfold lexHeredocHeader
  dsimp only
  refine keepsException_ite ?_ (keepsException_ite ?_ ?_)
  · refine keepsException_formToken E _ _ _ (fun hs => ?_)
    dsimp only [setYYCursor, pushHeredocLabel, incLineNumber]
    rw [hbin]
    exact hs
  · refine keepsException_formToken E _ _ _ (fun hs => ?_)
    dsimp only [setYYCursor, pushHeredocLabel, incLineNumber, updateLabel]
    refine hnot _ _ _ ?_
    dsimp only [setYYCursor, pushHeredocLabel, incLineNumber]
    rw [hbin]
    exact hs
  · split
    · intro t ht
      cases ht
    · rename_i x heq
      refine keepsException_map _ (fun _ => rfl) (keepsException_formToken E _ _ _ (fun hs => ?_))
      rcases ite_some_cases heq with heq | heq
      · generalize hloop : scanAheadLoop lexFn _ _ _ _ = r at heq
        rcases r with _ | ⟨s2, ft⟩
        · cases heq
        · simp only [Option.map_eq_some'] at heq
          obtain ⟨y, hy, rfl⟩ := heq
          have hst := scanAheadLoop_stack lexFn hfn _ _ _ _ _ hloop
          have hz : ∀ (c : Prop) [Decidable c] (m : String) (p : Nat)
              (f : HereDocLabel → HereDocLabel),
              (updateLabel p f (if c then notifyLexicalException m 0 s2 else s2)).yyStateStack =
                s2.yyStateStack := by
            intro c _ m p f
            split <;> rfl
          obtain ⟨hf, _⟩ := restoreYYState_flags _ y _ _ ((hz _ _ _ _).trans hst) hy
          show y.flags.lexExceptionOccurred = true
          rw [hf]
          dsimp only [saveYYState, setYYCursor, pushHeredocLabel, incLineNumber]
          rw [hbin]
          exact hs
      · rw [heq]
        dsimp only [setYYCursor, pushHeredocLabel, incLineNumber]
        rw [hbin]
        exact hs

/-- C26 (amended): `notifyLexicalException` sets the lexical-exception flag and
stores its message, and `clearExceptionFlag` clears the flag.  A flag that is
set stays set through the operations on the condition stack, the label stack
and the line number, through `saveYYState`, the trivia scans, `formToken` and
`formErrorToken` (which keep the message too), `lexImpl` up to the call of the
scanner, the numeric literal routines, `lexSingleQuoteString`,
`lexHereAndNowDocEnd`, and `lexHeredocHeader` with its scan-ahead pass (for a
`lex` that leaves the snapshot stack as it finds it).  `restoreYYState` keeps the
message and sets the flags to the ones of the snapshot it pops: after a
`saveYYState` and any operations that leave the snapshot stack as it was, the
flags are those the lexer had at the `saveYYState`. -/
theorem exception_flag_persistence (E : Externs) (s : Lexer) :
    (∀ (msg : String) (code : Int),
      (notifyLexicalException msg code s).flags.lexExceptionOccurred = true ∧
        (notifyLexicalException msg code s).currentExceptionMsg = msg) ∧
    (clearExceptionFlag s).flags.lexExceptionOccurred = false ∧
    (s.flags.lexExceptionOccurred = true →
      (saveYYState s).flags.lexExceptionOccurred = true ∧
      (∀ cond, (pushYYCondition cond s).flags.lexExceptionOccurred = true) ∧
      (∀ label, (pushHeredocLabel label s).flags.lexExceptionOccurred = true) ∧
      (∀ count, (incLineNumber count s).flags.lexExceptionOccurred = true) ∧
      (∀ t, popYYCondtion s = some t → t.flags.lexExceptionOccurred = true) ∧
      (∀ t, popHeredocLabel s = some t → t.flags.lexExceptionOccurred = true) ∧
      (∀ trivia trailing t tr, lexTrivia E trivia trailing s = some (t, tr) →
        t.flags.lexExceptionOccurred = true) ∧
      (∀ kind tokenStart t, formToken E kind tokenStart s = some t →
        t.flags.lexExceptionOccurred = true ∧
          t.currentExceptionMsg = s.currentExceptionMsg) ∧
      (∀ tokenStart t, formErrorToken E tokenStart s = some t →
        t.flags.lexExceptionOccurred = true) ∧
      (∀ u, lexImplLeading E (lexImplStart s) = some u →
        (lexImplText u).flags.lexExceptionOccurred = true) ∧
      (∀ t, lexBinaryNumber E s = some t → t.flags.lexExceptionOccurred = true) ∧
      (∀ t, lexHexNumber E s = some t → t.flags.lexExceptionOccurred = true) ∧
      (∀ t, lexLongNumber E s = some t → t.flags.lexExceptionOccurred = true) ∧
      (∀ t, lexSingleQuoteString E s = some t → t.flags.lexExceptionOccurred = true) ∧
      (∀ t, lexHereAndNowDocEnd E s = some t → t.flags.lexExceptionOccurred = true) ∧
      (∀ (lexFn : Lexer → Option Lexer) (t : Lexer),
        (∀ a b, lexFn a = some b → b.yyStateStack = a.yyStateStack) →
        lexHeredocHeader E lexFn s = some t → t.flags.lexExceptionOccurred = true)) ∧
    (∀ t, restoreYYState s = some t →
      ∃ snap rest, s.yyStateStack = snap :: rest ∧ t.flags = snap.lexerFlags ∧
        t.currentExceptionMsg = s.currentExceptionMsg) ∧
    (∀ u, u.yyStateStack = (saveYYState s).yyStateStack →
      ∃ t, restoreYYState u = some t ∧ t.flags = s.flags ∧
        t.currentExceptionMsg = u.currentExceptionMsg) := by
  refine ⟨fun msg code => ⟨rfl, rfl⟩, rfl, fun hs => ?_, ?_, ?_⟩
  · refine ⟨hs, fun _ => hs, fun _ => hs, fun _ => hs, ?_, ?_, ?_, ?_, ?_, ?_,
      fun t ht => lexBinaryNumber_keeps E s t ht hs,
      fun t ht => lexHexNumber_keeps E s t ht hs,
      fun t ht => lexLongNumber_keeps E s t ht hs,
      fun t ht => lexSingleQuoteString_keeps E s t ht hs,
      fun t ht => lexHereAndNowDocEnd_keeps E s t ht hs,
      fun lexFn t hfn ht => lexHeredocHeader_keeps E lexFn hfn s t ht hs⟩
    · intro t ht
      unfold popYYCondtion at ht
      split at ht
      · cases ht
      · injection ht with ht
        rw [← ht]
        exact hs
    · intro t ht
      unfold popHeredocLabel at ht
      split at ht
      · cases ht
      · injection ht with ht
        rw [← ht]
        exact hs
    · intro trivia trailing t tr ht
      exact lexTrivia_keeps E trivia trailing s t (by rw [ht]; rfl) hs
    · intro kind tokenStart t ht
      obtain ⟨h1, h2⟩ := formToken_flags E kind tokenStart s t ht
      exact ⟨by rw [h1]; exact hs, h2⟩
    · intro tokenStart t ht
      exact keepsException_formErrorToken E tokenStart s id t ht hs
    · intro u hu
      exact lexImplFront_keeps E s _ (by rw [hu]; rfl) hs
  · intro t ht
    cases hst : s.yyStateStack with
    | nil =>
      unfold restoreYYState at ht
      rw [hst] at ht
      cases ht
    | cons snap rest =>
      obtain ⟨h1, h2⟩ := restoreYYState_flags s t snap rest hst ht
      exact ⟨snap, rest, rfl, h1, h2⟩
  · intro u hu
    have hu2 : u.yyStateStack = _ :: s.yyStateStack := hu
    have hr : ∃ t, restoreYYState u = some t := by
      unfold restoreYYState
      rw [hu2]
      exact ⟨_, rfl⟩
    obtain ⟨t, ht⟩ := hr
    obtain ⟨h1, h2⟩ := restoreYYState_flags u t _ _ hu2 ht
    exact ⟨t, ht, h1, h2⟩

/-- The literal `019` with the flag already set: `lexLongNumber` returns with the
flag set. -/
theorem exception_flag_persistence_witness :
    ∃ t, lexLongNumber plainExterns
        (notifyLexicalException "x" 0 (scanState [48, 49, 57] 0 3 TokenKindType.T_UNKNOWN_MARK
          false TriviaRetentionMode.WithoutTrivia)) = some t ∧
      t.flags.lexExceptionOccurred = true := by
  have hev : ∃ t, lexLongNumber plainExterns
      (notifyLexicalException "x" 0 (scanState [48, 49, 57] 0 3 TokenKindType.T_UNKNOWN_MARK
        false TriviaRetentionMode.WithoutTrivia)) = some t := ⟨_, rfl⟩
  obtain ⟨t, ht⟩ := hev
  exact ⟨t, ht, (((exception_flag_persistence plainExterns
    (notifyLexicalException "x" 0 (scanState [48, 49, 57] 0 3 TokenKindType.T_UNKNOWN_MARK
      false TriviaRetentionMode.WithoutTrivia))).2.2.1 rfl).2.2.2.2.2.2.2.2.2.2.2.2.1) t ht⟩

/-- C26, the claim as stated fails: after `saveYYState`, `lexLongNumber` on the
literal `019` calls `notifyLexicalException`, which sets the flag and stores the
message; `restoreYYState` then leaves the flag clear, no `clearExceptionFlag`
having been called, and the message in place. -/
theorem exception_flag_persistence_counterexample :
    ((lexLongNumber plainExterns (saveYYState (scanState [48, 49, 57] 0 3
        TokenKindType.T_UNKNOWN_MARK false TriviaRetentionMode.WithoutTrivia))).bind fun u =>
      (restoreYYState u).map fun t =>
        (u.flags.lexExceptionOccurred, u.currentExceptionMsg, t.flags.lexExceptionOccurred,
          t.currentExceptionMsg)) =
      some (true, "Invalid numeric literal", false, "Invalid numeric literal") := by
  rfl

/-! ### The test for the end marker of a heredoc -/

theorem byteAt_take (buf : List Nat) (n i : Nat) (h : i < n) :
    byteAt (buf.take n) i = byteAt buf i := by
  unfold byteAt
  rw [List.getD_eq_getElem?_getD, List.getD_eq_getElem?_getD, List.getElem?_take_of_lt h]

theorem slice_take (buf : List Nat) (n p k : Nat) (h : p + k ≤ n) :
    slice (buf.take n) p k = slice buf p k := by
  unfold slice
  rw [List.drop_take, List.take_take, Nat.min_eq_left (by omega)]

theorem isFoundHeredocEndMarker_iff (s : Lexer) (label : HereDocLabel) :
    isFoundHeredocEndMarker s label = true ↔
      isLabelStart (byteAt s.buffer s.yyCursor) = true ∧
        s.yyCursor + label.name.length < s.artificialEof ∧
        slice s.buffer s.yyCursor label.name.length = label.name := by
  unfold isFoundHeredocEndMarker
  simp only [Bool.and_eq_true, decide_eq_true_eq]
  constructor
  · rintro ⟨⟨h1, h2⟩, h3⟩
    exact ⟨h1, by omega, h3⟩
  · rintro ⟨h1, h2, h3⟩
    exact ⟨⟨h1, by omega⟩, h3⟩

/-- C35: `isFoundHeredocEndMarker` returns true exactly when the byte at the
cursor is a label-start byte, strictly more bytes than the label has lie
between the cursor and the artificial end, and the bytes at the cursor equal
the label.  So a label that ends at or after the artificial end, in particular
one whose last byte is the last byte before the artificial end, is reported as
not found; and the result depends only on the bytes before the artificial end:
it is the same for every buffer that has the same bytes there. -/
theorem isFoundHeredocEndMarker_needs_room (s : Lexer) (label : HereDocLabel) :
    (isFoundHeredocEndMarker s label = true ↔
      isLabelStart (byteAt s.buffer s.yyCursor) = true ∧
        s.yyCursor + label.name.length < s.artificialEof ∧
        slice s.buffer s.yyCursor label.name.length = label.name) ∧
    (s.artificialEof ≤ s.yyCursor + label.name.length →
      isFoundHeredocEndMarker s label = false) ∧
    (∀ r : Lexer, r.yyCursor = s.yyCursor → r.artificialEof = s.artificialEof →
      r.buffer.take s.artificialEof = s.buffer.take s.artificialEof →
      isFoundHeredocEndMarker r label = isFoundHeredocEndMarker s label) := by
  refine ⟨isFoundHeredocEndMarker_iff s label, fun h => ?_, fun r hc he hb => ?_⟩
  · cases hf : isFoundHeredocEndMarker s label with
    | false => rfl
    | true =>
      have := ((isFoundHeredocEndMarker_iff s label).mp hf).2.1
      omega
  · have key : ∀ x y : Lexer, x.yyCursor = y.yyCursor → x.artificialEof = y.artificialEof →
        x.buffer.take y.artificialEof = y.buffer.take y.artificialEof →
        isFoundHeredocEndMarker y label = true → isFoundHeredocEndMarker x label = true := by
      intro x y h1 h2 h3 hy
      obtain ⟨a, b, c⟩ := (isFoundHeredocEndMarker_iff y label).mp hy
      refine (isFoundHeredocEndMarker_iff x label).mpr ⟨?_, by rw [h1, h2]; exact b, ?_⟩
      · rw [h1, ← byteAt_take x.buffer y.artificialEof y.yyCursor (by omega), h3,
          byteAt_take y.buffer y.artificialEof y.yyCursor (by omega)]
        exact a
      · rw [h1, ← slice_take x.buffer y.artificialEof y.yyCursor _ (by omega), h3,
          slice_take y.buffer y.artificialEof y.yyCursor _ (by omega)]
        exact c
    cases hs : isFoundHeredocEndMarker s label with
    | true => exact key r s hc he hb hs
    | false =>
      cases hr : isFoundHeredocEndMarker r label with
      | false => rfl
      | true =>
        have := key s r hc.symm he.symm (by rw [he]; exact hb.symm) hr
        rw [hs] at this
        cases this

/-- The closing line `A` of a heredoc with label `A`, in the buffer `<<<A`,
newline, `x`, newline, `A`: with the artificial end right after the label, at
offset 8, the marker at offset 7 is not found; with one more byte before the
artificial end it is. -/
theorem isFoundHeredocEndMarker_needs_room_witness :
    isFoundHeredocEndMarker
        { scanState [60, 60, 60, 65, 10, 120, 10, 65] 7 0 TokenKindType.T_UNKNOWN_MARK false
            TriviaRetentionMode.WithoutTrivia with artificialEof := 8 } { name := [65] } = false ∧
      isFoundHeredocEndMarker
        (scanState [60, 60, 60, 65, 10, 120, 10, 65, 10] 7 0 TokenKindType.T_UNKNOWN_MARK false
          TriviaRetentionMode.WithoutTrivia) { name := [65] } = true :=
  ⟨(isFoundHeredocEndMarker_needs_room _ _).2.1 (by decide), by decide⟩

/-! ### The values of variable, identifier and error tokens -/

theorem slice_drop_one (buf : List Nat) (p n : Nat) :
    slice buf (p + 1) (n - 1) = (slice buf p n).drop 1 := by
  unfold slice
  rw [List.drop_take, ← List.drop_drop]

theorem sizeT_pred (n : Nat) (h1 : 0 < n) (h2 : n < 2 ^ 64) :
    (((n : Int) - 1) % 2 ^ 64).toNat = n - 1 := by
  have h3 : ((n : Int) - 1) % 2 ^ 64 = (n : Int) - 1 := by
    apply Int.emod_eq_of_lt
    · omega
    · have : ((2 : Int) ^ 64) = ((2 ^ 64 : Nat) : Int) := by norm_num
      rw [this]
      omega
  rw [h3]
  omega

/-- C32: for a token that starts before the artificial end and before the
cursor, with the recorded length `m_yyLength` (a `size_t`) equal to the
distance from the token start to the cursor: `formVariableToken` returns a
token of kind `T_VARIABLE` whose text is the bytes from the token start to the
cursor and whose value is that text without its first byte;
`formIdentifierToken` and `formStringVariableToken` return kinds
`T_IDENTIFIER_STRING` and `T_STRING_VARNAME` with the whole text as value;
`formErrorToken` returns kind `T_ERROR`, and its value is the current exception
message whenever that message is not empty. -/
theorem formVariableToken_value (E : Externs) (hE : E.Progress) (tokenStart : Nat) (s : Lexer)
    (hlen : s.bufferEnd = s.buffer.length) (hcur : s.yyCursor ≤ s.bufferEnd)
    (hstart : tokenStart < s.yyCursor) (heof : tokenStart < s.artificialEof)
    (hyy : s.yyLength = s.yyCursor - tokenStart) (hsize : s.yyLength < 2 ^ 64) :
    (∃ t, formVariableToken E tokenStart s = some t ∧
      t.nextToken.kind = TokenKindType.T_VARIABLE ∧
      slice t.buffer t.nextToken.textStart t.nextToken.textLength =
        bytesBetween s.buffer tokenStart s.yyCursor ∧
      t.nextToken.value =
        TokenValue.str ((bytesBetween s.buffer tokenStart s.yyCursor).drop 1)) ∧
    (∃ t, formIdentifierToken E tokenStart s = some t ∧
      t.nextToken.kind = TokenKindType.T_IDENTIFIER_STRING ∧
      t.nextToken.value = TokenValue.str (bytesBetween s.buffer tokenStart s.yyCursor)) ∧
    (∃ t, formStringVariableToken E tokenStart s = some t ∧
      t.nextToken.kind = TokenKindType.T_STRING_VARNAME ∧
      t.nextToken.value = TokenValue.str (bytesBetween s.buffer tokenStart s.yyCursor)) ∧
    (∃ t, formErrorToken E tokenStart s = some t ∧
      t.nextToken.kind = TokenKindType.T_ERROR ∧
      (s.currentExceptionMsg ≠ "" →
        t.nextToken.value = TokenValue.str (strBytes s.currentExceptionMsg))) := by
  have hkind : ∀ kind, formedKind kind tokenStart s = kind := by
    intro kind
    unfold formedKind
    rw [if_neg]
    intro hh
    have := hh.2
    omega
  have htext : slice s.buffer tokenStart (s.yyCursor - tokenStart) =
      bytesBetween s.buffer tokenStart s.yyCursor := by
    unfold slice bytesBetween
    rw [List.drop_take]
  refine ⟨?_, ?_, ?_, ?_⟩
  · obtain ⟨c, a, tr, hf, _⟩ := formToken_spec E hE TokenKindType.T_VARIABLE tokenStart s hlen hcur
    unfold formVariableToken
    rw [hf]
    refine ⟨_, rfl, hkind _, htext, ?_⟩
    dsimp only [setValue, formedLexer, setToken]
    rw [sizeT_pred s.yyLength (by omega) hsize, slice_drop_one, hyy, htext]
  · obtain ⟨c, a, tr, hf, _⟩ :=
      formToken_spec E hE TokenKindType.T_IDENTIFIER_STRING tokenStart s hlen hcur
    unfold formIdentifierToken
    rw [hf]
    refine ⟨_, rfl, hkind _, ?_⟩
    show TokenValue.str (slice s.buffer tokenStart s.yyLength) = _
    rw [hyy, htext]
  · obtain ⟨c, a, tr, hf, _⟩ :=
      formToken_spec E hE TokenKindType.T_STRING_VARNAME tokenStart s hlen hcur
    unfold formStringVariableToken
    rw [hf]
    refine ⟨_, rfl, hkind _, ?_⟩
    show TokenValue.str (slice s.buffer tokenStart s.yyLength) = _
    rw [hyy, htext]
  · obtain ⟨c, a, tr, hf, _⟩ := formToken_spec E hE TokenKindType.T_ERROR tokenStart s hlen hcur
    unfold formErrorToken
    rw [hf]
    refine ⟨_, rfl, ?_, fun hm => ?_⟩
    · dsimp only [Option.map]
      split_ifs
      · exact hkind _
      · exact hkind _
    · dsimp only [Option.map]
      rw [if_pos (by exact hm)]
      rfl

/-- The variable `$ab` at the head of the buffer `$ab;`, with trivia retention
on: the four routines return, the variable token has value `ab`. -/
theorem formVariableToken_value_witness :
    (∃ t, formVariableToken plainExterns 0
        { scanState [36, 97, 98, 59] 0 3 TokenKindType.T_UNKNOWN_MARK false
            TriviaRetentionMode.WithTrivia with yyCursor := 3 } = some t ∧
      t.nextToken.kind = TokenKindType.T_VARIABLE ∧
      t.nextToken.value = TokenValue.str [97, 98]) ∧
    (formVariableToken plainExterns 0
        { scanState [36, 97, 98, 59] 0 3 TokenKindType.T_UNKNOWN_MARK false
            TriviaRetentionMode.WithTrivia with yyCursor := 3 }).map
      (fun t => t.nextToken.value) = some (TokenValue.str [97, 98]) := by
  obtain ⟨⟨t, ht, h1, _, h3⟩, _⟩ :=
    formVariableToken_value plainExterns plainExterns_progress 0
      { scanState [36, 97, 98, 59] 0 3 TokenKindType.T_UNKNOWN_MARK false
          TriviaRetentionMode.WithTrivia with yyCursor := 3 } rfl (by decide) (by decide)
      (by decide) (by decide) (by decide)
  exact ⟨⟨t, ht, h1, h3⟩, by decide⟩

/-! ### The bytes the trivia scanner accounts for -/

theorem triviaLength_pushBack (trivia : List ParsedTriviaPiece) (k : TriviaKind) (n : Nat) :
    triviaLength (pushBack trivia k n) = triviaLength trivia + n := by
  unfold triviaLength pushBack
  simp

theorem triviaLength_appendOrSquash (trivia : List ParsedTriviaPiece) (k : TriviaKind)
    (n : Nat) : triviaLength (appendOrSquash trivia k n) = triviaLength trivia + n := by
  unfold appendOrSquash
  cases hl : trivia.getLast? with
  | none =>
    dsimp only
    exact triviaLength_pushBack trivia k n
  | some last =>
    dsimp only
    split
    · have hne : trivia ≠ [] := by
        intro h
        rw [h] at hl
        cases hl
      have hd : trivia = trivia.dropLast ++ [last] := by
        have h1 := List.dropLast_append_getLast hne
        rw [List.getLast?_eq_getLast _ hne] at hl
        injection hl with hl
        rw [hl] at h1
        exact h1.symm
      have h2 : triviaLength trivia = triviaLength trivia.dropLast + last.length := by
        conv_lhs => rw [hd]
        unfold triviaLength
        simp
      rw [h2]
      unfold triviaLength
      simp
      omega
    · exact triviaLength_pushBack trivia k n

theorem lexTriviaRound_length (E : Externs) (trailing : Bool) (s : Lexer)
    (trivia : List ParsedTriviaPiece) (t : Lexer) (tr : List ParsedTriviaPiece) (again : Bool)
    (h : lexTriviaRound E trailing s trivia = some ((t, tr), again)) :
    triviaLength tr = triviaLength trivia + (t.yyCursor - s.yyCursor) := by
  have key : ∀ (x : Lexer) (y : List ParsedTriviaPiece) (b : Bool),
      triviaLength y = triviaLength trivia + (x.yyCursor - s.yyCursor) →
      some ((x, y), b) = some ((t, tr), again) →
      triviaLength tr = triviaLength trivia + (t.yyCursor - s.yyCursor) := by
    intro x y b hy he
    injection he with he
    injection he with he _
    injection he with h1 h2
    subst h1 h2
    exact hy
  have stop : ∀ x : Lexer, x.yyCursor = s.yyCursor →
      triviaLength trivia = triviaLength trivia + (x.yyCursor - s.yyCursor) := by
    intro x hx
    rw [hx, Nat.sub_self]
    rfl
  have unit : ∀ (x : Lexer) (k : TriviaKind) (n : Nat), x.yyCursor = s.yyCursor + n →
      triviaLength (appendOrSquash trivia k n) =
        triviaLength trivia + (x.yyCursor - s.yyCursor) := by
    intro x k n hx
    rw [triviaLength_appendOrSquash, hx, Nat.add_sub_cancel_left]
  have piece : ∀ (x : Lexer) (k : TriviaKind),
      triviaLength (pushBack trivia k (x.yyCursor - s.yyCursor)) =
        triviaLength trivia + (x.yyCursor - s.yyCursor) :=
    fun x k => triviaLength_pushBack _ _ _
  have hback : (setYYCursor ((setYYCursor (s.yyCursor + 1) s).yyCursor - 1)
      (setYYCursor (s.yyCursor + 1) s)).yyCursor = s.yyCursor := Nat.add_sub_cancel _ _
  unfold lexTriviaRound at h
  dsimp only at h
  by_cases h10 : byteAt s.buffer s.yyCursor = 10
  · rw [if_pos h10] at h
    split at h
    · exact key _ _ _ (stop _ hback) h
    · exact key _ _ _ (unit _ _ 1 rfl) h
  rw [if_neg h10] at h
  by_cases h13 : byteAt s.buffer s.yyCursor = 13
  · rw [if_pos h13] at h
    split at h
    · exact key _ _ _ (stop _ hback) h
    · split at h
      · exact key _ _ _ (unit _ _ 2 rfl) h
      · exact key _ _ _ (unit _ _ 1 rfl) h
  rw [if_neg h13] at h
  by_cases h32 : byteAt s.buffer s.yyCursor = 32
  · rw [if_pos h32] at h
    exact key _ _ _ (unit _ _ 1 rfl) h
  rw [if_neg h32] at h
  by_cases h9 : byteAt s.buffer s.yyCursor = 9
  · rw [if_pos h9] at h
    exact key _ _ _ (unit _ _ 1 rfl) h
  rw [if_neg h9] at h
  by_cases h11 : byteAt s.buffer s.yyCursor = 11
  · rw [if_pos h11] at h
    exact key _ _ _ (unit _ _ 1 rfl) h
  rw [if_neg h11] at h
  by_cases h12 : byteAt s.buffer s.yyCursor = 12
  · rw [if_pos h12] at h
    exact key _ _ _ (unit _ _ 1 rfl) h
  rw [if_neg h12] at h
  by_cases h47 : byteAt s.buffer s.yyCursor = 47
  · rw [if_pos h47] at h
    split at h
    · exact key _ _ _ (stop _ hback) h
    · split at h
      · exact key _ _ _ (piece _ _) h
      · split at h
        · exact key _ _ _ (piece _ _) h
        · exact key _ _ _ (stop _ hback) h
  rw [if_neg h47] at h
  by_cases h35 : byteAt s.buffer s.yyCursor = 35
  · rw [if_pos h35] at h
    split at h
    · exact key _ _ _ (piece _ _) h
    · exact key _ _ _ (stop _ hback) h
  rw [if_neg h35] at h
  by_cases h0 : byteAt s.buffer s.yyCursor = 0
  · rw [if_pos h0] at h
    split at h
    · exact key _ _ _ (piece _ _) h
    · exact key _ _ _ (stop _ hback) h
    · exact key _ _ _ (stop _ hback) h
  rw [if_neg h0] at h
  split at h
  · exact key _ _ _ (stop _ hback) h
  · split at h
    · exact key _ _ _ (stop _ hback) h
    · split at h
      · exact key _ _ _ (stop _ hback) h
      · split at h
        · cases h
        · split at h
          · exact key _ _ _ (stop _ (Nat.add_sub_cancel _ _)) h
          · exact key _ _ _ (piece _ _) h

theorem lexTriviaLoop_length (E : Externs) (hE : E.Progress) (trailing : Bool) :
    ∀ (fuel : Nat) (s : Lexer) (trivia : List ParsedTriviaPiece) (t : Lexer)
      (tr : List ParsedTriviaPiece),
      s.bufferEnd = s.buffer.length → s.yyCursor ≤ s.bufferEnd →
      lexTriviaLoop E trailing fuel s trivia = some (t, tr) →
      s.yyCursor ≤ t.yyCursor ∧
        triviaLength tr = triviaLength trivia + (t.yyCursor - s.yyCursor) := by
  intro fuel
  induction fuel with
  | zero => intro s trivia t tr _ _ h; simp [lexTriviaLoop] at h
  | succ fuel ih =>
    intro s trivia t tr hlen hcur h
    obtain ⟨s1, tr1, again, hr, hf, hle, hag, hst⟩ :=
      lexTriviaRound_spec E hE trailing s trivia hlen hcur
    have hsum := lexTriviaRound_length E trailing s trivia s1 tr1 again hr
    unfold lexTriviaLoop at h
    rw [hr] at h
    cases again with
    | false =>
      dsimp only at h
      injection h with h
      injection h with ha hb
      subst ha hb
      exact ⟨by rw [hst rfl], hsum⟩
    | true =>
      dsimp only at h
      have hlt := hag rfl
      have hb := hf.bufferEnd
      have hbuf := hf.buffer
      obtain ⟨h3, h4⟩ :=
        ih s1 tr1 t tr (by rw [hb, hbuf]; exact hlen) (by rw [hb]; exact hle) h
      exact ⟨by omega, by rw [h4, hsum]; omega⟩

/-- C33: for every buffer, every cursor inside it, every trivia list and both
modes (leading and trailing), `lexTrivia` returns; the cursor has not moved
back, and the summed lengths of the trivia list have grown by exactly the
number of bytes the cursor advanced, so the pieces added account for the bytes
from the old cursor up to, and excluding, the byte at the new cursor.  On a byte
that starts a token it returns at once: the cursor stays on that byte and the
trivia list is unchanged. -/
theorem lexTrivia_length_sum (E : Externs) (hE : E.Progress) (trailing : Bool) (s : Lexer)
    (trivia : List ParsedTriviaPiece) (hlen : s.bufferEnd = s.buffer.length)
    (hcur : s.yyCursor ≤ s.bufferEnd) :
    ∃ t tr, lexTrivia E trivia trailing s = some (t, tr) ∧
      s.yyCursor ≤ t.yyCursor ∧ t.yyCursor ≤ s.bufferEnd ∧
      triviaLength tr = triviaLength trivia + (t.yyCursor - s.yyCursor) ∧
      (isTokenStartByte (byteAt s.buffer s.yyCursor) = true → t = s ∧ tr = trivia) := by
  obtain ⟨t, tr, ht, _, h1, h2⟩ := lexTrivia_spec E hE trailing s trivia hlen hcur
  have h3 := lexTriviaLoop_length E hE trailing _ s trivia t tr hlen hcur ht
  refine ⟨t, tr, ht, h1, h2, h3.2, fun hb => ?_⟩
  have h4 := lexTrivia_stop E trailing s trivia hcur (Or.inl hb)
  rw [h4] at ht
  injection ht with ht
  injection ht with ha hb
  exact ⟨ha.symm, hb.symm⟩

/-- The leading trivia of the buffer space, space, newline, tab, `x`: three
pieces of lengths 2, 1 and 1, the cursor on `x` at offset 4. -/
theorem lexTrivia_length_sum_witness :
    (∃ t tr, lexTrivia plainExterns [] false
        (scanState [32, 32, 10, 9, 120] 0 0 TokenKindType.T_UNKNOWN_MARK false
          TriviaRetentionMode.WithTrivia) = some (t, tr) ∧
      triviaLength tr = triviaLength [] + (t.yyCursor - 0)) ∧
    (lexTrivia plainExterns [] false
        (scanState [32, 32, 10, 9, 120] 0 0 TokenKindType.T_UNKNOWN_MARK false
          TriviaRetentionMode.WithTrivia)).map (fun r => (r.1.yyCursor, triviaLength r.2)) =
      some (4, 4) := by
  obtain ⟨t, tr, ht, _, _, h3, _⟩ :=
    lexTrivia_length_sum plainExterns plainExterns_progress false
      (scanState [32, 32, 10, 9, 120] 0 0 TokenKindType.T_UNKNOWN_MARK false
        TriviaRetentionMode.WithTrivia) [] rfl (by decide)
  exact ⟨⟨t, tr, ht, h3⟩, by decide⟩

/-! ### What the heredoc header routine leaves behind -/

theorem resultHas_ite {P : Lexer → Prop} {c : Prop} [Decidable c] {a b : Option Lexer}
    (ha : c → ResultHas P a) (hb : ¬ c → ResultHas P b) : ResultHas P (if c then a else b) := by
  split
  · rename_i h
    exact ha h
  · rename_i h
    exact hb h

theorem resultHas_map {P : Lexer → Prop} {o : Option Lexer} (f : Lexer → Lexer)
    (h : ResultHas (fun x => P (f x)) o) : ResultHas P (o.map f) := by
  intro t ht
  simp only [Option.map_eq_some'] at ht
  obtain ⟨x, hx, rfl⟩ := ht
  exact h x hx

theorem resultHas_formToken {P : Lexer → Prop} (E : Externs) (kind : TokenKindType)
    (tokenStart : Nat) (x : Lexer)
    (h : ∀ c a tr, (x.triviaRetention = TriviaRetentionMode.WithoutTrivia → c = x.yyCursor) →
      P (formedLexer kind tokenStart x c a tr)) :
    ResultHas P (formToken E kind tokenStart x) := by
  intro t ht
  unfold formToken at ht
  dsimp only at ht
  split at ht
  · rename_i hw
    simp only [Option.map_eq_some'] at ht
    obtain ⟨⟨u, y⟩, hu, ht⟩ := ht
    obtain ⟨⟨c, a, hf⟩, _⟩ := lexTriviaLoop_growth E true _ x x.trailingTrivia u y hu
    rw [← ht]
    dsimp only
    subst hf
    exact h c a y (fun hn => by rw [hn] at hw; cases hw)
  · injection ht with ht
    rw [← ht]
    exact h x.yyCursor x.nextToken.atStartOfLine x.trailingTrivia (fun _ => rfl)

theorem scanAheadLoop_field {α : Type} (f : Lexer → α) (lexFn : Lexer → Option Lexer)
    (hfn : ∀ a b, lexFn a = some b → f b = f a)
    (hclear : ∀ a, f (clearExceptionFlag a) = f a) :
    ∀ (fuel level : Nat) (first : TokenKindType) (s : Lexer) (r : Lexer × TokenKindType),
      scanAheadLoop lexFn fuel level first s = some r → f r.1 = f s := by
  intro fuel
  induction fuel with
  | zero => intro level first s r h; simp [scanAheadLoop] at h
  | succ fuel ih =>
    intro level first s r h
    unfold scanAheadLoop at h
    split at h
    · cases hl : lexFn s with
      | none => rw [hl] at h; cases h
      | some s1 =>
        rw [hl] at h
        dsimp only at h
        have h1 := hfn s s1 hl
        split at h
        · injection h with h
          rw [← h, ← h1]
          exact hclear s1
        · split at h
          · exact (ih _ _ _ _ h).trans h1
          · exact (ih _ _ _ _ h).trans h1
          · exact (ih _ _ _ _ h).trans h1
          · exact (ih _ _ _ _ h).trans h1
    · injection h with h
      rw [← h]

theorem restoreYYState_fields (z y : Lexer) (snap : LexerState) (rest : List LexerState)
    (hz : z.yyStateStack = snap :: rest) (h : restoreYYState z = some y) :
    y.flags = snap.lexerFlags ∧ y.yyCursor = snap.yyCursor ∧
      y.heredocLabelStack = snap.heredocLabelStack ∧
      y.yyConditionStack = snap.conditionStack ∧ y.yyStateStack = rest ∧
      y.triviaRetention = z.triviaRetention ∧ y.bufferEnd = snap.bufferEnd ∧
      y.buffer = z.buffer := by
  unfold restoreYYState at h
  rw [hz] at h
  injection h with h
  rw [← h]
  exact ⟨rfl, rfl, rfl, rfl, rfl, rfl, rfl, rfl⟩

theorem ite_some_cond {c : Prop} [Decidable c] {a : Option Lexer} {b x : Lexer}
    (h : (if c then a else some b) = some x) : (c ∧ a = some x) ∨ (¬ c ∧ x = b) := by
  split at h
  · rename_i hc
    exact Or.inl ⟨hc, h⟩
  · rename_i hc
    injection h with h
    exact Or.inr ⟨hc, h.symm⟩

theorem lexHeredocHeader_frame (E : Externs) (lexFn : Lexer → Option Lexer)
    (hfn : ∀ a b, lexFn a = some b →
      b.yyStateStack = a.yyStateStack ∧ b.triviaRetention = a.triviaRetention) (s : Lexer) :
    ResultHas (HeaderFrame s) (lexHeredocHeader E lexFn s) := by
  have c1 : ∀ b : Bool, (if b = true then setLexingBinaryStrFlag true s else s).yyCursor =
      s.yyCursor := by intro b; split <;> rfl
  have c2 : ∀ b : Bool, (if b = true then setLexingBinaryStrFlag true s else s).buffer =
      s.buffer := by intro b; split <;> rfl
  have c3 : ∀ b : Bool, (if b = true then setLexingBinaryStrFlag true s else s).labelHeap =
      s.labelHeap := by intro b; split <;> rfl
  have c4 : ∀ b : Bool,
      (if b = true then setLexingBinaryStrFlag true s else s).heredocLabelStack =
        s.heredocLabelStack := by intro b; split <;> rfl
  have c5 : ∀ b : Bool,
      (if b = true then setLexingBinaryStrFlag true s else s).yyConditionStack =
        s.yyConditionStack := by intro b; split <;> rfl
  have c6 : ∀ b : Bool, (if b = true then setLexingBinaryStrFlag true s else s).yyStateStack =
      s.yyStateStack := by intro b; split <;> rfl
  have c7 : ∀ b : Bool,
      (if b = true then setLexingBinaryStrFlag true s else s).flags.heredocScanAhead =
        s.flags.heredocScanAhead := by intro b; split <;> rfl
  have c8 : ∀ b : Bool,
      (if b = true then setLexingBinaryStrFlag true s else s).flags.reserveHeredocSpaces =
        s.flags.reserveHeredocSpaces := by intro b; split <;> rfl
  have c9 : ∀ b : Bool, (if b = true then setLexingBinaryStrFlag true s else s).triviaRetention =
      s.triviaRetention := by intro b; split <;> rfl
  have n4 : ∀ (c : Prop) [Decidable c] (m : String) (x : Lexer),
      (if c then notifyLexicalException m 0 x else x).heredocLabelStack =
        x.heredocLabelStack := by intro c _ m x; split <;> rfl
  have n5 : ∀ (c : Prop) [Decidable c] (m : String) (x : Lexer),
      (if c then notifyLexicalException m 0 x else x).yyConditionStack =
        x.yyConditionStack := by intro c _ m x; split <;> rfl
  have n6 : ∀ (c : Prop) [Decidable c] (m : String) (x : Lexer),
      (if c then notifyLexicalException m 0 x else x).yyStateStack =
        x.yyStateStack := by intro c _ m x; split <;> rfl
  have n7 : ∀ (c : Prop) [Decidable c] (m : String) (x : Lexer),
      (if c then notifyLexicalException m 0 x else x).flags.heredocScanAhead =
        x.flags.heredocScanAhead := by intro c _ m x; split <;> rfl
  have n9 : ∀ (c : Prop) [Decidable c] (m : String) (x : Lexer),
      (if c then notifyLexicalException m 0 x else x).triviaRetention =
        x.triviaRetention := by intro c _ m x; split <;> rfl
  unfold lexHeredocHeader
  dsimp only
  refine resultHas_ite (fun hc => ?_) (fun hc => resultHas_ite (fun hm => ?_) (fun hm => ?_))
  · refine resultHas_formToken E _ _ _ (fun c a tr hcur => ?_)
    dsimp only [setYYCursor, pushHeredocLabel, incLineNumber] at hc hcur
    rw [c1, c2] at hc
    rw [c9, c1] at hcur
    refine ⟨?_, ?_, ?_, ?_, hcur, fun hne => absurd hc hne, fun _ => ?_⟩
    · dsimp only [formedLexer, setToken, setYYCursor, pushHeredocLabel, incLineNumber]
      rw [c3, c4]
    · dsimp only [formedLexer, setToken, setYYCursor, pushHeredocLabel, incLineNumber]
      rw [c5]
    · dsimp only [formedLexer, setToken, setYYCursor, pushHeredocLabel, incLineNumber]
      rw [c7]
    · dsimp only [formedLexer, setToken, setYYCursor, pushHeredocLabel, incLineNumber]
      rw [c6]
    · dsimp only [formedLexer, setToken, setYYCursor, pushHeredocLabel, incLineNumber]
      rw [c8]
  · refine resultHas_formToken E _ _ _ (fun c a tr hcur => ?_)
    dsimp only [setYYCursor, pushHeredocLabel, incLineNumber] at hc
    rw [c1, c2] at hc
    dsimp only [setYYCursor, pushHeredocLabel, incLineNumber, updateLabel] at hcur
    rw [n9] at hcur
    dsimp only [setYYCursor, pushHeredocLabel, incLineNumber, updateLabel] at hcur
    rw [c9, c1] at hcur
    refine ⟨?_, ?_, ?_, ?_, hcur, fun _ => rfl, fun he => absurd he hc⟩
    · dsimp only [formedLexer, setToken, setYYCursor, pushHeredocLabel, incLineNumber,
        updateLabel]
      rw [n4]
      dsimp only
      rw [c3, c4]
    · dsimp only [formedLexer, setToken, setYYCursor, pushHeredocLabel, incLineNumber,
        updateLabel]
      rw [n5]
      dsimp only
      rw [c5]
    · dsimp only [formedLexer, setToken, setYYCursor, pushHeredocLabel, incLineNumber,
        updateLabel]
      rw [n7]
      dsimp only
      rw [c7]
    · dsimp only [formedLexer, setToken, setYYCursor, pushHeredocLabel, incLineNumber,
        updateLabel]
      rw [n6]
      dsimp only
      rw [c6]
  · dsimp only [setYYCursor, pushHeredocLabel, incLineNumber] at hc
    rw [c1, c2] at hc
    split
    · intro t ht
      cases ht
    · rename_i x heq
      refine resultHas_map _ (resultHas_formToken E _ _ _ (fun c a tr hcur => ?_))
      rcases ite_some_cond heq with ⟨hcond, heq⟩ | ⟨hcond, heq⟩
      · generalize hloop : scanAheadLoop lexFn _ _ _ _ = r at heq
        rcases r with _ | ⟨s2, ft⟩
        · cases heq
        · simp only [Option.map_eq_some'] at heq
          obtain ⟨y, hy, rfl⟩ := heq
          have hst : s2.yyStateStack = _ :=
            scanAheadLoop_field (fun z => z.yyStateStack) lexFn (fun a b h => (hfn a b h).1)
              (fun _ => rfl) _ _ _ _ _ hloop
          have htr : s2.triviaRetention = _ :=
            scanAheadLoop_field (fun z => z.triviaRetention) lexFn (fun a b h => (hfn a b h).2)
              (fun _ => rfl) _ _ _ _ _ hloop
          have hz : ∀ (c : Prop) [Decidable c] (m : String) (p : Nat)
              (f : HereDocLabel → HereDocLabel),
              (updateLabel p f (if c then notifyLexicalException m 0 s2 else s2)).yyStateStack =
                s2.yyStateStack := by
            intro c _ m p f
            split <;> rfl
          have hzt : ∀ (c : Prop) [Decidable c] (m : String) (p : Nat)
              (f : HereDocLabel → HereDocLabel),
              (updateLabel p f
                (if c then notifyLexicalException m 0 s2 else s2)).triviaRetention =
                s2.triviaRetention := by
            intro c _ m p f
            split <;> rfl
          obtain ⟨f1, f2, f3, f4, f5, f6, _, _⟩ :=
            restoreYYState_fields _ y _ _ ((hz _ _ _ _).trans hst) hy
          rw [hzt, htr] at f6
          dsimp only [saveYYState, setYYCursor, pushHeredocLabel, incLineNumber] at f1 f2 f3 f4 f5 f6 hcond
          rw [c7] at hcond
          rw [c3, c4] at f3
          rw [c5] at f4
          rw [c6] at f5
          rw [c9] at f6
          rw [c1] at f2
          have hsa : s.flags.heredocScanAhead = false := by
            cases hq : s.flags.heredocScanAhead with
            | false => rfl
            | true =>
              rw [hq] at hcond
              simp at hcond
          dsimp only at hcur
          rw [f6, f2] at hcur
          refine ⟨f3, f4, hsa.symm, f5, hcur, fun _ => rfl, fun he => absurd he hc⟩
      · subst heq
        dsimp only [setYYCursor, pushHeredocLabel, incLineNumber] at hcur
        rw [c9, c1] at hcur
        refine ⟨?_, ?_, ?_, ?_, hcur, fun _ => rfl, fun he => absurd he hc⟩
        · dsimp only [formedLexer, setToken, setYYCursor, pushHeredocLabel, incLineNumber]
          rw [c3, c4]
        · dsimp only [formedLexer, setToken, setYYCursor, pushHeredocLabel, incLineNumber]
          rw [c5]
        · dsimp only [formedLexer, setToken, setYYCursor, pushHeredocLabel, incLineNumber]
          rw [c7]
        · dsimp only [formedLexer, setToken, setYYCursor, pushHeredocLabel, incLineNumber]
          rw [c6]

theorem scanAheadLoop_returns (lexFn : Lexer → Option Lexer) (remaining : Lexer → Nat)
    (hfn : ScanAheadLex lexFn remaining) :
    ∀ (fuel level : Nat) (first : TokenKindType) (s : Lexer), remaining s + 2 ≤ fuel →
      ∃ r, scanAheadLoop lexFn fuel level first s = some r := by
  have hzero : ∀ (fuel : Nat) (first : TokenKindType) (s : Lexer), 1 ≤ fuel →
      ∃ r, scanAheadLoop lexFn fuel 0 first s = some r := by
    intro fuel first s hf
    obtain ⟨k, rfl⟩ : ∃ k, fuel = k + 1 := ⟨fuel - 1, by omega⟩
    unfold scanAheadLoop
    rw [if_neg (by omega)]
    exact ⟨_, rfl⟩
  intro fuel
  induction fuel with
  | zero => intro level first s h; omega
  | succ fuel ih =>
    intro level first s hf
    unfold scanAheadLoop
    split
    · obtain ⟨b, hb, hcase⟩ := hfn.returns s
      rw [hb]
      dsimp only
      split
      · exact ⟨_, rfl⟩
      · rename_i hne
        have hstep : b.nextToken.kind = TokenKindType.END ∨ remaining b + 2 ≤ fuel := by
          rcases hcase with h | h | h
          · exact absurd h hne
          · exact Or.inl h
          · exact Or.inr (by omega)
        split
        · rename_i hk
          rcases hstep with h | h
          · rw [hk] at h
            cases h
          · exact ih _ _ _ h
        · rename_i hk
          rcases hstep with h | h
          · rw [hk] at h
            cases h
          · exact ih _ _ _ h
        · exact hzero _ _ _ (by omega)
        · rename_i h1 h2 h3
          rcases hstep with h | h
          · exact absurd h h3
          · exact ih _ _ _ h
    · exact ⟨_, rfl⟩

theorem scanAheadLoop_total (lexFn : Lexer → Option Lexer) (remaining : Lexer → Nat)
    (hfn : ScanAheadLex lexFn remaining) (fuel level : Nat) (first : TokenKindType) (s : Lexer)
    (hfuel : 2 * s.bufferEnd + 2 ≤ fuel) : scanAheadLoop lexFn fuel level first s ≠ none := by
  obtain ⟨r, hr⟩ := scanAheadLoop_returns lexFn remaining hfn fuel level first s
    (by have := hfn.bound s; omega)
  rw [hr]
  exact fun h => by cases h

theorem exists_ite {c : Prop} [Decidable c] {a b : Option Lexer}
    (ha : c → ∃ t, a = some t) (hb : ¬ c → ∃ t, b = some t) :
    ∃ t, (if c then a else b) = some t := by
  split
  · rename_i h
    exact ha h
  · rename_i h
    exact hb h

theorem ite_none_cond {c : Prop} [Decidable c] {a : Option Lexer} {b : Lexer}
    (h : (if c then a else some b) = none) : c ∧ a = none := by
  split at h
  · rename_i hc
    exact ⟨hc, h⟩
  · cases h

theorem lexHeredocHeader_returns (E : Externs) (hE : E.Progress) (lexFn : Lexer → Option Lexer)
    (remaining : Lexer → Nat) (hfn : ScanAheadLex lexFn remaining) (s : Lexer)
    (hlen : s.bufferEnd = s.buffer.length) (hcur : s.yyCursor ≤ s.bufferEnd) :
    ∃ t, lexHeredocHeader E lexFn s = some t := by
  have c1 : ∀ b : Bool, (if b = true then setLexingBinaryStrFlag true s else s).yyCursor =
      s.yyCursor := by intro b; split <;> rfl
  have c2 : ∀ b : Bool, (if b = true then setLexingBinaryStrFlag true s else s).buffer =
      s.buffer := by intro b; split <;> rfl
  have c3 : ∀ b : Bool, (if b = true then setLexingBinaryStrFlag true s else s).bufferEnd =
      s.bufferEnd := by intro b; split <;> rfl
  have n1 : ∀ (c : Prop) [Decidable c] (m : String) (x : Lexer),
      (if c then notifyLexicalException m 0 x else x).bufferEnd = x.bufferEnd := by
    intro c _ m x; split <;> rfl
  have n2 : ∀ (c : Prop) [Decidable c] (m : String) (x : Lexer),
      (if c then notifyLexicalException m 0 x else x).buffer = x.buffer := by
    intro c _ m x; split <;> rfl
  have n3 : ∀ (c : Prop) [Decidable c] (m : String) (x : Lexer),
      (if c then notifyLexicalException m 0 x else x).yyStateStack = x.yyStateStack := by
    intro c _ m x; split <;> rfl
  have form : ∀ (x : Lexer) (k : TokenKindType) (p : Nat), x.bufferEnd = s.bufferEnd →
      x.buffer = s.buffer → x.yyCursor = s.yyCursor → ∃ t, formToken E k p x = some t := by
    intro x k p h1 h2 h3
    obtain ⟨c, a, tr, hf, _⟩ := formToken_spec E hE k p x (by rw [h1, h2]; exact hlen)
      (by rw [h1, h3]; exact hcur)
    exact ⟨_, hf⟩
  unfold lexHeredocHeader
  dsimp only
  refine exists_ite (fun _ => ?_) (fun _ => exists_ite (fun _ => ?_) (fun _ => ?_))
  · refine form _ _ _ ?_ ?_ ?_
    · dsimp only [setYYCursor, pushHeredocLabel, incLineNumber]
      rw [c3]
    · dsimp only [setYYCursor, pushHeredocLabel, incLineNumber]
      rw [c2]
    · dsimp only [setYYCursor, pushHeredocLabel, incLineNumber]
      rw [c1]
  · refine form _ _ _ ?_ ?_ ?_
    · dsimp only [setYYCursor, pushHeredocLabel, incLineNumber, updateLabel]
      rw [n1]
      dsimp only
      rw [c3]
    · dsimp only [setYYCursor, pushHeredocLabel, incLineNumber, updateLabel]
      rw [n2]
      dsimp only
      rw [c2]
    · dsimp only [setYYCursor, pushHeredocLabel, incLineNumber, updateLabel]
      rw [c1]
  · split
    · rename_i heq
      exfalso
      obtain ⟨hcond, heq⟩ := ite_none_cond heq
      generalize hloop : scanAheadLoop lexFn _ _ _ _ = r at heq
      rcases r with _ | ⟨s2, ft⟩
      · exact scanAheadLoop_total lexFn remaining hfn _ _ _ _ (by dsimp only; omega) hloop
      · have hst : s2.yyStateStack = _ :=
          scanAheadLoop_field (fun z => z.yyStateStack) lexFn (fun a b h => (hfn.keeps a b h).1)
            (fun _ => rfl) _ _ _ _ _ hloop
        dsimp only [saveYYState] at hst
        dsimp only at heq
        simp only [Option.map_eq_none'] at heq
        unfold restoreYYState at heq
        dsimp only [updateLabel] at heq
        rw [n3, hst] at heq
        cases heq
    · rename_i x heq
      have hx : x.bufferEnd = s.bufferEnd ∧ x.buffer = s.buffer ∧ x.yyCursor = s.yyCursor := by
        rcases ite_some_cond heq with ⟨hcond, heq⟩ | ⟨hcond, heq⟩
        · generalize hloop : scanAheadLoop lexFn _ _ _ _ = r at heq
          rcases r with _ | ⟨s2, ft⟩
          · cases heq
          · simp only [Option.map_eq_some'] at heq
            obtain ⟨y, hy, rfl⟩ := heq
            have hst : s2.yyStateStack = _ :=
              scanAheadLoop_field (fun z => z.yyStateStack) lexFn
                (fun a b h => (hfn.keeps a b h).1) (fun _ => rfl) _ _ _ _ _ hloop
            have hbuf : s2.buffer = _ :=
              scanAheadLoop_field (fun z => z.buffer) lexFn hfn.buffer
                (fun _ => rfl) _ _ _ _ _ hloop
            have hz : ∀ (c : Prop) [Decidable c] (m : String) (p : Nat)
                (f : HereDocLabel → HereDocLabel),
                (updateLabel p f (if c then notifyLexicalException m 0 s2 else s2)).yyStateStack =
                  s2.yyStateStack := by
              intro c _ m p f
              split <;> rfl
            have hzb : ∀ (c : Prop) [Decidable c] (m : String) (p : Nat)
                (f : HereDocLabel → HereDocLabel),
                (updateLabel p f (if c then notifyLexicalException m 0 s2 else s2)).buffer =
                  s2.buffer := by
              intro c _ m p f
              split <;> rfl
            obtain ⟨_, f2, _, _, _, _, f7, f8⟩ :=
              restoreYYState_fields _ y _ _ ((hz _ _ _ _).trans hst) hy
            rw [hzb, hbuf] at f8
            dsimp only [saveYYState, setYYCursor, pushHeredocLabel, incLineNumber] at f2 f7 f8
            rw [c1] at f2
            rw [c3] at f7
            rw [c2] at f8
            exact ⟨f7, f8, f2⟩
        · subst heq
          dsimp only [setYYCursor, pushHeredocLabel, incLineNumber]
          rw [c1, c2, c3]
          exact ⟨rfl, rfl, rfl⟩
      obtain ⟨t, ht⟩ := form x TokenKindType.T_START_HEREDOC s.yyText hx.1 hx.2.1 hx.2.2
      rw [ht]
      exact ⟨_, rfl⟩

/-- C34 (amended): for a `lex` that returns on every call, leaves the buffer, the
snapshot stack and the trivia-retention mode alone and reaches the end of the
file or a lexical error after at most two tokens per byte, `lexHeredocHeader`
returns whatever the scan-ahead pass meets; on return the heredoc-label stack
is the one on entry with the label record allocated by the call pushed on it,
the condition stack and the snapshot stack are as on entry, and the scan-ahead
flag is as on entry: clear after a call from outside a scan-ahead pass, still
set after a call made during one. -/
theorem lexHeredocHeader_stacks (E : Externs) (hE : E.Progress) (lexFn : Lexer → Option Lexer)
    (remaining : Lexer → Nat) (hfn : ScanAheadLex lexFn remaining) (s : Lexer)
    (hlen : s.bufferEnd = s.buffer.length) (hcur : s.yyCursor ≤ s.bufferEnd) :
    ∃ t, lexHeredocHeader E lexFn s = some t ∧
      t.heredocLabelStack = s.labelHeap.length :: s.heredocLabelStack ∧
      t.yyConditionStack = s.yyConditionStack ∧
      t.flags.heredocScanAhead = s.flags.heredocScanAhead ∧
      t.yyStateStack = s.yyStateStack := by
  obtain ⟨t, ht⟩ := lexHeredocHeader_returns E hE lexFn remaining hfn s hlen hcur
  have hf := lexHeredocHeader_frame E lexFn hfn.keeps s t ht
  exact ⟨t, ht, hf.labels, hf.conditions, hf.scanAhead, hf.snapshots⟩

/-- The header `<<<A` of a heredoc with the body `x`, lexed with a `lex` that
reports the end of the file at once, so that the scan-ahead pass runs and ends
after one token: one label on the label stack, the condition stack and the
snapshot stack empty, the scan-ahead flag clear. -/
theorem lexHeredocHeader_stacks_witness :
    ∃ t, lexHeredocHeader plainExterns
        (fun a => some { a with nextToken := { a.nextToken with kind := TokenKindType.END } })
        (scanState [60, 60, 60, 65, 10, 120, 10, 65, 10] 0 5 TokenKindType.T_UNKNOWN_MARK false
          TriviaRetentionMode.WithTrivia) = some t ∧
      t.heredocLabelStack = [0] ∧ t.yyConditionStack = [] ∧
      t.flags.heredocScanAhead = false ∧ t.yyStateStack = [] := by
  obtain ⟨t, ht, h1, h2, h3, h4⟩ :=
    lexHeredocHeader_stacks plainExterns plainExterns_progress
      (fun a => some { a with nextToken := { a.nextToken with kind := TokenKindType.END } })
      (fun _ => 0)
      ⟨fun a b h => by injection h with h; subst h; exact ⟨rfl, rfl⟩,
        fun a b h => by injection h with h; subst h; rfl,
        fun a => ⟨_, rfl, Or.inr (Or.inl rfl)⟩, fun a => Nat.zero_le _⟩
      (scanState [60, 60, 60, 65, 10, 120, 10, 65, 10] 0 5 TokenKindType.T_UNKNOWN_MARK false
        TriviaRetentionMode.WithTrivia) rfl (by decide)
  exact ⟨t, ht, h1, h2, h3, h4⟩

/-- C34, the claim as stated fails: the header `<<<B` of a heredoc met during a
scan-ahead pass, that is, entered with the scan-ahead flag set, starts no
scan-ahead pass of its own and returns with the flag still set. -/
theorem lexHeredocHeader_stacks_counterexample :
    (lexHeredocHeader plainExterns (fun _ => none)
        { scanState [60, 60, 60, 66, 10, 120, 10, 66, 10] 0 5 TokenKindType.T_UNKNOWN_MARK false
            TriviaRetentionMode.WithoutTrivia with flags := { heredocScanAhead := true } }).map
      (fun t => (t.nextToken.kind, t.heredocLabelStack, t.flags.heredocScanAhead)) =
      some (TokenKindType.T_START_HEREDOC, [0], true) := by
  decide

/-! ### The blanks kept for the indentation of a closing line -/

set_option maxRecDepth 100000 in
theorem trailingBytes_cases : ∀ b, b < 256 →
    (b < 0xC0 → sg_trailingBytesForUTF8.getD b 0 = 0) ∧
    (0xC0 ≤ b → b < 0xE0 → sg_trailingBytesForUTF8.getD b 0 = 1) ∧
    (0xE0 ≤ b → b < 0xF0 → sg_trailingBytesForUTF8.getD b 0 = 2) ∧
    (0xF0 ≤ b → b < 0xF8 → sg_trailingBytesForUTF8.getD b 0 = 3) ∧
    (0xF8 ≤ b → b < 0xFC → sg_trailingBytesForUTF8.getD b 0 = 4) ∧
    (0xFC ≤ b → sg_trailingBytesForUTF8.getD b 0 = 5) := by
  decide

theorem is_legal_utf8_one (buf : List Nat) (source : Nat) :
    is_legal_utf8 buf source 1 = true ↔
      (byteAt buf source < 0x80 ∨ (0xC2 ≤ byteAt buf source ∧ byteAt buf source ≤ 0xF4)) := by
  generalize hb1 : byteAt buf source = b1
  simp only [is_legal_utf8, hb1]
  split_ifs <;> simp <;> omega

theorem is_legal_utf8_two (buf : List Nat) (source : Nat) :
    is_legal_utf8 buf source 2 = true ↔
      (0x80 ≤ byteAt buf (source + 1) ∧ byteAt buf (source + 1) ≤ 0xBF ∧
        (byteAt buf source = 0xE0 → 0xA0 ≤ byteAt buf (source + 1)) ∧
        (byteAt buf source = 0xED → byteAt buf (source + 1) ≤ 0x9F) ∧
        (byteAt buf source = 0xF0 → 0x90 ≤ byteAt buf (source + 1)) ∧
        (byteAt buf source = 0xF4 → byteAt buf (source + 1) ≤ 0x8F) ∧
        (byteAt buf source < 0x80 ∨ (0xC2 ≤ byteAt buf source ∧ byteAt buf source ≤ 0xF4))) := by
  generalize hb1 : byteAt buf source = b1
  generalize hb2 : byteAt buf (source + 1) = b2
  simp only [is_legal_utf8, hb1, hb2]
  split_ifs <;> simp <;> omega

theorem is_legal_utf8_three (buf : List Nat) (source : Nat) :
    is_legal_utf8 buf source 3 = true ↔
      (0x80 ≤ byteAt buf (source + 2) ∧ byteAt buf (source + 2) ≤ 0xBF ∧
        is_legal_utf8 buf source 2 = true) := by
  have h : is_legal_utf8 buf source 3 =
      (if byteAt buf (source + 2) < 0x80 ∨ byteAt buf (source + 2) > 0xBF then false
        else is_legal_utf8 buf source 2) := rfl
  rw [h]
  split_ifs with hc
  · constructor
    · intro hf
      cases hf
    · intro hf
      omega
  · constructor
    · intro hf
      exact ⟨by omega, by omega, hf⟩
    · intro hf
      exact hf.2.2

theorem is_legal_utf8_four (buf : List Nat) (source : Nat) :
    is_legal_utf8 buf source 4 = true ↔
      (0x80 ≤ byteAt buf (source + 3) ∧ byteAt buf (source + 3) ≤ 0xBF ∧
        is_legal_utf8 buf source 3 = true) := by
  have h : is_legal_utf8 buf source 4 =
      (if byteAt buf (source + 3) < 0x80 ∨ byteAt buf (source + 3) > 0xBF then false
        else is_legal_utf8 buf source 3) := rfl
  rw [h]
  split_ifs with hc
  · constructor
    · intro hf
      cases hf
    · intro hf
      omega
  · constructor
    · intro hf
      exact ⟨by omega, by omega, hf⟩
    · intro hf
      exact hf.2.2

theorem is_legal_utf8_long (buf : List Nat) (source n : Nat) (h : 4 < n) :
    is_legal_utf8 buf source n = false := by
  obtain ⟨k, rfl⟩ : ∃ k, n = k + 5 := ⟨n - 5, by omega⟩
  rfl

theorem is_legal_utf8_sequence_iff (buf : List Nat) (source sourceEnd e : Nat)
    (he : sg_trailingBytesForUTF8.getD (byteAt buf source) 0 = e) :
    is_legal_utf8_sequence buf source sourceEnd = true ↔
      (source + e + 1 ≤ sourceEnd ∧ is_legal_utf8 buf source (e + 1) = true) := by
  unfold is_legal_utf8_sequence
  dsimp only
  rw [he]
  split_ifs with hl
  · constructor
    · intro hf
      cases hf
    · intro hf
      omega
  · constructor
    · intro hf
      exact ⟨by omega, hf⟩
    · intro hf
      exact hf.2

theorem legal_sequence_one (buf : List Nat) (source sourceEnd : Nat)
    (hb : byteAt buf source < 256) (h : byteAt buf source < 0xC0) :
    is_legal_utf8_sequence buf source sourceEnd = startsWellFormedUtf8 buf source sourceEnd := by
  have te := (trailingBytes_cases _ hb).1 h
  rw [Bool.eq_iff_iff, is_legal_utf8_sequence_iff buf source sourceEnd 0 te, is_legal_utf8_one]
  unfold startsWellFormedUtf8
  dsimp only
  clear te
  generalize byteAt buf source = b1 at *
  generalize byteAt buf (source + 1) = b2 at *
  generalize byteAt buf (source + 2) = b3 at *
  generalize byteAt buf (source + 3) = b4 at *
  rcases (show b1 ≤ 0x7F ∨ 0x80 ≤ b1 by omega) with hr | hr
  all_goals
    simp (disch := omega) only [if_pos, if_neg, Bool.and_eq_true, decide_eq_true_eq,
      Bool.false_eq_true, iff_false, and_false, not_false_eq_true]
    omega

theorem legal_sequence_two (buf : List Nat) (source sourceEnd : Nat)
    (hb : byteAt buf source < 256) (h : 0xC0 ≤ byteAt buf source) (h2 : byteAt buf source < 0xE0) :
    is_legal_utf8_sequence buf source sourceEnd = startsWellFormedUtf8 buf source sourceEnd := by
  have te := (trailingBytes_cases _ hb).2.1 h h2
  rw [Bool.eq_iff_iff, is_legal_utf8_sequence_iff buf source sourceEnd 1 te, is_legal_utf8_two]
  unfold startsWellFormedUtf8
  dsimp only
  clear te
  generalize byteAt buf source = b1 at *
  generalize byteAt buf (source + 1) = b2 at *
  generalize byteAt buf (source + 2) = b3 at *
  generalize byteAt buf (source + 3) = b4 at *
  rcases (show b1 ≤ 0xC1 ∨ 0xC2 ≤ b1 by omega) with hr | hr
  all_goals
    simp (disch := omega) only [if_pos, if_neg, Bool.and_eq_true, decide_eq_true_eq,
      Bool.false_eq_true, iff_false, and_false, not_false_eq_true]
    omega

theorem legal_sequence_three (buf : List Nat) (source sourceEnd : Nat)
    (hb : byteAt buf source < 256) (h : 0xE0 ≤ byteAt buf source) (h2 : byteAt buf source < 0xF0) :
    is_legal_utf8_sequence buf source sourceEnd = startsWellFormedUtf8 buf source sourceEnd := by
  have te := (trailingBytes_cases _ hb).2.2.1 h h2
  rw [Bool.eq_iff_iff, is_legal_utf8_sequence_iff buf source sourceEnd 2 te, is_legal_utf8_three,
    is_legal_utf8_two]
  unfold startsWellFormedUtf8
  dsimp only
  clear te
  generalize byteAt buf source = b1 at *
  generalize byteAt buf (source + 1) = b2 at *
  generalize byteAt buf (source + 2) = b3 at *
  generalize byteAt buf (source + 3) = b4 at *
  rcases (show (b1 = 0xE0 ∨ b1 = 0xED) ∨ ((0xE1 ≤ b1 ∧ b1 ≤ 0xEC) ∨ 0xEE ≤ b1) by omega) with
    (hr | hr) | (hr | hr)
  all_goals
    simp (disch := omega) only [if_pos, if_neg, Bool.and_eq_true, decide_eq_true_eq,
      Bool.false_eq_true, iff_false, and_false, not_false_eq_true]
    omega

theorem legal_sequence_four (buf : List Nat) (source sourceEnd : Nat)
    (hb : byteAt buf source < 256) (h : 0xF0 ≤ byteAt buf source) (h2 : byteAt buf source < 0xF8) :
    is_legal_utf8_sequence buf source sourceEnd = startsWellFormedUtf8 buf source sourceEnd := by
  have te := (trailingBytes_cases _ hb).2.2.2.1 h h2
  rw [Bool.eq_iff_iff, is_legal_utf8_sequence_iff buf source sourceEnd 3 te, is_legal_utf8_four,
    is_legal_utf8_three, is_legal_utf8_two]
  unfold startsWellFormedUtf8
  dsimp only
  clear te
  generalize byteAt buf source = b1 at *
  generalize byteAt buf (source + 1) = b2 at *
  generalize byteAt buf (source + 2) = b3 at *
  generalize byteAt buf (source + 3) = b4 at *
  rcases (show (b1 = 0xF0 ∨ b1 = 0xF4) ∨ ((0xF1 ≤ b1 ∧ b1 ≤ 0xF3) ∨ 0xF5 ≤ b1) by omega) with
    (hr | hr) | (hr | hr)
  all_goals
    simp (disch := omega) only [if_pos, if_neg, Bool.and_eq_true, decide_eq_true_eq,
      Bool.false_eq_true, iff_false, and_false, not_false_eq_true]
    omega

theorem legal_sequence_five (buf : List Nat) (source sourceEnd : Nat)
    (hb : byteAt buf source < 256) (h : 0xF8 ≤ byteAt buf source) (h2 : byteAt buf source < 0xFC) :
    is_legal_utf8_sequence buf source sourceEnd = startsWellFormedUtf8 buf source sourceEnd := by
  have te := (trailingBytes_cases _ hb).2.2.2.2.1 h h2
  rw [Bool.eq_iff_iff, is_legal_utf8_sequence_iff buf source sourceEnd 4 te,
    is_legal_utf8_long buf source (4 + 1) (by omega)]
  unfold startsWellFormedUtf8
  dsimp only
  clear te
  generalize byteAt buf source = b1 at *
  generalize byteAt buf (source + 1) = b2 at *
  generalize byteAt buf (source + 2) = b3 at *
  generalize byteAt buf (source + 3) = b4 at *
  rcases (show b1 ≤ 0xF9 ∨ 0xFA ≤ b1 by omega) with hr | hr
  all_goals
    simp (disch := omega) only [if_pos, if_neg, Bool.and_eq_true, decide_eq_true_eq,
      Bool.false_eq_true, iff_false, and_false, not_false_eq_true]

theorem legal_sequence_six (buf : List Nat) (source sourceEnd : Nat)
    (hb : byteAt buf source < 256) (h : 0xFC ≤ byteAt buf source) :
    is_legal_utf8_sequence buf source sourceEnd = startsWellFormedUtf8 buf source sourceEnd := by
  have te := (trailingBytes_cases _ hb).2.2.2.2.2 h
  rw [Bool.eq_iff_iff, is_legal_utf8_sequence_iff buf source sourceEnd 5 te,
    is_legal_utf8_long buf source (5 + 1) (by omega)]
  unfold startsWellFormedUtf8
  dsimp only
  clear te
  generalize byteAt buf source = b1 at *
  generalize byteAt buf (source + 1) = b2 at *
  generalize byteAt buf (source + 2) = b3 at *
  generalize byteAt buf (source + 3) = b4 at *
  rcases (show b1 ≤ 0xFD ∨ 0xFE ≤ b1 by omega) with hr | hr
  all_goals
    simp (disch := omega) only [if_pos, if_neg, Bool.and_eq_true, decide_eq_true_eq,
      Bool.false_eq_true, iff_false, and_false, not_false_eq_true]

theorem is_legal_utf8_sequence_table (buf : List Nat) (source sourceEnd : Nat)
    (hb : byteAt buf source < 256) :
    is_legal_utf8_sequence buf source sourceEnd = startsWellFormedUtf8 buf source sourceEnd := by
  have hcases : byteAt buf source < 0xC0 ∨ (0xC0 ≤ byteAt buf source ∧ byteAt buf source < 0xE0) ∨
      (0xE0 ≤ byteAt buf source ∧ byteAt buf source < 0xF0) ∨
      (0xF0 ≤ byteAt buf source ∧ byteAt buf source < 0xF8) ∨
      (0xF8 ≤ byteAt buf source ∧ byteAt buf source < 0xFC) ∨ 0xFC ≤ byteAt buf source := by
    omega
  rcases hcases with h | h | h | h | h | h
  · exact legal_sequence_one buf source sourceEnd hb h
  · exact legal_sequence_two buf source sourceEnd hb h.1 h.2
  · exact legal_sequence_three buf source sourceEnd hb h.1 h.2
  · exact legal_sequence_four buf source sourceEnd hb h.1 h.2
  · exact legal_sequence_five buf source sourceEnd hb h.1 h.2
  · exact legal_sequence_six buf source sourceEnd hb h

/-- C37: for every non-empty range of bytes, `is_legal_utf8_sequence` returns
true if and only if the range starts with a well-formed UTF-8 byte sequence of
Unicode Table 3-7: the row the first byte selects fits in the range and the other
bytes lie in the ranges of the row.  In particular it returns false when the
first byte is `C0`, `C1` or `F5..FF`, when `E0` is followed by `80..9F`, `F0` by
`80..8F`, `ED` by `A0..BF` or `F4` by `90..BF`, and when a byte after the first
is not in `80..BF`. -/
theorem is_legal_utf8_sequence_well_formed (buf : List Nat) (source sourceEnd : Nat)
    (hb : byteAt buf source < 256) :
    is_legal_utf8_sequence buf source sourceEnd = startsWellFormedUtf8 buf source sourceEnd ∧
    (byteAt buf source = 0xC0 ∨ byteAt buf source = 0xC1 ∨ 0xF5 ≤ byteAt buf source →
      is_legal_utf8_sequence buf source sourceEnd = false) ∧
    (byteAt buf source = 0xE0 ∧ byteAt buf (source + 1) ≤ 0x9F →
      is_legal_utf8_sequence buf source sourceEnd = false) ∧
    (byteAt buf source = 0xF0 ∧ byteAt buf (source + 1) ≤ 0x8F →
      is_legal_utf8_sequence buf source sourceEnd = false) ∧
    (byteAt buf source = 0xED ∧ 0xA0 ≤ byteAt buf (source + 1) →
      is_legal_utf8_sequence buf source sourceEnd = false) ∧
    (byteAt buf source = 0xF4 ∧ 0x90 ≤ byteAt buf (source + 1) →
      is_legal_utf8_sequence buf source sourceEnd = false) ∧
    (0xC0 ≤ byteAt buf source ∧
        (byteAt buf (source + 1) < 0x80 ∨ 0xBF < byteAt buf (source + 1)) →
      is_legal_utf8_sequence buf source sourceEnd = false) ∧
    (source + sg_trailingBytesForUTF8.getD (byteAt buf source) 0 + 1 > sourceEnd →
      is_legal_utf8_sequence buf source sourceEnd = false) := by
  have key := is_legal_utf8_sequence_table buf source sourceEnd hb
  have hfit := is_legal_utf8_sequence_iff buf source sourceEnd _ rfl
  have hfalse : ∀ b : Bool, ¬ (b = true) → b = false := by
    intro b hb
    cases b
    · rfl
    · exact absurd rfl hb
  refine ⟨key, ?_, ?_, ?_, ?_, ?_, ?_, fun h => hfalse _ (fun ht => ?_)⟩
  · intro h
    rw [key]
    unfold startsWellFormedUtf8
    dsimp only
    generalize byteAt buf source = b1 at *
    simp (disch := omega) only [if_neg]
  · intro h
    rw [key]
    unfold startsWellFormedUtf8
    dsimp only
    generalize byteAt buf source = b1 at *
    generalize byteAt buf (source + 1) = b2 at *
    simp (disch := omega) only [if_pos, if_neg, Bool.and_eq_false_imp, Bool.and_eq_true,
      decide_eq_true_eq, decide_eq_false_iff_not]
    omega
  · intro h
    rw [key]
    unfold startsWellFormedUtf8
    dsimp only
    generalize byteAt buf source = b1 at *
    generalize byteAt buf (source + 1) = b2 at *
    simp (disch := omega) only [if_pos, if_neg, Bool.and_eq_false_imp, Bool.and_eq_true,
      decide_eq_true_eq, decide_eq_false_iff_not]
    omega
  · intro h
    rw [key]
    unfold startsWellFormedUtf8
    dsimp only
    generalize byteAt buf source = b1 at *
    generalize byteAt buf (source + 1) = b2 at *
    simp (disch := omega) only [if_pos, if_neg, Bool.and_eq_false_imp, Bool.and_eq_true,
      decide_eq_true_eq, decide_eq_false_iff_not]
    omega
  · intro h
    rw [key]
    unfold startsWellFormedUtf8
    dsimp only
    generalize byteAt buf source = b1 at *
    generalize byteAt buf (source + 1) = b2 at *
    simp (disch := omega) only [if_pos, if_neg, Bool.and_eq_false_imp, Bool.and_eq_true,
      decide_eq_true_eq, decide_eq_false_iff_not]
    omega
  · intro h
    refine hfalse _ (fun ht => ?_)
    obtain ⟨_, t1, t2, t3, t4, t5⟩ := trailingBytes_cases _ hb
    have l2 := is_legal_utf8_two buf source
    have l3 := is_legal_utf8_three buf source
    have l4 := is_legal_utf8_four buf source
    rw [l3, l2] at l4
    rw [l2] at l3
    rcases (show byteAt buf source < 0xE0 ∨ (0xE0 ≤ byteAt buf source ∧ byteAt buf source < 0xF0) ∨
        (0xF0 ≤ byteAt buf source ∧ byteAt buf source < 0xF8) ∨
        (0xF8 ≤ byteAt buf source ∧ byteAt buf source < 0xFC) ∨ 0xFC ≤ byteAt buf source by
      omega) with hr | hr | hr | hr | hr
    · have h2 := ((is_legal_utf8_sequence_iff buf source sourceEnd 1 (t1 h.1 hr)).mp ht).2
      rw [l2] at h2
      clear l2 l3 l4 key hfit ht
      omega
    · have h2 := ((is_legal_utf8_sequence_iff buf source sourceEnd 2 (t2 hr.1 hr.2)).mp ht).2
      rw [l3] at h2
      clear l2 l3 l4 key hfit ht
      omega
    · have h2 := ((is_legal_utf8_sequence_iff buf source sourceEnd 3 (t3 hr.1 hr.2)).mp ht).2
      rw [l4] at h2
      clear l2 l3 l4 key hfit ht
      omega
    · have h2 := ((is_legal_utf8_sequence_iff buf source sourceEnd 4 (t4 hr.1 hr.2)).mp ht).2
      rw [is_legal_utf8_long buf source (4 + 1) (by omega)] at h2
      cases h2
    · have h2 := ((is_legal_utf8_sequence_iff buf source sourceEnd 5 (t5 hr)).mp ht).2
      rw [is_legal_utf8_long buf source (5 + 1) (by omega)] at h2
      cases h2
  · have := (hfit.mp ht).1
    omega

/-- The bytes `E2 82 AC` of the euro sign are accepted, and so are they when
other bytes follow; the first two of them alone are not. -/
theorem is_legal_utf8_sequence_well_formed_witness :
    is_legal_utf8_sequence [0xE2, 0x82, 0xAC, 0x41] 0 3 =
        startsWellFormedUtf8 [0xE2, 0x82, 0xAC, 0x41] 0 3 ∧
      is_legal_utf8_sequence [0xE2, 0x82, 0xAC, 0x41] 0 3 = true ∧
      is_legal_utf8_sequence [0xE2, 0x82, 0xAC, 0x41] 0 4 = true ∧
      is_legal_utf8_sequence [0xE2, 0x82, 0xAC, 0x41] 0 2 = false :=
  ⟨(is_legal_utf8_sequence_well_formed [0xE2, 0x82, 0xAC, 0x41] 0 3 (by decide)).1,
    by decide, by decide, by decide⟩

/-! ### One scalar value through both conversions -/

theorem or_mod_byte (x y : Nat) : (x ||| y) % 2 ^ 8 = (x % 2 ^ 8) ||| (y % 2 ^ 8) := by
  apply Nat.eq_of_testBit_eq
  intro i
  simp only [Nat.testBit_mod_two_pow, Nat.testBit_or]
  cases decide (i < 8) <;> simp

theorem and_mod_byte (x y : Nat) : (x &&& y) % 2 ^ 8 = (x % 2 ^ 8) &&& (y % 2 ^ 8) := by
  apply Nat.eq_of_testBit_eq
  intro i
  simp only [Nat.testBit_mod_two_pow, Nat.testBit_and]
  cases decide (i < 8) <;> simp

set_option maxRecDepth 100000 in
theorem trailByte_table : ∀ l, l < 256 → (l ||| 0x80) &&& 0xBF = 0x80 + l % 64 := by
  decide

theorem firstByte_table : ∀ x, x < 32 →
    (x ||| 0xC0) % 2 ^ 8 = 0xC0 + x ∧ (x < 16 → (x ||| 0xE0) % 2 ^ 8 = 0xE0 + x) ∧
      (x < 8 → (x ||| 0xF0) % 2 ^ 8 = 0xF0 + x) := by
  decide

theorem trailByte_eq (x : Nat) : ((x ||| 0x80) &&& 0xBF) % 2 ^ 8 = 0x80 + x % 64 := by
  rw [and_mod_byte, or_mod_byte]
  have h := trailByte_table (x % 2 ^ 8) (Nat.mod_lt _ (by decide))
  have e1 : (0x80 : Nat) % 2 ^ 8 = 0x80 := by decide
  have e2 : (0xBF : Nat) % 2 ^ 8 = 0xBF := by decide
  rw [e1, e2, h]
  omega

theorem writeUtf8_one (c : Nat) (h : c < 0x80) : writeUtf8 1 c = [c] := by
  show [(c ||| 0) % 2 ^ 8] = [c]
  rw [Nat.or_zero, Nat.mod_eq_of_lt (by omega)]

theorem writeUtf8_two (c : Nat) (h : c < 0x800) :
    writeUtf8 2 c = [0xC0 + c / 64, 0x80 + c % 64] := by
  show [((c >>> 6) ||| 0xC0) % 2 ^ 8, ((c ||| 0x80) &&& 0xBF) % 2 ^ 8] = _
  rw [trailByte_eq, Nat.shiftRight_eq_div_pow, (firstByte_table (c / 2 ^ 6) (by omega)).1]

theorem writeUtf8_three (c : Nat) (h : c < 0x10000) :
    writeUtf8 3 c = [0xE0 + c / 4096, 0x80 + c / 64 % 64, 0x80 + c % 64] := by
  show [(((c >>> 6) >>> 6) ||| 0xE0) % 2 ^ 8, (((c >>> 6) ||| 0x80) &&& 0xBF) % 2 ^ 8,
    ((c ||| 0x80) &&& 0xBF) % 2 ^ 8] = _
  rw [trailByte_eq, trailByte_eq, Nat.shiftRight_eq_div_pow, Nat.shiftRight_eq_div_pow,
    ((firstByte_table (c / 2 ^ 6 / 2 ^ 6) (by omega)).2.1 (by omega))]
  have e : c / 2 ^ 6 / 2 ^ 6 = c / 4096 := by omega
  rw [e]

theorem writeUtf8_four (c : Nat) (h : c < 0x200000) :
    writeUtf8 4 c =
      [0xF0 + c / 262144, 0x80 + c / 4096 % 64, 0x80 + c / 64 % 64, 0x80 + c % 64] := by
  show [((((c >>> 6) >>> 6) >>> 6) ||| 0xF0) % 2 ^ 8,
    ((((c >>> 6) >>> 6) ||| 0x80) &&& 0xBF) % 2 ^ 8, (((c >>> 6) ||| 0x80) &&& 0xBF) % 2 ^ 8,
    ((c ||| 0x80) &&& 0xBF) % 2 ^ 8] = _
  rw [trailByte_eq, trailByte_eq, trailByte_eq, Nat.shiftRight_eq_div_pow,
    Nat.shiftRight_eq_div_pow, Nat.shiftRight_eq_div_pow,
    ((firstByte_table (c / 2 ^ 6 / 2 ^ 6 / 2 ^ 6) (by omega)).2.2 (by omega))]
  have e1 : c / 2 ^ 6 / 2 ^ 6 / 2 ^ 6 = c / 262144 := by omega
  have e2 : c / 2 ^ 6 / 2 ^ 6 = c / 4096 := by omega
  rw [e1, e2]

theorem utf8ToUtf32Step_legal (K : UtfConstants) (hmax : K.UNI_MAX_LEGAL_UTF32 = 0x10FFFF)
    (buf : List Nat) (sourceEnd capacity : Nat) (flags : ConversionFlags)
    (inputIsPartial : Bool) (result : ConversionResult) (source : Nat) (target : List Nat)
    (e ch : Nat) (he : sg_trailingBytesForUTF8.getD (byteAt buf source) 0 = e)
    (hfit : source + e + 1 ≤ sourceEnd) (hcap : target.length < capacity)
    (hlegal : is_legal_utf8 buf source (e + 1) = true)
    (hch : (readUtf8 buf e source 0 + 2 ^ 32 - sg_offsetsFromUTF8.getD e 0) % 2 ^ 32 = ch)
    (hle : ch ≤ 0x10FFFF) (hns : ¬ (0xD800 ≤ ch ∧ ch ≤ 0xDFFF)) :
    utf8ToUtf32Step K buf sourceEnd capacity flags inputIsPartial result source target =
      Utf8Step.next result (source + (e + 1)) (target ++ [ch]) := by
  unfold utf8ToUtf32Step
  dsimp only
  rw [he, if_neg (by omega), if_neg (by omega), hlegal, hch, hmax]
  rw [if_neg (by decide), if_pos hle, if_neg]
  exact hns

theorem utf8ToUtf32_single (K : UtfConstants) (hmax : K.UNI_MAX_LEGAL_UTF32 = 0x10FFFF)
    (bytes : List Nat) (capacity e ch : Nat)
    (he : sg_trailingBytesForUTF8.getD (byteAt bytes 0) 0 = e)
    (hlen : bytes.length = e + 1) (hcap : 1 ≤ capacity)
    (hlegal : is_legal_utf8 bytes 0 (e + 1) = true)
    (hch : (readUtf8 bytes e 0 0 + 2 ^ 32 - sg_offsetsFromUTF8.getD e 0) % 2 ^ 32 = ch)
    (hle : ch ≤ 0x10FFFF) (hns : ¬ (0xD800 ≤ ch ∧ ch ≤ 0xDFFF)) :
    convert_utf8_to_utf32 K bytes 0 bytes.length capacity ConversionFlags.StrictConversion =
      some (ConversionResult.ConversionOK, bytes.length, [ch]) := by
  unfold convert_utf8_to_utf32 convert_utf8_to_utf32_impl
  rw [hlen]
  have hfuel : e + 1 - 0 + 1 = e + 1 + 1 := by omega
  rw [hfuel]
  unfold utf8ToUtf32Loop
  rw [if_pos (by omega), utf8ToUtf32Step_legal K hmax bytes (e + 1) capacity _ _ _ 0 [] e ch he
    (by omega) (by simpa using hcap) hlegal hch hle hns]
  dsimp only
  unfold utf8ToUtf32Loop
  rw [if_neg (by omega)]
  simp

theorem utf32ToUtf8_single (K : UtfConstants) (hmax : K.UNI_MAX_LEGAL_UTF32 = 0x10FFFF)
    (c capacity : Nat) (hc : c ≤ 0x10FFFF) (hs : ¬ (0xD800 ≤ c ∧ c ≤ 0xDFFF))
    (hcap : 4 ≤ capacity) :
    convert_utf32_to_utf8 K [c] capacity ConversionFlags.StrictConversion =
      (ConversionResult.ConversionOK, 1,
        writeUtf8 (if c < 0x80 then 1 else if c < 0x800 then 2 else if c < 0x10000 then 3 else 4)
          c) := by
  unfold convert_utf32_to_utf8 utf32ToUtf8Loop
  rw [if_neg (by
    unfold UNI_SUR_HIGH_START UNI_SUR_LOW_END
    intro h
    exact hs ⟨h.2.1, h.2.2⟩)]
  dsimp only
  rw [hmax]
  by_cases h1 : c < 0x80
  · rw [if_pos h1, if_pos h1]
    dsimp only
    rw [if_neg (by simp; omega)]
    unfold utf32ToUtf8Loop
    simp
  rw [if_neg h1, if_neg h1]
  by_cases h2 : c < 0x800
  · rw [if_pos h2, if_pos h2]
    dsimp only
    rw [if_neg (by simp; omega)]
    unfold utf32ToUtf8Loop
    simp
  rw [if_neg h2, if_neg h2]
  by_cases h3 : c < 0x10000
  · rw [if_pos h3, if_pos h3]
    dsimp only
    rw [if_neg (by simp; omega)]
    unfold utf32ToUtf8Loop
    simp
  rw [if_neg h3, if_neg h3, if_pos hc]
  dsimp only
  rw [if_neg (by simp; omega)]
  unfold utf32ToUtf8Loop
  simp

theorem byteAt_cons_zero (b : Nat) (l : List Nat) : byteAt (b :: l) 0 = b := rfl

theorem byteAt_cons_succ (b : Nat) (l : List Nat) (k : Nat) :
    byteAt (b :: l) (k + 1) = byteAt l k := rfl

theorem round_trip_one (K : UtfConstants) (hmax : K.UNI_MAX_LEGAL_UTF32 = 0x10FFFF)
    (c capacity : Nat) (h : c < 0x80) (hcap : 1 ≤ capacity) :
    convert_utf8_to_utf32 K [c] 0 1 capacity ConversionFlags.StrictConversion =
        some (ConversionResult.ConversionOK, 1, [c]) ∧
      is_legal_utf8_sequence [c] 0 1 = true := by
  have he := (trailingBytes_cases c (by omega)).1 (by omega)
  have hl : is_legal_utf8 [c] 0 (0 + 1) = true :=
    (is_legal_utf8_one [c] 0).mpr (Or.inl h)
  refine ⟨utf8ToUtf32_single K hmax [c] capacity 0 c he rfl hcap hl ?_ (by omega) (by omega),
    (is_legal_utf8_sequence_iff [c] 0 1 0 he).mpr ⟨by omega, hl⟩⟩
  show (((0 + c) % 2 ^ 32) + 2 ^ 32 - 0) % 2 ^ 32 = c
  omega

theorem round_trip_two (K : UtfConstants) (hmax : K.UNI_MAX_LEGAL_UTF32 = 0x10FFFF)
    (c capacity : Nat) (h1 : 0x80 ≤ c) (h : c < 0x800) (hcap : 1 ≤ capacity) :
    convert_utf8_to_utf32 K [0xC0 + c / 64, 0x80 + c % 64] 0 2 capacity
        ConversionFlags.StrictConversion = some (ConversionResult.ConversionOK, 2, [c]) ∧
      is_legal_utf8_sequence [0xC0 + c / 64, 0x80 + c % 64] 0 2 = true := by
  have he := (trailingBytes_cases (0xC0 + c / 64) (by omega)).2.1 (by omega) (by omega)
  have hl : is_legal_utf8 [0xC0 + c / 64, 0x80 + c % 64] 0 (1 + 1) = true := by
    refine (is_legal_utf8_two _ 0).mpr ?_
    simp only [byteAt_cons_zero, byteAt_cons_succ, Nat.zero_add]
    omega
  refine ⟨utf8ToUtf32_single K hmax _ capacity 1 c he rfl hcap hl ?_ (by omega) (by omega),
    (is_legal_utf8_sequence_iff [0xC0 + c / 64, 0x80 + c % 64] 0 2 1 he).mpr ⟨by omega, hl⟩⟩
  show ((((((0 + (0xC0 + c / 64)) % 2 ^ 32) <<< 6) % 2 ^ 32 + (0x80 + c % 64)) % 2 ^ 32) +
    2 ^ 32 - 0x3080) % 2 ^ 32 = c
  rw [Nat.shiftLeft_eq]
  omega

theorem round_trip_three (K : UtfConstants) (hmax : K.UNI_MAX_LEGAL_UTF32 = 0x10FFFF)
    (c capacity : Nat) (h1 : 0x800 ≤ c) (h : c < 0x10000) (hs : ¬ (0xD800 ≤ c ∧ c ≤ 0xDFFF))
    (hcap : 1 ≤ capacity) :
    convert_utf8_to_utf32 K [0xE0 + c / 4096, 0x80 + c / 64 % 64, 0x80 + c % 64] 0 3 capacity
        ConversionFlags.StrictConversion = some (ConversionResult.ConversionOK, 3, [c]) ∧
      is_legal_utf8_sequence [0xE0 + c / 4096, 0x80 + c / 64 % 64, 0x80 + c % 64] 0 3 = true := by
  have he := (trailingBytes_cases (0xE0 + c / 4096) (by omega)).2.2.1 (by omega) (by omega)
  have hl : is_legal_utf8 [0xE0 + c / 4096, 0x80 + c / 64 % 64, 0x80 + c % 64] 0 (2 + 1) =
      true := by
    refine (is_legal_utf8_three _ 0).mpr ⟨?_, ?_, (is_legal_utf8_two _ 0).mpr ?_⟩
    · simp only [byteAt_cons_zero, byteAt_cons_succ, Nat.zero_add]
      omega
    · simp only [byteAt_cons_zero, byteAt_cons_succ, Nat.zero_add]
      omega
    · simp only [byteAt_cons_zero, byteAt_cons_succ, Nat.zero_add]
      omega
  refine ⟨utf8ToUtf32_single K hmax _ capacity 2 c he rfl hcap hl ?_ (by omega) hs,
    (is_legal_utf8_sequence_iff [0xE0 + c / 4096, 0x80 + c / 64 % 64, 0x80 + c % 64] 0 3 2
      he).mpr ⟨by omega, hl⟩⟩
  show (((((((((0 + (0xE0 + c / 4096)) % 2 ^ 32) <<< 6) % 2 ^ 32 + (0x80 + c / 64 % 64)) %
    2 ^ 32) <<< 6) % 2 ^ 32 + (0x80 + c % 64)) % 2 ^ 32) + 2 ^ 32 - 0xE2080) % 2 ^ 32 = c
  rw [Nat.shiftLeft_eq, Nat.shiftLeft_eq]
  omega

theorem round_trip_four (K : UtfConstants) (hmax : K.UNI_MAX_LEGAL_UTF32 = 0x10FFFF)
    (c capacity : Nat) (h1 : 0x10000 ≤ c) (h : c ≤ 0x10FFFF) (hcap : 1 ≤ capacity) :
    convert_utf8_to_utf32 K
        [0xF0 + c / 262144, 0x80 + c / 4096 % 64, 0x80 + c / 64 % 64, 0x80 + c % 64] 0 4
        capacity ConversionFlags.StrictConversion =
          some (ConversionResult.ConversionOK, 4, [c]) ∧
      is_legal_utf8_sequence
        [0xF0 + c / 262144, 0x80 + c / 4096 % 64, 0x80 + c / 64 % 64, 0x80 + c % 64] 0 4 =
          true := by
  have he := (trailingBytes_cases (0xF0 + c / 262144) (by omega)).2.2.2.1 (by omega) (by omega)
  have hl : is_legal_utf8
      [0xF0 + c / 262144, 0x80 + c / 4096 % 64, 0x80 + c / 64 % 64, 0x80 + c % 64] 0 (3 + 1) =
        true := by
    refine (is_legal_utf8_four _ 0).mpr ⟨?_, ?_, (is_legal_utf8_three _ 0).mpr
      ⟨?_, ?_, (is_legal_utf8_two _ 0).mpr ?_⟩⟩
    · simp only [byteAt_cons_zero, byteAt_cons_succ, Nat.zero_add]
      omega
    · simp only [byteAt_cons_zero, byteAt_cons_succ, Nat.zero_add]
      omega
    · simp only [byteAt_cons_zero, byteAt_cons_succ, Nat.zero_add]
      omega
    · simp only [byteAt_cons_zero, byteAt_cons_succ, Nat.zero_add]
      omega
    · simp only [byteAt_cons_zero, byteAt_cons_succ, Nat.zero_add]
      omega
  refine ⟨utf8ToUtf32_single K hmax _ capacity 3 c he rfl hcap hl ?_ h (by omega),
    (is_legal_utf8_sequence_iff
      [0xF0 + c / 262144, 0x80 + c / 4096 % 64, 0x80 + c / 64 % 64, 0x80 + c % 64] 0 4 3
      he).mpr ⟨by omega, hl⟩⟩
  show ((((((((((((0 + (0xF0 + c / 262144)) % 2 ^ 32) <<< 6) % 2 ^ 32 +
    (0x80 + c / 4096 % 64)) % 2 ^ 32) <<< 6) % 2 ^ 32 + (0x80 + c / 64 % 64)) % 2 ^ 32) <<< 6) %
    2 ^ 32 + (0x80 + c % 64)) % 2 ^ 32) + 2 ^ 32 - 0x03C82080) % 2 ^ 32 = c
  rw [Nat.shiftLeft_eq, Nat.shiftLeft_eq, Nat.shiftLeft_eq]
  omega

/-- C36: for every Unicode scalar value `c` (at most `0x10FFFF`, no surrogate),
`convert_utf32_to_utf8` in strict mode with at least 4 bytes of target space
returns `ConversionOK`, consumes the code point and writes 1 to 4 bytes;
`convert_utf8_to_utf32` in strict mode applied to exactly those bytes, with room
for one code point, returns `ConversionOK`, consumes them all and writes exactly
`c`; and `is_legal_utf8_sequence` accepts the bytes. -/
theorem utf8_round_trip (K : UtfConstants) (hmax : K.UNI_MAX_LEGAL_UTF32 = 0x10FFFF)
    (c capacity capacity32 : Nat) (hc : c ≤ 0x10FFFF) (hs : ¬ (0xD800 ≤ c ∧ c ≤ 0xDFFF))
    (hcap : 4 ≤ capacity) (hcap32 : 1 ≤ capacity32) :
    ∃ bytes, convert_utf32_to_utf8 K [c] capacity ConversionFlags.StrictConversion =
        (ConversionResult.ConversionOK, 1, bytes) ∧
      1 ≤ bytes.length ∧ bytes.length ≤ 4 ∧
      convert_utf8_to_utf32 K bytes 0 bytes.length capacity32
        ConversionFlags.StrictConversion =
          some (ConversionResult.ConversionOK, bytes.length, [c]) ∧
      is_legal_utf8_sequence bytes 0 bytes.length = true := by
  rw [utf32ToUtf8_single K hmax c capacity hc hs hcap]
  by_cases h1 : c < 0x80
  · rw [if_pos h1, writeUtf8_one c h1]
    obtain ⟨a, b⟩ := round_trip_one K hmax c capacity32 h1 hcap32
    exact ⟨_, rfl, by simp, by simp, a, b⟩
  rw [if_neg h1]
  by_cases h2 : c < 0x800
  · rw [if_pos h2, writeUtf8_two c h2]
    obtain ⟨a, b⟩ := round_trip_two K hmax c capacity32 (by omega) h2 hcap32
    exact ⟨_, rfl, by simp, by simp, a, b⟩
  rw [if_neg h2]
  by_cases h3 : c < 0x10000
  · rw [if_pos h3, writeUtf8_three c h3]
    obtain ⟨a, b⟩ := round_trip_three K hmax c capacity32 (by omega) h3 hs hcap32
    exact ⟨_, rfl, by simp, by simp, a, b⟩
  rw [if_neg h3, writeUtf8_four c (by omega)]
  obtain ⟨a, b⟩ := round_trip_four K hmax c capacity32 (by omega) hc hcap32
  exact ⟨_, rfl, by simp, by simp, a, b⟩

/-- The euro sign `U+20AC`: three bytes `E2 82 AC`, which convert back to it. -/
theorem utf8_round_trip_witness :
    (∃ bytes, convert_utf32_to_utf8 unicodeConstants [0x20AC] 4
        ConversionFlags.StrictConversion = (ConversionResult.ConversionOK, 1, bytes) ∧
      convert_utf8_to_utf32 unicodeConstants bytes 0 bytes.length 1
        ConversionFlags.StrictConversion =
          some (ConversionResult.ConversionOK, bytes.length, [0x20AC]) ∧
      is_legal_utf8_sequence bytes 0 bytes.length = true) ∧
    convert_utf32_to_utf8 unicodeConstants [0x20AC] 4 ConversionFlags.StrictConversion =
      (ConversionResult.ConversionOK, 1, [0xE2, 0x82, 0xAC]) := by
  obtain ⟨bytes, h1, _, _, h4, h5⟩ :=
    utf8_round_trip unicodeConstants rfl 0x20AC 4 1 (by decide) (by decide) (by decide)
      (by decide)
  exact ⟨⟨bytes, h1, h4, h5⟩, by decide⟩

/-! ### Progress and capacity of the UTF-8 decoder -/

theorem le_ite_of {c : Prop} [Decidable c] {a b n : Nat} (ha : c → n ≤ a) (hb : ¬ c → n ≤ b) :
    n ≤ (if c then a else b) := by
  split
  · rename_i h
    exact ha h
  · rename_i h
    exact hb h

theorem ite_le_of {c : Prop} [Decidable c] {a b n : Nat} (ha : c → a ≤ n) (hb : ¬ c → b ≤ n) :
    (if c then a else b) ≤ n := by
  split
  · rename_i h
    exact ha h
  · rename_i h
    exact hb h

theorem find_maximal_subpart_pos (buf : List Nat) (source sourceEnd : Nat)
    (h : source < sourceEnd) :
    1 ≤ find_maximal_subpart_of_illformed_utf8_sequence buf source sourceEnd := by
  unfold find_maximal_subpart_of_illformed_utf8_sequence
  dsimp only
  repeat' refine le_ite_of (fun _ => ?_) (fun _ => ?_)
  all_goals omega

theorem find_maximal_subpart_le (buf : List Nat) (source sourceEnd : Nat)
    (h : source < sourceEnd) :
    source + find_maximal_subpart_of_illformed_utf8_sequence buf source sourceEnd ≤
      sourceEnd := by
  have hle : find_maximal_subpart_of_illformed_utf8_sequence buf source sourceEnd ≤
      sourceEnd - source := by
    unfold find_maximal_subpart_of_illformed_utf8_sequence
    dsimp only
    repeat' refine ite_le_of (fun _ => ?_) (fun _ => ?_)
    all_goals omega
  omega

theorem find_maximal_subpart_bounds (buf : List Nat) (source sourceEnd : Nat)
    (h : source < sourceEnd) :
    1 ≤ find_maximal_subpart_of_illformed_utf8_sequence buf source sourceEnd ∧
      source + find_maximal_subpart_of_illformed_utf8_sequence buf source sourceEnd ≤
        sourceEnd :=
  ⟨find_maximal_subpart_pos buf source sourceEnd h, find_maximal_subpart_le buf source sourceEnd h⟩

theorem utf8ToUtf32Step_next (K : UtfConstants) (buf : List Nat) (sourceEnd capacity : Nat)
    (flags : ConversionFlags) (inputIsPartial : Bool) (result : ConversionResult)
    (source : Nat) (target : List Nat) (r : ConversionResult) (s : Nat) (t : List Nat)
    (hlt : source < sourceEnd)
    (h : utf8ToUtf32Step K buf sourceEnd capacity flags inputIsPartial result source target =
      Utf8Step.next r s t) :
    source < s ∧ s ≤ sourceEnd ∧ (∃ c, t = target ++ [c]) ∧
      (target.length < capacity ∨
        (flags = ConversionFlags.LenientConversion ∧ inputIsPartial = false ∧
          sourceEnd ≤ source + sg_trailingBytesForUTF8.getD (byteAt buf source) 0)) := by
  have hm := find_maximal_subpart_bounds buf source sourceEnd hlt
  have hflag : ¬ flags = ConversionFlags.StrictConversion →
      flags = ConversionFlags.LenientConversion := by
    intro hf
    cases flags
    · exact absurd rfl hf
    · rfl
  unfold utf8ToUtf32Step at h
  dsimp only at h
  split_ifs at h with c1 c2
  all_goals injection h with h1 h2 h3
  all_goals subst h2 h3
  · refine ⟨by omega, by omega, ⟨_, rfl⟩, Or.inr ⟨hflag (fun hf => c2 (Or.inl hf)), ?_, by omega⟩⟩
    cases inputIsPartial
    · rfl
    · exact absurd (Or.inr rfl) c2
  · exact ⟨by omega, by omega, ⟨_, rfl⟩, Or.inl (by omega)⟩
  · exact ⟨by omega, by omega, ⟨_, rfl⟩, Or.inl (by omega)⟩
  · exact ⟨by omega, by omega, ⟨_, rfl⟩, Or.inl (by omega)⟩
  · exact ⟨by omega, by omega, ⟨_, rfl⟩, Or.inl (by omega)⟩

theorem utf8ToUtf32Step_stop (K : UtfConstants) (buf : List Nat) (sourceEnd capacity : Nat)
    (flags : ConversionFlags) (inputIsPartial : Bool) (result : ConversionResult)
    (source : Nat) (target : List Nat) (r : ConversionResult) (s : Nat) (t : List Nat)
    (h : utf8ToUtf32Step K buf sourceEnd capacity flags inputIsPartial result source target =
      Utf8Step.stop r s t) :
    s = source ∧ t = target := by
  unfold utf8ToUtf32Step at h
  dsimp only at h
  split_ifs at h
  all_goals injection h with h1 h2 h3
  all_goals subst h2 h3
  all_goals first | exact ⟨rfl, rfl⟩ | exact ⟨by omega, rfl⟩

theorem utf8ToUtf32Loop_returns (K : UtfConstants) (buf : List Nat) (sourceEnd capacity : Nat)
    (flags : ConversionFlags) (inputIsPartial : Bool) :
    ∀ (fuel : Nat) (result : ConversionResult) (source : Nat) (target : List Nat),
      sourceEnd - source + 1 ≤ fuel →
      ∃ r, utf8ToUtf32Loop K buf sourceEnd capacity flags inputIsPartial fuel result source
          target = some r ∧
        source ≤ r.2.1 ∧ (source ≤ sourceEnd → r.2.1 ≤ sourceEnd) ∧
        ((flags = ConversionFlags.StrictConversion ∨ inputIsPartial = true) →
          target.length ≤ capacity → r.2.2.length ≤ capacity) := by
  intro fuel
  induction fuel with
  | zero => intro result source target h; omega
  | succ fuel ih =>
    intro result source target hfuel
    unfold utf8ToUtf32Loop
    by_cases hlt : source < sourceEnd
    · rw [if_pos hlt]
      cases hstep : utf8ToUtf32Step K buf sourceEnd capacity flags inputIsPartial result source
          target with
      | stop r s t =>
        obtain ⟨h1, h2⟩ := utf8ToUtf32Step_stop K buf sourceEnd capacity flags inputIsPartial
          result source target r s t hstep
        subst h1 h2
        exact ⟨_, rfl, le_refl _, fun h => h, fun _ h => h⟩
      | next r s t =>
        obtain ⟨h1, h2, ⟨c, h3⟩, h4⟩ := utf8ToUtf32Step_next K buf sourceEnd capacity flags
          inputIsPartial result source target r s t hlt hstep
        obtain ⟨q, hq, g1, g2, g3⟩ := ih r s t (by omega)
        refine ⟨q, hq, by omega, fun _ => g2 h2, fun hmode hcap => g3 hmode ?_⟩
        subst h3
        rcases h4 with h4 | ⟨h5, h6, _⟩
        · simpa using h4
        · rcases hmode with hmode | hmode
          · rw [hmode] at h5
            cases h5
          · rw [hmode] at h6
            cases h6
    · rw [if_neg hlt]
      exact ⟨_, rfl, le_refl _, fun h => h, fun _ h => h⟩

/-- C38 (what the code does): for every source range, target capacity, mode and
partial or whole input, `convert_utf8_to_utf32_impl` (of which
`convert_utf8_to_utf32` and `convert_utf8_to_utf32_partial` are the two
instances) returns; an iteration that does not stop the conversion consumes at
least one byte, stays within the source range and writes exactly one code point,
and it writes it after the test `target >= targetEnd` has found room, except in
lenient mode on whole input when the sequence at the cursor is cut short by the
end of the source; an iteration that stops the conversion writes nothing and
leaves the source offset where it was.  In strict mode, and on partial input, the
number of code points written is at most the target capacity. -/
theorem convert_utf8_to_utf32_progress (K : UtfConstants) (buf : List Nat)
    (sourceStart sourceEnd capacity : Nat) (flags : ConversionFlags) (inputIsPartial : Bool) :
    (∃ r, convert_utf8_to_utf32_impl K buf sourceStart sourceEnd capacity flags
        inputIsPartial = some r ∧
      sourceStart ≤ r.2.1 ∧ (sourceStart ≤ sourceEnd → r.2.1 ≤ sourceEnd) ∧
      ((flags = ConversionFlags.StrictConversion ∨ inputIsPartial = true) →
        r.2.2.length ≤ capacity)) ∧
    (∀ result source target r s t, source < sourceEnd →
      utf8ToUtf32Step K buf sourceEnd capacity flags inputIsPartial result source target =
        Utf8Step.next r s t →
      source < s ∧ s ≤ sourceEnd ∧ (∃ c, t = target ++ [c]) ∧
        (target.length < capacity ∨
          (flags = ConversionFlags.LenientConversion ∧ inputIsPartial = false ∧
            sourceEnd ≤ source + sg_trailingBytesForUTF8.getD (byteAt buf source) 0))) ∧
    (∀ result source target r s t,
      utf8ToUtf32Step K buf sourceEnd capacity flags inputIsPartial result source target =
        Utf8Step.stop r s t →
      s = source ∧ t = target) := by
  refine ⟨?_, fun result source target r s t hlt h =>
      utf8ToUtf32Step_next K buf sourceEnd capacity flags inputIsPartial result source target
        r s t hlt h,
    fun result source target r s t h =>
      utf8ToUtf32Step_stop K buf sourceEnd capacity flags inputIsPartial result source target
        r s t h⟩
  obtain ⟨r, hr, h1, h2, h3⟩ := utf8ToUtf32Loop_returns K buf sourceEnd capacity flags
    inputIsPartial (sourceEnd - sourceStart + 1) ConversionResult.ConversionOK sourceStart []
    (le_refl _)
  exact ⟨r, hr, h1, h2, fun hmode => h3 hmode (Nat.zero_le _)⟩

/-- The bytes `41 C3 A9` converted in strict mode into a target of two code
points: the conversion returns with both written; the iteration at offset 1
consumes the two bytes of `U+E9`. -/
theorem convert_utf8_to_utf32_progress_witness :
    convert_utf8_to_utf32 unicodeConstants [0x41, 0xC3, 0xA9] 0 3 2
        ConversionFlags.StrictConversion =
      some (ConversionResult.ConversionOK, 3, [0x41, 0xE9]) ∧
    (1 < 3 ∧ 3 ≤ 3 ∧ ∃ c, [0x41, 0xE9] = [0x41] ++ [c]) := by
  obtain ⟨_, h2, _⟩ := convert_utf8_to_utf32_progress unicodeConstants [0x41, 0xC3, 0xA9] 0 3 2
    ConversionFlags.StrictConversion false
  obtain ⟨a, b, c, _⟩ := h2 ConversionResult.ConversionOK 1 [0x41] ConversionResult.ConversionOK 3
    [0x41, 0xE9] (by decide) (by decide)
  exact ⟨by decide, a, b, c⟩

/-- C38, where the code departs from the claim: converting the bytes `41 C2`, in
which the two-byte sequence started by `C2` is cut short by the end of the
source, in lenient mode on whole input into a target of one code point, the
code writes `U+FFFD` for the cut sequence before it tests `target >= targetEnd`:
two code points are written into a target of capacity one, and the result is
`SourceIllegal`, not `TargetExhausted`. -/
theorem convert_utf8_to_utf32_progress_counterexample :
    convert_utf8_to_utf32 unicodeConstants [0x41, 0xC2] 0 2 1
        ConversionFlags.LenientConversion =
      some (ConversionResult.SourceIllegal, 2, [0x41, 0xFFFD]) := by
  decide

/-! ### Illegal code points in strict mode -/

theorem utf32ToUtf16Loop_append (K : UtfConstants) (capacity : Nat) (flags : ConversionFlags)
    (post : List Nat) :
    ∀ (pre : List Nat) (r : ConversionResult) (s : Nat) (t : List Nat) (r1 : ConversionResult)
      (t1 : List Nat),
      utf32ToUtf16Loop K capacity flags pre r s t = (r1, s + pre.length, t1) →
      utf32ToUtf16Loop K capacity flags (pre ++ post) r s t =
        utf32ToUtf16Loop K capacity flags post r1 (s + pre.length) t1 := by
  intro pre
  induction pre with
  | nil =>
    intro r s t r1 t1 h
    unfold utf32ToUtf16Loop at h
    injection h with h1 h2
    injection h2 with h2 h3
    subst h1 h3
    rfl
  | cons ch pre ih =>
    intro r s t r1 t1 h
    have hlen : s + (ch :: pre).length = s + 1 + pre.length := by
      simp only [List.length_cons]
      omega
    rw [hlen] at h ⊢
    have stop : ∀ (x : ConversionResult),
        (x, s, t) = (r1, s + 1 + pre.length, t1) → False := by
      intro x hx
      injection hx with _ hx
      injection hx with hx _
      omega
    rw [List.cons_append]
    unfold utf32ToUtf16Loop at h
    conv_lhs => unfold utf32ToUtf16Loop
    dsimp only at h ⊢
    split_ifs at h ⊢
    all_goals first | exact (stop _ h).elim | exact ih _ _ _ _ _ h

theorem utf32ToUtf8Loop_append (K : UtfConstants) (capacity : Nat) (flags : ConversionFlags)
    (post : List Nat) :
    ∀ (pre : List Nat) (r : ConversionResult) (s : Nat) (t : List Nat) (r1 : ConversionResult)
      (t1 : List Nat),
      utf32ToUtf8Loop K capacity flags pre r s t = (r1, s + pre.length, t1) →
      utf32ToUtf8Loop K capacity flags (pre ++ post) r s t =
        utf32ToUtf8Loop K capacity flags post r1 (s + pre.length) t1 := by
  intro pre
  induction pre with
  | nil =>
    intro r s t r1 t1 h
    unfold utf32ToUtf8Loop at h
    injection h with h1 h2
    injection h2 with h2 h3
    subst h1 h3
    rfl
  | cons ch pre ih =>
    intro r s t r1 t1 h
    have hlen : s + (ch :: pre).length = s + 1 + pre.length := by
      simp only [List.length_cons]
      omega
    rw [hlen] at h ⊢
    have stop : ∀ (x : ConversionResult),
        (x, s, t) = (r1, s + 1 + pre.length, t1) → False := by
      intro x hx
      injection hx with _ hx
      injection hx with hx _
      omega
    rw [List.cons_append]
    unfold utf32ToUtf8Loop at h
    conv_lhs => unfold utf32ToUtf8Loop
    dsimp only at h ⊢
    split_ifs at h ⊢
    all_goals first | exact (stop _ h).elim | exact ih _ _ _ _ _ h

theorem convert_utf32_to_utf16_append (K : UtfConstants) (capacity : Nat)
    (flags : ConversionFlags) (pre post written : List Nat)
    (h : convert_utf32_to_utf16 K pre capacity flags =
      (ConversionResult.ConversionOK, pre.length, written)) :
    convert_utf32_to_utf16 K (pre ++ post) capacity flags =
      utf32ToUtf16Loop K capacity flags post ConversionResult.ConversionOK pre.length written := by
  unfold convert_utf32_to_utf16 at h ⊢
  have h2 := utf32ToUtf16Loop_append K capacity flags post pre ConversionResult.ConversionOK 0 []
    ConversionResult.ConversionOK written (by rw [Nat.zero_add]; exact h)
  rw [Nat.zero_add] at h2
  exact h2

theorem convert_utf32_to_utf8_append (K : UtfConstants) (capacity : Nat)
    (flags : ConversionFlags) (pre post written : List Nat)
    (h : convert_utf32_to_utf8 K pre capacity flags =
      (ConversionResult.ConversionOK, pre.length, written)) :
    convert_utf32_to_utf8 K (pre ++ post) capacity flags =
      utf32ToUtf8Loop K capacity flags post ConversionResult.ConversionOK pre.length written := by
  unfold convert_utf32_to_utf8 at h ⊢
  have h2 := utf32ToUtf8Loop_append K capacity flags post pre ConversionResult.ConversionOK 0 []
    ConversionResult.ConversionOK written (by rw [Nat.zero_add]; exact h)
  rw [Nat.zero_add] at h2
  exact h2

/-- C39 (amended): in strict mode, when the code points before `c` convert
without error into `written` (with room for one more unit in the case of
`convert_utf32_to_utf16`, which tests the target first): if `c` is a surrogate,
both conversions return `SourceIllegal` with the source offset at `c` and
nothing written for `c` or after it.  If `c` is above `0x10FFFF`, neither
conversion stops: `convert_utf32_to_utf16` records `SourceIllegal`, writes
nothing for `c` and goes on with the code points after it, and
`convert_utf32_to_utf8`, with room for three more bytes, records
`SourceIllegal`, writes the three bytes of `UNI_REPLACEMENT_CHAR` and goes on
with the code points after it. -/
theorem convert_utf32_strict_illegal (K : UtfConstants) (hbmp : K.UNI_MAX_BMP = 0xFFFF)
    (hmax : K.UNI_MAX_LEGAL_UTF32 = 0x10FFFF) (pre post written : List Nat)
    (c capacity : Nat) :
    (0xD800 ≤ c ∧ c ≤ 0xDFFF →
      (convert_utf32_to_utf16 K pre capacity ConversionFlags.StrictConversion =
          (ConversionResult.ConversionOK, pre.length, written) → written.length < capacity →
        convert_utf32_to_utf16 K (pre ++ c :: post) capacity ConversionFlags.StrictConversion =
          (ConversionResult.SourceIllegal, pre.length, written)) ∧
      (convert_utf32_to_utf8 K pre capacity ConversionFlags.StrictConversion =
          (ConversionResult.ConversionOK, pre.length, written) →
        convert_utf32_to_utf8 K (pre ++ c :: post) capacity ConversionFlags.StrictConversion =
          (ConversionResult.SourceIllegal, pre.length, written))) ∧
    (0x10FFFF < c →
      (convert_utf32_to_utf16 K pre capacity ConversionFlags.StrictConversion =
          (ConversionResult.ConversionOK, pre.length, written) → written.length < capacity →
        convert_utf32_to_utf16 K (pre ++ c :: post) capacity ConversionFlags.StrictConversion =
          utf32ToUtf16Loop K capacity ConversionFlags.StrictConversion post
            ConversionResult.SourceIllegal (pre.length + 1) written) ∧
      (convert_utf32_to_utf8 K pre capacity ConversionFlags.StrictConversion =
          (ConversionResult.ConversionOK, pre.length, written) →
          written.length + 3 ≤ capacity →
        convert_utf32_to_utf8 K (pre ++ c :: post) capacity ConversionFlags.StrictConversion =
          utf32ToUtf8Loop K capacity ConversionFlags.StrictConversion post
            ConversionResult.SourceIllegal (pre.length + 1)
            (written ++ writeUtf8 3 K.UNI_REPLACEMENT_CHAR))) := by
  refine ⟨fun hc => ⟨fun hpre hroom => ?_, fun hpre => ?_⟩,
    fun hc => ⟨fun hpre hroom => ?_, fun hpre hroom => ?_⟩⟩
  · rw [convert_utf32_to_utf16_append K capacity _ pre (c :: post) written hpre]
    unfold utf32ToUtf16Loop
    rw [hbmp]
    unfold UNI_SUR_HIGH_START UNI_SUR_LOW_END
    rw [if_neg (by omega), if_pos (by omega), if_pos (by omega), if_pos rfl]
  · rw [convert_utf32_to_utf8_append K capacity _ pre (c :: post) written hpre]
    unfold utf32ToUtf8Loop
    unfold UNI_SUR_HIGH_START UNI_SUR_LOW_END
    rw [if_pos ⟨rfl, hc.1, hc.2⟩]
  · rw [convert_utf32_to_utf16_append K capacity _ pre (c :: post) written hpre]
    conv_lhs => unfold utf32ToUtf16Loop
    rw [hbmp, hmax]
    rw [if_neg (by omega), if_neg (by omega), if_pos (by omega), if_pos rfl]
  · rw [convert_utf32_to_utf8_append K capacity _ pre (c :: post) written hpre]
    conv_lhs => unfold utf32ToUtf8Loop
    unfold UNI_SUR_HIGH_START UNI_SUR_LOW_END
    rw [hmax]
    have hsized : (if c < 0x80 then (1, c, ConversionResult.ConversionOK)
        else if c < 0x800 then (2, c, ConversionResult.ConversionOK)
        else if c < 0x10000 then (3, c, ConversionResult.ConversionOK)
        else if c ≤ 0x10FFFF then (4, c, ConversionResult.ConversionOK)
        else (3, K.UNI_REPLACEMENT_CHAR, ConversionResult.SourceIllegal)) =
          (3, K.UNI_REPLACEMENT_CHAR, ConversionResult.SourceIllegal) := by
      rw [if_neg (by omega), if_neg (by omega), if_neg (by omega), if_neg (by omega)]
    rw [if_neg (by omega)]
    dsimp only
    rw [hsized]
    dsimp only
    rw [if_neg (by omega)]

/-- The code points `41`, `D800`, `42` in strict mode with room to spare: both
conversions stop at the surrogate, with the source offset 1 and only `41`
written. -/
theorem convert_utf32_strict_illegal_witness :
    convert_utf32_to_utf16 unicodeConstants ([0x41] ++ 0xD800 :: [0x42]) 8
        ConversionFlags.StrictConversion = (ConversionResult.SourceIllegal, 1, [0x41]) ∧
      convert_utf32_to_utf8 unicodeConstants ([0x41] ++ 0xD800 :: [0x42]) 8
        ConversionFlags.StrictConversion = (ConversionResult.SourceIllegal, 1, [0x41]) := by
  obtain ⟨h1, _⟩ := convert_utf32_strict_illegal unicodeConstants rfl rfl [0x41] [0x42] [0x41]
    0xD800 8
  obtain ⟨a, b⟩ := h1 (by decide)
  exact ⟨a (by decide) (by decide), b (by decide)⟩

/-- C39, the claim as stated fails: for the code points `110000`,
`41` in strict mode, `convert_utf32_to_utf16` returns `SourceIllegal` with the
source offset 2, past both code points, and with the unit `41` written for the
code point after the illegal one; `convert_utf32_to_utf8` returns
`SourceIllegal` with the source offset 2 and has written `EF BF BD` for the
illegal code point and `41` for the one after it. -/
theorem convert_utf32_strict_illegal_counterexample :
    convert_utf32_to_utf16 unicodeConstants [0x110000, 0x41] 8
        ConversionFlags.StrictConversion = (ConversionResult.SourceIllegal, 2, [0x41]) ∧
      convert_utf32_to_utf8 unicodeConstants [0x110000, 0x41] 8
        ConversionFlags.StrictConversion =
          (ConversionResult.SourceIllegal, 2, [0xEF, 0xBF, 0xBD, 0x41]) := by
  decide

theorem sizeToInt_of_lt (n : Nat) (h : n < 2 ^ 31) : sizeToInt (n : Int) = (n : Int) := by
  unfold sizeToInt
  omega

theorem lexHexNumber_valid (E : Externs) (hE : E.Progress) (s : Lexer)
    (x : Nat) (ds rest : List Nat) (hx : x = 120 ∨ x = 88)
    (htok : NumberToken s (48 :: x :: ds) rest) (hne : ds ≠ [])
    (hds : ∀ c ∈ ds, isDigitInBase 16 c = true)
    (hrest : ∀ c, rest.head? = some c → isDigitInBase 16 c = false)
    (hint : ds.length < 2 ^ 31) :
    (digitsToNat 16 ds ≤ INT64_MAX →
      ∃ t, lexHexNumber E s = some t ∧
        t.nextToken.kind = TokenKindType.T_LNUMBER ∧
        t.nextToken.value = TokenValue.int (digitsToNat 16 ds)) ∧
    (INT64_MAX < digitsToNat 16 ds → s.nextToken.kind ≠ TokenKindType.T_MINUS_SIGN →
      ∃ t, lexHexNumber E s = some t ∧
        t.nextToken.kind = TokenKindType.T_DNUMBER ∧
        t.nextToken.needCorrectLNumberOverflow = false) ∧
    (INT64_MAX < digitsToNat 16 ds → s.nextToken.kind = TokenKindType.T_MINUS_SIGN →
      lexHexNumber E s = none) ∧
    (digitsToNat 16 ds ≤ INT64_MAX ↔
      ((ds.dropWhile (fun c => decide (c = 48))).length < 16 ∨
        ((ds.dropWhile (fun c => decide (c = 48))).length = 16 ∧
          (ds.dropWhile (fun c => decide (c = 48))).headD 0 ≤ 55))) := by
  have hcur : s.yyCursor ≤ s.bufferEnd := htok.cursor_le (by simp)
  have h2 : s.buffer.drop (s.yyText + 2) = ds ++ rest := by
    rw [drop_add_of_drop _ _ 2 _ htok.textAt]
    rfl
  have hz := countWhile_eq (fun c => decide (c = 48)) s.buffer (s.yyText + 2) ds rest h2
    (zeros_not_in_rest 16 (by omega) rest hrest)
  have hsig := significant_drop s.buffer (s.yyText + 2) ds rest h2
  obtain ⟨hzs, hhead, hlen⟩ := leadingZeros_split ds
  have hval := digitsToNat_dropWhile 16 ds
  have hsigds : ∀ c ∈ ds.dropWhile (fun c => decide (c = 48)), isDigitInBase 16 c = true :=
    fun c hc => hds c (mem_dropWhile_of _ _ _ hc)
  have hyl : s.yyLength = ds.length + 2 := by
    rw [htok.lengthEq]; simp
  have hnum : (sizeToInt ((s.yyLength : Int) - 2) -
      ((countWhile (fun c => decide (c = 48)) s.buffer (s.yyText + 2) : Nat) : Int)) =
      ((ds.dropWhile (fun c => decide (c = 48))).length : Int) := by
    rw [hz, hyl]
    have e : ((ds.length + 2 : Nat) : Int) - 2 = (ds.length : Int) := by omega
    rw [e, sizeToInt_of_lt _ hint]
    omega
  have hmin : ¬ (((ds.dropWhile (fun c => decide (c = 48))).length : Int) < INT_MIN) := by
    unfold INT_MIN
    omega
  have hiff := hex_fits_iff _ hsigds hhead
  rw [hval] at hiff
  have hcond : (((ds.dropWhile (fun c => decide (c = 48))).length : Int) < 16 ∨
      (((ds.dropWhile (fun c => decide (c = 48))).length : Int) = 16 ∧
        byteAt s.buffer (s.yyText + 2 +
          countWhile (fun c => decide (c = 48)) s.buffer (s.yyText + 2)) ≤ 55)) ↔
      digitsToNat 16 ds ≤ INT64_MAX := by
    rw [hiff, hz]
    constructor
    · rintro (h | ⟨h, h'⟩)
      · exact Or.inl (by exact_mod_cast h)
      · have hl : (ds.dropWhile (fun c => decide (c = 48))).length = 16 := by exact_mod_cast h
        refine Or.inr ⟨hl, ?_⟩
        rw [byteAt_head_of_drop _ _ _ _ hsig (by intro h0; rw [h0] at hl; simp at hl)] at h'
        exact h'
    · rintro (h | ⟨h, h'⟩)
      · exact Or.inl (by exact_mod_cast h)
      · refine Or.inr ⟨by exact_mod_cast h, ?_⟩
        rw [byteAt_head_of_drop _ _ _ _ hsig (by intro h0; rw [h0] at h; simp at h)]
        exact h'
  refine ⟨?_, ?_, ?_, hiff⟩
  · intro hfit
    unfold lexHexNumber
    dsimp only
    rw [hnum, if_neg hmin, if_pos (hcond.mpr hfit)]
    obtain ⟨c, a, tr, hf, _, _, _⟩ :=
      formToken_spec E hE TokenKindType.T_LNUMBER s.yyText s htok.atBufferEnd hcur
    rw [hf]
    refine ⟨_, rfl, by simp [formedKind_of_lt _ _ _ htok.inRange], ?_⟩
    simp only [Option.map_some', setValue_value]
    congr 1
    by_cases hpos : 0 < (ds.dropWhile (fun c => decide (c = 48))).length
    · rw [if_pos (by exact_mod_cast hpos)]
      rw [strtoll_hex s.buffer _ x ds rest hx htok.textAt hne hds hrest]
      rw [if_neg (by omega)]
    · rw [if_neg (by exact_mod_cast hpos)]
      have h0 : ds.dropWhile (fun c => decide (c = 48)) = [] :=
        List.length_eq_zero.mp (by omega)
      rw [← hval, h0]
      rfl
  · intro hbig hprev
    have hfit : ¬ digitsToNat 16 ds ≤ INT64_MAX := by omega
    unfold lexHexNumber
    dsimp only
    rw [hnum, if_neg hmin, if_neg (fun h => hfit (hcond.mp h)), if_neg hprev]
    dsimp only
    obtain ⟨c, a, tr, hf, _, _, _⟩ :=
      formToken_spec E hE TokenKindType.T_DNUMBER s.yyText s htok.atBufferEnd hcur
    rw [hf]
    refine ⟨_, rfl, by simp [formedKind_of_lt _ _ _ htok.inRange], ?_⟩
    simp only [Option.map_some', setValue_needCorrect, setNeedCorrect_flag]
  · intro hbig hprev
    have hfit : ¬ digitsToNat 16 ds ≤ INT64_MAX := by omega
    unfold lexHexNumber
    dsimp only
    rw [hnum, if_neg hmin, if_neg (fun h => hfit (hcond.mp h)), if_pos hprev,
      if_neg (by decide)]

theorem lexLongNumber_valid (E : Externs) (hE : E.Progress) (s : Lexer) (ds rest : List Nat)
    (htok : NumberToken s ds rest) (hne : ds ≠ [])
    (hds : ∀ c ∈ ds, isDigitInBase (literalBase ds) c = true)
    (hrest : ∀ c, rest.head? = some c → isDecimalDigit c = false)
    (hdot : rest.getD 0 0 ≠ 46) (hexp : exponentFollows rest = false)
    (hint : ds.length < 2 ^ 31) :
    (¬ (INT64_MAX < digitsToNat (literalBase ds) ds ∧
        s.nextToken.kind = TokenKindType.T_MINUS_SIGN ∧ ds.headD 0 = 48) →
      ∃ t, lexLongNumber E s = some t ∧
        (digitsToNat (literalBase ds) ds ≤ INT64_MAX →
          t.nextToken.kind = TokenKindType.T_LNUMBER ∧
          t.nextToken.value = TokenValue.int (digitsToNat (literalBase ds) ds)) ∧
        (INT64_MAX < digitsToNat (literalBase ds) ds →
          t.nextToken.kind = TokenKindType.T_DNUMBER ∧
          t.nextToken.needCorrectLNumberOverflow =
            (if s.nextToken.kind = TokenKindType.T_MINUS_SIGN then decide (decMinText = ds)
             else false))) ∧
    (INT64_MAX < digitsToNat (literalBase ds) ds →
      s.nextToken.kind = TokenKindType.T_MINUS_SIGN → ds.headD 0 = 48 →
      lexLongNumber E s = none) := by
  have hcur : s.yyCursor ≤ s.bufferEnd := htok.cursor_le hne
  have hb0 : byteAt s.buffer s.yyText = ds.headD 0 :=
    byteAt_head_of_drop _ _ _ _ htok.textAt hne
  have hble : literalBase ds ≤ 10 := by
    rcases literalBase_cases ds with ⟨_, h⟩ | ⟨_, h⟩ <;> omega
  have hrestB : ∀ c, rest.head? = some c → isDigitInBase (literalBase ds) c = false :=
    fun c hc => not_digit_of_not_decimal _ c hble (hrest c hc)
  have hlenEq := htok.lengthEq
  have hkL := formedKind_of_lt TokenKindType.T_LNUMBER _ _ htok.inRange
  have hkD := formedKind_of_lt TokenKindType.T_DNUMBER _ _ htok.inRange
  obtain ⟨cL, aL, trL, hfL, _, _, _⟩ :=
    formToken_spec E hE TokenKindType.T_LNUMBER s.yyText s htok.atBufferEnd hcur
  obtain ⟨cD, aD, trD, hfD, _, _, _⟩ :=
    formToken_spec E hE TokenKindType.T_DNUMBER s.yyText s htok.atBufferEnd hcur
  have hsz : sizeToInt (s.yyLength : Int) = (ds.length : Int) := by
    rw [hlenEq]
    exact sizeToInt_of_lt _ hint
  have hnotmin : ¬ ((decide (ds.headD 0 = 48) = true) ∧ (ds.length : Int) = INT_MIN) := by
    unfold INT_MIN
    omega
  have hprinted : ¬ octMinPrinted.length ≤ 24 := by decide
  suffices key : ∀ o, lexLongNumber E s = o →
      (¬ (INT64_MAX < digitsToNat (literalBase ds) ds ∧
          s.nextToken.kind = TokenKindType.T_MINUS_SIGN ∧ ds.headD 0 = 48) →
        ∃ t, o = some t ∧
          (digitsToNat (literalBase ds) ds ≤ INT64_MAX →
            t.nextToken.kind = TokenKindType.T_LNUMBER ∧
            t.nextToken.value = TokenValue.int (digitsToNat (literalBase ds) ds)) ∧
          (INT64_MAX < digitsToNat (literalBase ds) ds →
            t.nextToken.kind = TokenKindType.T_DNUMBER ∧
            t.nextToken.needCorrectLNumberOverflow =
              (if s.nextToken.kind = TokenKindType.T_MINUS_SIGN then decide (decMinText = ds)
               else false))) ∧
      (INT64_MAX < digitsToNat (literalBase ds) ds →
        s.nextToken.kind = TokenKindType.T_MINUS_SIGN → ds.headD 0 = 48 → o = none) from
    key _ rfl
  intro o ho
  unfold lexLongNumber at ho
  dsimp only at ho
  rw [hb0] at ho
  by_cases hshort : s.yyLength < MAX_LENGTH_OF_INT64
  · rw [if_pos hshort] at ho
    have hfit : digitsToNat (literalBase ds) ds ≤ INT64_MAX :=
      short_literal_fits ds (by unfold MAX_LENGTH_OF_INT64 at hshort; omega) hds
    have hst := strtoll_digits s.buffer s.yyText (literalBase ds) ds rest (by omega)
      htok.textAt hne hds hrestB
    rw [if_neg (by omega)] at hst
    rw [show (if ds.headD 0 = 48 then 8 else 10) = literalBase ds from rfl, hst] at ho
    dsimp only at ho
    rw [if_neg (by rw [hlenEq]; simp), hfL] at ho
    subst ho
    exact ⟨fun _ => ⟨_, rfl, fun _ => ⟨by simp [hkL], by simp⟩, fun h => by omega⟩,
      fun h => by omega⟩
  · rw [if_neg hshort, hsz, if_neg hnotmin] at ho
    simp only [Int.toNat_ofNat] at ho
    clear hnotmin hsz
    rcases literalBase_cases ds with ⟨h48, hb8⟩ | ⟨hn48, hb10⟩
    · -- octal literal
      obtain ⟨d, tl, rfl⟩ := List.exists_cons_of_ne_nil hne
      simp only [List.headD_cons] at h48
      subst h48
      obtain ⟨hmin, hdrop, hlen⟩ := octal_skip s.buffer s.yyText tl rest htok.textAt
        (fun c hc h48 => by
          have := hrest c hc
          subst h48
          simp [isDecimalDigit] at this)
      rw [hb8] at hds
      have hsigds : ∀ c ∈ (48 :: tl.dropWhile (fun c => decide (c = 48))),
          isDigitInBase 8 c = true := by
        intro c hc
        rcases List.mem_cons.mp hc with h | h
        · subst h; exact hds 48 (by simp)
        · exact hds c (by simp [mem_dropWhile_of _ _ _ h])
      have hrest8 : ∀ c, rest.head? = some c → isDigitInBase 8 c = false :=
        fun c hc => not_digit_of_not_decimal _ c (by omega) (hrest c hc)
      have hval : digitsToNat 8 (48 :: tl.dropWhile (fun c => decide (c = 48))) =
          digitsToNat 8 (48 :: tl) := by
        have e1 := digitsToNat_zeros 8 [48] (tl.dropWhile (fun c => decide (c = 48))) (by simp)
        have e2 := digitsToNat_zeros 8 [48] tl (by simp)
        simp only [List.singleton_append] at e1 e2
        rw [e1, e2, digitsToNat_dropWhile]
      have hst := strtoll_digits s.buffer
        (s.yyText + (tl.takeWhile (fun c => decide (c = 48))).length) 8 _ rest (by omega)
        hdrop (by simp) hsigds hrest8
      rw [hval] at hst
      have hnum0 : byteAt s.buffer
          (s.yyText + (tl.takeWhile (fun c => decide (c = 48))).length) = 48 := by
        have := byteAt_head_of_drop _ _ _ _ hdrop (by simp)
        simpa using this
      have hend : s.yyText + (List.takeWhile (fun c => decide (c = 48)) tl).length +
          (48 :: List.dropWhile (fun c => decide (c = 48)) tl).length =
          s.yyText + (48 :: tl).length := by omega
      simp only [List.headD_cons, decide_True, if_true, hlenEq, hmin, hb8] at hst ho ⊢
      rw [hst] at ho
      by_cases hfit : digitsToNat 8 (48 :: tl) ≤ INT64_MAX
      · rw [if_neg (not_lt.mpr hfit)] at ho
        dsimp only at ho
        rw [if_neg (by simp), if_neg (by rw [hend]; simp), hfL] at ho
        subst ho
        exact ⟨fun _ => ⟨_, rfl, fun _ => ⟨by simp [hkL], by simp⟩, fun h => by omega⟩,
          fun h => by omega⟩
      · rw [if_pos (not_le.mp hfit)] at ho
        dsimp only at ho
        rw [hend] at ho
        by_cases hm : s.nextToken.kind = TokenKindType.T_MINUS_SIGN
        · rw [if_pos hm, if_pos hnum0, if_neg hprinted] at ho
          dsimp only at ho
          exact ⟨fun h => absurd ⟨not_le.mp hfit, hm, trivial⟩ h, fun _ _ _ => ho.symm⟩
        · rw [if_neg hm] at ho
          simp only [ne_eq, not_true_eq_false, decide_False, if_false,
            Bool.false_eq_true, false_and, hfD, Option.map_some'] at ho
          subst ho
          refine ⟨fun _ => ⟨_, rfl, fun h => absurd h hfit, fun _ => ⟨by simp [hkD], ?_⟩⟩,
            fun _ h => absurd h hm⟩
          rw [if_neg hm]
          rfl
    · -- decimal literal
      rw [hb10] at hds ⊢
      have hrest10 : ∀ c, rest.head? = some c → isDigitInBase 10 c = false :=
        fun c hc => not_digit_of_not_decimal _ c (by omega) (hrest c hc)
      have hst := strtoll_digits s.buffer s.yyText 10 ds rest (by omega) htok.textAt hne hds
        hrest10
      have hdec : ∀ c ∈ ds, isDecimalDigit c = true := by
        intro c hc
        obtain ⟨h1, h2, _, _⟩ := decimal_of_digit 10 c (by omega) (hds c hc)
        simp [isDecimalDigit, h1, h2]
      have hsd := strtodEnd_integer s.buffer s.yyText ds rest htok.textAt hne hdec hrest hdot hexp
      have hsl : slice s.buffer s.yyText ds.length = ds := by
        unfold slice
        rw [htok.textAt]
        exact List.take_left' rfl
      have hnb : byteAt s.buffer s.yyText ≠ 48 := by rw [hb0]; exact hn48
      simp only [hn48, decide_False, Bool.false_eq_true, if_false, Nat.add_zero, Nat.sub_zero,
        hb10, hlenEq, Nat.cast_zero, sub_zero, Int.toNat_ofNat] at hst ho
      rw [hst] at ho
      by_cases hfit : digitsToNat 10 ds ≤ INT64_MAX
      · rw [if_neg (not_lt.mpr hfit)] at ho
        dsimp only at ho
        rw [if_neg (by simp), if_neg (by simp), hfL] at ho
        subst ho
        exact ⟨fun _ => ⟨_, rfl, fun _ => ⟨by simp [hkL], by simp⟩, fun h => by omega⟩,
          fun _ _ h => absurd h hn48⟩
      · rw [if_pos (not_le.mp hfit)] at ho
        dsimp only at ho
        rw [hsd, hsl, if_neg hnb] at ho
        refine ⟨fun _ => ?_, fun _ _ h => absurd h hn48⟩
        by_cases hm : s.nextToken.kind = TokenKindType.T_MINUS_SIGN
        · simp only [if_pos hm, ne_eq, not_true_eq_false, decide_False, if_false,
            Bool.false_eq_true, false_and, hfD, Option.map_some'] at ho ⊢
          subst ho
          exact ⟨_, rfl, fun h => absurd h hfit, fun _ => ⟨by simp [hkD], rfl⟩⟩
        · simp only [if_neg hm, ne_eq, not_true_eq_false, decide_False, if_false,
            Bool.false_eq_true, false_and, hfD, Option.map_some'] at ho ⊢
          subst ho
          exact ⟨_, rfl, fun h => absurd h hfit, fun _ => ⟨by simp [hkD], rfl⟩⟩

/-- C3, what the code does: for a non-empty string `ds` of fewer than `2^31`
decimal digits not starting with `0`, or octal digits starting with `0`,
followed by a byte that does not continue a numeric literal, with `n` the
number the digits denote (base 8 after a leading `0`, else base 10):
when `n <= 2^63 - 1`, `lexLongNumber` returns an integer literal `T_LNUMBER`
whose value is exactly `n`; when `n > 2^63 - 1` it returns a double literal
`T_DNUMBER`, unless the literal is octal and the token before it is the minus
sign, in which case the routine overruns its 24-byte buffer and has no defined
result; a string shorter than 19 characters always denotes a number that
fits. -/
theorem lexLongNumber_integer_iff_fits (E : Externs) (hE : E.Progress) (s : Lexer)
    (ds rest : List Nat) (htok : NumberToken s ds rest) (hne : ds ≠ [])
    (hds : ∀ c ∈ ds, isDigitInBase (literalBase ds) c = true)
    (hrest : ∀ c, rest.head? = some c → isDecimalDigit c = false)
    (hdot : rest.getD 0 0 ≠ 46) (hexp : exponentFollows rest = false)
    (hint : ds.length < 2 ^ 31) :
    (digitsToNat (literalBase ds) ds ≤ INT64_MAX →
      ∃ t, lexLongNumber E s = some t ∧
        t.nextToken.kind = TokenKindType.T_LNUMBER ∧
        t.nextToken.value = TokenValue.int (digitsToNat (literalBase ds) ds)) ∧
    (INT64_MAX < digitsToNat (literalBase ds) ds →
      ¬ (s.nextToken.kind = TokenKindType.T_MINUS_SIGN ∧ ds.headD 0 = 48) →
      ∃ t, lexLongNumber E s = some t ∧ t.nextToken.kind = TokenKindType.T_DNUMBER) ∧
    (INT64_MAX < digitsToNat (literalBase ds) ds →
      s.nextToken.kind = TokenKindType.T_MINUS_SIGN → ds.headD 0 = 48 →
      lexLongNumber E s = none) ∧
    (ds.length < 19 → digitsToNat (literalBase ds) ds ≤ INT64_MAX) := by
  obtain ⟨h1, h2⟩ := lexLongNumber_valid E hE s ds rest htok hne hds hrest hdot hexp hint
  refine ⟨fun hfit => ?_, fun hbig hno => ?_, h2, fun h => short_literal_fits ds h hds⟩
  · obtain ⟨t, ht, k1, _⟩ := h1 (fun h => by omega)
    exact ⟨t, ht, k1 hfit⟩
  · obtain ⟨t, ht, _, k2⟩ := h1 (fun h => hno ⟨h.2.1, h.2.2⟩)
    exact ⟨t, ht, (k2 hbig).1⟩

/-- C4, what the code does: for a hex literal `0x` followed by the hex digits
`ds` (one or more and fewer than `2^31`, the byte after the literal not being a
hex digit), with `n` the number the digits denote: when `n <= 2^63 - 1`,
`lexHexNumber` returns an integer literal `T_LNUMBER` with value exactly `n`;
when `n > 2^63 - 1` it returns a double literal `T_DNUMBER`, unless the token
before it is the minus sign, in which case the routine overruns its 16-byte
buffer and has no defined result.  `n <= 2^63 - 1` holds exactly when, after
the leading zeros are stripped, fewer than 16 digits remain or exactly 16
remain and the first is at most `7`. -/
theorem lexHexNumber_integer_iff_fits (E : Externs) (hE : E.Progress) (s : Lexer)
    (x : Nat) (ds rest : List Nat) (hx : x = 120 ∨ x = 88)
    (htok : NumberToken s (48 :: x :: ds) rest) (hne : ds ≠ [])
    (hds : ∀ c ∈ ds, isDigitInBase 16 c = true)
    (hrest : ∀ c, rest.head? = some c → isDigitInBase 16 c = false)
    (hint : ds.length < 2 ^ 31) :
    (digitsToNat 16 ds ≤ INT64_MAX →
      ∃ t, lexHexNumber E s = some t ∧
        t.nextToken.kind = TokenKindType.T_LNUMBER ∧
        t.nextToken.value = TokenValue.int (digitsToNat 16 ds)) ∧
    (INT64_MAX < digitsToNat 16 ds → s.nextToken.kind ≠ TokenKindType.T_MINUS_SIGN →
      ∃ t, lexHexNumber E s = some t ∧ t.nextToken.kind = TokenKindType.T_DNUMBER) ∧
    (INT64_MAX < digitsToNat 16 ds → s.nextToken.kind = TokenKindType.T_MINUS_SIGN →
      lexHexNumber E s = none) ∧
    (digitsToNat 16 ds ≤ INT64_MAX ↔
      ((ds.dropWhile (fun c => decide (c = 48))).length < 16 ∨
        ((ds.dropWhile (fun c => decide (c = 48))).length = 16 ∧
          (ds.dropWhile (fun c => decide (c = 48))).headD 0 ≤ 55))) := by
  obtain ⟨h1, h2, h3, h4⟩ := lexHexNumber_valid E hE s x ds rest hx htok hne hds hrest hint
  refine ⟨h1, fun hbig hno => ?_, h3, h4⟩
  obtain ⟨t, ht, hk, _⟩ := h2 hbig hno
  exact ⟨t, ht, hk⟩

/-- C6, what the code does: for a decimal literal whose value `n` overflows
signed 64 bits, `lexLongNumber` returns a double literal `T_DNUMBER` whose
overflow-correction flag is set if and only if the previously formed token is
the minus sign and `n` is exactly `2^63`.  For an octal or a hex literal that
overflows, the double literal is returned with the flag clear when the
previously formed token is not the minus sign; when it is the minus sign the
routine overruns the buffer it prints the minimum value into and has no
defined result, whatever `n` is. -/
theorem overflow_correction_flag_iff (E : Externs) (hE : E.Progress) :
    (∀ (s : Lexer) (ds rest : List Nat), NumberToken s ds rest → ds ≠ [] →
      (∀ c ∈ ds, isDigitInBase (literalBase ds) c = true) →
      (∀ c, rest.head? = some c → isDecimalDigit c = false) →
      rest.getD 0 0 ≠ 46 → exponentFollows rest = false → ds.length < 2 ^ 31 →
      INT64_MAX < digitsToNat (literalBase ds) ds →
      (¬ (s.nextToken.kind = TokenKindType.T_MINUS_SIGN ∧ ds.headD 0 = 48) →
        ∃ t, lexLongNumber E s = some t ∧ t.nextToken.kind = TokenKindType.T_DNUMBER ∧
          (t.nextToken.needCorrectLNumberOverflow = true ↔
            s.nextToken.kind = TokenKindType.T_MINUS_SIGN ∧
              digitsToNat (literalBase ds) ds = INT64_MAX + 1)) ∧
      (s.nextToken.kind = TokenKindType.T_MINUS_SIGN → ds.headD 0 = 48 →
        lexLongNumber E s = none)) ∧
    (∀ (s : Lexer) (x : Nat) (ds rest : List Nat), (x = 120 ∨ x = 88) →
      NumberToken s (48 :: x :: ds) rest → ds ≠ [] →
      (∀ c ∈ ds, isDigitInBase 16 c = true) →
      (∀ c, rest.head? = some c → isDigitInBase 16 c = false) → ds.length < 2 ^ 31 →
      INT64_MAX < digitsToNat 16 ds →
      (s.nextToken.kind ≠ TokenKindType.T_MINUS_SIGN →
        ∃ t, lexHexNumber E s = some t ∧ t.nextToken.kind = TokenKindType.T_DNUMBER ∧
          t.nextToken.needCorrectLNumberOverflow = false) ∧
      (s.nextToken.kind = TokenKindType.T_MINUS_SIGN → lexHexNumber E s = none)) := by
  constructor
  · intro s ds rest htok hne hds hrest hdot hexp hint hbig
    obtain ⟨h1, h2⟩ := lexLongNumber_valid E hE s ds rest htok hne hds hrest hdot hexp hint
    refine ⟨fun hno => ?_, fun hm h48 => h2 hbig hm h48⟩
    obtain ⟨t, ht, _, k2⟩ := h1 (fun h => hno ⟨h.2.1, h.2.2⟩)
    obtain ⟨hk, hflag⟩ := k2 hbig
    refine ⟨t, ht, hk, ?_⟩
    rw [hflag]
    by_cases hm : s.nextToken.kind = TokenKindType.T_MINUS_SIGN
    · have hn48 : ds.headD 0 ≠ 48 := fun h => hno ⟨hm, h⟩
      have hb10 : literalBase ds = 10 := by
        unfold literalBase
        rw [if_neg hn48]
      rw [hb10] at hds ⊢
      rw [if_pos hm, decide_eq_true_iff, decMinText_eq_iff ds hds hn48]
      simp [hm]
    · rw [if_neg hm]
      simp [hm]
  · intro s x ds rest hx htok hne hds hrest hint hbig
    obtain ⟨_, h2, h3, _⟩ := lexHexNumber_valid E hE s x ds rest hx htok hne hds hrest hint
    exact ⟨h2 hbig, h3 hbig⟩

theorem lexLongNumber_invalid_octal_cases (E : Externs) (hE : E.Progress) (s : Lexer)
    (ds rest : List Nat) (htok : NumberToken s ds rest) (h0 : ds.headD 0 = 48)
    (hdec : ∀ c ∈ ds, isDecimalDigit c = true) (h89 : ∃ c ∈ ds, c = 56 ∨ c = 57)
    (hint : ds.length < 2 ^ 31) :
    (¬ (19 ≤ ds.length ∧ INT64_MAX < digitsToNat 8 (ds.takeWhile (isDigitInBase 8)) ∧
        s.nextToken.kind = TokenKindType.T_MINUS_SIGN) →
      ∃ t, lexLongNumber E s = some t ∧
        t.flags.lexExceptionOccurred = true ∧
        t.currentExceptionMsg = "Invalid numeric literal" ∧
        (isInParseMode s = true →
          t.nextToken.kind = TokenKindType.T_ERROR ∧ t.nextToken.value = s.nextToken.value) ∧
        (isInParseMode s = false →
          if 19 ≤ ds.length ∧ INT64_MAX < digitsToNat 8 (ds.takeWhile (isDigitInBase 8)) then
            t.nextToken.kind = TokenKindType.T_DNUMBER ∧
            t.nextToken.invalidLexValue = s.nextToken.invalidLexValue
          else
            t.nextToken.kind = TokenKindType.T_LNUMBER ∧
            t.nextToken.invalidLexValue = true)) ∧
    (19 ≤ ds.length → INT64_MAX < digitsToNat 8 (ds.takeWhile (isDigitInBase 8)) →
      s.nextToken.kind = TokenKindType.T_MINUS_SIGN → lexLongNumber E s = none) := by
  obtain ⟨tl, post, htw, hds, hpost, hoct, hhead⟩ := octal_prefix_split ds h0 hdec h89
  have hne : ds ≠ [] := by rw [hds]; simp
  have hcur : s.yyCursor ≤ s.bufferEnd := htok.cursor_le hne
  have hb0 : byteAt s.buffer s.yyText = 48 := by
    rw [byteAt_head_of_drop _ _ _ _ htok.textAt hne, h0]
  have htext : s.buffer.drop s.yyText = (48 :: tl) ++ (post ++ rest) := by
    rw [htok.textAt, hds, List.append_assoc]
  have hrest' : ∀ c, (post ++ rest).head? = some c → isDigitInBase 8 c = false := by
    intro c hc
    rw [List.head?_append_of_ne_nil _ hpost] at hc
    exact (hhead c hc).1
  have hrest48 : ∀ c, (post ++ rest).head? = some c → c ≠ 48 := by
    intro c hc
    rw [List.head?_append_of_ne_nil _ hpost] at hc
    exact (hhead c hc).2
  have hlenEq : s.yyLength = (48 :: tl).length + post.length := by
    rw [htok.lengthEq, hds, List.length_append]
  have hpl : 0 < post.length := List.length_pos.mpr hpost
  obtain ⟨tE, hfE, hkE, hxE, hmE, hvE, _⟩ :=
    formToken_notify E hE TokenKindType.T_ERROR "Invalid numeric literal" 0 s
      htok.atBufferEnd hcur htok.inRange
  obtain ⟨tL, hfL, hkL, hxL, hmL, _, _⟩ :=
    formToken_notify E hE TokenKindType.T_LNUMBER "Invalid numeric literal" 0 s
      htok.atBufferEnd hcur htok.inRange
  obtain ⟨tD, hfD, hkD, hxD, hmD, _, hiD⟩ :=
    formToken_notify E hE TokenKindType.T_DNUMBER "Invalid numeric literal" 0 s
      htok.atBufferEnd hcur htok.inRange
  have hpm : isInParseMode (notifyLexicalException "Invalid numeric literal" 0 s) =
      isInParseMode s := rfl
  have hprinted : ¬ octMinPrinted.length ≤ 24 := by decide
  have hsz : sizeToInt (s.yyLength : Int) = (((48 :: tl).length + post.length : Nat) : Int) := by
    rw [hlenEq]
    apply sizeToInt_of_lt
    rw [hds, List.length_append] at hint
    exact hint
  have hnotmin : ¬ ((((48 :: tl).length + post.length : Nat) : Int)) = INT_MIN := by
    unfold INT_MIN
    omega
  have hdl : ds.length = (48 :: tl).length + post.length := by
    rw [hds, List.length_append]
  rw [htw]
  suffices key : ∀ o, lexLongNumber E s = o →
      (¬ (19 ≤ ds.length ∧ INT64_MAX < digitsToNat 8 (48 :: tl) ∧
          s.nextToken.kind = TokenKindType.T_MINUS_SIGN) →
        ∃ t, o = some t ∧
          t.flags.lexExceptionOccurred = true ∧
          t.currentExceptionMsg = "Invalid numeric literal" ∧
          (isInParseMode s = true →
            t.nextToken.kind = TokenKindType.T_ERROR ∧ t.nextToken.value = s.nextToken.value) ∧
          (isInParseMode s = false →
            if 19 ≤ ds.length ∧ INT64_MAX < digitsToNat 8 (48 :: tl) then
              t.nextToken.kind = TokenKindType.T_DNUMBER ∧
              t.nextToken.invalidLexValue = s.nextToken.invalidLexValue
            else
              t.nextToken.kind = TokenKindType.T_LNUMBER ∧
              t.nextToken.invalidLexValue = true)) ∧
      (19 ≤ ds.length → INT64_MAX < digitsToNat 8 (48 :: tl) →
        s.nextToken.kind = TokenKindType.T_MINUS_SIGN → o = none) from key _ rfl
  intro o ho
  unfold lexLongNumber at ho
  dsimp only at ho
  rw [hb0] at ho
  simp only [if_true, decide_True] at ho
  by_cases hshort : s.yyLength < MAX_LENGTH_OF_INT64
  · rw [if_pos hshort] at ho
    have hst := strtoll_digits s.buffer s.yyText 8 (48 :: tl) (post ++ rest) (by omega)
      htext (by simp) hoct hrest'
    have hfit : digitsToNat 8 (48 :: tl) ≤ INT64_MAX := by
      have h1 := digitsToNat_lt 8 (48 :: tl) hoct
      have h2 : (8 : Nat) ^ (48 :: tl).length ≤ 8 ^ 18 :=
        Nat.pow_le_pow_right (by omega) (by unfold MAX_LENGTH_OF_INT64 at hshort; omega)
      have h3 : (8 : Nat) ^ 18 = 18014398509481984 := by norm_num
      unfold INT64_MAX
      omega
    rw [if_neg (not_lt.mpr hfit)] at hst
    rw [hst] at ho
    dsimp only at ho
    rw [if_pos (by omega)] at ho
    have hnl : ¬ (19 ≤ ds.length ∧ INT64_MAX < digitsToNat 8 (48 :: tl)) := by
      intro h
      omega
    refine ⟨fun _ => ?_, fun _ h _ => by omega⟩
    cases hp : isInParseMode s with
    | true =>
      rw [hpm, hp, if_pos rfl, hfE] at ho
      subst ho
      exact ⟨_, rfl, hxE, hmE, fun _ => ⟨hkE, hvE⟩, fun h => by cases h⟩
    | false =>
      rw [hpm, hp, if_neg (by simp), hfL] at ho
      subst ho
      refine ⟨_, rfl, by simpa using hxL, by simpa using hmL, (fun h => by cases h), ?_⟩
      intro _
      rw [if_neg hnl]
      exact ⟨by simpa using hkL, rfl⟩
  · rw [if_neg hshort, hsz] at ho
    simp only [true_and] at ho
    rw [if_neg hnotmin] at ho
    simp only [Int.toNat_ofNat] at ho
    clear hnotmin hsz
    obtain ⟨hmin, hdrop, hlen⟩ := octal_skip s.buffer s.yyText tl (post ++ rest) htext hrest48
    have hcount : countWhile (fun c => decide (c = 48)) s.buffer (s.yyText + 1) =
        (tl.takeWhile (fun c => decide (c = 48))).length := by
      have := (leadingZeros_split tl).2.2
      simp only [List.length_cons] at hmin
      omega
    have hskip : min ((48 :: tl).length + post.length)
        (countWhile (fun c => decide (c = 48)) s.buffer (s.yyText + 1)) =
        (tl.takeWhile (fun c => decide (c = 48))).length := by
      have := (leadingZeros_split tl).2.2
      rw [hcount]
      simp only [List.length_cons]
      omega
    have hsigds : ∀ c ∈ (48 :: tl.dropWhile (fun c => decide (c = 48))),
        isDigitInBase 8 c = true := by
      intro c hc
      rcases List.mem_cons.mp hc with h | h
      · subst h; decide
      · exact hoct c (by simp [mem_dropWhile_of _ _ _ h])
    have hval : digitsToNat 8 (48 :: tl.dropWhile (fun c => decide (c = 48))) =
        digitsToNat 8 (48 :: tl) := by
      have e1 := digitsToNat_zeros 8 [48] (tl.dropWhile (fun c => decide (c = 48))) (by simp)
      have e2 := digitsToNat_zeros 8 [48] tl (by simp)
      simp only [List.singleton_append] at e1 e2
      rw [e1, e2, digitsToNat_dropWhile]
    have hst := strtoll_digits s.buffer
      (s.yyText + (tl.takeWhile (fun c => decide (c = 48))).length) 8 _ (post ++ rest)
      (by omega) hdrop (by simp) hsigds hrest'
    rw [hval] at hst
    have hnum0 : byteAt s.buffer
        (s.yyText + (tl.takeWhile (fun c => decide (c = 48))).length) = 48 := by
      have := byteAt_head_of_drop _ _ _ _ hdrop (by simp)
      simpa using this
    have hend : s.yyText + (List.takeWhile (fun c => decide (c = 48)) tl).length +
        (48 :: List.dropWhile (fun c => decide (c = 48)) tl).length ≠
        s.yyText + s.yyLength := by
      rw [hlenEq]
      omega
    have hlong : 19 ≤ ds.length := by
      rw [← htok.lengthEq]
      unfold MAX_LENGTH_OF_INT64 at hshort
      omega
    simp only [hskip] at ho
    rw [hst] at ho
    by_cases hfit : digitsToNat 8 (48 :: tl) ≤ INT64_MAX
    · rw [if_neg (not_lt.mpr hfit)] at ho
      dsimp only at ho
      rw [if_neg (by simp), if_pos hend] at ho
      have hnl : ¬ (19 ≤ ds.length ∧ INT64_MAX < digitsToNat 8 (48 :: tl)) := by
        intro h
        omega
      refine ⟨fun _ => ?_, fun _ h _ => by omega⟩
      cases hp : isInParseMode s with
      | true =>
        rw [hpm, hp, if_pos rfl, hfE] at ho
        subst ho
        exact ⟨_, rfl, hxE, hmE, fun _ => ⟨hkE, hvE⟩, fun h => by cases h⟩
      | false =>
        rw [hpm, hp, if_neg (by simp), hfL] at ho
        subst ho
        refine ⟨_, rfl, by simpa using hxL, by simpa using hmL, (fun h => by cases h), ?_⟩
        intro _
        rw [if_neg hnl]
        exact ⟨by simpa using hkL, rfl⟩
    · rw [if_pos (not_le.mp hfit)] at ho
      dsimp only at ho
      by_cases hm : s.nextToken.kind = TokenKindType.T_MINUS_SIGN
      · rw [if_pos hm, if_pos hnum0, if_neg hprinted] at ho
        dsimp only at ho
        exact ⟨fun h => absurd ⟨hlong, not_le.mp hfit, hm⟩ h, fun _ _ _ => ho.symm⟩
      · rw [if_neg hm] at ho
        dsimp only at ho
        have hinv : decide (s.yyText + (List.takeWhile (fun c => decide (c = 48)) tl).length +
            (48 :: List.dropWhile (fun c => decide (c = 48)) tl).length ≠
            s.yyText + s.yyLength) = true := by
          simpa using hend
        simp only [hinv, if_true, true_and] at ho
        refine ⟨fun _ => ?_, fun _ _ h => absurd h hm⟩
        cases hp : isInParseMode s with
        | true =>
          rw [hpm, hp, if_pos rfl, hfE] at ho
          subst ho
          exact ⟨_, rfl, hxE, hmE, fun _ => ⟨hkE, hvE⟩, fun h => by cases h⟩
        | false =>
          rw [hpm, hp, if_neg (by simp), hfD] at ho
          subst ho
          refine ⟨_, rfl, by simpa using hxD, by simpa using hmD, (fun h => by cases h), ?_⟩
          intro _
          rw [if_pos ⟨hlong, not_le.mp hfit⟩]
          exact ⟨by simpa using hkD, by simpa using hiD⟩

/-- C7, what the code does: for every digit string `ds` (fewer than `2^31`
digits) that starts with `0` and contains a digit 8 or 9, `lexLongNumber`
returns and records the lexical error "Invalid numeric literal"; in parse mode
it forms an error token `T_ERROR`; outside parse mode it forms an integer
literal `T_LNUMBER` with the invalid-lex-value flag set, unless the string has
19 or more characters and the octal digits before the first 8 or 9 denote a
number above `2^63 - 1`: then it forms a double literal `T_DNUMBER` and leaves
the invalid-lex-value flag as it was.  When such a long string follows the
minus sign the routine overruns its 24-byte buffer and has no defined
result. -/
theorem lexLongNumber_invalid_octal (E : Externs) (hE : E.Progress) (s : Lexer)
    (ds rest : List Nat) (htok : NumberToken s ds rest) (h0 : ds.headD 0 = 48)
    (hdec : ∀ c ∈ ds, isDecimalDigit c = true) (h89 : ∃ c ∈ ds, c = 56 ∨ c = 57)
    (hint : ds.length < 2 ^ 31) :
    (¬ (19 ≤ ds.length ∧ INT64_MAX < digitsToNat 8 (ds.takeWhile (isDigitInBase 8)) ∧
        s.nextToken.kind = TokenKindType.T_MINUS_SIGN) →
      ∃ t, lexLongNumber E s = some t ∧
        t.flags.lexExceptionOccurred = true ∧
        t.currentExceptionMsg = "Invalid numeric literal" ∧
        (isInParseMode s = true → t.nextToken.kind = TokenKindType.T_ERROR) ∧
        (isInParseMode s = false →
          if 19 ≤ ds.length ∧ INT64_MAX < digitsToNat 8 (ds.takeWhile (isDigitInBase 8)) then
            t.nextToken.kind = TokenKindType.T_DNUMBER ∧
            t.nextToken.invalidLexValue = s.nextToken.invalidLexValue
          else
            t.nextToken.kind = TokenKindType.T_LNUMBER ∧
            t.nextToken.invalidLexValue = true)) ∧
    (19 ≤ ds.length → INT64_MAX < digitsToNat 8 (ds.takeWhile (isDigitInBase 8)) →
      s.nextToken.kind = TokenKindType.T_MINUS_SIGN → lexLongNumber E s = none) := by
  obtain ⟨h1, h2⟩ := lexLongNumber_invalid_octal_cases E hE s ds rest htok h0 hdec h89 hint
  refine ⟨fun hdef => ?_, h2⟩
  obtain ⟨t, ht, hx, hm, hp, hn⟩ := h1 hdef
  exact ⟨t, ht, hx, hm, fun h => (hp h).1, hn⟩

/-- C8 (amended): in parse mode, the token `lexLongNumber` forms for a digit
string that starts with `0` and contains a digit 8 or 9 has kind `T_ERROR` and
no semantic value of its own: its value is what it was when the routine was
called (unset after the reset by the lex driver).  The message "Invalid numeric
literal" is recorded in the exception message of the lexer, not in the token.
Left out is a string of 19 or more characters after the minus sign whose octal
digits before the first 8 or 9 denote a number above `2^63 - 1`, for which the
routine has no defined result. -/
theorem lexLongNumber_error_token_unvalued (E : Externs) (hE : E.Progress) (s : Lexer)
    (ds rest : List Nat) (htok : NumberToken s ds rest) (h0 : ds.headD 0 = 48)
    (hdec : ∀ c ∈ ds, isDecimalDigit c = true) (h89 : ∃ c ∈ ds, c = 56 ∨ c = 57)
    (hint : ds.length < 2 ^ 31) (hparse : isInParseMode s = true)
    (hdef : ¬ (19 ≤ ds.length ∧ INT64_MAX < digitsToNat 8 (ds.takeWhile (isDigitInBase 8)) ∧
      s.nextToken.kind = TokenKindType.T_MINUS_SIGN)) :
    ∃ t, lexLongNumber E s = some t ∧
      t.nextToken.kind = TokenKindType.T_ERROR ∧
      t.nextToken.value = s.nextToken.value ∧
      t.flags.lexExceptionOccurred = true ∧
      t.currentExceptionMsg = "Invalid numeric literal" := by
  obtain ⟨t, ht, hx, hm, hp, -⟩ :=
    (lexLongNumber_invalid_octal_cases E hE s ds rest htok h0 hdec h89 hint).1 hdef
  exact ⟨t, ht, (hp hparse).1, (hp hparse).2, hx, hm⟩

/-- `0x1F` is the integer literal 31. -/
theorem lexHexNumber_integer_iff_fits_witness :
    ∃ t, lexHexNumber plainExterns
        (scanState [48, 120, 49, 70] 0 4 TokenKindType.T_UNKNOWN_MARK false
          TriviaRetentionMode.WithTrivia) = some t ∧
      t.nextToken.kind = TokenKindType.T_LNUMBER ∧ t.nextToken.value = TokenValue.int 31 :=
  (lexHexNumber_integer_iff_fits plainExterns plainExterns_progress
    (scanState [48, 120, 49, 70] 0 4 TokenKindType.T_UNKNOWN_MARK false
      TriviaRetentionMode.WithTrivia) 120 [49, 70] [] (Or.inl rfl)
    ⟨rfl, rfl, rfl, by norm_num [scanState], rfl, by decide⟩ (by decide) (by decide) (by simp)
    (by decide)).1 (by decide)

/-- C4, the claim as stated fails: the hex literal `0xFFFFFFFFFFFFFFFF` denotes
`2^64 - 1`, which does not fit; when the token before it is the minus sign,
`lexHexNumber` prints the minimum value, nineteen bytes with the line feed, the
blank and the terminating zero, into a buffer of sixteen bytes, and no double
literal is the defined result. -/
theorem lexHexNumber_integer_iff_fits_counterexample :
    hexMinPrinted.length = 19 ∧
    lexHexNumber plainExterns
      (scanState (48 :: 120 :: List.replicate 16 70) 0 18 TokenKindType.T_MINUS_SIGN false
        TriviaRetentionMode.WithoutTrivia) = none := by
  decide

/-- `0777` followed by `;` is the integer literal 511. -/
theorem lexLongNumber_integer_iff_fits_witness :
    ∃ t, lexLongNumber plainExterns
        (scanState [48, 55, 55, 55, 59] 0 4 TokenKindType.T_UNKNOWN_MARK false
          TriviaRetentionMode.WithTrivia) = some t ∧
      t.nextToken.kind = TokenKindType.T_LNUMBER ∧ t.nextToken.value = TokenValue.int 511 :=
  (lexLongNumber_integer_iff_fits plainExterns plainExterns_progress
    (scanState [48, 55, 55, 55, 59] 0 4 TokenKindType.T_UNKNOWN_MARK false
      TriviaRetentionMode.WithTrivia) [48, 55, 55, 55] [59]
    ⟨rfl, rfl, rfl, by norm_num [scanState], rfl, by decide⟩ (by decide) (by decide)
    (by decide) (by decide) (by decide) (by decide)).1 (by decide)

/-- C3, the claim as stated fails: the octal literal `01777777777777777777777`
denotes `2^64 - 1`, which does not fit; when the token before it is the minus
sign, `lexLongNumber` prints the minimum value, twenty-five bytes with the
terminating zero, into a buffer of twenty-four bytes, and no double literal is
the defined result. -/
theorem lexLongNumber_integer_iff_fits_counterexample :
    octMinPrinted.length = 25 ∧
    lexLongNumber plainExterns
      (scanState (48 :: 49 :: List.replicate 21 55 ++ [59]) 0 23 TokenKindType.T_MINUS_SIGN
        false TriviaRetentionMode.WithoutTrivia) = none := by
  decide

/-- `9223372036854775808` after a minus sign: the double literal has the
overflow-correction flag set. -/
theorem overflow_correction_flag_iff_witness :
    ∃ t, lexLongNumber plainExterns
        (scanState decMinText 0 19 TokenKindType.T_MINUS_SIGN false
          TriviaRetentionMode.WithTrivia) = some t ∧
      t.nextToken.kind = TokenKindType.T_DNUMBER ∧
      t.nextToken.needCorrectLNumberOverflow = true := by
  have hdec : digitsToNat (literalBase decMinText) decMinText = INT64_MAX + 1 :=
    decMinText_value
  obtain ⟨t, ht, hk, hflag⟩ :=
    ((overflow_correction_flag_iff plainExterns plainExterns_progress).1
      (scanState decMinText 0 19 TokenKindType.T_MINUS_SIGN false
        TriviaRetentionMode.WithTrivia) decMinText []
      ⟨rfl, by simp [scanState], rfl, by norm_num [scanState], rfl, by decide⟩
      (by decide) (by decide) (by simp) (by decide) (by decide) (by decide)
      (by rw [hdec]; omega)).1 (by decide)
  exact ⟨t, ht, hk, hflag.mpr ⟨rfl, hdec⟩⟩

/-- C6, the claim as stated fails: the hex literal `0x8000000000000000` and the
octal literal `01000000000000000000000` both denote exactly `2^63`; after a
minus sign neither routine returns a double literal with the flag set: each
prints the minimum value into a buffer too small for it (nineteen bytes into
sixteen, twenty-five into twenty-four) and has no defined result. -/
theorem overflow_correction_flag_iff_counterexample :
    lexHexNumber plainExterns
      (scanState (48 :: 120 :: 56 :: List.replicate 15 48) 0 18 TokenKindType.T_MINUS_SIGN
        false TriviaRetentionMode.WithoutTrivia) = none ∧
    lexLongNumber plainExterns
      (scanState (48 :: 49 :: List.replicate 21 48) 0 23 TokenKindType.T_MINUS_SIGN
        false TriviaRetentionMode.WithoutTrivia) = none := by
  decide

/-- `019` outside parse mode: an integer literal with the invalid-lex-value flag. -/
theorem lexLongNumber_invalid_octal_witness :
    ∃ t, lexLongNumber plainExterns
        (scanState [48, 49, 57] 0 3 TokenKindType.T_UNKNOWN_MARK false
          TriviaRetentionMode.WithTrivia) = some t ∧
      t.flags.lexExceptionOccurred = true ∧
      t.currentExceptionMsg = "Invalid numeric literal" ∧
      t.nextToken.kind = TokenKindType.T_LNUMBER ∧ t.nextToken.invalidLexValue = true := by
  obtain ⟨t, ht, h1, h2, _, h4⟩ :=
    (lexLongNumber_invalid_octal plainExterns plainExterns_progress
      (scanState [48, 49, 57] 0 3 TokenKindType.T_UNKNOWN_MARK false
        TriviaRetentionMode.WithTrivia) [48, 49, 57] []
      ⟨rfl, rfl, rfl, by norm_num [scanState], rfl, by decide⟩ (by decide) (by decide)
      ⟨57, by decide, Or.inr rfl⟩ (by decide)).1 (by decide)
  have h5 := h4 rfl
  rw [if_neg (by decide)] at h5
  exact ⟨t, ht, h1, h2, h5.1, h5.2⟩

/-- C7, the claim as stated fails: the 24-character string `01` followed by 21
zeros and a `9` starts with `0` and contains a 9, and outside parse mode
`lexLongNumber` forms a double literal `T_DNUMBER` for it, with the
invalid-lex-value flag clear. -/
theorem lexLongNumber_invalid_octal_counterexample :
    (lexLongNumber plainExterns
        (scanState (48 :: 49 :: List.replicate 21 48 ++ [57]) 0 24
          TokenKindType.T_UNKNOWN_MARK false TriviaRetentionMode.WithoutTrivia)).map
      (fun t => (t.nextToken.kind, t.nextToken.invalidLexValue, t.flags.lexExceptionOccurred)) =
      some (TokenKindType.T_DNUMBER, false, true) := by
  decide

/-- C8, the claim as stated fails: for `019` in parse mode `lexLongNumber` forms
the token `T_ERROR` through `formToken`, not through `formErrorToken`; the
semantic value of the token stays unset and does not equal the message, which
is only in the exception message of the lexer. -/
theorem lexLongNumber_error_token_unvalued_counterexample :
    (lexLongNumber plainExterns
        (scanState [48, 49, 57] 0 3 TokenKindType.T_UNKNOWN_MARK true
          TriviaRetentionMode.WithoutTrivia)).map
      (fun t => (t.nextToken.kind, t.nextToken.value, t.currentExceptionMsg)) =
      some (TokenKindType.T_ERROR, TokenValue.none, "Invalid numeric literal") := by
  decide

/-- The text `08;` in parse mode: an error token without a semantic value, and
the message in the exception message of the lexer. -/
theorem lexLongNumber_error_token_unvalued_witness :
    ∃ t, lexLongNumber plainExterns
        (scanState [48, 56, 59] 0 2 TokenKindType.T_UNKNOWN_MARK true
          TriviaRetentionMode.WithTrivia) = some t ∧
      t.nextToken.kind = TokenKindType.T_ERROR ∧
      t.nextToken.value = TokenValue.none ∧
      t.currentExceptionMsg = "Invalid numeric literal" := by
  obtain ⟨t, ht, h1, h2, _, h4⟩ :=
    lexLongNumber_error_token_unvalued plainExterns plainExterns_progress
      (scanState [48, 56, 59] 0 2 TokenKindType.T_UNKNOWN_MARK true
        TriviaRetentionMode.WithTrivia) [48, 56] [59]
      ⟨rfl, rfl, rfl, by norm_num [scanState], rfl, by decide⟩ (by decide) (by decide)
      ⟨56, by decide, Or.inl rfl⟩ (by decide) rfl (by decide)
  exact ⟨t, ht, h1, h2, h4⟩

theorem countIndentation_stop (buf : List Nat) (limit x : Nat) (hlim : limit ≤ buf.length)
    (hx : x < limit) (hb : byteAt buf x ≠ 32 ∧ byteAt buf x ≠ 9) :
    ∀ (d y : Nat), x - y ≤ d → y ≤ x → y + countIndentation buf y limit ≤ x := by
  intro d
  induction d with
  | zero =>
    intro y hd hy
    have : y = x := by omega
    subst this
    unfold countIndentation
    rw [bytesBetween_cons buf y limit hx hlim]
    simp [List.takeWhile, hb.1, hb.2]
  | succ d ih =>
    intro y hd hy
    by_cases hyx : y = x
    · subst hyx
      unfold countIndentation
      rw [bytesBetween_cons buf y limit hx hlim]
      simp [List.takeWhile, hb.1, hb.2]
    · have h1 := ih (y + 1) (by omega) (by omega)
      unfold countIndentation at h1 ⊢
      rw [bytesBetween_cons buf y limit (by omega) hlim]
      by_cases hblank : (decide (byteAt buf y = 32) || decide (byteAt buf y = 9)) = true
      · rw [List.takeWhile_cons, if_pos hblank, List.length_cons]
        omega
      · rw [List.takeWhile_cons, if_neg hblank]
        simp only [List.length_nil]
        omega

theorem markerPosition_le (s : Lexer) (k x : Nat) (hlim : s.artificialEof ≤ s.buffer.length)
    (hk : k < x) (hxl : x < s.artificialEof)
    (hnl : byteAt s.buffer x = 13 ∨ byteAt s.buffer x = 10)
    (hpair : ¬ (byteAt s.buffer (x - 1) = 13 ∧ byteAt s.buffer x = 10)) :
    k < markerPosition s k ∧ markerPosition s k ≤ x := by
  have hb : byteAt s.buffer x ≠ 32 ∧ byteAt s.buffer x ≠ 9 := by
    rcases hnl with h | h <;> rw [h] <;> decide
  have hstart : k < lineStartAfter s.buffer k ∧ lineStartAfter s.buffer k ≤ x := by
    unfold lineStartAfter
    by_cases h : byteAt s.buffer k = 13 ∧ byteAt s.buffer (k + 1) = 10
    · rw [if_pos h]
      refine ⟨by omega, ?_⟩
      by_contra hcon
      have hx1 : x = k + 1 := by omega
      apply hpair
      rw [hx1, Nat.add_sub_cancel]
      exact h
    · rw [if_neg h]
      omega
  unfold markerPosition
  have := countIndentation_stop s.buffer s.artificialEof x hlim hxl hb
    (x - lineStartAfter s.buffer k) (lineStartAfter s.buffer k) (le_refl _) hstart.2
  omega

theorem heredocBodyLoop_reach (s : Lexer) (label : HereDocLabel) (x : Nat)
    (hlim : s.artificialEof ≤ s.buffer.length)
    (hxl : x < s.artificialEof) (hnl : byteAt s.buffer x = 13 ∨ byteAt s.buffer x = 10) :
    ∀ (d k fuel m : Nat), x - k ≤ d → k ≤ x →
      (k < x → ¬ (byteAt s.buffer (x - 1) = 13 ∧ byteAt s.buffer x = 10)) →
      (∀ j, j < x → k ≤ j → isInterpolationAt s.buffer j = false ∧
        (byteAt s.buffer j = 10 ∨ byteAt s.buffer j = 13 →
          markerAt s label (markerPosition s j) = false)) →
      m + (x - k) ≤ fuel →
      ∃ fuel', m ≤ fuel' ∧
        heredocBodyLoop s label fuel k = heredocBodyLoop s label fuel' x := by
  intro d
  induction d with
  | zero =>
    intro k fuel m hd hk _ _ hf
    have : k = x := by omega
    subst this
    exact ⟨fuel, by omega, rfl⟩
  | succ d ih =>
    intro k fuel m hd hk hpair hpre hf
    by_cases hkx : k = x
    · subst hkx
      exact ⟨fuel, by omega, rfl⟩
    · have hlt : k < x := by omega
      obtain ⟨f, rfl⟩ : ∃ f, fuel = f + 1 := ⟨fuel - 1, by omega⟩
      obtain ⟨b1, b2⟩ := hpre k hlt (le_refl _)
      have next : ∀ k', k < k' → k' ≤ x →
          ∃ fuel', m ≤ fuel' ∧
            heredocBodyLoop s label f k' = heredocBodyLoop s label fuel' x :=
        fun k' h1 h2 => ih k' f m (by omega) h2 (fun _ => hpair hlt)
          (fun j hj hkj => hpre j hj (by omega)) (by omega)
      by_cases hterm : byteAt s.buffer k = 13 ∨ byteAt s.buffer k = 10
      · rw [heredocBodyLoop_line s label f k (by omega) hterm, checkLine_eq s label k]
        obtain ⟨hm1, hm2⟩ := markerPosition_le s k x hlim hlt hxl hnl (hpair hlt)
        have hnm := b2 (by rcases hterm with h | h; exact Or.inr h; exact Or.inl h)
        rw [if_neg (by omega), if_neg (by
          intro hc
          unfold markerAt at hnm
          rw [hc.1, hc.2] at hnm
          simp at hnm)]
        dsimp only
        exact next _ hm1 hm2
      · conv =>
          enter [1, fuel', 2, 1]
          unfold heredocBodyLoop
        dsimp only
        rw [if_pos (show k < s.artificialEof by omega), if_neg hterm]
        have hxt : ∀ c, byteAt s.buffer (k + 1) = c → c ≠ 10 → c ≠ 13 → k + 1 ≠ x := by
          intro c hc h10 h13 hk1
          rw [hk1] at hc
          rcases hnl with h | h <;> omega
        unfold isInterpolationAt at b1
        by_cases h36 : byteAt s.buffer k = 36
        · have hns : (isLabelStart (byteAt s.buffer (k + 1)) ||
              decide (byteAt s.buffer (k + 1) = 123)) = false := by
            simpa [h36] using b1
          rw [if_pos h36, hns]
          simp only [Bool.false_eq_true, if_false]
          exact next (k + 1) (by omega) (by omega)
        · rw [if_neg h36]
          by_cases h123 : byteAt s.buffer k = 123
          · have hns : ¬ byteAt s.buffer (k + 1) = 36 := by
              simpa [h36, h123] using b1
            rw [if_pos h123, if_neg hns]
            exact next (k + 1) (by omega) (by omega)
          · rw [if_neg h123]
            by_cases h92 : byteAt s.buffer k = 92
            · rw [if_pos h92]
              by_cases hc : k + 1 < s.artificialEof ∧ byteAt s.buffer (k + 1) ≠ 10 ∧
                  byteAt s.buffer (k + 1) ≠ 13
              · rw [if_pos hc]
                have := hxt _ rfl hc.2.1 hc.2.2
                exact next (k + 1 + 1) (by omega) (by omega)
              · rw [if_neg hc]
                exact next (k + 1) (by omega) (by omega)
            · rw [if_neg h92]
              exact next (k + 1) (by omega) (by omega)

/-- C13, what the code does: `lexHeredocBody`, entered on a body, returns; for
a line terminator that starts at `x` in a body in which no interpolation (a
`$` followed by a label-start byte or by `{`, or a `{` followed by `$`) lies
before `x` and no line before the one after `x` is a closing line, it ends the
body at the line after that terminator (the condition becomes
`ST_END_HEREDOC` and the text reaches to the start of that line, in scan-ahead
mode to the marker) if and only if, after the terminator and the run of spaces
and tabs before the artificial end, `isFoundHeredocEndMarker` holds for the top
label (the bytes equal the label name and more bytes than the name has lie
before the artificial end) and the byte after the label is not a label-start
byte: a letter, an underscore or a byte >= 0x80.  A digit after the label does
not keep the line from ending the body. -/
theorem lexHeredocBody_closing_line (E : Externs) (hE : E.Progress) (hS : E.StringFrame)
    (s : Lexer) (p x : Nat) (hs : BodyEntered s p) (hx : s.yyText ≤ x)
    (hxl : x < s.artificialEof)
    (hnl : byteAt s.buffer x = 13 ∨ byteAt s.buffer x = 10)
    (hfirst : s.yyText < x → ¬ (byteAt s.buffer (x - 1) = 13 ∧ byteAt s.buffer x = 10))
    (hpre : ∀ k, k < x → s.yyText ≤ k → isInterpolationAt s.buffer k = false ∧
      (byteAt s.buffer k = 10 ∨ byteAt s.buffer k = 13 →
        markerAt s (labelAt s p) (markerPosition s k) = false)) :
    ∃ t, lexHeredocBody E s = some t ∧
      ((t.yyCondition = YYLexerCondType.ST_END_HEREDOC ∧
          t.yyLength = (if s.flags.heredocScanAhead = true then markerPosition s x
            else lineStartAfter s.buffer x) - s.yyText) ↔
        (isFoundHeredocEndMarker (setYYCursor (markerPosition s x) s) (labelAt s p) = true ∧
          isLabelStart (byteAt s.buffer (markerPosition s x + (labelAt s p).name.length)) =
            false)) := by
  have hlen := hs.atBufferEnd
  have hlim := hs.limitInBuffer
  have hstart : x < lineStartAfter s.buffer x := by
    unfold lineStartAfter
    split <;> omega
  have hmp : lineStartAfter s.buffer x ≤ markerPosition s x := Nat.le_add_right _ _
  rw [lexHeredocBody_eq E s p hs]
  obtain ⟨fuel', hf', hskip⟩ := heredocBodyLoop_reach s (labelAt s p) x
    (by rw [← hlen]; exact hlim) hxl hnl (x - s.yyText)
    s.yyText (s.artificialEof - s.yyText + 1) (s.artificialEof - x + 1) (le_refl _) hx hfirst
    hpre (by omega)
  obtain ⟨f, rfl⟩ : ∃ f, fuel' = f + 1 := ⟨fuel' - 1, by omega⟩
  rw [hskip, heredocBodyLoop_line s (labelAt s p) f x hxl hnl]
  have hcl := checkLine_eq s (labelAt s p) x
  by_cases hq : markerPosition s x = s.artificialEof
  · rw [if_pos hq] at hcl
    rw [hcl]
    dsimp only
    obtain ⟨t, ht, hb, _⟩ := formUnterminatedBody_frame E hE hS s (markerPosition s x) hlen
      (by omega)
    refine ⟨t, ht, ⟨fun h => ?_, fun h => ?_⟩⟩
    · have := h.1
      rw [hb.condition] at this
      exact absurd this hs.bodyOpen
    · have := isFound_lt s (labelAt s p) _ h.1
      omega
  · rw [if_neg hq] at hcl
    by_cases hm : isFoundHeredocEndMarker (setYYCursor (markerPosition s x) s) (labelAt s p) =
        true ∧ isLabelStart (byteAt s.buffer (markerPosition s x + (labelAt s p).name.length)) =
          false
    · rw [if_pos hm] at hcl
      rw [hcl]
      dsimp only
      have hql := isFound_lt s (labelAt s p) _ hm.1
      obtain ⟨e1, e2, e3, e4, e5, e6, e7, e8, _⟩ := heredocMarkerState_facts s
        (markerPosition s x)
        (countIndentation s.buffer (lineStartAfter s.buffer x) s.artificialEof)
        (spacingOf (slice s.buffer (lineStartAfter s.buffer x)
          (countIndentation s.buffer (lineStartAfter s.buffer x) s.artificialEof)))
      obtain ⟨t, ht, hb, _⟩ := finishHeredocBody_frame E hE hS _ p
        (newlineLengthBefore s.buffer (markerPosition s x)
          (countIndentation s.buffer (lineStartAfter s.buffer x) s.artificialEof))
        (by rw [e4, e3]; exact hlen) (by rw [e1, e4]; split <;> omega)
      refine ⟨t, ht, ⟨fun _ => hm, fun _ => ⟨?_, ?_⟩⟩⟩
      · rw [hb.condition]
        exact e8
      · rw [hb.length]
        show (heredocMarkerState s _ _ _).yyCursor - (heredocMarkerState s _ _ _).yyText = _
        rw [e1, e2]
        have : markerPosition s x -
            countIndentation s.buffer (lineStartAfter s.buffer x) s.artificialEof =
              lineStartAfter s.buffer x := by
          unfold markerPosition
          omega
        rw [this]
    · rw [if_neg hm] at hcl
      obtain ⟨c1, c2, c3, c4⟩ := checkLine_resume_at s (labelAt s p) x _ _ _ hlen hlim hxl hcl
      rw [hcl]
      dsimp only
      obtain ⟨r, hr, hok⟩ := heredocBodyLoop_ok s (labelAt s p) hlen hlim f (markerPosition s x)
        c2 c4 (by omega)
      rw [hr]
      obtain ⟨t, ht, hend⟩ := heredocBody_open E hE hS s p (markerPosition s x) hs r hok
      refine ⟨t, ht, ⟨fun h => ?_, fun h => absurd h hm⟩⟩
      obtain ⟨q, i, b1, b2, b3⟩ := hend h.1
      have := h.2
      rw [b3] at this
      split at this <;> omega

/-- The body `ab`, newline, `EOTx`, newline, blank, `EOT;` of a heredoc with
label `EOT`: the line after the first terminator has the label followed by a
letter and is no closing line; the line after the second terminator, at offset
7, is one, so the body ends there with the eight bytes before that line as its
text. -/
theorem lexHeredocBody_closing_line_witness :
    ∃ t, lexHeredocBody plainExterns
        { scanState [97, 98, 10, 69, 79, 84, 120, 10, 32, 69, 79, 84, 59, 10] 0 1
            TokenKindType.T_START_HEREDOC false TriviaRetentionMode.WithoutTrivia with
          heredocLabelStack := [0], labelHeap := [{ name := [69, 79, 84] }],
          yyCondition := YYLexerCondType.ST_HEREDOC } = some t ∧
      t.yyCondition = YYLexerCondType.ST_END_HEREDOC ∧ t.yyLength = 8 := by
  obtain ⟨t, ht, hiff⟩ :=
    lexHeredocBody_closing_line plainExterns plainExterns_progress plainExterns_stringFrame
      { scanState [97, 98, 10, 69, 79, 84, 120, 10, 32, 69, 79, 84, 59, 10] 0 1
          TokenKindType.T_START_HEREDOC false TriviaRetentionMode.WithoutTrivia with
        heredocLabelStack := [0], labelHeap := [{ name := [69, 79, 84] }],
        yyCondition := YYLexerCondType.ST_HEREDOC } 0 7
      ⟨rfl, by decide, rfl, by decide, ⟨[], rfl⟩, by decide⟩ (by decide) (by decide)
      (by decide) (by decide) (by decide)
  obtain ⟨h1, h2⟩ := hiff.mpr (by decide)
  exact ⟨t, ht, h1, h2⟩

theorem labelHeap_getD_last (l : List HereDocLabel) (x d : HereDocLabel) :
    (l ++ [x]).getD l.length d = x := by
  simp [List.getD_eq_getElem?_getD]

theorem returns_formToken {P : Lexer → Prop} (E : Externs) (hE : E.Progress)
    (kind : TokenKindType) (tokenStart : Nat) (x : Lexer)
    (hlen : x.bufferEnd = x.buffer.length) (hcur : x.yyCursor ≤ x.bufferEnd)
    (h : ∀ t, t.yyCondition = x.yyCondition → t.flags = x.flags →
      t.currentExceptionMsg = x.currentExceptionMsg → P t) :
    ∃ t, formToken E kind tokenStart x = some t ∧ P t := by
  obtain ⟨t, ht, _, _, _, _, _, f6, f7, f8, _⟩ := formToken_facts E hE kind tokenStart x hlen hcur
  exact ⟨t, ht, h t f6 f7 f8⟩

theorem returns_ite_pos {P : Lexer → Prop} {c : Prop} [Decidable c] {a b : Option Lexer}
    (hc : c) (h : ∃ t, a = some t ∧ P t) : ∃ t, (if c then a else b) = some t ∧ P t := by
  rw [if_pos hc]
  exact h

theorem returns_ite_neg {P : Lexer → Prop} {c : Prop} [Decidable c] {a b : Option Lexer}
    (hc : ¬ c) (h : ∃ t, b = some t ∧ P t) : ∃ t, (if c then a else b) = some t ∧ P t := by
  rw [if_neg hc]
  exact h

theorem lexHeredocHeader_closing (E : Externs) (hE : E.Progress)
    (lexFn : Lexer → Option Lexer) (s : Lexer)
    (hlen : s.bufferEnd = s.buffer.length) (hcur : s.yyCursor ≤ s.bufferEnd)
    (h : headerClosingLine s = true) :
    ∃ t, lexHeredocHeader E lexFn s = some t ∧
      (t.yyCondition = YYLexerCondType.ST_END_HEREDOC ∧
      t.flags.lexExceptionOccurred =
        (if spacingOf (slice s.buffer s.yyCursor
            (countIndentation s.buffer s.yyCursor s.artificialEof)) =
            HEREDOC_USING_SPACES + HEREDOC_USING_TABS then true
          else s.flags.lexExceptionOccurred) ∧
      t.currentExceptionMsg =
        (if spacingOf (slice s.buffer s.yyCursor
            (countIndentation s.buffer s.yyCursor s.artificialEof)) =
            HEREDOC_USING_SPACES + HEREDOC_USING_TABS then
          "Invalid indentation - tabs and spaces cannot be mixed"
          else s.currentExceptionMsg)) := by
  have c1 : ∀ b : Bool, (if b = true then setLexingBinaryStrFlag true s else s).yyCursor =
      s.yyCursor := by intro b; split <;> rfl
  have c2 : ∀ b : Bool, (if b = true then setLexingBinaryStrFlag true s else s).buffer =
      s.buffer := by intro b; split <;> rfl
  have c3 : ∀ b : Bool, (if b = true then setLexingBinaryStrFlag true s else s).labelHeap =
      s.labelHeap := by intro b; split <;> rfl
  have c4 : ∀ b : Bool, (if b = true then setLexingBinaryStrFlag true s else s).artificialEof =
      s.artificialEof := by intro b; split <;> rfl
  have c5 : ∀ b : Bool, (if b = true then setLexingBinaryStrFlag true s else s).yyLength =
      s.yyLength := by intro b; split <;> rfl
  have c6 : ∀ b : Bool, (if b = true then setLexingBinaryStrFlag true s else s).bufferEnd =
      s.bufferEnd := by intro b; split <;> rfl
  have c7 : ∀ b : Bool,
      (if b = true then setLexingBinaryStrFlag true s else s).flags.lexExceptionOccurred =
        s.flags.lexExceptionOccurred := by intro b; split <;> rfl
  have c8 : ∀ b : Bool,
      (if b = true then setLexingBinaryStrFlag true s else s).currentExceptionMsg =
        s.currentExceptionMsg := by intro b; split <;> rfl
  unfold headerClosingLine at h
  dsimp only at h
  rw [Bool.and_eq_true, Bool.and_eq_true] at h
  obtain ⟨hq, hm, hl⟩ := h
  have hq := of_decide_eq_true hq
  unfold lexHeredocHeader
  dsimp only
  refine returns_ite_neg ?_ (returns_ite_pos ?_ ?_)
  · dsimp only [setYYCursor, pushHeredocLabel, incLineNumber]
    rw [c1, c2]
    exact hq
  · dsimp only [setYYCursor, pushHeredocLabel, incLineNumber, labelAt]
    simp only [c1, c2, c3, c4, c5]
    rw [labelHeap_getD_last, Bool.and_eq_true]
    refine ⟨?_, ?_⟩
    · unfold isFoundHeredocEndMarker at hm ⊢
      dsimp only [setYYCursor] at hm ⊢
      exact hm
    · exact hl
  · have n1 : ∀ (c : Prop) [Decidable c] (m : String) (x : Lexer),
        (if c then notifyLexicalException m 0 x else x).bufferEnd = x.bufferEnd := by
      intro c _ m x; split <;> rfl
    have n2 : ∀ (c : Prop) [Decidable c] (m : String) (x : Lexer),
        (if c then notifyLexicalException m 0 x else x).buffer = x.buffer := by
      intro c _ m x; split <;> rfl
    have n3 : ∀ (c : Prop) [Decidable c] (m : String) (x : Lexer),
        (if c then notifyLexicalException m 0 x else x).flags.lexExceptionOccurred =
          (if c then true else x.flags.lexExceptionOccurred) := by
      intro c _ m x; split <;> rfl
    have n4 : ∀ (c : Prop) [Decidable c] (m : String) (x : Lexer),
        (if c then notifyLexicalException m 0 x else x).currentExceptionMsg =
          (if c then m else x.currentExceptionMsg) := by
      intro c _ m x; split <;> rfl
    refine returns_formToken E hE _ _ _ ?_ ?_ (fun t h1 h2 h3 => ⟨?_, ?_, ?_⟩)
    · dsimp only [setYYCursor, pushHeredocLabel, incLineNumber, updateLabel]
      rw [n1, n2]
      dsimp only
      rw [c6, c2]
      exact hlen
    · dsimp only [setYYCursor, pushHeredocLabel, incLineNumber, updateLabel]
      rw [n1]
      dsimp only
      rw [c6, c1]
      exact hcur
    · rw [h1]
    · rw [h2]
      dsimp only [setYYCursor, pushHeredocLabel, incLineNumber, updateLabel]
      rw [n3]
      dsimp only
      simp only [c1, c2, c4, c7]
    · rw [h3]
      dsimp only [setYYCursor, pushHeredocLabel, incLineNumber, updateLabel]
      rw [n4]
      dsimp only
      simp only [c1, c2, c4, c8]

/-- C16: where a closing line is recognised, its leading whitespace decides
whether the error is raised.  (1) In the empty-body path of `lexHeredocHeader`,
for every header (heredoc or nowdoc, quoted or not, with or without the `b`
prefix and the blank) after which the routine recognises the closing line, and
in particular for a plain header `<<<`, label, newline followed by the closing
line; (2) in `lexHeredocBody` and (3) in `lexNowdocBody`, when the scan
recognises the end marker at `q` after the `i` leading blanks of a closing
line: the condition of the result is `ST_END_HEREDOC`; if the blanks hold both
a space and a tab, the result has the lexical-exception flag set and the
message "Invalid indentation - tabs and spaces cannot be mixed"; if they do
not, the flag and the message are those on entry when the marker has been
recognised (the state the value is then computed from), and also in the result
of the header path and, outside parse mode with the indentation check off, in
the result of the body scanners. -/
theorem closing_line_mixed_indentation (E : Externs) (hE : E.Progress) (hS : E.StringFrame) :
    (∀ (lexFn : Lexer → Option Lexer) (s : Lexer), s.bufferEnd = s.buffer.length →
        s.yyCursor ≤ s.bufferEnd → headerClosingLine s = true →
      ∃ t, lexHeredocHeader E lexFn s = some t ∧
        t.yyCondition = YYLexerCondType.ST_END_HEREDOC ∧
        (32 ∈ slice s.buffer s.yyCursor
              (countIndentation s.buffer s.yyCursor s.artificialEof) ∧
            9 ∈ slice s.buffer s.yyCursor
              (countIndentation s.buffer s.yyCursor s.artificialEof) →
          t.flags.lexExceptionOccurred = true ∧
          t.currentExceptionMsg = "Invalid indentation - tabs and spaces cannot be mixed") ∧
        (¬ (32 ∈ slice s.buffer s.yyCursor
              (countIndentation s.buffer s.yyCursor s.artificialEof) ∧
            9 ∈ slice s.buffer s.yyCursor
              (countIndentation s.buffer s.yyCursor s.artificialEof)) →
          t.flags.lexExceptionOccurred = s.flags.lexExceptionOccurred ∧
          t.currentExceptionMsg = s.currentExceptionMsg)) ∧
    (∀ (lexFn : Lexer → Option Lexer) (s : Lexer) (name ws : List Nat) (c : Nat)
        (rest : List Nat), EmptyHeredoc s name ws c rest →
      ∃ t, lexHeredocHeader E lexFn s = some t ∧
        t.yyCondition = YYLexerCondType.ST_END_HEREDOC ∧
        (32 ∈ ws ∧ 9 ∈ ws → t.flags.lexExceptionOccurred = true ∧
          t.currentExceptionMsg = "Invalid indentation - tabs and spaces cannot be mixed") ∧
        (¬ (32 ∈ ws ∧ 9 ∈ ws) →
          t.flags.lexExceptionOccurred = s.flags.lexExceptionOccurred ∧
          t.currentExceptionMsg = s.currentExceptionMsg)) ∧
    (∀ (s : Lexer) (p q i sp nl : Nat), BodyEntered s p →
        heredocBodyScan s p = some (BodyScan.endMarker q i sp nl) →
      ∃ t, lexHeredocBody E s = some t ∧
        lexHeredocBody E s = finishHeredocBody E p nl (heredocMarkerState s q i sp) ∧
        closingLineAt s (labelAt s p) (q - i) = true ∧
        i = countIndentation s.buffer (q - i) s.artificialEof ∧
        t.yyCondition = YYLexerCondType.ST_END_HEREDOC ∧
        (32 ∈ slice s.buffer (q - i) i ∧ 9 ∈ slice s.buffer (q - i) i →
          t.flags.lexExceptionOccurred = true ∧
          t.currentExceptionMsg = "Invalid indentation - tabs and spaces cannot be mixed") ∧
        (¬ (32 ∈ slice s.buffer (q - i) i ∧ 9 ∈ slice s.buffer (q - i) i) →
          (heredocMarkerState s q i sp).flags.lexExceptionOccurred =
            s.flags.lexExceptionOccurred ∧
          (heredocMarkerState s q i sp).currentExceptionMsg = s.currentExceptionMsg ∧
          (s.valueContainer = false → s.flags.checkHeredocIndentation = false →
            t.flags.lexExceptionOccurred = s.flags.lexExceptionOccurred ∧
            t.currentExceptionMsg = s.currentExceptionMsg))) ∧
    (∀ (s : Lexer) (p q i sp nl : Nat), BodyEntered s p →
        nowdocBodyScan s p = some (BodyScan.endMarker q i sp nl) →
      ∃ t, lexNowdocBody E s = some t ∧
        lexNowdocBody E s = finishNowdocBody E nl i sp (nowdocMarkerState s p q i sp) ∧
        closingLineAt s (labelAt s p) (q - i) = true ∧
        i = countIndentation s.buffer (q - i) s.artificialEof ∧
        t.yyCondition = YYLexerCondType.ST_END_HEREDOC ∧
        (32 ∈ slice s.buffer (q - i) i ∧ 9 ∈ slice s.buffer (q - i) i →
          t.flags.lexExceptionOccurred = true ∧
          t.currentExceptionMsg = "Invalid indentation - tabs and spaces cannot be mixed") ∧
        (¬ (32 ∈ slice s.buffer (q - i) i ∧ 9 ∈ slice s.buffer (q - i) i) →
          (nowdocMarkerState s p q i sp).flags.lexExceptionOccurred =
            s.flags.lexExceptionOccurred ∧
          (nowdocMarkerState s p q i sp).currentExceptionMsg = s.currentExceptionMsg ∧
          (s.valueContainer = false → s.flags.checkHeredocIndentation = false →
            t.flags.lexExceptionOccurred = s.flags.lexExceptionOccurred ∧
            t.currentExceptionMsg = s.currentExceptionMsg))) := by
  refine ⟨?_, ?_, ?_, ?_⟩
  · intro lexFn s hlen hcur hclose
    obtain ⟨t, ht, h1, h2, h3⟩ := lexHeredocHeader_closing E hE lexFn s hlen hcur hclose
    have hmix := spacingOf_mixed (slice s.buffer s.yyCursor
      (countIndentation s.buffer s.yyCursor s.artificialEof))
    refine ⟨t, ht, h1, fun hm => ?_, fun hm => ?_⟩
    · rw [h2, h3, if_pos (hmix.mpr hm), if_pos (hmix.mpr hm)]
      exact ⟨rfl, rfl⟩
    · rw [h2, h3, if_neg (fun hc => hm (hmix.mp hc)), if_neg (fun hc => hm (hmix.mp hc))]
      exact ⟨rfl, rfl⟩
  · intro lexFn s name ws c rest h
    obtain ⟨t, ht, _, h2, _, _, _, h6, h7, _⟩ :=
      lexHeredocHeader_empty_cases E hE lexFn s name ws c rest h
    refine ⟨t, ht, h2, fun hm => ?_, fun hm => ?_⟩
    · rw [h6, h7, if_pos hm, if_pos hm]
      exact ⟨rfl, rfl⟩
    · rw [h6, h7, if_neg hm, if_neg hm]
      exact ⟨rfl, rfl⟩
  · intro s p q i sp nl hs hscan
    have hlen := hs.atBufferEnd
    have hlim := hs.limitInBuffer
    obtain ⟨a1, a2, a3, a4, a5, a6, _⟩ := (scan_endMarker_ok s p q i sp nl hs).1 hscan
    have heq : lexHeredocBody E s = finishHeredocBody E p nl (heredocMarkerState s q i sp) := by
      rw [lexHeredocBody_eq E s p hs, ← (bodyScan_eq s p hs).1, hscan]
    have hmix := spacingOf_mixed (slice s.buffer (q - i) i)
    rw [← a6] at hmix
    obtain ⟨e1, e2, e3, e4, e5, e6, e7, e8, e9, e10, e11, e12⟩ :=
      heredocMarkerState_facts s q i sp
    obtain ⟨t, ht, hb, hp⟩ := finishHeredocBody_frame E hE hS (heredocMarkerState s q i sp) p nl
      (by rw [e4, e3]; exact hlen) (by rw [e1, e4]; split <;> omega)
    refine ⟨t, heq.trans ht, heq, a4, a5, hb.condition.trans e8, fun hm => ?_, fun hm => ?_⟩
    · have hsp := hmix.mpr hm
      rw [if_pos hsp] at e11 e12
      have hpl := hp (Or.inr (Or.inl e11))
      exact ⟨(congrArg LexerFlags.lexExceptionOccurred hpl.flags).trans e11,
        hpl.message.trans e12⟩
    · have hsp : ¬ sp = HEREDOC_USING_SPACES + HEREDOC_USING_TABS := fun h => hm (hmix.mp h)
      rw [if_neg hsp] at e11 e12
      refine ⟨e11, e12, fun h1 h2 => ?_⟩
      have hpl := hp (Or.inr (Or.inr ⟨e7.trans h1, e10.trans h2⟩))
      exact ⟨(congrArg LexerFlags.lexExceptionOccurred hpl.flags).trans e11,
        hpl.message.trans e12⟩
  · intro s p q i sp nl hs hscan
    have hlen := hs.atBufferEnd
    have hlim := hs.limitInBuffer
    obtain ⟨a1, a2, a3, a4, a5, a6, _⟩ := (scan_endMarker_ok s p q i sp nl hs).2 hscan
    have heq : lexNowdocBody E s =
        finishNowdocBody E nl i sp (nowdocMarkerState s p q i sp) := by
      rw [lexNowdocBody_eq E s p hs, ← (bodyScan_eq s p hs).2, hscan]
    have hmix := spacingOf_mixed (slice s.buffer (q - i) i)
    rw [← a6] at hmix
    obtain ⟨e1, e2, e3, e4, e5, e6, e7, e8, e9, e10, e11⟩ := nowdocMarkerState_facts s p q i sp
    obtain ⟨t, ht, hb, hp⟩ := finishNowdocBody_frame E hE hS (nowdocMarkerState s p q i sp)
      nl i sp (by rw [e4, e3]; exact hlen) (by rw [e1, e4]; omega)
    refine ⟨t, heq.trans ht, heq, a4, a5, hb.condition.trans e8, fun hm => ?_, fun hm => ?_⟩
    · have hsp := hmix.mpr hm
      rw [if_pos hsp] at e10 e11
      have hpl := hp (Or.inl e10)
      exact ⟨(congrArg LexerFlags.lexExceptionOccurred hpl.flags).trans e10,
        hpl.message.trans e11⟩
    · have hsp : ¬ sp = HEREDOC_USING_SPACES + HEREDOC_USING_TABS := fun h => hm (hmix.mp h)
      rw [if_neg hsp] at e10 e11
      refine ⟨e10, e11, fun h1 h2 => ?_⟩
      have hpl := hp (Or.inr (Or.inr ⟨e7.trans h1, e9.trans h2⟩))
      exact ⟨(congrArg LexerFlags.lexExceptionOccurred hpl.flags).trans e10,
        hpl.message.trans e11⟩

/-- The closing line space, tab, `A` after the nowdoc header `b<<< 'A'`, after
the plain header `<<<A`, after the heredoc body `x` and after the nowdoc body
`x`: each routine closes the body and records the error. -/
theorem closing_line_mixed_indentation_witness :
    (∃ t, lexHeredocHeader plainExterns (fun _ => Option.none)
        (scanState [98, 60, 60, 60, 32, 39, 65, 39, 10, 32, 9, 65, 10] 0 9
          TokenKindType.T_UNKNOWN_MARK false TriviaRetentionMode.WithoutTrivia) = some t ∧
        t.yyCondition = YYLexerCondType.ST_END_HEREDOC ∧
        t.flags.lexExceptionOccurred = true ∧
        t.currentExceptionMsg = "Invalid indentation - tabs and spaces cannot be mixed") ∧
      (∃ t, lexHeredocHeader plainExterns (fun _ => Option.none)
        (scanState [60, 60, 60, 65, 10, 32, 9, 65, 10] 0 5 TokenKindType.T_UNKNOWN_MARK false
          TriviaRetentionMode.WithoutTrivia) = some t ∧
        t.yyCondition = YYLexerCondType.ST_END_HEREDOC ∧
        t.flags.lexExceptionOccurred = true ∧
        t.currentExceptionMsg = "Invalid indentation - tabs and spaces cannot be mixed") ∧
      (∃ t, lexHeredocBody plainExterns
        { scanState [120, 10, 32, 9, 65, 10] 0 1 TokenKindType.T_START_HEREDOC false
            TriviaRetentionMode.WithoutTrivia with
          heredocLabelStack := [0], labelHeap := [{ name := [65] }],
          yyCondition := YYLexerCondType.ST_HEREDOC } = some t ∧
        t.yyCondition = YYLexerCondType.ST_END_HEREDOC ∧
        t.flags.lexExceptionOccurred = true ∧
        t.currentExceptionMsg = "Invalid indentation - tabs and spaces cannot be mixed") ∧
      (∃ t, lexNowdocBody plainExterns
        { scanState [120, 10, 32, 9, 65, 10] 0 1 TokenKindType.T_START_HEREDOC false
            TriviaRetentionMode.WithoutTrivia with
          heredocLabelStack := [0], labelHeap := [{ name := [65] }],
          yyCondition := YYLexerCondType.ST_NOWDOC } = some t ∧
        t.yyCondition = YYLexerCondType.ST_END_HEREDOC ∧
        t.flags.lexExceptionOccurred = true ∧
        t.currentExceptionMsg = "Invalid indentation - tabs and spaces cannot be mixed") := by
  obtain ⟨h0, h1, h2, h3⟩ :=
    closing_line_mixed_indentation plainExterns plainExterns_progress plainExterns_stringFrame
  obtain ⟨t0, ht0, c0, m0, _⟩ := h0 (fun _ => Option.none)
    (scanState [98, 60, 60, 60, 32, 39, 65, 39, 10, 32, 9, 65, 10] 0 9
      TokenKindType.T_UNKNOWN_MARK false TriviaRetentionMode.WithoutTrivia)
    rfl (by decide) (by decide)
  obtain ⟨t1, ht1, c1, m1, _⟩ := h1 (fun _ => Option.none)
    (scanState [60, 60, 60, 65, 10, 32, 9, 65, 10] 0 5 TokenKindType.T_UNKNOWN_MARK false
      TriviaRetentionMode.WithoutTrivia) [65] [32, 9] 10 []
    ⟨rfl, by decide, rfl, by decide, by decide, by decide, by decide, rfl, rfl, by decide⟩
  obtain ⟨t2, ht2, _, _, _, c2, m2, _⟩ := h2
    { scanState [120, 10, 32, 9, 65, 10] 0 1 TokenKindType.T_START_HEREDOC false
        TriviaRetentionMode.WithoutTrivia with
      heredocLabelStack := [0], labelHeap := [{ name := [65] }],
      yyCondition := YYLexerCondType.ST_HEREDOC } 0 4 2 3 1
    ⟨rfl, by decide, rfl, by decide, ⟨[], rfl⟩, by decide⟩ (by decide)
  obtain ⟨t3, ht3, _, _, _, c3, m3, _⟩ := h3
    { scanState [120, 10, 32, 9, 65, 10] 0 1 TokenKindType.T_START_HEREDOC false
        TriviaRetentionMode.WithoutTrivia with
      heredocLabelStack := [0], labelHeap := [{ name := [65] }],
      yyCondition := YYLexerCondType.ST_NOWDOC } 0 4 2 3 1
    ⟨rfl, by decide, rfl, by decide, ⟨[], rfl⟩, by decide⟩ (by decide)
  exact ⟨⟨t0, ht0, c0, m0 (by decide)⟩, ⟨t1, ht1, c1, m1 (by decide)⟩,
    ⟨t2, ht2, c2, m2 (by decide)⟩,
    ⟨t3, ht3, c3, m3 (by decide)⟩⟩

end PolarLexer
